import Mathlib

/-!
# SFS: a shallow embedding of `sfs.c`

The image is a byte-addressed disk; every operation of `sfs.c` is translated
statement by statement into a function on disks.  Loops whose trip count is not
bounded by a constant (chain walks) take a fuel argument and return `none` when
the fuel runs out; `none` is also the result wherever the C code has undefined
behaviour (a null or dangling pointer, an out-of-bounds array access).
Storage that the C code reads before writing it (fresh `malloc` blocks, stack
variables) is passed in as the explicit argument `junk`.
-/

namespace SFS

/-! ## Layout -/

/-- Modelled from the spec: the compile-time constants of the layout header
`sfs.h` (block size, entry counts, sentinels, region offsets), which is not
among the sources.  They are parameters of the whole development. -/
structure Layout where
  SFS_BLOCK_SIZE : Nat
  SFS_ROOTDIR_NENTRIES : Nat
  SFS_BLOCKTBL_NENTRIES : Nat
  SFS_BLOCKIDX_EMPTY : Nat
  SFS_BLOCKIDX_END : Nat
  SFS_ROOTDIR_OFF : Nat
  SFS_BLOCKTBL_OFF : Nat
  SFS_DATA_OFF : Nat

/-- Modelled from the spec: `SFS_DIR_NENTRIES` = 2 × block-size / entry-size,
with 64-byte entries. -/
def Layout.SFS_DIR_NENTRIES (L : Layout) : Nat := 2 * L.SFS_BLOCK_SIZE / 64

/-- Modelled from the spec: `SFS_DIR_SIZE`, the byte size of a directory
(`SFS_DIR_NENTRIES` entries of 64 bytes). -/
def Layout.SFS_DIR_SIZE (L : Layout) : Nat := L.SFS_DIR_NENTRIES * 64

/-- Modelled from the spec: `SFS_ROOTDIR_SIZE`, the byte size of the root
directory region. -/
def Layout.SFS_ROOTDIR_SIZE (L : Layout) : Nat := L.SFS_ROOTDIR_NENTRIES * 64

/-- Modelled from the spec: `SFS_BLOCKTBL_SIZE`, the byte size of the block
table (two bytes for each `blockidx_t`). -/
def Layout.SFS_BLOCKTBL_SIZE (L : Layout) : Nat := L.SFS_BLOCKTBL_NENTRIES * 2

/-- Modelled from the spec: `SFS_DIRECTORY`, the high bit of the 32-bit size
word. -/
def SFS_DIRECTORY : Nat := 2147483648

/-- The layouts the theorems are about: entries tile the blocks, the three
regions follow each other without overlap, and the sentinels and all block
indices fit the 16-bit `blockidx_t`. -/
structure Layout.WF (L : Layout) : Prop where
  bs_pos : 0 < L.SFS_BLOCK_SIZE
  bs_dvd : L.SFS_BLOCK_SIZE % 64 = 0
  root_pos : 0 < L.SFS_ROOTDIR_NENTRIES
  tbl_le : L.SFS_BLOCKTBL_NENTRIES ≤ 65536
  empty_lt : L.SFS_BLOCKIDX_EMPTY < 65536
  end_lt : L.SFS_BLOCKIDX_END < 65536
  end_ge : L.SFS_BLOCKTBL_NENTRIES ≤ L.SFS_BLOCKIDX_END
  end_ne : L.SFS_BLOCKIDX_END ≠ L.SFS_BLOCKIDX_EMPTY
  root_tbl : L.SFS_ROOTDIR_OFF + L.SFS_ROOTDIR_NENTRIES * 64 ≤ L.SFS_BLOCKTBL_OFF
  tbl_data : L.SFS_BLOCKTBL_OFF + L.SFS_BLOCKTBL_NENTRIES * 2 ≤ L.SFS_DATA_OFF

/-! ## Errno values (Linux `errno.h`) -/

def ENOENT : Int := 2
def ENOSPC : Int := 28
def ENAMETOOLONG : Int := 36
def ENOTEMPTY : Int := 39

/-! ## Memory and the disk -/

/-- A byte-addressed memory: a buffer of the program, or the image itself. -/
abbrev Mem := Nat → Nat

/-- The image file, addressed by byte offset. -/
abbrev Disk := Nat → Nat

/-- Copy `len` bytes from `src + sOff` to `dst + dOff` (`memcpy`). -/
def blit (dst : Mem) (dOff : Nat) (src : Mem) (sOff len : Nat) : Mem :=
  fun a => if dOff ≤ a ∧ a < dOff + len then src (sOff + (a - dOff)) else dst a

/-- Modelled from the spec: `disk_read(buf + bOff, len, off)` of `diskio.h`,
a positional read of the image into a buffer. -/
def disk_read (d : Disk) (buf : Mem) (bOff len off : Nat) : Mem :=
  blit buf bOff d off len

/-- Modelled from the spec: `disk_write(buf + bOff, len, off)` of `diskio.h`,
a positional write of a buffer to the image. -/
def disk_write (d : Disk) (buf : Mem) (bOff len off : Nat) : Disk :=
  blit d off buf bOff len

/-- Load a little-endian 16-bit value (`blockidx_t`). -/
def peek16 (m : Mem) (a : Nat) : Nat := m a + 256 * m (a + 1)

/-- Store a 16-bit value, little-endian. -/
def poke16 (m : Mem) (a v : Nat) : Mem :=
  fun x => if x = a then v % 256 else if x = a + 1 then v / 256 % 256 else m x

/-- Load a little-endian 32-bit value (`uint32_t`). -/
def peek32 (m : Mem) (a : Nat) : Nat :=
  m a + 256 * m (a + 1) + 65536 * m (a + 2) + 16777216 * m (a + 3)

/-- Store a 32-bit value, little-endian. -/
def poke32 (m : Mem) (a v : Nat) : Mem :=
  fun x => if x = a then v % 256 else if x = a + 1 then v / 256 % 256
    else if x = a + 2 then v / 65536 % 256 else if x = a + 3 then v / 16777216 % 256
    else m x

/-- The value of `disk_read(&x, sizeof(blockidx_t), off)`. -/
def read_idx (d : Disk) (off : Nat) : Nat := peek16 d off

/-- The disk after `disk_write(&x, sizeof(blockidx_t), off)` with `x = v`. -/
def write_idx (d : Disk) (off v : Nat) : Disk := poke16 d off v

/-- Block-table slot `i` as stored on the disk. -/
def tbl (L : Layout) (d : Disk) (i : Nat) : Nat := read_idx d (L.SFS_BLOCKTBL_OFF + i * 2)

/-- Element `k` of an in-memory array of `blockidx_t`. -/
def idx_get (m : Mem) (k : Nat) : Nat := peek16 m (k * 2)

/-- Assignment to element `k` of an in-memory array of `blockidx_t`. -/
def idx_set (m : Mem) (k v : Nat) : Mem := poke16 m (k * 2) v

/-! ## Directory entries

Modelled from the spec: `struct sfs_entry` of `sfs.h` is 64 bytes wide: a
58-byte name, then the 4-byte `size`, then the 2-byte `first_block`. An entry
is addressed by the byte offset `e` of its first byte in a buffer. -/

/-- The field `ent->size`. -/
def ent_size (m : Mem) (e : Nat) : Nat := peek32 m (e + 58)

/-- The field `ent->first_block`. -/
def ent_first_block (m : Mem) (e : Nat) : Nat := peek16 m (e + 62)

/-- The assignment `ent->size = v`. -/
def set_size (m : Mem) (e v : Nat) : Mem := poke32 m (e + 58) v

/-- The assignment `ent->first_block = v`. -/
def set_first_block (m : Mem) (e v : Nat) : Mem := poke16 m (e + 62) v

/-- The call `strcpy(ent->filename, s)`: the bytes of `s`, then a terminator;
the rest of the field keeps what it held. -/
def strcpy (m : Mem) (e : Nat) (s : List Nat) : Mem :=
  fun a => if e ≤ a ∧ a < e + s.length then s.getD (a - e) 0
    else if a = e + s.length then 0 else m a

/-- The test `strcmp(s, ent->filename) == 0` for a string `s` without a zero
byte. -/
def strcmp0 : List Nat → Mem → Nat → Bool
  | [], m, e => m e == 0
  | c :: cs, m, e => m e == c && strcmp0 cs m (e + 1)

/-- The first index `j` in `i, i+1, ..., i+n-1` with `p j`, as found by a
`for` loop that stops at the first hit. -/
def findFrom (p : Nat → Bool) : Nat → Nat → Option Nat
  | 0, _ => none
  | n + 1, i => if p i then some i else findFrom p n (i + 1)

/-! ## Paths

A path is the byte string passed by the host (without its terminator);
`47` is the slash. -/

/-- The tokens that `strtok(pathc, "/")` and the following
`strtok(NULL, "/")` calls return, in order. -/
def tokens_aux : List Nat → List Nat → List (List Nat)
  | [], cur => if cur = [] then [] else [cur]
  | c :: cs, cur =>
    if c = 47 then (if cur = [] then tokens_aux cs [] else cur :: tokens_aux cs [])
    else tokens_aux cs (cur ++ [c])

def tokens (path : List Nat) : List (List Nat) := tokens_aux path []

/-- The child name `strrchr(path, '/') + 1`; `none` when the path has no
slash (the C code then computes `NULL + 1`). -/
def get_child : List Nat → Option (List Nat)
  | [] => none
  | c :: cs =>
    match get_child cs with
    | some r => some r
    | none => if c = 47 then some cs else none

/-- The parent path: the path cut at its last slash; `none` when the path has
no slash (the C code then writes through `NULL`). -/
def get_parent : List Nat → Option (List Nat)
  | [] => none
  | c :: cs =>
    match get_parent cs with
    | some r => some (c :: r)
    | none => if c = 47 then some [] else none

/-- Whether `in_root(path) == 1`: the path has exactly one slash. -/
def in_root (path : List Nat) : Bool := path.count 47 == 1

/-! ## Lookup -/

/-- The function `load_dir(dir, firstblock)`: the first block, then the block
the table chains it to. -/
def load_dir (L : Layout) (d : Disk) (dir : Mem) (firstblock : Nat) : Mem :=
  let dir1 := disk_read d dir 0 L.SFS_BLOCK_SIZE (L.SFS_DATA_OFF + firstblock * L.SFS_BLOCK_SIZE)
  let next := read_idx d (L.SFS_BLOCKTBL_OFF + firstblock * 2)
  disk_read d dir1 (L.SFS_BLOCK_SIZE / 64 * 64) L.SFS_BLOCK_SIZE
    (L.SFS_DATA_OFF + next * L.SFS_BLOCK_SIZE)

/-- What `get_entry` hands back: `-ENOENT`, or 0 together with `*ret_entry`,
`*ret_entry_off` and `*parent_blockidx`. -/
inductive Lookup where
  | enoent
  | found (ret_entry : Mem) (ret_entry_off : Nat) (parent_blockidx : Nat)

/-- The function `get_entry_rec`, by recursion on the tokens still to match.
With no token at all (`strtok` returned `NULL`) the C code calls `strcmp` on a
null pointer: `none`. -/
def get_entry_rec (L : Layout) (d : Disk) (junk : Mem) :
    List (List Nat) → Mem → Nat → Nat → Option Lookup
  | [], _, _, _ => none
  | token :: rest, parent, parent_nentries, parent_blockidx =>
    match findFrom (fun i => strcmp0 token parent (i * 64)) parent_nentries 0 with
    | none => some Lookup.enoent
    | some i =>
      match rest with
      | [] => some (Lookup.found (blit junk 0 parent (i * 64) 64) i parent_blockidx)
      | _ :: _ =>
        get_entry_rec L d junk rest (load_dir L d junk (ent_first_block parent (i * 64)))
          L.SFS_DIR_NENTRIES (ent_first_block parent (i * 64))

/-- The function `get_entry`. `*parent_blockidx` starts out as whatever the
fresh allocation holds. -/
def get_entry (L : Layout) (d : Disk) (path : List Nat) (junk : Mem) : Option Lookup :=
  get_entry_rec L d junk (tokens path)
    (disk_read d junk 0 L.SFS_ROOTDIR_SIZE L.SFS_ROOTDIR_OFF)
    L.SFS_ROOTDIR_NENTRIES (peek16 junk 0)

/-! ## Chain walks -/

/-- The function `count_blocks`. -/
def count_blocks (L : Layout) (d : Disk) : Nat → Nat → Nat → Option Nat
  | 0, _, _ => none
  | fuel + 1, curr, count =>
    if curr = L.SFS_BLOCKIDX_END then some count
    else count_blocks L d fuel (tbl L d curr) (count + 1)

/-- The function `read_file`. -/
def read_file (L : Layout) (d : Disk) : Nat → Nat → Nat → Mem → Option Mem
  | 0, _, _, _ => none
  | fuel + 1, curr, blocks_read, buf =>
    if curr = L.SFS_BLOCKIDX_END then some buf
    else read_file L d fuel (tbl L d curr) (blocks_read + 1)
      (disk_read d buf (blocks_read * L.SFS_BLOCK_SIZE) L.SFS_BLOCK_SIZE
        (L.SFS_DATA_OFF + curr * L.SFS_BLOCK_SIZE))

/-- The conversion of a `size_t` to the `int` a function returns. -/
def toInt32 (n : Nat) : Int :=
  if n % 4294967296 < 2147483648 then (n % 4294967296 : Nat)
  else ((n % 4294967296 : Nat) : Int) - 4294967296

/-! ## The operations -/

/-- The function `sfs_read`: the return value and the bytes copied to
`buf[0..size)`. The subtraction `ent->size - (size_t)offset` is in 64-bit
unsigned arithmetic. A `memcpy` that leaves `file_buf` gives `none`. -/
def sfs_read (L : Layout) (d : Disk) (path : List Nat) (size offset : Nat) (junk : Mem)
    (fuel : Nat) : Option (Int × List Nat) :=
  match get_entry L d path junk with
  | none => none
  | some Lookup.enoent => some (-ENOENT, [])
  | some (Lookup.found ent _ _) =>
    if ent_first_block ent 0 = L.SFS_BLOCKIDX_END then some (0, [])
    else
      match count_blocks L d fuel (ent_first_block ent 0) 0 with
      | none => none
      | some amnt_blocks =>
        match read_file L d fuel (ent_first_block ent 0) 0 junk with
        | none => none
        | some file_buf =>
          let rest := (ent_size ent 0 + 18446744073709551616 - offset) % 18446744073709551616
          let size1 := if rest < size then rest else size
          if offset + size1 ≤ amnt_blocks * L.SFS_BLOCK_SIZE then
            some (toInt32 size1, (List.range size1).map (fun i => file_buf (offset + i)))
          else none

/-- The slot a `for` loop with `break` leaves in `empty_ent` (`sfs_mkdir`):
the first slot with an empty name, the last slot when there is none. With no
slot at all the pointer is never set: `none`. -/
def first_empty_slot (dir : Mem) (n : Nat) : Option Nat :=
  match findFrom (fun i => dir (i * 64) == 0) n 0 with
  | some i => some i
  | none => if n = 0 then none else some (n - 1)

/-- The slot a `for` loop without `break` leaves in `empty_ent`
(`sfs_create`): the last slot with an empty name; with none, the value
`init` the pointer held before the loop. -/
def last_empty_slot (dir : Mem) : Nat → Option Nat → Option Nat
  | 0, init => init
  | n + 1, init => if dir (n * 64) == 0 then some n else last_empty_slot dir n init

/-- The search of `sfs_mkdir` for two adjacent free blocks; `block1` and
`block2` are `blockidx_t`, and keep `SFS_BLOCKIDX_EMPTY` when nothing is
found. -/
def find_free_pair (L : Layout) (blocktable : Mem) : Nat × Nat :=
  match findFrom (fun i => idx_get blocktable i == L.SFS_BLOCKIDX_EMPTY
      && idx_get blocktable (i + 1) == L.SFS_BLOCKIDX_EMPTY)
      (L.SFS_BLOCKTBL_NENTRIES - 1) 0 with
  | some i => (i % 65536, (i + 1) % 65536)
  | none => (L.SFS_BLOCKIDX_EMPTY, L.SFS_BLOCKIDX_EMPTY)

/-- The array `empty_entries` of `sfs_mkdir`: `SFS_DIR_NENTRIES` copies of an
entry with an empty name, size 0 and first block `SFS_BLOCKIDX_EMPTY`, built
in a fresh allocation. -/
def empty_entries (L : Layout) (junk : Mem) : Mem :=
  let empty_ent := set_first_block (set_size (strcpy junk 0 []) 0 0) 0 L.SFS_BLOCKIDX_EMPTY
  fun a => if a < L.SFS_DIR_SIZE then empty_ent (a % 64) else junk a

/-- The function `sfs_mkdir`. -/
def sfs_mkdir (L : Layout) (d : Disk) (path : List Nat) (junk : Mem) : Option (Int × Disk) :=
  match get_child path with
  | none => none
  | some newdir =>
    if newdir.length ≥ 58 then some (-ENAMETOOLONG, d)
    else
      let blocktable := disk_read d junk 0 L.SFS_BLOCKTBL_SIZE L.SFS_BLOCKTBL_OFF
      let block1 := (find_free_pair L blocktable).1
      let block2 := (find_free_pair L blocktable).2
      if block1 = L.SFS_BLOCKIDX_EMPTY then some (-1, d)
      else
        let d1 := write_idx d (L.SFS_BLOCKTBL_OFF + block1 * 2) block2
        let d2 := write_idx d1 (L.SFS_BLOCKTBL_OFF + block2 * 2) L.SFS_BLOCKIDX_END
        let d3 := disk_write d2 (empty_entries L junk) 0 L.SFS_DIR_SIZE
          (L.SFS_DATA_OFF + block1 * L.SFS_BLOCK_SIZE)
        if in_root path then
          let rootdir := disk_read d3 junk 0 L.SFS_ROOTDIR_SIZE L.SFS_ROOTDIR_OFF
          match first_empty_slot rootdir L.SFS_ROOTDIR_NENTRIES with
          | none => none
          | some i =>
            let r1 := strcpy rootdir (i * 64) newdir
            let r2 := set_size r1 (i * 64) SFS_DIRECTORY
            let r3 := set_first_block r2 (i * 64) block1
            some (0, disk_write d3 r3 0 L.SFS_ROOTDIR_SIZE L.SFS_ROOTDIR_OFF)
        else
          match get_parent path with
          | none => none
          | some parent_path =>
            match get_entry L d3 parent_path junk with
            | none => none
            | some Lookup.enoent => some (-ENOENT, d3)
            | some (Lookup.found parent_entry _ _) =>
              let parent_dir := load_dir L d3 junk (ent_first_block parent_entry 0)
              match first_empty_slot parent_dir L.SFS_DIR_NENTRIES with
              | none => none
              | some i =>
                let p1 := strcpy parent_dir (i * 64) newdir
                let p2 := set_size p1 (i * 64) SFS_DIRECTORY
                let p3 := set_first_block p2 (i * 64) block1
                some (0, disk_write d3 p3 0 L.SFS_DIR_SIZE
                  (L.SFS_DATA_OFF + ent_first_block parent_entry 0 * L.SFS_BLOCK_SIZE))

/-- The entry that `sfs_rmdir`, `sfs_unlink` write back: empty name, size 0,
first block `SFS_BLOCKIDX_EMPTY`. -/
def cleared_entry (L : Layout) (ret_entry : Mem) : Mem :=
  set_first_block (set_size (strcpy ret_entry 0 []) 0 0) 0 L.SFS_BLOCKIDX_EMPTY

/-- The write of `*ret_entry` back to its slot, in the root region when
`in_root(path) == 1` and relative to `*parent_blockidx` otherwise. -/
def write_entry (L : Layout) (d : Disk) (path : List Nat) (ret_entry : Mem)
    (ret_entry_off parent_blockidx : Nat) : Disk :=
  if in_root path then
    disk_write d ret_entry 0 64 (L.SFS_ROOTDIR_OFF + ret_entry_off * 64)
  else
    disk_write d ret_entry 0 64
      (L.SFS_DATA_OFF + parent_blockidx * L.SFS_BLOCK_SIZE + ret_entry_off * 64)

/-- The function `sfs_rmdir`. -/
def sfs_rmdir (L : Layout) (d : Disk) (path : List Nat) (junk : Mem) : Option (Int × Disk) :=
  match get_entry L d path junk with
  | none => none
  | some Lookup.enoent => some (-ENOENT, d)
  | some (Lookup.found ret_entry ret_entry_off parent_blockidx) =>
    let dir := load_dir L d junk (ent_first_block ret_entry 0)
    match findFrom (fun i => !(dir (i * 64) == 0)) L.SFS_DIR_NENTRIES 0 with
    | some _ => some (-ENOTEMPTY, d)
    | none =>
      let block2 := read_idx d (L.SFS_BLOCKTBL_OFF + ent_first_block ret_entry 0 * 2)
      let d1 := write_idx d (L.SFS_BLOCKTBL_OFF + ent_first_block ret_entry 0 * 2)
        L.SFS_BLOCKIDX_EMPTY
      let d2 := write_idx d1 (L.SFS_BLOCKTBL_OFF + block2 * 2) L.SFS_BLOCKIDX_EMPTY
      some (0, write_entry L d2 path (cleared_entry L ret_entry) ret_entry_off parent_blockidx)

/-- The `while` loop of `sfs_unlink` that frees the chain. -/
def unlink_loop (L : Layout) : Nat → Nat → Disk → Option Disk
  | 0, _, _ => none
  | fuel + 1, curr, d =>
    if curr = L.SFS_BLOCKIDX_END then some d
    else unlink_loop L fuel (read_idx d (L.SFS_BLOCKTBL_OFF + curr * 2))
      (write_idx d (L.SFS_BLOCKTBL_OFF + curr * 2) L.SFS_BLOCKIDX_EMPTY)

/-- The function `sfs_unlink`. -/
def sfs_unlink (L : Layout) (d : Disk) (path : List Nat) (junk : Mem) (fuel : Nat) :
    Option (Int × Disk) :=
  match get_entry L d path junk with
  | none => none
  | some Lookup.enoent => some (-ENOENT, d)
  | some (Lookup.found ret_entry ret_entry_off parent_blockidx) =>
    match unlink_loop L fuel (ent_first_block ret_entry 0) d with
    | none => none
    | some d1 =>
      some (0, write_entry L d1 path (cleared_entry L ret_entry) ret_entry_off parent_blockidx)

/-- The function `sfs_create`. `newfile` is a stack variable, so its name
field holds `junk` behind the terminator. The pointer `empty_ent` is declared
without an initial value: `stale` is what it holds before the loop, `none`
for a null pointer and `some k` for the address of slot `k` of the directory
buffer; a store through it outside the buffer gives `none`. -/
def sfs_create (L : Layout) (d : Disk) (path : List Nat) (junk : Mem) (stale : Option Nat) :
    Option (Int × Disk) :=
  match get_child path with
  | none => none
  | some newdir =>
    if newdir.length ≥ 58 then some (-ENAMETOOLONG, d)
    else
      let newfile := set_first_block (set_size (strcpy junk 0 newdir) 0 0) 0 L.SFS_BLOCKIDX_END
      if in_root path then
        let rootdir := disk_read d junk 0 L.SFS_ROOTDIR_SIZE L.SFS_ROOTDIR_OFF
        match last_empty_slot rootdir L.SFS_ROOTDIR_NENTRIES stale with
        | none => some (-1, d)
        | some i =>
          if i < L.SFS_ROOTDIR_NENTRIES then
            some (0, disk_write d (blit rootdir (i * 64) newfile 0 64) 0
              L.SFS_ROOTDIR_SIZE L.SFS_ROOTDIR_OFF)
          else none
      else
        match get_parent path with
        | none => none
        | some parent_path =>
          match get_entry L d parent_path junk with
          | none => none
          | some Lookup.enoent => some (-ENOENT, d)
          | some (Lookup.found parent_entry _ _) =>
            let parent_dir := load_dir L d junk (ent_first_block parent_entry 0)
            match last_empty_slot parent_dir L.SFS_DIR_NENTRIES stale with
            | none => some (-1, d)
            | some i =>
              if i < L.SFS_DIR_NENTRIES then
                some (0, disk_write d (blit parent_dir (i * 64) newfile 0 64) 0
                  L.SFS_DIR_SIZE
                  (L.SFS_DATA_OFF + ent_first_block parent_entry 0 * L.SFS_BLOCK_SIZE))
              else none

/-- The array `blocks` of the shrinking branch of `sfs_truncate`:
`blocks[0]` is the first block and `blocks[i]` the table entry of
`blocks[i-1]`. -/
def nth_block (L : Layout) (d : Disk) (first : Nat) : Nat → Nat
  | 0 => first
  | i + 1 => tbl L d (nth_block L d first i)

/-- The loop of the shrinking branch that writes `SFS_BLOCKIDX_EMPTY` to the
table slots of `blocks[curr - 1]`, `blocks[curr - 2]`, ... -/
def free_blocks (L : Layout) (blocks : Nat → Nat) (curr : Nat) : Nat → Disk → Disk
  | 0, d => d
  | i + 1, d =>
    write_idx (free_blocks L blocks curr i d)
      (L.SFS_BLOCKTBL_OFF + blocks (curr - (1 + i)) * 2) L.SFS_BLOCKIDX_EMPTY

/-- The loop of the growing branch that collects free blocks into
`newblocks`, stopping once `blocks_to_add` are found; returns `newblocks` and
`found`. -/
def find_free (L : Layout) (blocktable : Mem) (blocks_to_add : Nat) :
    Nat → Nat → Mem → Nat → Mem × Nat
  | 0, _, newblocks, found => (newblocks, found)
  | n + 1, i, newblocks, found =>
    if idx_get blocktable i = L.SFS_BLOCKIDX_EMPTY then
      if found + 1 = blocks_to_add then (idx_set newblocks found (i % 65536), found + 1)
      else find_free L blocktable blocks_to_add n (i + 1)
        (idx_set newblocks found (i % 65536)) (found + 1)
    else find_free L blocktable blocks_to_add n (i + 1) newblocks found

/-- The loop of the growing branch that walks the in-memory table to the last
block of the chain; an index outside the table gives `none`. -/
def last_block (L : Layout) (blocktable : Mem) : Nat → Nat → Option Nat
  | 0, _ => none
  | fuel + 1, lastblock =>
    if L.SFS_BLOCKTBL_NENTRIES ≤ lastblock then none
    else if idx_get blocktable lastblock = L.SFS_BLOCKIDX_END then some lastblock
    else last_block L blocktable fuel (idx_get blocktable lastblock)

/-- The loop of the growing branch that chains `newblocks[i]` to
`newblocks[i+1]` in the in-memory table; an index outside the table gives
`none`. -/
def link_blocks (L : Layout) (newblocks : Mem) : Nat → Mem → Option Mem
  | 0, blocktable => some blocktable
  | i + 1, blocktable =>
    match link_blocks L newblocks i blocktable with
    | none => none
    | some bt =>
      if idx_get newblocks i < L.SFS_BLOCKTBL_NENTRIES then
        some (idx_set bt (idx_get newblocks i) (idx_get newblocks (i + 1)))
      else none

/-- The growing branch of `sfs_truncate`: the new entry and the new disk. -/
def truncate_grow (L : Layout) (d : Disk) (ret_entry : Mem) (blocks_to_add : Nat)
    (junk : Mem) (fuel : Nat) : Option (Mem × Disk) :=
  let blocktable := disk_read d junk 0 L.SFS_BLOCKTBL_SIZE L.SFS_BLOCKTBL_OFF
  let newblocks := (find_free L blocktable blocks_to_add L.SFS_BLOCKTBL_NENTRIES 0 junk 0).1
  let linked : Option (Mem × Mem) :=
    if ent_first_block ret_entry 0 ≠ L.SFS_BLOCKIDX_END then
      match last_block L blocktable fuel (ent_first_block ret_entry 0) with
      | none => none
      | some lastblock => some (ret_entry, idx_set blocktable lastblock (idx_get newblocks 0))
    else some (set_first_block ret_entry 0 (idx_get newblocks 0), blocktable)
  match linked with
  | none => none
  | some (ent1, bt1) =>
    match link_blocks L newblocks (blocks_to_add - 1) bt1 with
    | none => none
    | some bt2 =>
      if idx_get newblocks (blocks_to_add - 1) < L.SFS_BLOCKTBL_NENTRIES then
        let bt3 := idx_set bt2 (idx_get newblocks (blocks_to_add - 1)) L.SFS_BLOCKIDX_END
        some (ent1, disk_write d bt3 0 L.SFS_BLOCKTBL_SIZE L.SFS_BLOCKTBL_OFF)
      else none

/-- The shrinking branch of `sfs_truncate`: the new entry and the new disk.
`blocks[curr - (1 + blocks_torem)]` is `blocks[block_amnt_need - 1]`, outside
the array when `block_amnt_need` is 0. -/
def truncate_shrink (L : Layout) (d : Disk) (ret_entry : Mem)
    (curr_block_amnt block_amnt_need size : Nat) : Option (Mem × Disk) :=
  let blocks := nth_block L d (ent_first_block ret_entry 0)
  let blocks_torem := curr_block_amnt - block_amnt_need
  let d1 := free_blocks L blocks curr_block_amnt blocks_torem d
  if size ≠ 0 then
    if block_amnt_need = 0 then none
    else some (ret_entry,
      write_idx d1 (L.SFS_BLOCKTBL_OFF + blocks (curr_block_amnt - (1 + blocks_torem)) * 2)
        L.SFS_BLOCKIDX_END)
  else some (set_first_block ret_entry 0 L.SFS_BLOCKIDX_END, d1)

/-- The function `sfs_truncate`. `curr_block_amnt` is computed in 32-bit
unsigned arithmetic and `block_amnt_need` is converted to `unsigned int`. -/
def sfs_truncate (L : Layout) (d : Disk) (path : List Nat) (size : Nat) (junk : Mem)
    (fuel : Nat) : Option (Int × Disk) :=
  match get_entry L d path junk with
  | none => none
  | some Lookup.enoent => some (-ENOENT, d)
  | some (Lookup.found ret_entry ret_entry_off parent_blockidx) =>
    let curr_block_amnt :=
      (ent_size ret_entry 0 + L.SFS_BLOCK_SIZE - 1) % 4294967296 / L.SFS_BLOCK_SIZE
    let block_amnt_need := (size + L.SFS_BLOCK_SIZE - 1) / L.SFS_BLOCK_SIZE % 4294967296
    let step : Option (Mem × Disk) :=
      if block_amnt_need < curr_block_amnt then
        truncate_shrink L d ret_entry curr_block_amnt block_amnt_need size
      else if block_amnt_need > curr_block_amnt then
        truncate_grow L d ret_entry (block_amnt_need - curr_block_amnt) junk fuel
      else some (ret_entry, d)
    match step with
    | none => none
    | some (ent1, d1) =>
      some (0, write_entry L d1 path (set_size ent1 0 size) ret_entry_off parent_blockidx)

/-! ## Chains -/

/-- The blocks `bs` are the chain that starts at `first`: `first` is the first
block, every block is a block-table index other than the end marker, the table
entry of each block is the next block, and the table entry of the last block
is `SFS_BLOCKIDX_END`. The empty chain starts at `SFS_BLOCKIDX_END`. -/
def Chain (L : Layout) (d : Disk) : Nat → List Nat → Prop
  | first, [] => first = L.SFS_BLOCKIDX_END
  | first, b :: bs =>
    first = b ∧ b ≠ L.SFS_BLOCKIDX_END ∧ b < L.SFS_BLOCKTBL_NENTRIES ∧ Chain L d (tbl L d b) bs

instance Chain.decide (L : Layout) (d : Disk) : ∀ (bs : List Nat) (first : Nat),
    Decidable (Chain L d first bs)
  | [], first => inferInstanceAs (Decidable (first = L.SFS_BLOCKIDX_END))
  | b :: bs, first =>
    have := Chain.decide L d bs (tbl L d b)
    inferInstanceAs (Decidable (first = b ∧ b ≠ L.SFS_BLOCKIDX_END ∧
      b < L.SFS_BLOCKTBL_NENTRIES ∧ Chain L d (tbl L d b) bs))

/-- The bytes of a file: its data blocks one after the other, in chain
order. -/
def file_bytes (L : Layout) (d : Disk) : List Nat → List Nat
  | [] => []
  | b :: bs =>
    (List.range L.SFS_BLOCK_SIZE).map (fun k => d (L.SFS_DATA_OFF + b * L.SFS_BLOCK_SIZE + k))
      ++ file_bytes L d bs

/-! ## Concrete layouts and images -/

/-- A small layout: 128-byte blocks (two entries each, four slots in a
directory), four root slots, eight data blocks, end marker `0xfffe`; the
value `e` of `SFS_BLOCKIDX_EMPTY` is left open. -/
def tiny (e : Nat) : Layout :=
  { SFS_BLOCK_SIZE := 128, SFS_ROOTDIR_NENTRIES := 4, SFS_BLOCKTBL_NENTRIES := 8,
    SFS_BLOCKIDX_EMPTY := e, SFS_BLOCKIDX_END := 65534,
    SFS_ROOTDIR_OFF := 16, SFS_BLOCKTBL_OFF := 272, SFS_DATA_OFF := 288 }

/-- Modelled from the spec: a freshly formatted image with an empty root.
Every root slot is free (all name bytes zero, size 0, first block
`SFS_BLOCKIDX_EMPTY`), every block-table slot is `SFS_BLOCKIDX_EMPTY`, and
the rest of the image is zero. The formatter is not among the sources. -/
def freshImage (L : Layout) : Disk := fun a =>
  if L.SFS_BLOCKTBL_OFF ≤ a ∧ a < L.SFS_BLOCKTBL_OFF + L.SFS_BLOCKTBL_SIZE then
    (if (a - L.SFS_BLOCKTBL_OFF) % 2 = 0 then L.SFS_BLOCKIDX_EMPTY % 256
     else L.SFS_BLOCKIDX_EMPTY / 256 % 256)
  else if L.SFS_ROOTDIR_OFF ≤ a ∧ a < L.SFS_ROOTDIR_OFF + L.SFS_ROOTDIR_SIZE then
    (if (a - L.SFS_ROOTDIR_OFF) % 64 = 62 then L.SFS_BLOCKIDX_EMPTY % 256
     else if (a - L.SFS_ROOTDIR_OFF) % 64 = 63 then L.SFS_BLOCKIDX_EMPTY / 256 % 256
     else 0)
  else 0

/-- A memory that holds zero everywhere. -/
def zeros : Mem := fun _ => 0

/-- The image an operation leaves behind. -/
def after (r : Option (Int × Disk)) : Disk :=
  match r with
  | some (_, d) => d
  | none => zeros

/-- The value an operation returns. -/
def ret (r : Option (Int × Disk)) : Option Int := r.map Prod.fst


/-- Two disks agree on the part of the image outside the block table. -/
def SameOutsideTbl (L : Layout) (d d' : Disk) : Prop :=
  ∀ a, a < L.SFS_BLOCKTBL_OFF ∨ L.SFS_BLOCKTBL_OFF + L.SFS_BLOCKTBL_NENTRIES * 2 ≤ a → d' a = d a

/-- The first block of the entry a lookup found. -/
def found_first_block (r : Option Lookup) : Option Nat :=
  match r with
  | some (Lookup.found e _ _) => some (ent_first_block e 0)
  | _ => none

/-- The size word of the entry a lookup found. -/
def found_size (r : Option Lookup) : Option Nat :=
  match r with
  | some (Lookup.found e _ _) => some (ent_size e 0)
  | _ => none

/-- The string that starts at `m + e`, read up to the first zero byte and at
most `n` bytes far. -/
def cstr (m : Mem) : Nat → Nat → List Nat
  | 0, _ => []
  | n + 1, e => if m e = 0 then [] else m e :: cstr m n (e + 1)

/-- The name stored in the entry at byte offset `e`: the bytes of the 58-byte
name field up to the first zero byte. -/
def entry_name (m : Mem) (e : Nat) : List Nat := cstr m 58 e

/-- A call of one of the mutating operations. -/
inductive Op where
  | create (path : List Nat)
  | mkdir (path : List Nat)
  | rmdir (path : List Nat)
  | unlink (path : List Nat)
  | truncate (path : List Nat) (size : Nat)

/-- Run one call, with fresh storage that holds zeros, a null `empty_ent`
and fuel for sixteen chain steps. -/
def run_op (L : Layout) (d : Disk) : Op → Option (Int × Disk)
  | Op.create p => sfs_create L d p zeros none
  | Op.mkdir p => sfs_mkdir L d p zeros
  | Op.rmdir p => sfs_rmdir L d p zeros
  | Op.unlink p => sfs_unlink L d p zeros 16
  | Op.truncate p n => sfs_truncate L d p n zeros 16

/-- Run a script of calls; `none` as soon as a call does not return 0. -/
def run_ops (L : Layout) : List Op → Disk → Option Disk
  | [], d => some d
  | op :: ops, d =>
    match run_op L d op with
    | some (r, d1) => if r = 0 then run_ops L ops d1 else none
    | none => none

/-- The image a script of calls produces from a freshly formatted image. -/
def image (L : Layout) (ops : List Op) : Disk :=
  match run_ops L ops (freshImage L) with
  | some d => d
  | none => zeros

/-- The script `mkdir /d`, `create /d/f`. -/
def scriptDirWithFile : List Op := [Op.mkdir [47, 100], Op.create [47, 100, 47, 102]]

/-- The script `create /f`, `truncate /f 129`: the file gets two blocks. -/
def scriptTwoBlocks : List Op := [Op.create [47, 102], Op.truncate [47, 102] 129]

/-- The script `create /f`, `truncate /f 10`. -/
def scriptTenBytes : List Op := [Op.create [47, 102], Op.truncate [47, 102] 10]

/-- The script `create /e`, `truncate /e 1`, `mkdir /ab`, `mkdir /ab/cd`,
`rmdir /ab/cd`, `rmdir /ab`, `create /f`, `truncate /f 10`. -/
def scriptStale : List Op :=
  [Op.create [47, 101], Op.truncate [47, 101] 1, Op.mkdir [47, 97, 98],
   Op.mkdir [47, 97, 98, 47, 99, 100], Op.rmdir [47, 97, 98, 47, 99, 100],
   Op.rmdir [47, 97, 98], Op.create [47, 102], Op.truncate [47, 102] 10]

/-- The script `create /a`, `create /b`, `create /c`, `create /d`, which
fills the four root slots of the small layout. -/
def scriptFullRoot : List Op :=
  [Op.create [47, 97], Op.create [47, 98], Op.create [47, 99], Op.create [47, 100]]

/-- The script `create /a`, `create /a`. -/
def scriptTwice : List Op := [Op.create [47, 97], Op.create [47, 97]]

/-! ## Auxiliary images, for stating what the operations write -/

/-- The image `sfs_mkdir` has after its writes to the block table and to the
two new blocks. -/
def mkdir_blocks (L : Layout) (d : Disk) (junk : Mem) (block1 block2 : Nat) : Disk :=
  disk_write
    (write_idx (write_idx d (L.SFS_BLOCKTBL_OFF + block1 * 2) block2)
      (L.SFS_BLOCKTBL_OFF + block2 * 2) L.SFS_BLOCKIDX_END)
    (empty_entries L junk) 0 L.SFS_DIR_SIZE (L.SFS_DATA_OFF + block1 * L.SFS_BLOCK_SIZE)

/-- The directory buffer of `sfs_mkdir` after the new entry is stored in slot
`i`. -/
def new_dir_entry (dir : Mem) (i : Nat) (newdir : List Nat) (block1 : Nat) : Mem :=
  set_first_block (set_size (strcpy dir (i * 64) newdir) (i * 64) SFS_DIRECTORY) (i * 64) block1

/-- The block-table indices that hold `SFS_BLOCKIDX_EMPTY`, in ascending
order. -/
def free_list (L : Layout) (d : Disk) : List Nat :=
  (List.range L.SFS_BLOCKTBL_NENTRIES).filter (fun j => tbl L d j == L.SFS_BLOCKIDX_EMPTY)

/-- The on-disk offset at which `write_entry` stores the entry: in the root
region when `in_root(path) == 1`, and relative to `*parent_blockidx`
otherwise. -/
def entry_off (L : Layout) (path : List Nat) (ret_entry_off parent_blockidx : Nat) : Nat :=
  if in_root path then L.SFS_ROOTDIR_OFF + ret_entry_off * 64
  else L.SFS_DATA_OFF + parent_blockidx * L.SFS_BLOCK_SIZE + ret_entry_off * 64

/-! ## Names in the root directory -/

/-- The name in root slot `i`; the empty name marks a free slot. -/
def root_name (L : Layout) (d : Disk) (i : Nat) : List Nat :=
  entry_name d (L.SFS_ROOTDIR_OFF + i * 64)

/-- The occupied slots of the root directory have pairwise distinct names. -/
def RootNamesDistinct (L : Layout) (d : Disk) : Prop :=
  ∀ i j, i < L.SFS_ROOTDIR_NENTRIES → j < L.SFS_ROOTDIR_NENTRIES →
    root_name L d i ≠ [] → root_name L d i = root_name L d j → i = j

/-! ## Attributes and directory listings -/

/-- The file-type bit `S_IFDIR` of `st_mode` (Linux `sys/stat.h`, octal
`040000`). -/
def S_IFDIR : Nat := 16384

/-- The file-type bit `S_IFREG` of `st_mode` (Linux `sys/stat.h`, octal
`0100000`). -/
def S_IFREG : Nat := 32768

/-- The fields of `struct stat` that `sfs_getattr` assigns; the `memset`
leaves every other field zero. -/
structure Stat where
  st_mode : Nat
  st_nlink : Nat
  st_size : Nat
  st_uid : Nat
  st_gid : Nat
  st_atime : Nat
  st_mtime : Nat

/-- The function `sfs_getattr`: the return value and `*st`. The arguments
`uid`, `gid`, `atime`, `mtime` are what `getuid()`, `getgid()` and the two
calls of `time(NULL)` return; `493` is octal `0755`. -/
def sfs_getattr (L : Layout) (d : Disk) (path : List Nat) (junk : Mem)
    (uid gid atime mtime : Nat) : Option (Int × Stat) :=
  let st : Stat :=
    { st_mode := 0, st_nlink := 0, st_size := 0, st_uid := uid, st_gid := gid,
      st_atime := atime, st_mtime := mtime }
  if path = [47] then some (0, { st with st_mode := S_IFDIR ||| 493, st_nlink := 2 })
  else
    match get_entry L d path junk with
    | none => none
    | some Lookup.enoent => some (-ENOENT, st)
    | some (Lookup.found ret_entry _ _) =>
      if SFS_DIRECTORY &&& ent_size ret_entry 0 ≠ 0 then
        some (0, { st with st_size := ent_size ret_entry 0, st_mode := S_IFDIR, st_nlink := 2 })
      else
        some (0, { st with st_size := ent_size ret_entry 0, st_mode := S_IFREG, st_nlink := 1 })

/-- The C string that starts at `m + e`, as `strlen` and the filler read it:
the bytes before the first zero byte. `none` when none of the `n` bytes up to
the end of the buffer is zero (the read runs off the buffer). -/
def c_str (m : Mem) : Nat → Nat → Option (List Nat)
  | 0, _ => none
  | n + 1, e => if m e = 0 then some [] else (c_str m n (e + 1)).map (fun s => m e :: s)

/-- The `for` loop of `sfs_readdir` over the slots `i, i+1, ...` (`k` of
them) of a directory buffer of `size` bytes. The state is the list of names
handed to the filler so far and the variable `err`. The filler is the host's
callback: its result is a function of the names it was handed before and of
the new name. -/
def readdir_loop (dir : Mem) (size : Nat) (filler : List (List Nat) → List Nat → Int) :
    Nat → Nat → List (List Nat) → Int → Option (Int × List (List Nat))
  | 0, _, names, err => some (err, names)
  | k + 1, i, names, err =>
    match c_str dir (size - i * 64) (i * 64) with
    | none => none
    | some [] => readdir_loop dir size filler k (i + 1) names err
    | some (c :: cs) =>
      readdir_loop dir size filler k (i + 1) (names ++ [c :: cs]) (filler names (c :: cs))

/-- The function `sfs_readdir`: the return value and the names handed to the
filler, in order. The variable `err` is declared without an initial value:
the argument `err` is what it holds before the loop. -/
def sfs_readdir (L : Layout) (d : Disk) (path : List Nat) (junk : Mem)
    (filler : List (List Nat) → List Nat → Int) (err : Int) :
    Option (Int × List (List Nat)) :=
  if path = [47] then
    let rootdir := disk_read d junk 0 L.SFS_ROOTDIR_SIZE L.SFS_ROOTDIR_OFF
    readdir_loop rootdir L.SFS_ROOTDIR_SIZE filler L.SFS_ROOTDIR_NENTRIES 0 [] err
  else
    match get_entry L d path junk with
    | none => none
    | some Lookup.enoent => some (-ENOENT, [])
    | some (Lookup.found ret_entry _ _) =>
      let dir := load_dir L d junk (ent_first_block ret_entry 0)
      readdir_loop dir L.SFS_DIR_SIZE filler L.SFS_DIR_NENTRIES 0 [] err

/-- A filler that always reports success. -/
def filler_ok : List (List Nat) → List Nat → Int := fun _ _ => 0

/-- The names `sfs_readdir` hands to a filler that always reports success. -/
def readdir_names (L : Layout) (d : Disk) (path : List Nat) (junk : Mem) :
    Option (List (List Nat)) :=
  (sfs_readdir L d path junk filler_ok 0).map Prod.snd

/-- The script `mkdir /d`, `create /d/a`, `create /d/b`, `create /d/c`,
`create /d/e`, which fills the four slots of `/d` on the small layout. -/
def scriptFullDir : List Op :=
  [Op.mkdir [47, 100], Op.create [47, 100, 47, 97], Op.create [47, 100, 47, 98],
   Op.create [47, 100, 47, 99], Op.create [47, 100, 47, 101]]

/-- The script `create /f`. -/
def scriptOneFile : List Op := [Op.create [47, 102]]

/-! ## The walk of the resolver -/

/-- The directory `get_entry_rec` searches once it has matched the tokens
`ts` one after the other: its buffer, its number of slots and the value of
`*parent_blockidx`. Each token is matched against the slots of the current
directory, and the two blocks `load_dir` reads at the `first_block` of the
first matching slot become the next directory; `none` when a token matches
no slot. -/
def reached (L : Layout) (d : Disk) (junk : Mem) :
    List (List Nat) → Mem → Nat → Nat → Option (Mem × Nat × Nat)
  | [], parent, n, pb => some (parent, n, pb)
  | token :: rest, parent, n, _ =>
    match findFrom (fun i => strcmp0 token parent (i * 64)) n 0 with
    | none => none
    | some i =>
      reached L d junk rest (load_dir L d junk (ent_first_block parent (i * 64)))
        L.SFS_DIR_NENTRIES (ent_first_block parent (i * 64))

/-- The buffer `get_entry` reads the root directory into. -/
def root_buf (L : Layout) (d : Disk) (junk : Mem) : Mem :=
  disk_read d junk 0 L.SFS_ROOTDIR_SIZE L.SFS_ROOTDIR_OFF

/-- The script `mkdir /d`. -/
def scriptOneDir : List Op := [Op.mkdir [47, 100]]

/-- The script `create /f`, `truncate /f 1`: the file gets block 0. -/
def scriptOneByte : List Op := [Op.create [47, 102], Op.truncate [47, 102] 1]

/-- The image of the small layout that holds the one-byte file `/f` with the
content `x`: `create /f`, `truncate /f 1`, and the byte `x` stored at the
start of the file's block 0 (offset `SFS_DATA_OFF = 288`), as a complete
`write` or the image builder would store it. -/
def imageFileX : Disk := fun a =>
  if a = 288 then 120 else image (tiny 65535) scriptOneByte a

/-- The first blocks of the directories `get_entry_rec` loads while it
matches the tokens. -/
def dirs_loaded (L : Layout) (d : Disk) (junk : Mem) : List (List Nat) → Mem → Nat → List Nat
  | [], _, _ => []
  | token :: rest, parent, n =>
    match findFrom (fun i => strcmp0 token parent (i * 64)) n 0 with
    | none => []
    | some i =>
      match rest with
      | [] => []
      | _ :: _ =>
        ent_first_block parent (i * 64) ::
          dirs_loaded L d junk rest (load_dir L d junk (ent_first_block parent (i * 64)))
            L.SFS_DIR_NENTRIES

/-- The blocks `load_dir` reads for the directories with the first blocks
`bs`: each first block and the block the table chains it to. -/
def dir_blocks (L : Layout) (d : Disk) : List Nat → List Nat
  | [] => []
  | b :: bs => b :: tbl L d b :: dir_blocks L d bs

/-- The blocks of the directories on a path that resolves: the directories
loaded on the way to its entry, and the directory the entry names. Empty when
the path does not resolve. -/
def path_blocks (L : Layout) (d : Disk) (junk : Mem) (path : List Nat) : List Nat :=
  match get_entry L d path junk with
  | some (Lookup.found ent _ _) =>
    dir_blocks L d (dirs_loaded L d junk (tokens path) (root_buf L d junk)
      L.SFS_ROOTDIR_NENTRIES ++ [ent_first_block ent 0])
  | _ => []

/-- The entry `newfile` that `sfs_create` builds on its stack: the name, size 0
and first block `SFS_BLOCKIDX_END`. -/
def new_file_entry (L : Layout) (junk : Mem) (newdir : List Nat) : Mem :=
  set_first_block (set_size (strcpy junk 0 newdir) 0 0) 0 L.SFS_BLOCKIDX_END

/-- The value `get_entry` returns. -/
def lookup_ret (r : Option Lookup) : Option Int :=
  match r with
  | some Lookup.enoent => some (-ENOENT)
  | some (Lookup.found _ _ _) => some 0
  | none => none

/-- An image of the small layout in which the directory `/d` occupies the
blocks 0 and 2: the image after `mkdir /d` (blocks 0 and 1), with the block
table changed to `0 → 2`, `2 → END` and block 1 free. The spec allows the two
blocks of a directory anywhere in the data region. -/
def imageSplitDir : Disk :=
  write_idx (write_idx (write_idx (image (tiny 65535) scriptOneDir) (272 + 0 * 2) 2)
    (272 + 2 * 2) 65534) (272 + 1 * 2) 65535

/-- The entry of `/d` as `get_entry` returns it on the image after
`mkdir /d`: a copy of root slot 0. -/
def entryOfD : Mem :=
  blit zeros 0 (root_buf (tiny 65535) (image (tiny 65535) scriptOneDir) zeros) (0 * 64) 64

/-- The names of the occupied slots among the slots `i, i+1, ...` (`cnt` of
them) of a directory buffer, in slot order: the slots whose first name byte
is not zero, each with the bytes of its name field up to the first zero
byte. -/
def dir_names (m : Mem) : Nat → Nat → List (List Nat)
  | 0, _ => []
  | cnt + 1, i =>
    if m (i * 64) = 0 then dir_names m cnt (i + 1)
    else entry_name m (i * 64) :: dir_names m cnt (i + 1)

/-- The script `mkdir /a`, `mkdir /a/b`. -/
def scriptTwoDirs : List Op := [Op.mkdir [47, 97], Op.mkdir [47, 97, 47, 98]]

/-- The entry of `/a/b` as `get_entry` returns it on the image after
`mkdir /a`, `mkdir /a/b`: a copy of slot 0 of the directory `/a`, which
occupies the blocks 0 and 1. -/
def entryOfAB : Mem :=
  blit zeros 0 (load_dir (tiny 65535) (image (tiny 65535) scriptTwoDirs) zeros 0) (0 * 64) 64


/-! ## Further scripts and images -/

/-- The script `mkdir /d`, `create /f`: on the small layout the directory
gets the blocks 0 and 1 and six blocks stay free. -/
def scriptDirAndFile : List Op := [Op.mkdir [47, 100], Op.create [47, 102]]

/-- The script `mkdir /d`, `create /d/p`, `create /d/q`, `create /d/r`,
`create /d/s`, `unlink /d/p`: on the small layout the directory `/d` (blocks 0
and 1) holds `s`, `r`, `q` in its slots 0, 1, 2 and slot 3 is free. -/
def scriptFourFiles : List Op :=
  [Op.mkdir [47, 100], Op.create [47, 100, 47, 112], Op.create [47, 100, 47, 113],
   Op.create [47, 100, 47, 114], Op.create [47, 100, 47, 115], Op.unlink [47, 100, 47, 112]]

/-- An image of the small layout in which the directory `/d` occupies the
blocks 0 and 2: the image after `scriptFourFiles` with the content of block 1
moved to block 2 (block 1 zeroed) and the block table changed to `0 → 2`,
`2 → END` and block 1 free. The slots 2 (the file `q`) and 3 (free) of `/d`
lie in block 2. The spec allows the two blocks of a directory anywhere in the
data region. -/
def imageSplitFiles : Disk :=
  write_idx (write_idx (write_idx
    (blit (blit (image (tiny 65535) scriptFourFiles) 544 (image (tiny 65535) scriptFourFiles)
      416 128) 416 zeros 0 128)
    (272 + 0 * 2) 2) (272 + 2 * 2) 65534) (272 + 1 * 2) 65535

/-! ## The tree of directories and the reachable images -/

/-- A component of a path as the host passes it: not empty, shorter than the
58-byte name field, without a slash and without a zero byte. -/
def GoodName (name : List Nat) : Prop :=
  name ≠ [] ∧ name.length < 58 ∧ 47 ∉ name ∧ 0 ∉ name

/-- The path names a directory that is reached through directories: the empty
path stands for the root, and `pp/name` is such a path when `pp` is one and
`pp/name` resolves to an entry with the `SFS_DIRECTORY` bit. -/
inductive DirPath (L : Layout) (d : Disk) (junk : Mem) : List Nat → Prop where
  | root : DirPath L d junk []
  | sub (pp name : List Nat) (ent : Mem) (off pb : Nat) :
      DirPath L d junk pp → GoodName name →
      get_entry L d (pp ++ 47 :: name) junk = some (Lookup.found ent off pb) →
      SFS_DIRECTORY &&& ent_size ent 0 ≠ 0 → DirPath L d junk (pp ++ 47 :: name)

/-- The images that can be reached from a freshly formatted image by calls of
`create`, `mkdir`, `unlink`, `rmdir` and `truncate`, whatever the calls
return, when the calls are made as the host makes them: on a path `pp/name`
whose parent `pp` is the root or a directory reached through directories;
`create` and `mkdir` only when the path does not resolve; `unlink` and
`truncate` only on regular files and `rmdir` only on directories; `truncate`
only when the block table has the free slots the new size needs. The fuel of
a chain walk exceeds the number of block-table slots. -/
inductive Reachable (L : Layout) : Disk → Prop where
  | fresh : Reachable L (freshImage L)
  | create (d d1 : Disk) (pp name : List Nat) (junk : Mem) (stale : Option Nat) (r : Int) :
      Reachable L d → DirPath L d junk pp → GoodName name →
      get_entry L d (pp ++ 47 :: name) junk = some Lookup.enoent →
      sfs_create L d (pp ++ 47 :: name) junk stale = some (r, d1) → Reachable L d1
  | mkdir (d d1 : Disk) (pp name : List Nat) (junk : Mem) (r : Int) :
      Reachable L d → DirPath L d junk pp → GoodName name →
      get_entry L d (pp ++ 47 :: name) junk = some Lookup.enoent →
      sfs_mkdir L d (pp ++ 47 :: name) junk = some (r, d1) → Reachable L d1
  | unlink (d d1 : Disk) (pp name : List Nat) (junk : Mem) (fuel : Nat) (r : Int) :
      Reachable L d → DirPath L d junk pp → GoodName name →
      (∀ ent off pb, get_entry L d (pp ++ 47 :: name) junk = some (Lookup.found ent off pb) →
        SFS_DIRECTORY &&& ent_size ent 0 = 0) →
      L.SFS_BLOCKTBL_NENTRIES < fuel →
      sfs_unlink L d (pp ++ 47 :: name) junk fuel = some (r, d1) → Reachable L d1
  | rmdir (d d1 : Disk) (pp name : List Nat) (junk : Mem) (r : Int) :
      Reachable L d → DirPath L d junk pp → GoodName name →
      (∀ ent off pb, get_entry L d (pp ++ 47 :: name) junk = some (Lookup.found ent off pb) →
        SFS_DIRECTORY &&& ent_size ent 0 ≠ 0) →
      sfs_rmdir L d (pp ++ 47 :: name) junk = some (r, d1) → Reachable L d1
  | truncate (d d1 : Disk) (pp name : List Nat) (size : Nat) (junk : Mem) (fuel : Nat)
      (r : Int) :
      Reachable L d → DirPath L d junk pp → GoodName name →
      (∀ ent off pb, get_entry L d (pp ++ 47 :: name) junk = some (Lookup.found ent off pb) →
        SFS_DIRECTORY &&& ent_size ent 0 = 0 ∧
        (size + L.SFS_BLOCK_SIZE - 1) / L.SFS_BLOCK_SIZE
          - (ent_size ent 0 + L.SFS_BLOCK_SIZE - 1) / L.SFS_BLOCK_SIZE
          ≤ (free_list L d).length) →
      L.SFS_BLOCKTBL_NENTRIES < fuel →
      sfs_truncate L d (pp ++ 47 :: name) size junk fuel = some (r, d1) → Reachable L d1

/-- The first blocks of the directories of the tree an image holds: the
first block of an occupied root slot with the `SFS_DIRECTORY` bit, and the
first block of such a slot of a directory of the tree, as `load_dir` loads
it. -/
inductive IsDir (L : Layout) (d : Disk) (junk : Mem) : Nat → Prop where
  | root (i : Nat) : i < L.SFS_ROOTDIR_NENTRIES → d (L.SFS_ROOTDIR_OFF + i * 64) ≠ 0 →
      SFS_DIRECTORY &&& ent_size d (L.SFS_ROOTDIR_OFF + i * 64) ≠ 0 →
      IsDir L d junk (ent_first_block d (L.SFS_ROOTDIR_OFF + i * 64))
  | sub (g i : Nat) : IsDir L d junk g → i < L.SFS_DIR_NENTRIES →
      load_dir L d junk g (i * 64) ≠ 0 →
      SFS_DIRECTORY &&& ent_size (load_dir L d junk g) (i * 64) ≠ 0 →
      IsDir L d junk (ent_first_block (load_dir L d junk g) (i * 64))

/-- The occupied slots of the directory with the first block `g`, as
`load_dir` loads it, have pairwise distinct names. -/
def DirNamesDistinct (L : Layout) (d : Disk) (junk : Mem) (g : Nat) : Prop :=
  ∀ i j, i < L.SFS_DIR_NENTRIES → j < L.SFS_DIR_NENTRIES →
    entry_name (load_dir L d junk g) (i * 64) ≠ [] →
    entry_name (load_dir L d junk g) (i * 64) = entry_name (load_dir L d junk g) (j * 64) →
    i = j

/-! ### The invariant of the reachable images

The directories of a reachable image are described by the list `G` of their
first blocks. -/

/-- The directory regions of an image whose directories have the first blocks
`G`: the root region with `SFS_ROOTDIR_NENTRIES` slots, and for each `g` in
`G` the two blocks from block `g` on with `SFS_DIR_NENTRIES` slots. `A` is
the image address of the region and `n` its number of slots. -/
def Buf (L : Layout) (G : List Nat) (A n : Nat) : Prop :=
  (A = L.SFS_ROOTDIR_OFF ∧ n = L.SFS_ROOTDIR_NENTRIES) ∨
  (∃ g, g ∈ G ∧ A = L.SFS_DATA_OFF + g * L.SFS_BLOCK_SIZE ∧ n = L.SFS_DIR_NENTRIES)

/-- The image addresses of the slots of the directory regions. -/
def Slot (L : Layout) (G : List Nat) (a : Nat) : Prop :=
  ∃ A n k, Buf L G A n ∧ k < n ∧ a = A + k * 64

/-- The entry at `m + a` is sound for the block table of `d`: a directory
entry (size word `SFS_DIRECTORY`) names a directory of `G`, and a file entry
has a chain of `ceil(size / SFS_BLOCK_SIZE)` blocks, none of them a block of
a directory of `G`. -/
def EntOK (L : Layout) (d : Disk) (G : List Nat) (m : Mem) (a : Nat) : Prop :=
  (ent_size m a = SFS_DIRECTORY ∧ ent_first_block m a ∈ G) ∨
  (ent_size m a < SFS_DIRECTORY ∧ ∃ bs, Chain L d (ent_first_block m a) bs ∧
    bs.length = (ent_size m a + L.SFS_BLOCK_SIZE - 1) / L.SFS_BLOCK_SIZE ∧
    ∀ b ∈ bs, ∀ g ∈ G, b ≠ g ∧ b ≠ g + 1)

/-- The entries at `m + a` and `m1 + a1` do not share blocks: two directory
entries name different directories, and the chains of two file entries are
disjoint. -/
def PairOK (L : Layout) (d : Disk) (m : Mem) (a : Nat) (m1 : Mem) (a1 : Nat) : Prop :=
  (ent_size m a = SFS_DIRECTORY → ent_size m1 a1 = SFS_DIRECTORY →
    ent_first_block m a ≠ ent_first_block m1 a1) ∧
  (∀ bs bs1, ent_size m a < SFS_DIRECTORY → ent_size m1 a1 < SFS_DIRECTORY →
    Chain L d (ent_first_block m a) bs → Chain L d (ent_first_block m1 a1) bs1 →
    ∀ b ∈ bs, b ∉ bs1)

/-- The invariant, with the slot at address `x` left out when `x` is given:
every directory of `G` has two adjacent blocks chained in the block table,
the directories of `G` do not overlap, every occupied slot holds a sound
entry, two occupied slots do not share blocks, and the occupied slots of a
directory region have pairwise distinct names. -/
def InvX (L : Layout) (d : Disk) (G : List Nat) (x : Option Nat) : Prop :=
  (∀ g ∈ G, g + 1 < L.SFS_BLOCKTBL_NENTRIES ∧ tbl L d g = g + 1 ∧
    tbl L d (g + 1) = L.SFS_BLOCKIDX_END) ∧
  (∀ g ∈ G, ∀ g1 ∈ G, g1 ≠ g + 1) ∧
  (∀ a, Slot L G a → some a ≠ x → d a ≠ 0 → EntOK L d G d a) ∧
  (∀ a a1, Slot L G a → Slot L G a1 → some a ≠ x → some a1 ≠ x → a ≠ a1 →
    d a ≠ 0 → d a1 ≠ 0 → PairOK L d d a d a1) ∧
  (∀ A n, Buf L G A n → ∀ i j, i < n → j < n → some (A + i * 64) ≠ x →
    some (A + j * 64) ≠ x → d (A + i * 64) ≠ 0 →
    entry_name d (A + i * 64) = entry_name d (A + j * 64) → i = j)

/-- The occupied slots of every directory of the tree have pairwise distinct
names: those of the root directory, and those of every directory of the tree
as `load_dir` loads it, whatever the buffer held before. -/
def AllNamesDistinct (L : Layout) (d : Disk) : Prop :=
  RootNamesDistinct L d ∧ ∀ junk g, IsDir L d junk g → DirNamesDistinct L d junk g
/-! ## Basic facts -/

theorem blit_in {dst : Mem} {o : Nat} {src : Mem} {s len a : Nat} (h1 : o ≤ a)
    (h2 : a < o + len) : blit dst o src s len a = src (s + (a - o)) := by
  simp [blit, h1, h2]

theorem blit_out {dst : Mem} {o : Nat} {src : Mem} {s len a : Nat} (h : a < o ∨ o + len ≤ a) :
    blit dst o src s len a = dst a := by
  unfold blit
  rw [if_neg]
  omega

theorem split16 (v : Nat) : v % 256 + 256 * (v / 256 % 256) = v % 65536 := by omega

theorem peek16_poke16 (m : Mem) (a v : Nat) : peek16 (poke16 m a v) a = v % 65536 := by
  simp [peek16, poke16]; omega

theorem poke16_out {m : Mem} {a v x : Nat} (h : x < a ∨ a + 1 < x) : poke16 m a v x = m x := by
  unfold poke16
  rw [if_neg (by omega), if_neg (by omega)]

theorem peek16_poke16_ne (m : Mem) (a b v : Nat) (h : a + 1 < b ∨ b + 1 < a) :
    peek16 (poke16 m a v) b = peek16 m b := by
  unfold peek16
  rw [poke16_out (by omega), poke16_out (by omega)]

theorem peek16_blit_out {dst : Mem} {o : Nat} {src : Mem} {s len a : Nat}
    (h : a + 1 < o ∨ o + len ≤ a) : peek16 (blit dst o src s len) a = peek16 dst a := by
  unfold peek16
  rw [blit_out (by omega), blit_out (by omega)]

theorem peek16_blit_in {dst : Mem} {o : Nat} {src : Mem} {s len a : Nat}
    (h1 : o ≤ a) (h2 : a + 1 < o + len) :
    peek16 (blit dst o src s len) a = peek16 src (s + (a - o)) := by
  unfold peek16
  rw [blit_in h1 (by omega), blit_in (by omega) (by omega)]
  congr 3
  omega

theorem peek16_congr {m m' : Mem} {a : Nat} (h0 : m' a = m a) (h1 : m' (a + 1) = m (a + 1)) :
    peek16 m' a = peek16 m a := by
  unfold peek16; rw [h0, h1]

theorem tbl_write_idx (L : Layout) (d : Disk) (i j v : Nat) :
    tbl L (write_idx d (L.SFS_BLOCKTBL_OFF + i * 2) v) j
      = if j = i then v % 65536 else tbl L d j := by
  unfold tbl read_idx write_idx
  split
  · subst_vars; exact peek16_poke16 _ _ _
  · apply peek16_poke16_ne; omega

theorem write_idx_tbl_outside (L : Layout) (d : Disk) (i v a : Nat)
    (hi : i < L.SFS_BLOCKTBL_NENTRIES)
    (ha : a < L.SFS_BLOCKTBL_OFF ∨ L.SFS_BLOCKTBL_OFF + L.SFS_BLOCKTBL_NENTRIES * 2 ≤ a) :
    write_idx d (L.SFS_BLOCKTBL_OFF + i * 2) v a = d a := by
  unfold write_idx
  exact poke16_out (by omega)

/-! ### Searching loops -/

theorem findFrom_some {p : Nat → Bool} : ∀ {n i j : Nat}, findFrom p n i = some j →
    i ≤ j ∧ j < i + n ∧ p j = true ∧ ∀ k, i ≤ k → k < j → p k = false
  | 0, i, j, h => by simp [findFrom] at h
  | n + 1, i, j, h => by
    unfold findFrom at h
    by_cases hi : p i = true
    · simp only [hi, if_true, Option.some.injEq] at h
      subst h
      exact ⟨le_refl _, by omega, hi, fun k h1 h2 => by omega⟩
    · simp only [hi] at h
      obtain ⟨h1, h2, h3, h4⟩ := findFrom_some (n := n) h
      refine ⟨by omega, by omega, h3, fun k hk1 hk2 => ?_⟩
      by_cases hk : k = i
      · subst hk; simpa using hi
      · exact h4 k (by omega) hk2

theorem findFrom_none {p : Nat → Bool} : ∀ {n i : Nat}, findFrom p n i = none →
    ∀ k, i ≤ k → k < i + n → p k = false
  | 0, i, _, k, h1, h2 => by omega
  | n + 1, i, h, k, h1, h2 => by
    unfold findFrom at h
    by_cases hi : p i = true
    · simp [hi] at h
    · simp only [hi] at h
      by_cases hk : k = i
      · subst hk; simpa using hi
      · exact findFrom_none (n := n) h k (by omega) (by omega)

theorem findFrom_some_of (p : Nat → Bool) : ∀ (n i k : Nat), i ≤ k → k < i + n → p k = true →
    ∃ j, findFrom p n i = some j
  | 0, i, k, h1, h2, _ => by omega
  | n + 1, i, k, h1, h2, hp => by
    unfold findFrom
    by_cases hi : p i = true
    · exact ⟨i, by simp [hi]⟩
    · have hik : i ≠ k := fun h => hi (h ▸ hp)
      simp only [hi]
      exact findFrom_some_of p n (i + 1) k (by omega) (by omega) hp

theorem findFrom_first {p : Nat → Bool} {n i j : Nat} (h1 : i ≤ j) (h2 : j < i + n)
    (hp : p j = true) (hmin : ∀ k, i ≤ k → k < j → p k = false) : findFrom p n i = some j := by
  obtain ⟨j', hj'⟩ := findFrom_some_of p n i j h1 h2 hp
  obtain ⟨a1, a2, a3, a4⟩ := findFrom_some hj'
  have : j' = j := by
    rcases Nat.lt_trichotomy j' j with h | h | h
    · have := hmin j' a1 h; simp [a3] at this
    · exact h
    · have := a4 j h1 h; simp [hp] at this
  rw [hj', this]

/-! ### Paths -/

theorem tokens_aux_noslash : ∀ (s cur : List Nat), 47 ∉ s →
    tokens_aux s cur = if cur ++ s = [] then [] else [cur ++ s]
  | [], cur, _ => by simp [tokens_aux]
  | c :: cs, cur, h => by
    have hc : c ≠ 47 := fun e => h (e ▸ List.mem_cons_self _ _)
    have hcs : 47 ∉ cs := fun e => h (List.mem_cons_of_mem _ e)
    unfold tokens_aux
    rw [if_neg hc, tokens_aux_noslash cs (cur ++ [c]) hcs]
    simp

theorem tokens_root (name : List Nat) (h : 47 ∉ name) (hne : name ≠ []) :
    tokens (47 :: name) = [name] := by
  unfold tokens tokens_aux
  simp only [if_true]
  rw [tokens_aux_noslash name [] h]
  simp [hne]

theorem in_root_cons (rest : List Nat) : in_root (47 :: rest) = true ↔ 47 ∉ rest := by
  unfold in_root
  simp [List.count_cons, List.count_eq_zero]

theorem get_child_noslash : ∀ (s : List Nat), 47 ∉ s → get_child s = none
  | [], _ => rfl
  | c :: cs, h => by
    have hc : c ≠ 47 := fun e => h (e ▸ List.mem_cons_self _ _)
    have hcs : 47 ∉ cs := fun e => h (List.mem_cons_of_mem _ e)
    simp [get_child, get_child_noslash cs hcs, hc]

theorem get_child_root (name : List Nat) (h : 47 ∉ name) : get_child (47 :: name) = some name := by
  simp [get_child, get_child_noslash name h]

/-! ### Lookup -/

theorem get_entry_rec_single {L : Layout} {d : Disk} {junk : Mem} {tok : List Nat}
    {parent : Mem} {n pb : Nat} {ent : Mem} {off pb' : Nat}
    (h : get_entry_rec L d junk [tok] parent n pb = some (Lookup.found ent off pb')) :
    findFrom (fun i => strcmp0 tok parent (i * 64)) n 0 = some off ∧
      ent = blit junk 0 parent (off * 64) 64 ∧ pb' = pb := by
  unfold get_entry_rec at h
  cases hf : findFrom (fun i => strcmp0 tok parent (i * 64)) n 0 with
  | none => simp [hf] at h
  | some i =>
    simp only [hf, Option.some.injEq, Lookup.found.injEq] at h
    obtain ⟨h1, h2, h3⟩ := h
    subst h2
    exact ⟨rfl, h1.symm, h3.symm⟩

/-- In a path that starts with a slash and has no other (`in_root` holds), a
successful lookup returns a slot index of the root directory. -/
theorem get_entry_in_root_lt {L : Layout} {d : Disk} {junk : Mem} {rest : List Nat}
    {ent : Mem} {off pb : Nat}
    (h : get_entry L d (47 :: rest) junk = some (Lookup.found ent off pb))
    (hr : in_root (47 :: rest) = true) : off < L.SFS_ROOTDIR_NENTRIES := by
  have hns : 47 ∉ rest := (in_root_cons rest).mp hr
  unfold get_entry at h
  by_cases hne : rest = []
  · subst hne
    simp [tokens, tokens_aux, get_entry_rec] at h
  · rw [tokens_root rest hns hne] at h
    have := (findFrom_some (get_entry_rec_single h).1).2.1
    omega

/-! ### Chains -/

theorem Chain.frame {L : Layout} {d d' : Disk} : ∀ {bs : List Nat} {first : Nat},
    Chain L d first bs → (∀ b ∈ bs, tbl L d' b = tbl L d b) → Chain L d' first bs
  | [], _, h, _ => h
  | b :: bs, _, h, hf => by
    obtain ⟨h1, h2, h3, h4⟩ := h
    refine ⟨h1, h2, h3, ?_⟩
    rw [hf b (List.mem_cons_self _ _)]
    exact Chain.frame h4 (fun c hc => hf c (List.mem_cons_of_mem _ hc))

theorem Chain.unique {L : Layout} {d : Disk} : ∀ {bs bs' : List Nat} {first : Nat},
    Chain L d first bs → Chain L d first bs' → bs = bs'
  | [], [], _, _, _ => rfl
  | [], b :: bs', _, h, h' => by
    obtain ⟨h1, h2, -, -⟩ := h'
    exact absurd (h1.symm.trans h) h2
  | b :: bs, [], _, h, h' => by
    obtain ⟨h1, h2, -, -⟩ := h
    exact absurd (h1.symm.trans h') h2
  | b :: bs, b' :: bs', _, h, h' => by
    obtain ⟨h1, -, -, h4⟩ := h
    obtain ⟨h1', -, -, h4'⟩ := h'
    have hb : b = b' := h1.symm.trans h1'
    subst hb
    rw [Chain.unique h4 h4']

theorem Chain.suffix {L : Layout} {d : Disk} : ∀ (pre : List Nat) {b : Nat} {post : List Nat}
    {first : Nat}, Chain L d first (pre ++ b :: post) → Chain L d b (b :: post)
  | [], _, _, _, h => by
    obtain ⟨-, h2, h3, h4⟩ := h
    exact ⟨rfl, h2, h3, h4⟩
  | _ :: pre, _, _, _, h => Chain.suffix pre h.2.2.2

theorem Chain.head_not_mem {L : Layout} {d : Disk} {b : Nat} {bs : List Nat} {first : Nat}
    (h : Chain L d first (b :: bs)) : b ∉ bs := by
  intro hmem
  obtain ⟨pre, post, rfl⟩ := List.append_of_mem hmem
  have h1 : Chain L d b (b :: (pre ++ b :: post)) := ⟨rfl, h.2.1, h.2.2.1, h.2.2.2⟩
  have h2 : Chain L d b (b :: post) := Chain.suffix pre h.2.2.2
  have hlen := congrArg List.length (Chain.unique h1 h2)
  simp at hlen
  omega

theorem Chain.nodup {L : Layout} {d : Disk} : ∀ {bs : List Nat} {first : Nat},
    Chain L d first bs → bs.Nodup
  | [], _, _ => List.nodup_nil
  | _ :: _, _, h => List.nodup_cons.mpr ⟨Chain.head_not_mem h, Chain.nodup h.2.2.2⟩

theorem Chain.lt {L : Layout} {d : Disk} : ∀ {bs : List Nat} {first : Nat},
    Chain L d first bs → ∀ b ∈ bs, b < L.SFS_BLOCKTBL_NENTRIES
  | [], _, _, _, hb => by simp at hb
  | c :: bs, _, h, b, hb => by
    rcases List.mem_cons.mp hb with rfl | hb
    · exact h.2.2.1
    · exact Chain.lt h.2.2.2 b hb

/-! ### Writing an entry back -/

theorem write_entry_outside {L : Layout} (hL : L.WF) (d : Disk) (path : List Nat) (e : Mem)
    (off pb a : Nat) (hoff : in_root path = true → off < L.SFS_ROOTDIR_NENTRIES)
    (ha : L.SFS_BLOCKTBL_OFF ≤ a ∧ a < L.SFS_BLOCKTBL_OFF + L.SFS_BLOCKTBL_NENTRIES * 2) :
    write_entry L d path e off pb a = d a := by
  have h1 := hL.root_tbl
  have h2 := hL.tbl_data
  unfold write_entry disk_write
  by_cases hr : in_root path = true
  · have := hoff hr
    rw [if_pos hr]
    exact blit_out (by omega)
  · rw [if_neg hr]
    exact blit_out (by omega)

theorem tbl_write_entry {L : Layout} (hL : L.WF) (d : Disk) (path : List Nat) (e : Mem)
    (off pb j : Nat) (hoff : in_root path = true → off < L.SFS_ROOTDIR_NENTRIES)
    (hj : j < L.SFS_BLOCKTBL_NENTRIES) :
    tbl L (write_entry L d path e off pb) j = tbl L d j := by
  unfold tbl read_idx
  exact peek16_congr (write_entry_outside hL d path e off pb _ hoff (by omega))
    (write_entry_outside hL d path e off pb _ hoff (by omega))

/-! ### The loop of `sfs_unlink` -/

theorem unlink_loop_chain {L : Layout} (hL : L.WF) : ∀ (bs : List Nat) (first : Nat) (d : Disk)
    (fuel : Nat), Chain L d first bs → bs.length < fuel →
    ∃ d', unlink_loop L fuel first d = some d' ∧
      (∀ b ∈ bs, tbl L d' b = L.SFS_BLOCKIDX_EMPTY) ∧
      (∀ a, (∀ b ∈ bs, a ≠ L.SFS_BLOCKTBL_OFF + b * 2 ∧ a ≠ L.SFS_BLOCKTBL_OFF + b * 2 + 1) →
        d' a = d a)
  | [], first, d, fuel, h, hf => by
    obtain ⟨f, rfl⟩ : ∃ f, fuel = f + 1 := ⟨fuel - 1, by simp at hf; omega⟩
    have h0 : first = L.SFS_BLOCKIDX_END := h
    refine ⟨d, by simp [unlink_loop, h0], by simp, fun _ _ => rfl⟩
  | b :: bs, first, d, fuel, h, hf => by
    obtain ⟨f, rfl⟩ : ∃ f, fuel = f + 1 := ⟨fuel - 1, by simp at hf; omega⟩
    have hnm := Chain.head_not_mem h
    obtain ⟨h1, h2, h3, h4⟩ := h
    subst h1
    have hfr : ∀ c ∈ bs, tbl L (write_idx d (L.SFS_BLOCKTBL_OFF + first * 2)
        L.SFS_BLOCKIDX_EMPTY) c = tbl L d c := by
      intro c hc
      rw [tbl_write_idx, if_neg]
      rintro rfl; exact hnm hc
    obtain ⟨d', e1, e2, e3⟩ := unlink_loop_chain hL bs (tbl L d first)
      (write_idx d (L.SFS_BLOCKTBL_OFF + first * 2) L.SFS_BLOCKIDX_EMPTY) f
      (Chain.frame h4 hfr) (by simp at hf; omega)
    refine ⟨d', ?_, ?_, ?_⟩
    · unfold unlink_loop
      rw [if_neg h2]
      exact e1
    · intro c hc
      rcases List.mem_cons.mp hc with rfl | hc
      · have hd : tbl L d' c = tbl L (write_idx d (L.SFS_BLOCKTBL_OFF + c * 2)
            L.SFS_BLOCKIDX_EMPTY) c := by
          unfold tbl read_idx
          apply peek16_congr
          · apply e3; intro b hb
            have : b ≠ c := by rintro rfl; exact hnm hb
            omega
          · apply e3; intro b hb
            have : b ≠ c := by rintro rfl; exact hnm hb
            omega
        rw [hd, tbl_write_idx, if_pos rfl]
        exact Nat.mod_eq_of_lt hL.empty_lt
      · exact e2 c hc
    · intro a ha
      rw [e3 a (fun c hc => ha c (List.mem_cons_of_mem _ hc))]
      have := ha first (List.mem_cons_self _ _)
      unfold write_idx
      exact poke16_out (by omega)
/-! ### The small layout -/

theorem tiny_wf (e : Nat) (h1 : e < 65536) (h2 : e ≠ 65534) : (tiny e).WF :=
  { bs_pos := by simp [tiny], bs_dvd := by simp [tiny], root_pos := by simp [tiny],
    tbl_le := by simp [tiny], empty_lt := h1, end_lt := by simp [tiny],
    end_ge := by simp [tiny], end_ne := fun h => h2 h.symm, root_tbl := by simp [tiny],
    tbl_data := by simp [tiny] }

/-! ### Chain walks that read -/

theorem count_blocks_chain {L : Layout} {d : Disk} : ∀ (bs : List Nat) (first fuel count : Nat),
    Chain L d first bs → bs.length < fuel →
    count_blocks L d fuel first count = some (count + bs.length)
  | [], first, fuel, count, h, hf => by
    obtain ⟨f, rfl⟩ : ∃ f, fuel = f + 1 := ⟨fuel - 1, by simp at hf; omega⟩
    have h0 : first = L.SFS_BLOCKIDX_END := h
    simp [count_blocks, h0]
  | b :: bs, first, fuel, count, h, hf => by
    obtain ⟨f, rfl⟩ : ∃ f, fuel = f + 1 := ⟨fuel - 1, by simp at hf; omega⟩
    obtain ⟨h1, h2, -, h4⟩ := h
    subst h1
    unfold count_blocks
    rw [if_neg h2, count_blocks_chain bs _ f (count + 1) h4 (by simp at hf; omega)]
    simp only [List.length_cons]
    congr 1
    omega

theorem file_bytes_length (L : Layout) (d : Disk) : ∀ (bs : List Nat),
    (file_bytes L d bs).length = bs.length * L.SFS_BLOCK_SIZE
  | [] => by simp [file_bytes]
  | b :: bs => by
    simp only [file_bytes, List.length_append, List.length_map, List.length_range,
      file_bytes_length L d bs, List.length_cons]
    rw [Nat.succ_mul]
    omega

theorem read_file_chain {L : Layout} {d : Disk} : ∀ (bs : List Nat) (first fuel k : Nat)
    (buf : Mem), Chain L d first bs → bs.length < fuel →
    ∃ buf', read_file L d fuel first k buf = some buf' ∧
      (∀ i, i < bs.length * L.SFS_BLOCK_SIZE →
        buf' (k * L.SFS_BLOCK_SIZE + i) = (file_bytes L d bs).getD i 0) ∧
      (∀ j, j < k * L.SFS_BLOCK_SIZE → buf' j = buf j)
  | [], first, fuel, k, buf, h, hf => by
    obtain ⟨f, rfl⟩ : ∃ f, fuel = f + 1 := ⟨fuel - 1, by simp at hf; omega⟩
    have h0 : first = L.SFS_BLOCKIDX_END := h
    exact ⟨buf, by simp [read_file, h0], by simp, fun _ _ => rfl⟩
  | b :: bs, first, fuel, k, buf, h, hf => by
    obtain ⟨f, rfl⟩ : ∃ f, fuel = f + 1 := ⟨fuel - 1, by simp at hf; omega⟩
    obtain ⟨h1, h2, -, h4⟩ := h
    subst h1
    obtain ⟨buf', e1, e2, e3⟩ := read_file_chain bs (tbl L d first) f (k + 1)
      (disk_read d buf (k * L.SFS_BLOCK_SIZE) L.SFS_BLOCK_SIZE
        (L.SFS_DATA_OFF + first * L.SFS_BLOCK_SIZE)) h4 (by simp at hf; omega)
    have hk : (k + 1) * L.SFS_BLOCK_SIZE = k * L.SFS_BLOCK_SIZE + L.SFS_BLOCK_SIZE :=
      Nat.succ_mul _ _
    refine ⟨buf', ?_, ?_, ?_⟩
    · unfold read_file
      rw [if_neg h2]
      exact e1
    · intro i hi
      simp only [List.length_cons, Nat.succ_mul] at hi
      simp only [file_bytes]
      by_cases hlt : i < L.SFS_BLOCK_SIZE
      · rw [e3 _ (by omega)]
        unfold disk_read
        rw [blit_in (by omega) (by omega)]
        rw [List.getD_append _ _ _ _ (by simpa using hlt)]
        rw [List.getD_eq_getElem _ _ (by simpa using hlt)]
        simp
      · have hi2 : i - L.SFS_BLOCK_SIZE < bs.length * L.SFS_BLOCK_SIZE := by omega
        have := e2 (i - L.SFS_BLOCK_SIZE) hi2
        rw [hk] at this
        have harg : k * L.SFS_BLOCK_SIZE + L.SFS_BLOCK_SIZE + (i - L.SFS_BLOCK_SIZE)
            = k * L.SFS_BLOCK_SIZE + i := by omega
        rw [harg] at this
        rw [this, List.getD_append_right _ _ _ _ (by simpa using hlt)]
        simp
    · intro j hj
      rw [e3 j (by omega)]
      unfold disk_read
      exact blit_out (by omega)

theorem ceil_mul_ge (s b : Nat) (hb : 0 < b) : s ≤ (s + b - 1) / b * b := by
  have h1 := Nat.div_add_mod (s + b - 1) b
  have h2 := Nat.mod_lt (s + b - 1) hb
  have h3 : b * ((s + b - 1) / b) = (s + b - 1) / b * b := Nat.mul_comm _ _
  omega

theorem toInt32_small (n : Nat) (h : n < 2147483648) : toInt32 n = (n : Int) := by
  unfold toInt32
  have : n % 4294967296 = n := Nat.mod_eq_of_lt (by omega)
  rw [this, if_pos h]
/-! ### More facts on memory -/

theorem findFrom_eq_none {p : Nat → Bool} : ∀ {n i : Nat},
    (∀ k, i ≤ k → k < i + n → p k = false) → findFrom p n i = none
  | 0, _, _ => rfl
  | n + 1, i, h => by
    unfold findFrom
    rw [if_neg (by simp [h i (le_refl _) (by omega)])]
    exact findFrom_eq_none (fun k h1 h2 => h k (by omega) (by omega))

theorem strcmp0_of_eq : ∀ (s : List Nat) (m : Mem) (e : Nat),
    (∀ k, k < s.length → m (e + k) = s.getD k 0) → m (e + s.length) = 0 →
    strcmp0 s m e = true
  | [], m, e, _, h0 => by simpa [strcmp0] using h0
  | c :: cs, m, e, h, h0 => by
    unfold strcmp0
    have hc : m e = c := by simpa using h 0 (by simp)
    have ih := strcmp0_of_eq cs m (e + 1)
      (fun k hk => by
        have := h (k + 1) (by simpa using hk)
        simpa [Nat.add_assoc, Nat.add_comm 1 k] using this)
      (by simpa [Nat.add_assoc, Nat.add_comm 1] using h0)
    simp [hc, ih]

theorem tbl_congr {L : Layout} {d d' : Disk} {j : Nat}
    (h : ∀ a, L.SFS_BLOCKTBL_OFF + j * 2 ≤ a → a ≤ L.SFS_BLOCKTBL_OFF + j * 2 + 1 → d' a = d a) :
    tbl L d' j = tbl L d j := by
  unfold tbl read_idx
  exact peek16_congr (h _ (le_refl _) (by omega)) (h _ (by omega) (le_refl _))

theorem idx_get_disk_read_tbl (L : Layout) (d : Disk) (junk : Mem) (i : Nat)
    (hi : i < L.SFS_BLOCKTBL_NENTRIES) :
    idx_get (disk_read d junk 0 L.SFS_BLOCKTBL_SIZE L.SFS_BLOCKTBL_OFF) i = tbl L d i := by
  unfold idx_get disk_read tbl read_idx Layout.SFS_BLOCKTBL_SIZE
  rw [peek16_blit_in (by omega) (by omega)]
  congr 1

theorem freshImage_tbl_byte (L : Layout) (a : Nat)
    (h1 : L.SFS_BLOCKTBL_OFF ≤ a) (h2 : a < L.SFS_BLOCKTBL_OFF + L.SFS_BLOCKTBL_NENTRIES * 2) :
    freshImage L a = if (a - L.SFS_BLOCKTBL_OFF) % 2 = 0 then L.SFS_BLOCKIDX_EMPTY % 256
      else L.SFS_BLOCKIDX_EMPTY / 256 % 256 := by
  unfold freshImage Layout.SFS_BLOCKTBL_SIZE
  rw [if_pos ⟨h1, h2⟩]

theorem freshImage_root_byte {L : Layout} (hL : L.WF) (a : Nat)
    (h1 : L.SFS_ROOTDIR_OFF ≤ a) (h2 : a < L.SFS_ROOTDIR_OFF + L.SFS_ROOTDIR_NENTRIES * 64) :
    freshImage L a = if (a - L.SFS_ROOTDIR_OFF) % 64 = 62 then L.SFS_BLOCKIDX_EMPTY % 256
      else if (a - L.SFS_ROOTDIR_OFF) % 64 = 63 then L.SFS_BLOCKIDX_EMPTY / 256 % 256
      else 0 := by
  have := hL.root_tbl
  unfold freshImage Layout.SFS_BLOCKTBL_SIZE Layout.SFS_ROOTDIR_SIZE
  rw [if_neg (by omega), if_pos ⟨h1, h2⟩]

theorem freshImage_tbl {L : Layout} (hL : L.WF) (j : Nat) (hj : j < L.SFS_BLOCKTBL_NENTRIES) :
    tbl L (freshImage L) j = L.SFS_BLOCKIDX_EMPTY := by
  have := hL.empty_lt
  unfold tbl read_idx peek16
  rw [freshImage_tbl_byte L _ (by omega) (by omega),
    freshImage_tbl_byte L _ (by omega) (by omega)]
  rw [if_pos (by omega), if_neg (by omega)]
  omega
theorem sfs_mkdir_root_eq (L : Layout) (d : Disk) (name : List Nat) (junk : Mem)
    (b1 b2 i : Nat) (hns : 47 ∉ name) (hlen : name.length < 58)
    (hpair : find_free_pair L (disk_read d junk 0 L.SFS_BLOCKTBL_SIZE L.SFS_BLOCKTBL_OFF)
      = (b1, b2))
    (hb1 : b1 ≠ L.SFS_BLOCKIDX_EMPTY)
    (hslot : first_empty_slot (disk_read (mkdir_blocks L d junk b1 b2) junk 0
      L.SFS_ROOTDIR_SIZE L.SFS_ROOTDIR_OFF) L.SFS_ROOTDIR_NENTRIES = some i) :
    sfs_mkdir L d (47 :: name) junk = some (0,
      disk_write (mkdir_blocks L d junk b1 b2)
        (new_dir_entry (disk_read (mkdir_blocks L d junk b1 b2) junk 0
          L.SFS_ROOTDIR_SIZE L.SFS_ROOTDIR_OFF) i name b1)
        0 L.SFS_ROOTDIR_SIZE L.SFS_ROOTDIR_OFF) := by
  have hchild := get_child_root name hns
  have hroot : in_root (47 :: name) = true := (in_root_cons name).mpr hns
  unfold mkdir_blocks at hslot
  simp only [sfs_mkdir, hchild, hpair, hroot, if_neg hb1, if_neg (Nat.not_le.mpr hlen),
    hslot, if_true]
  rfl

theorem mkdir_blocks_tbl {L : Layout} (hL : L.WF) (d : Disk) (junk : Mem) (b1 b2 j : Nat)
    (h2 : b2 < L.SFS_BLOCKTBL_NENTRIES) (hj : j < L.SFS_BLOCKTBL_NENTRIES) :
    tbl L (mkdir_blocks L d junk b1 b2) j
      = if j = b2 then L.SFS_BLOCKIDX_END else if j = b1 then b2 else tbl L d j := by
  have := hL.tbl_data
  have := hL.end_lt
  have := hL.tbl_le
  have e : tbl L (mkdir_blocks L d junk b1 b2) j
      = tbl L (write_idx (write_idx d (L.SFS_BLOCKTBL_OFF + b1 * 2) b2)
          (L.SFS_BLOCKTBL_OFF + b2 * 2) L.SFS_BLOCKIDX_END) j := by
    apply tbl_congr
    intro a ha1 ha2
    unfold mkdir_blocks disk_write
    exact blit_out (by omega)
  rw [e, tbl_write_idx, tbl_write_idx]
  split
  · omega
  · split
    · omega
    · rfl

theorem mkdir_blocks_tbl_byte {L : Layout} (d : Disk) (junk : Mem)
    (b1 b2 a : Nat)
    (ha1 : a < L.SFS_DATA_OFF)
    (hb1 : a ≠ L.SFS_BLOCKTBL_OFF + b1 * 2 ∧ a ≠ L.SFS_BLOCKTBL_OFF + b1 * 2 + 1)
    (hb2 : a ≠ L.SFS_BLOCKTBL_OFF + b2 * 2 ∧ a ≠ L.SFS_BLOCKTBL_OFF + b2 * 2 + 1) :
    mkdir_blocks L d junk b1 b2 a = d a := by
  unfold mkdir_blocks disk_write write_idx
  rw [blit_out (by omega), poke16_out (by omega), poke16_out (by omega)]

theorem empty_entries_name {L : Layout} (junk : Mem) (i : Nat) (hi : i < L.SFS_DIR_NENTRIES) :
    empty_entries L junk (i * 64) = 0 := by
  unfold empty_entries Layout.SFS_DIR_SIZE
  rw [if_pos (by omega)]
  have : i * 64 % 64 = 0 := by omega
  rw [this]
  simp [set_first_block, set_size, strcpy, poke16, poke32]

theorem mkdir_blocks_data {L : Layout} (d : Disk) (junk : Mem) (b1 b2 k : Nat)
    (hk : k < L.SFS_DIR_SIZE) :
    mkdir_blocks L d junk b1 b2 (L.SFS_DATA_OFF + b1 * L.SFS_BLOCK_SIZE + k)
      = empty_entries L junk k := by
  unfold mkdir_blocks disk_write
  rw [blit_in (by omega) (by omega)]
  congr 1
  omega
theorem write_idx_apply (d : Disk) (o v a : Nat) :
    write_idx d o v a = if a = o then v % 256 else if a = o + 1 then v / 256 % 256 else d a :=
  rfl

theorem poke32_out {m : Mem} {a v x : Nat} (h : x < a ∨ a + 3 < x) : poke32 m a v x = m x := by
  unfold poke32
  have h0 : x ≠ a := by omega
  have h1 : x ≠ a + 1 := by omega
  have h2 : x ≠ a + 2 := by omega
  have h3 : x ≠ a + 3 := by omega
  simp only [h0, h1, h2, h3, if_false]

theorem fields_out (m : Mem) (e v w x : Nat) (h : x < e + 58 ∨ e + 64 ≤ x) :
    set_first_block (set_size m e v) e w x = m x := by
  unfold set_first_block set_size
  rw [poke16_out (by omega), poke32_out (by omega)]

theorem strcpy_in (m : Mem) (e : Nat) (s : List Nat) (k : Nat) (hk : k < s.length) :
    strcpy m e s (e + k) = s.getD k 0 := by
  unfold strcpy
  rw [if_pos (by omega)]
  congr 1
  omega

theorem strcpy_term (m : Mem) (e : Nat) (s : List Nat) : strcpy m e s (e + s.length) = 0 := by
  unfold strcpy
  rw [if_neg (by omega)]
  simp

theorem strcpy_out (m : Mem) (e : Nat) (s : List Nat) (x : Nat)
    (h : x < e ∨ e + s.length < x) : strcpy m e s x = m x := by
  unfold strcpy
  rw [if_neg (by omega), if_neg (by omega)]

theorem new_dir_entry_name (dir : Mem) (i : Nat) (name : List Nat) (b1 k : Nat)
    (hlen : name.length < 58) (hk : k < name.length) :
    new_dir_entry dir i name b1 (i * 64 + k) = name.getD k 0 := by
  unfold new_dir_entry
  rw [fields_out _ _ _ _ _ (by omega)]
  exact strcpy_in dir (i * 64) name k hk

theorem new_dir_entry_term (dir : Mem) (i : Nat) (name : List Nat) (b1 : Nat)
    (hlen : name.length < 58) :
    new_dir_entry dir i name b1 (i * 64 + name.length) = 0 := by
  unfold new_dir_entry
  rw [fields_out _ _ _ _ _ (by omega)]
  exact strcpy_term dir (i * 64) name

theorem new_dir_entry_other (dir : Mem) (i : Nat) (name : List Nat) (b1 x : Nat)
    (hlen : name.length < 58)
    (hx : x < i * 64 ∨ i * 64 + 64 ≤ x ∨ (i * 64 + name.length < x ∧ x < i * 64 + 58)) :
    new_dir_entry dir i name b1 x = dir x := by
  unfold new_dir_entry
  rw [fields_out _ _ _ _ _ (by omega)]
  exact strcpy_out dir (i * 64) name x (by omega)

theorem new_dir_entry_first_block (dir : Mem) (i : Nat) (name : List Nat) (b1 : Nat) :
    ent_first_block (new_dir_entry dir i name b1) (i * 64) = b1 % 65536 := by
  unfold new_dir_entry ent_first_block set_first_block
  exact peek16_poke16 _ _ _

theorem cleared_entry_apply (L : Layout) (e : Mem) (k : Nat) :
    cleared_entry L e k = if k = 62 then L.SFS_BLOCKIDX_EMPTY % 256
      else if k = 63 then L.SFS_BLOCKIDX_EMPTY / 256 % 256
      else if 58 ≤ k ∧ k < 62 then 0 else if k = 0 then 0 else e k := by
  unfold cleared_entry set_first_block set_size strcpy poke16 poke32
  simp only [Nat.zero_add, List.length_nil, Nat.add_zero]
  by_cases h62 : k = 62
  · simp [h62]
  by_cases h63 : k = 63
  · simp [h63]
  by_cases h58 : k = 58
  · simp [h58]
  by_cases h59 : k = 59
  · simp [h59]
  by_cases h60 : k = 60
  · simp [h60]
  by_cases h61 : k = 61
  · simp [h61]
  have hr : ¬ (58 ≤ k ∧ k < 62) := by omega
  by_cases h0 : k = 0
  · simp [h0]
  · simp [h62, h63, h58, h59, h60, h61, hr, h0]

theorem get_entry_root_found (L : Layout) (d : Disk) (name : List Nat) (junk : Mem) (i : Nat)
    (hns : 47 ∉ name) (hne : name ≠ [])
    (hf : findFrom (fun i => strcmp0 name
      (disk_read d junk 0 L.SFS_ROOTDIR_SIZE L.SFS_ROOTDIR_OFF) (i * 64))
      L.SFS_ROOTDIR_NENTRIES 0 = some i) :
    get_entry L d (47 :: name) junk = some (Lookup.found
      (blit junk 0 (disk_read d junk 0 L.SFS_ROOTDIR_SIZE L.SFS_ROOTDIR_OFF) (i * 64) 64)
      i (peek16 junk 0)) := by
  unfold get_entry
  rw [tokens_root name hns hne]
  simp only [get_entry_rec, hf]

theorem sfs_rmdir_eq (L : Layout) (d : Disk) (path : List Nat) (junk ent : Mem) (off pb : Nat)
    (hres : get_entry L d path junk = some (Lookup.found ent off pb))
    (hempty : ∀ i, i < L.SFS_DIR_NENTRIES →
      load_dir L d junk (ent_first_block ent 0) (i * 64) = 0) :
    sfs_rmdir L d path junk = some (0,
      write_entry L
        (write_idx (write_idx d (L.SFS_BLOCKTBL_OFF + ent_first_block ent 0 * 2)
          L.SFS_BLOCKIDX_EMPTY)
          (L.SFS_BLOCKTBL_OFF + tbl L d (ent_first_block ent 0) * 2) L.SFS_BLOCKIDX_EMPTY)
        path (cleared_entry L ent) off pb) := by
  have hnone : findFrom (fun i => !(load_dir L d junk (ent_first_block ent 0) (i * 64) == 0))
      L.SFS_DIR_NENTRIES 0 = none :=
    findFrom_eq_none (fun k _ hk => by simp [hempty k (by omega)])
  simp only [sfs_rmdir, hres, hnone]
  rfl

theorem load_dir_apply {L : Layout} (hL : L.WF) (d : Disk) (junk : Mem) (fb x : Nat)
    (hx : x < 2 * L.SFS_BLOCK_SIZE) :
    load_dir L d junk fb x = if x < L.SFS_BLOCK_SIZE
      then d (L.SFS_DATA_OFF + fb * L.SFS_BLOCK_SIZE + x)
      else d (L.SFS_DATA_OFF + tbl L d fb * L.SFS_BLOCK_SIZE + (x - L.SFS_BLOCK_SIZE)) := by
  have h64 : L.SFS_BLOCK_SIZE / 64 * 64 = L.SFS_BLOCK_SIZE := by
    have := hL.bs_dvd
    omega
  unfold load_dir disk_read
  simp only [h64]
  split
  · rw [blit_out (by omega), blit_in (by omega) (by omega)]
    congr 1
  · rw [blit_in (by omega) (by omega)]
    rfl

theorem dir_size_eq {L : Layout} (hL : L.WF) : L.SFS_DIR_SIZE = 2 * L.SFS_BLOCK_SIZE := by
  have := hL.bs_dvd
  unfold Layout.SFS_DIR_SIZE Layout.SFS_DIR_NENTRIES
  omega
/-! ### Chains, by index -/

theorem Chain.to_index {L : Layout} {d : Disk} : ∀ {bs : List Nat} {first : Nat},
    Chain L d first bs → first = bs.getD 0 L.SFS_BLOCKIDX_END ∧
      ∀ i, i < bs.length → bs.getD i 0 < L.SFS_BLOCKTBL_NENTRIES ∧
        bs.getD i 0 ≠ L.SFS_BLOCKIDX_END ∧
        tbl L d (bs.getD i 0) = bs.getD (i + 1) L.SFS_BLOCKIDX_END
  | [], _, h => ⟨h, fun i hi => by simp at hi⟩
  | b :: bs, _, h => by
    obtain ⟨h1, h2, h3, h4⟩ := h
    obtain ⟨e1, e2⟩ := Chain.to_index h4
    refine ⟨by simpa using h1, fun i hi => ?_⟩
    cases i with
    | zero =>
      simp only [List.getD_cons_zero, List.getD_cons_succ]
      exact ⟨h3, h2, e1⟩
    | succ i =>
      simp only [List.getD_cons_succ]
      exact e2 i (by simpa using hi)

theorem Chain.of_index {L : Layout} {d : Disk} : ∀ {bs : List Nat} {first : Nat},
    first = bs.getD 0 L.SFS_BLOCKIDX_END →
    (∀ i, i < bs.length → bs.getD i 0 < L.SFS_BLOCKTBL_NENTRIES ∧
        bs.getD i 0 ≠ L.SFS_BLOCKIDX_END ∧
        tbl L d (bs.getD i 0) = bs.getD (i + 1) L.SFS_BLOCKIDX_END) →
    Chain L d first bs
  | [], _, h, _ => h
  | b :: bs, _, h, hi => by
    have h0 := hi 0 (by simp)
    simp only [List.getD_cons_zero, Nat.zero_add, List.getD_cons_succ] at h0
    refine ⟨by simpa using h, h0.2.1, h0.1, Chain.of_index h0.2.2 (fun i hlt => ?_)⟩
    have := hi (i + 1) (by simpa using hlt)
    simp only [List.getD_cons_succ] at this
    exact this

theorem nth_block_succ (L : Layout) (d : Disk) (first : Nat) : ∀ (i : Nat),
    nth_block L d first (i + 1) = nth_block L d (tbl L d first) i
  | 0 => rfl
  | i + 1 => by
    show tbl L d (nth_block L d first (i + 1)) = tbl L d (nth_block L d (tbl L d first) i)
    rw [nth_block_succ L d first i]

theorem nth_block_chain {L : Layout} {d : Disk} : ∀ {bs : List Nat} {first : Nat},
    Chain L d first bs → ∀ i, i < bs.length → nth_block L d first i = bs.getD i 0
  | [], _, _, i, hi => by simp at hi
  | b :: bs, _, h, i, hi => by
    obtain ⟨h1, -, -, h4⟩ := h
    cases i with
    | zero => simpa [nth_block] using h1
    | succ i =>
      rw [nth_block_succ, h1, List.getD_cons_succ]
      exact nth_block_chain h4 i (by simpa using hi)

/-! ### The shrinking branch of `sfs_truncate` -/

theorem free_blocks_spec {L : Layout} (blocks : Nat → Nat) (curr : Nat) : ∀ (t : Nat) (d : Disk),
    (∀ j, (∃ i, i < t ∧ j = blocks (curr - (1 + i))) →
      tbl L (free_blocks L blocks curr t d) j = L.SFS_BLOCKIDX_EMPTY % 65536) ∧
    (∀ a, (∀ i, i < t → a ≠ L.SFS_BLOCKTBL_OFF + blocks (curr - (1 + i)) * 2 ∧
        a ≠ L.SFS_BLOCKTBL_OFF + blocks (curr - (1 + i)) * 2 + 1) →
      free_blocks L blocks curr t d a = d a)
  | 0, d => ⟨fun j ⟨i, hi, _⟩ => by omega, fun _ _ => rfl⟩
  | t + 1, d => by
    obtain ⟨ih1, ih2⟩ := free_blocks_spec blocks curr t d
    constructor
    · rintro j ⟨i, hi, rfl⟩
      show tbl L (write_idx _ _ _) _ = _
      rw [tbl_write_idx]
      split
      · rfl
      · apply ih1
        refine ⟨i, ?_, rfl⟩
        have : i ≠ t := by rintro rfl; simp_all
        omega
    · intro a ha
      show write_idx _ _ _ a = _
      have := ha t (by omega)
      rw [write_idx_apply, if_neg (by omega), if_neg (by omega)]
      exact ih2 a (fun i hi => ha i (by omega))
/-! ### Lists, by index -/

theorem getD_take_lt {l : List Nat} {n i : Nat} (x : Nat) (h : i < n) :
    (l.take n).getD i x = l.getD i x := by
  simp only [List.getD_eq_getElem?_getD, List.getElem?_take_of_lt h]

theorem getD_take_ge {l : List Nat} {n i : Nat} (x : Nat) (h : n ≤ i) :
    (l.take n).getD i x = x := by
  simp only [List.getD_eq_getElem?_getD, List.getElem?_take_eq_none h, Option.getD_none]

theorem getD_lt_default {l : List Nat} {i : Nat} (x y : Nat) (h : i < l.length) :
    l.getD i x = l.getD i y := by
  rw [List.getD_eq_getElem _ _ h, List.getD_eq_getElem _ _ h]

theorem getD_ge {l : List Nat} {i : Nat} (x : Nat) (h : l.length ≤ i) : l.getD i x = x := by
  simp only [List.getD_eq_getElem?_getD, List.getElem?_eq_none h, Option.getD_none]

theorem getD_mem {l : List Nat} {i : Nat} (x : Nat) (h : i < l.length) : l.getD i x ∈ l := by
  rw [List.getD_eq_getElem _ _ h]
  exact List.getElem_mem h

theorem nodup_getD_inj {l : List Nat} (hn : l.Nodup) {i j : Nat} (hi : i < l.length)
    (hj : j < l.length) (h : l.getD i 0 = l.getD j 0) : i = j := by
  rw [List.getD_eq_getElem _ _ hi, List.getD_eq_getElem _ _ hj] at h
  exact (hn.getElem_inj_iff).mp h

theorem mem_iff_getD {l : List Nat} {x : Nat} : x ∈ l ↔ ∃ i, i < l.length ∧ l.getD i 0 = x := by
  constructor
  · intro h
    obtain ⟨i, hi, rfl⟩ := List.getElem_of_mem h
    exact ⟨i, hi, List.getD_eq_getElem _ _ hi⟩
  · rintro ⟨i, hi, rfl⟩
    exact getD_mem 0 hi

/-! ### The shrinking branch, on a chain -/

theorem truncate_shrink_spec {L : Layout} (hL : L.WF) (d : Disk) (ent : Mem) (bs : List Nat)
    (need size : Nat) (hch : Chain L d (ent_first_block ent 0) bs) (hneed : need < bs.length)
    (hsz : size = 0 ↔ need = 0) :
    ∃ ent1 d1, truncate_shrink L d ent bs.length need size = some (ent1, d1) ∧
      Chain L d1 (ent_first_block ent1 0) (bs.take need) ∧
      (∀ k, k < 62 → ent1 k = ent k) ∧
      (∀ m, need ≤ m → m < bs.length → tbl L d1 (bs.getD m 0) = L.SFS_BLOCKIDX_EMPTY) ∧
      (∀ a, (∀ m, need - 1 ≤ m → m < bs.length →
          a ≠ L.SFS_BLOCKTBL_OFF + bs.getD m 0 * 2 ∧
          a ≠ L.SFS_BLOCKTBL_OFF + bs.getD m 0 * 2 + 1) → d1 a = d a) := by
  have hnd := Chain.nodup hch
  obtain ⟨hidx0, hidx⟩ := Chain.to_index hch
  have hblk := nth_block_chain hch
  have hE : L.SFS_BLOCKIDX_EMPTY % 65536 = L.SFS_BLOCKIDX_EMPTY :=
    Nat.mod_eq_of_lt hL.empty_lt
  have hEnd : L.SFS_BLOCKIDX_END % 65536 = L.SFS_BLOCKIDX_END := Nat.mod_eq_of_lt hL.end_lt
  obtain ⟨f1, f2⟩ := free_blocks_spec (L := L) (nth_block L d (ent_first_block ent 0))
    bs.length (bs.length - need) d
  set D1 := free_blocks L (nth_block L d (ent_first_block ent 0)) bs.length
    (bs.length - need) d with hD1
  -- the freed slots
  have hfreed : ∀ m, need ≤ m → m < bs.length → tbl L D1 (bs.getD m 0)
      = L.SFS_BLOCKIDX_EMPTY := by
    intro m hm1 hm2
    rw [← hE]
    apply f1
    refine ⟨bs.length - 1 - m, by omega, ?_⟩
    rw [hblk _ (by omega)]
    congr 1
    omega
  have hkept : ∀ a, (∀ m, need ≤ m → m < bs.length →
      a ≠ L.SFS_BLOCKTBL_OFF + bs.getD m 0 * 2 ∧
      a ≠ L.SFS_BLOCKTBL_OFF + bs.getD m 0 * 2 + 1) → D1 a = d a := by
    intro a ha
    apply f2
    intro i hi
    rw [hblk _ (by omega)]
    exact ha _ (by omega) (by omega)
  by_cases hs : size = 0
  · have hn0 : need = 0 := hsz.mp hs
    refine ⟨set_first_block ent 0 L.SFS_BLOCKIDX_END, D1, ?_, ?_, ?_, ?_, ?_⟩
    · unfold truncate_shrink
      simp only [hs, ne_eq, not_true_eq_false, if_false]
    · rw [hn0]
      show ent_first_block (set_first_block ent 0 L.SFS_BLOCKIDX_END) 0 = L.SFS_BLOCKIDX_END
      unfold ent_first_block set_first_block
      rw [peek16_poke16, hEnd]
    · intro k hk
      unfold set_first_block
      exact poke16_out (by omega)
    · exact hfreed
    · intro a ha
      exact hkept a (fun m h1 h2 => ha m (by omega) h2)
  · have hn0 : need ≠ 0 := fun h => hs (hsz.mpr h)
    have hidx_eq : bs.length - (1 + (bs.length - need)) = need - 1 := by omega
    refine ⟨ent, write_idx D1 (L.SFS_BLOCKTBL_OFF + bs.getD (need - 1) 0 * 2)
      L.SFS_BLOCKIDX_END, ?_, ?_, fun _ _ => rfl, ?_, ?_⟩
    · unfold truncate_shrink
      simp only [ne_eq, hs, not_false_eq_true, if_true, if_neg hn0, hidx_eq]
      rw [hblk _ (by omega)]
    · apply Chain.of_index
      · rw [hidx0, getD_take_lt _ (by omega)]
      · intro i hi
        have hi2 : i < need := by
          rw [List.length_take] at hi
          omega
        rw [getD_take_lt _ hi2]
        refine ⟨(hidx i (by omega)).1, (hidx i (by omega)).2.1, ?_⟩
        rw [tbl_write_idx]
        by_cases hlast : i = need - 1
        · rw [if_pos (by rw [hlast]), hEnd, getD_take_ge _ (by omega)]
        · have hne : bs.getD i 0 ≠ bs.getD (need - 1) 0 := fun h =>
            hlast (nodup_getD_inj hnd (by omega) (by omega) h)
          rw [if_neg hne, getD_take_lt _ (by omega)]
          rw [← (hidx i (by omega)).2.2]
          apply tbl_congr
          intro a ha1 ha2
          apply hkept
          intro m hm1 hm2
          have hne2 : bs.getD i 0 ≠ bs.getD m 0 := fun h => by
            have := nodup_getD_inj hnd (by omega) hm2 h
            omega
          omega
    · intro m hm1 hm2
      rw [tbl_write_idx]
      have hne : bs.getD m 0 ≠ bs.getD (need - 1) 0 := fun h => by
        have := nodup_getD_inj hnd hm2 (by omega) h
        omega
      rw [if_neg hne]
      exact hfreed m hm1 hm2
    · intro a ha
      have h1 := ha (need - 1) (le_refl _) (by omega)
      rw [write_idx_apply, if_neg h1.1, if_neg h1.2]
      exact hkept a (fun m h1 h2 => ha m (by omega) h2)
/-! ### In-memory arrays of block indices -/

theorem idx_get_idx_set (m : Mem) (k v j : Nat) :
    idx_get (idx_set m k v) j = if j = k then v % 65536 else idx_get m j := by
  unfold idx_get idx_set
  split
  · subst_vars; exact peek16_poke16 _ _ _
  · exact peek16_poke16_ne _ _ _ _ (by omega)

/-! ### The growing branch of `sfs_truncate` -/

theorem find_free_spec (L : Layout) (bt : Mem) (to_add : Nat) : ∀ (n i : Nat) (nb : Mem)
    (found : Nat), found < to_add →
    (∀ k, k < found → idx_get (find_free L bt to_add n i nb found).1 k = idx_get nb k) ∧
    (∀ k, k < ((List.range' i n).filter
        (fun j => idx_get bt j == L.SFS_BLOCKIDX_EMPTY)).length → found + k < to_add →
      idx_get (find_free L bt to_add n i nb found).1 (found + k)
        = ((List.range' i n).filter
            (fun j => idx_get bt j == L.SFS_BLOCKIDX_EMPTY)).getD k 0 % 65536)
  | 0, i, nb, found, _ => by
    constructor
    · intro k _; rfl
    · intro k hk; simp at hk
  | n + 1, i, nb, found, hf => by
    rw [List.range'_succ]
    by_cases he : idx_get bt i = L.SFS_BLOCKIDX_EMPTY
    · have hfilt : (i :: List.range' (i + 1) n).filter
          (fun j => idx_get bt j == L.SFS_BLOCKIDX_EMPTY)
          = i :: (List.range' (i + 1) n).filter
            (fun j => idx_get bt j == L.SFS_BLOCKIDX_EMPTY) := by
        rw [List.filter_cons_of_pos (by simpa using he)]
      rw [hfilt]
      unfold find_free
      rw [if_pos he]
      by_cases hlast : found + 1 = to_add
      · rw [if_pos hlast]
        constructor
        · intro k hk
          show idx_get (idx_set nb found (i % 65536)) k = _
          rw [idx_get_idx_set, if_neg (by omega)]
        · intro k _ hk2
          have hk0 : k = 0 := by omega
          subst hk0
          show idx_get (idx_set nb found (i % 65536)) (found + 0) = _
          rw [idx_get_idx_set, if_pos (by omega)]
          simp
      · rw [if_neg hlast]
        obtain ⟨ih1, ih2⟩ := find_free_spec L bt to_add n (i + 1)
          (idx_set nb found (i % 65536)) (found + 1) (by omega)
        constructor
        · intro k hk
          rw [ih1 k (by omega), idx_get_idx_set, if_neg (by omega)]
        · intro k hk1 hk2
          cases k with
          | zero =>
            show idx_get _ found = _
            rw [ih1 found (by omega), idx_get_idx_set, if_pos rfl]
            simp
          | succ k =>
            have := ih2 k (by simpa using hk1) (by omega)
            rw [List.getD_cons_succ, ← this]
            congr 1
            omega
    · have hfilt : (i :: List.range' (i + 1) n).filter
          (fun j => idx_get bt j == L.SFS_BLOCKIDX_EMPTY)
          = (List.range' (i + 1) n).filter
            (fun j => idx_get bt j == L.SFS_BLOCKIDX_EMPTY) := by
        rw [List.filter_cons_of_neg (by simpa using he)]
      rw [hfilt]
      unfold find_free
      rw [if_neg he]
      exact find_free_spec L bt to_add n (i + 1) nb found hf

theorem free_list_eq (L : Layout) (d : Disk) (junk : Mem) :
    (List.range' 0 L.SFS_BLOCKTBL_NENTRIES).filter
      (fun j => idx_get (disk_read d junk 0 L.SFS_BLOCKTBL_SIZE L.SFS_BLOCKTBL_OFF) j
        == L.SFS_BLOCKIDX_EMPTY) = free_list L d := by
  unfold free_list
  rw [List.range_eq_range']
  apply List.filter_congr
  intro j hj
  rw [idx_get_disk_read_tbl L d junk j (by simpa using hj)]

theorem mem_free_list {L : Layout} {d : Disk} {j : Nat} :
    j ∈ free_list L d ↔ j < L.SFS_BLOCKTBL_NENTRIES ∧ tbl L d j = L.SFS_BLOCKIDX_EMPTY := by
  unfold free_list
  simp

theorem free_list_nodup (L : Layout) (d : Disk) : (free_list L d).Nodup :=
  List.Nodup.filter _ (List.nodup_range _)

theorem last_block_chain {L : Layout} {d : Disk} {bt : Mem}
    (hbt : ∀ j, j < L.SFS_BLOCKTBL_NENTRIES → idx_get bt j = tbl L d j) :
    ∀ (bs : List Nat) (b first fuel : Nat), Chain L d first (b :: bs) → bs.length < fuel →
    last_block L bt fuel first = some ((b :: bs).getD bs.length 0)
  | [], b, first, fuel, h, hf => by
    obtain ⟨f, rfl⟩ : ∃ f, fuel = f + 1 := ⟨fuel - 1, by omega⟩
    obtain ⟨h1, h2, h3, h4⟩ := h
    subst h1
    have h5 : tbl L d first = L.SFS_BLOCKIDX_END := h4
    unfold last_block
    rw [if_neg (by omega), hbt _ h3, if_pos h5]
    rfl
  | c :: bs, b, first, fuel, h, hf => by
    obtain ⟨f, rfl⟩ : ∃ f, fuel = f + 1 := ⟨fuel - 1, by omega⟩
    obtain ⟨h1, h2, h3, h4⟩ := h
    subst h1
    have h5 : tbl L d first ≠ L.SFS_BLOCKIDX_END := h4.1 ▸ h4.2.1
    unfold last_block
    rw [if_neg (by omega), hbt _ h3, if_neg h5,
      last_block_chain hbt bs c _ f h4 (by simp at hf; omega)]
    simp

theorem link_blocks_spec (L : Layout) (nb : Mem) : ∀ (t : Nat) (bt : Mem),
    (∀ i, i < t → idx_get nb i < L.SFS_BLOCKTBL_NENTRIES) →
    (∀ i j, i < t → j < t → idx_get nb i = idx_get nb j → i = j) →
    ∃ bt2, link_blocks L nb t bt = some bt2 ∧
      (∀ i, i < t → idx_get bt2 (idx_get nb i) = idx_get nb (i + 1) % 65536) ∧
      (∀ j, (∀ i, i < t → j ≠ idx_get nb i) → idx_get bt2 j = idx_get bt j)
  | 0, bt, _, _ => ⟨bt, rfl, fun i hi => by omega, fun _ _ => rfl⟩
  | t + 1, bt, hlt, hinj => by
    obtain ⟨bt2, e1, e2, e3⟩ := link_blocks_spec L nb t bt
      (fun i hi => hlt i (by omega)) (fun i j hi hj => hinj i j (by omega) (by omega))
    refine ⟨idx_set bt2 (idx_get nb t) (idx_get nb (t + 1)), ?_, ?_, ?_⟩
    · unfold link_blocks
      rw [e1]
      simp only [if_pos (hlt t (by omega))]
    · intro i hi
      rw [idx_get_idx_set]
      by_cases hit : i = t
      · subst hit; rw [if_pos rfl]
      · have hne : idx_get nb i ≠ idx_get nb t := fun h => hit (hinj i t hi (by omega) h)
        rw [if_neg hne]
        exact e2 i (by omega)
    · intro j hj
      rw [idx_get_idx_set, if_neg (hj t (by omega))]
      exact e3 j (fun i hi => hj i (by omega))
theorem tbl_disk_write_tbl (L : Layout) (d : Disk) (bt : Mem) (j : Nat)
    (hj : j < L.SFS_BLOCKTBL_NENTRIES) :
    tbl L (disk_write d bt 0 L.SFS_BLOCKTBL_SIZE L.SFS_BLOCKTBL_OFF) j = idx_get bt j := by
  unfold tbl read_idx disk_write idx_get Layout.SFS_BLOCKTBL_SIZE
  rw [peek16_blit_in (by omega) (by omega)]
  congr 1
  omega

theorem truncate_grow_spec {L : Layout} (hL : L.WF) (d : Disk) (ent junk : Mem)
    (bs : List Nat) (to_add fuel : Nat)
    (hch : Chain L d (ent_first_block ent 0) bs)
    (halloc : ∀ b ∈ bs, tbl L d b ≠ L.SFS_BLOCKIDX_EMPTY)
    (hpos : 0 < to_add) (hfree : to_add ≤ (free_list L d).length)
    (hfuel : bs.length < fuel) :
    ∃ ent1 d1, truncate_grow L d ent to_add junk fuel = some (ent1, d1) ∧
      Chain L d1 (ent_first_block ent1 0) (bs ++ (free_list L d).take to_add) ∧
      (∀ k, k < 62 → ent1 k = ent k) ∧
      (∀ j, j < L.SFS_BLOCKTBL_NENTRIES → j ∉ (free_list L d).take to_add →
        (bs ≠ [] → j ≠ bs.getD (bs.length - 1) 0) → tbl L d1 j = tbl L d j) ∧
      (∀ a, a < L.SFS_BLOCKTBL_OFF ∨
        L.SFS_BLOCKTBL_OFF + L.SFS_BLOCKTBL_NENTRIES * 2 ≤ a → d1 a = d a) := by
  have hNle := hL.tbl_le
  have hEndge := hL.end_ge
  have hEnd : L.SFS_BLOCKIDX_END % 65536 = L.SFS_BLOCKIDX_END := Nat.mod_eq_of_lt hL.end_lt
  obtain ⟨hidx0, hidx⟩ := Chain.to_index hch
  have hnd := Chain.nodup hch
  set bt := disk_read d junk 0 L.SFS_BLOCKTBL_SIZE L.SFS_BLOCKTBL_OFF with hbt
  have hbt_at : ∀ j, j < L.SFS_BLOCKTBL_NENTRIES → idx_get bt j = tbl L d j :=
    fun j hj => idx_get_disk_read_tbl L d junk j hj
  set nbs := (free_list L d).take to_add with hnbs
  have hnbs_len : nbs.length = to_add := by
    rw [hnbs, List.length_take]; omega
  have hnbs_mem : ∀ k, k < to_add → nbs.getD k 0 < L.SFS_BLOCKTBL_NENTRIES ∧
      tbl L d (nbs.getD k 0) = L.SFS_BLOCKIDX_EMPTY := by
    intro k hk
    have hk2 : k < nbs.length := by rw [hnbs_len]; exact hk
    have : nbs.getD k 0 ∈ free_list L d :=
      List.mem_of_mem_take (getD_mem 0 hk2)
    exact mem_free_list.mp this
  have hnbs_nd : nbs.Nodup := (free_list_nodup L d).sublist (List.take_sublist _ _)
  set newblocks := (find_free L bt to_add L.SFS_BLOCKTBL_NENTRIES 0 junk 0).1 with hnewblocks
  have hnb : ∀ k, k < to_add → idx_get newblocks k = nbs.getD k 0 := by
    intro k hk
    have h2 := (find_free_spec L bt to_add L.SFS_BLOCKTBL_NENTRIES 0 junk 0 hpos).2 k
    rw [hbt, free_list_eq L d junk] at h2
    have h3 := h2 (by omega) (by omega)
    rw [Nat.zero_add, ← hbt, ← hnewblocks] at h3
    rw [h3, hnbs, getD_take_lt _ hk]
    have := hnbs_mem k hk
    rw [hnbs, getD_take_lt _ hk] at this
    omega
  have hnb_lt : ∀ i, i < to_add - 1 → idx_get newblocks i < L.SFS_BLOCKTBL_NENTRIES := by
    intro i hi
    rw [hnb i (by omega)]
    exact (hnbs_mem i (by omega)).1
  have hnb_inj : ∀ i j, i < to_add - 1 → j < to_add - 1 →
      idx_get newblocks i = idx_get newblocks j → i = j := by
    intro i j hi hj h
    rw [hnb i (by omega), hnb j (by omega)] at h
    exact nodup_getD_inj hnbs_nd (by omega) (by omega) h
  -- the chain blocks are not among the new blocks
  have hdisj : ∀ i k, i < bs.length → k < to_add → bs.getD i 0 ≠ nbs.getD k 0 := by
    intro i k hi hk h
    exact halloc _ (getD_mem 0 hi) (h ▸ (hnbs_mem k hk).2)
  -- linking the old tail (or the entry) to the first new block
  have hlinked : ∃ ent1 bt1,
      (if ent_first_block ent 0 ≠ L.SFS_BLOCKIDX_END then
        match last_block L bt fuel (ent_first_block ent 0) with
        | none => none
        | some lastblock => some (ent, idx_set bt lastblock (idx_get newblocks 0))
      else some (set_first_block ent 0 (idx_get newblocks 0), bt)) = some (ent1, bt1) ∧
      (∀ k, k < 62 → ent1 k = ent k) ∧
      ent_first_block ent1 0 = (bs ++ nbs).getD 0 L.SFS_BLOCKIDX_END ∧
      (∀ j, j < L.SFS_BLOCKTBL_NENTRIES → idx_get bt1 j
        = if bs ≠ [] ∧ j = bs.getD (bs.length - 1) 0 then nbs.getD 0 0 else tbl L d j) := by
    cases bs with
    | nil =>
      have h0 : ent_first_block ent 0 = L.SFS_BLOCKIDX_END := hch
      refine ⟨set_first_block ent 0 (idx_get newblocks 0), bt, ?_, ?_, ?_, ?_⟩
      · rw [if_neg (by simp [h0])]
      · intro k hk
        unfold set_first_block
        exact poke16_out (by omega)
      · unfold ent_first_block set_first_block
        rw [peek16_poke16, hnb 0 hpos, List.nil_append,
          getD_lt_default L.SFS_BLOCKIDX_END 0 (by omega)]
        have := (hnbs_mem 0 hpos).1
        omega
      · intro j hj
        rw [if_neg (by simp)]
        exact hbt_at j hj
    | cons b bs1 =>
      have h0 : ent_first_block ent 0 ≠ L.SFS_BLOCKIDX_END := hch.1 ▸ hch.2.1
      have hlast := last_block_chain hbt_at bs1 b _ fuel hch (by simp at hfuel; omega)
      refine ⟨ent, idx_set bt ((b :: bs1).getD bs1.length 0) (idx_get newblocks 0),
        ?_, fun _ _ => rfl, ?_, ?_⟩
      · rw [if_pos h0, hlast]
      · rw [hidx0, List.getD_append _ _ _ _ (by simp)]
      · intro j hj
        rw [idx_get_idx_set, hnb 0 hpos]
        have hl : (b :: bs1).length - 1 = bs1.length := by simp
        rw [hl]
        by_cases hjl : j = (b :: bs1).getD bs1.length 0
        · rw [if_pos hjl, if_pos ⟨by simp, hjl⟩]
          have := (hnbs_mem 0 hpos).1
          omega
        · rw [if_neg hjl, if_neg (fun h => hjl h.2)]
          exact hbt_at j hj
  obtain ⟨ent1, bt1, hl1, hl2, hl3, hl4⟩ := hlinked
  obtain ⟨bt2, e1, e2, e3⟩ := link_blocks_spec L newblocks (to_add - 1) bt1 hnb_lt hnb_inj
  have hlastlt : idx_get newblocks (to_add - 1) < L.SFS_BLOCKTBL_NENTRIES := by
    rw [hnb _ (by omega)]
    exact (hnbs_mem _ (by omega)).1
  set d1 := disk_write d (idx_set bt2 (idx_get newblocks (to_add - 1)) L.SFS_BLOCKIDX_END) 0
    L.SFS_BLOCKTBL_SIZE L.SFS_BLOCKTBL_OFF with hd1
  have htA : tbl L d1 (nbs.getD (to_add - 1) 0) = L.SFS_BLOCKIDX_END := by
    rw [hd1, tbl_disk_write_tbl L _ _ _ (hnbs_mem _ (by omega)).1, idx_get_idx_set,
      hnb _ (by omega), if_pos rfl, hEnd]
  have htB : ∀ i, i < to_add - 1 → tbl L d1 (nbs.getD i 0) = nbs.getD (i + 1) 0 := by
    intro i hi
    have hne : nbs.getD i 0 ≠ nbs.getD (to_add - 1) 0 := fun h => by
      have := nodup_getD_inj hnbs_nd (by omega) (by omega) h
      omega
    rw [hd1, tbl_disk_write_tbl L _ _ _ (hnbs_mem _ (by omega)).1, idx_get_idx_set,
      hnb _ (by omega), if_neg hne]
    have := e2 i hi
    rw [hnb i (by omega), hnb (i + 1) (by omega)] at this
    rw [this]
    have := (hnbs_mem (i + 1) (by omega)).1
    omega
  have htC : ∀ j, j < L.SFS_BLOCKTBL_NENTRIES → (∀ k, k < to_add → j ≠ nbs.getD k 0) →
      tbl L d1 j = if bs ≠ [] ∧ j = bs.getD (bs.length - 1) 0 then nbs.getD 0 0
        else tbl L d j := by
    intro j hj hne
    rw [hd1, tbl_disk_write_tbl L _ _ _ hj, idx_get_idx_set, hnb _ (by omega),
      if_neg (hne _ (by omega)), e3 j (fun i hi => by rw [hnb i (by omega)]; exact hne i (by omega))]
    exact hl4 j hj
  refine ⟨ent1, d1, ?_, ?_, hl2, ?_, ?_⟩
  · unfold truncate_grow
    simp only [← hbt, ← hnewblocks, hl1, e1, if_pos hlastlt]
  · apply Chain.of_index hl3
    intro i hi
    rw [List.length_append, hnbs_len] at hi
    by_cases him : i < bs.length
    · rw [List.getD_append _ _ _ _ him]
      refine ⟨(hidx i him).1, (hidx i him).2.1, ?_⟩
      rw [htC _ (hidx i him).1 (fun k hk => hdisj i k him hk)]
      by_cases hil : i = bs.length - 1
      · have hne : bs ≠ [] := by
          intro h; rw [h] at him; simp at him
        rw [if_pos ⟨hne, by rw [hil]⟩, List.getD_append_right _ _ _ _ (by omega)]
        have : i + 1 - bs.length = 0 := by omega
        rw [this]
        exact getD_lt_default _ _ (by omega)
      · have hne : bs.getD i 0 ≠ bs.getD (bs.length - 1) 0 := fun h =>
          hil (nodup_getD_inj hnd him (by omega) h)
        rw [if_neg (fun h => hne h.2), (hidx i him).2.2, List.getD_append _ _ _ _ (by omega)]
    · rw [List.getD_append_right _ _ _ _ (by omega)]
      have hk : i - bs.length < to_add := by omega
      refine ⟨(hnbs_mem _ hk).1, ?_, ?_⟩
      · have := (hnbs_mem _ hk).1
        omega
      · by_cases hil : i - bs.length = to_add - 1
        · rw [hil, htA, getD_ge _ (by rw [List.length_append, hnbs_len]; omega)]
        · rw [htB _ (by omega), List.getD_append_right _ _ _ _ (by omega)]
          have : i + 1 - bs.length = i - bs.length + 1 := by omega
          rw [this]
          exact getD_lt_default _ _ (by omega)
  · intro j hj hnm hnl
    rw [htC j hj (fun k hk h => hnm (h ▸ getD_mem 0 (by omega)))]
    rw [if_neg (fun h => hnl h.1 h.2)]
  · intro a ha
    rw [hd1]
    unfold disk_write Layout.SFS_BLOCKTBL_SIZE
    exact blit_out (by omega)
/-! ### The entry that is written back -/

theorem peek32_poke32 (m : Mem) (a v : Nat) : peek32 (poke32 m a v) a = v % 4294967296 := by
  unfold peek32 poke32
  have h1 : a + 1 ≠ a := by omega
  have h2 : a + 2 ≠ a := by omega
  have h3 : a + 3 ≠ a := by omega
  simp only [if_true, h1, h2, h3, if_false, Nat.add_right_cancel_iff, Nat.reduceEqDiff]
  omega

theorem ceil_eq_zero (s b : Nat) (hb : 0 < b) : (s + b - 1) / b = 0 ↔ s = 0 := by
  constructor
  · intro h
    have := ceil_mul_ge s b hb
    rw [h] at this
    omega
  · rintro rfl
    exact Nat.div_eq_of_lt (by omega)

/-! ### What a successful `sfs_mkdir` did to the block table -/

/-! ### What a successful `sfs_rmdir` did -/

/-! ### Names -/

theorem cstr_congr {m m' : Mem} : ∀ (n e e' : Nat), (∀ k, k < n → m' (e' + k) = m (e + k)) →
    cstr m' n e' = cstr m n e
  | 0, _, _, _ => rfl
  | n + 1, e, e', h => by
    have h0 : m' e' = m e := by simpa using h 0 (by omega)
    unfold cstr
    rw [h0, cstr_congr n (e + 1) (e' + 1) (fun k hk => by
      have := h (k + 1) (by omega)
      simpa [Nat.add_assoc, Nat.add_comm 1 k] using this)]

theorem cstr_zero {m : Mem} {n e : Nat} (h : m e = 0) : cstr m n e = [] := by
  cases n with
  | zero => rfl
  | succ n => simp [cstr, h]

theorem cstr_eq_nil {m : Mem} {n e : Nat} (hn : 0 < n) (h : cstr m n e = []) : m e = 0 := by
  cases n with
  | zero => omega
  | succ n =>
    unfold cstr at h
    by_contra hne
    simp [hne] at h

theorem cstr_of : ∀ (s : List Nat) (m : Mem) (n e : Nat),
    (∀ k, k < s.length → m (e + k) = s.getD k 0) → m (e + s.length) = 0 → 0 ∉ s →
    s.length < n → cstr m n e = s
  | [], m, n, e, _, h0, _, _ => cstr_zero (by simpa using h0)
  | c :: cs, m, n, e, h, h0, hz, hn => by
    obtain ⟨n1, rfl⟩ : ∃ n1, n = n1 + 1 := ⟨n - 1, by simp at hn; omega⟩
    have hc : m e = c := by simpa using h 0 (by simp)
    have hcz : c ≠ 0 := fun e0 => hz (e0 ▸ List.mem_cons_self _ _)
    unfold cstr
    rw [hc, if_neg hcz, cstr_of cs m n1 (e + 1)
      (fun k hk => by
        have := h (k + 1) (by simpa using hk)
        simpa [Nat.add_assoc, Nat.add_comm 1 k] using this)
      (by simpa [Nat.add_assoc, Nat.add_comm 1] using h0)
      (fun hm => hz (List.mem_cons_of_mem _ hm)) (by simp at hn; omega)]

theorem strcmp0_of_cstr : ∀ (s : List Nat) (m : Mem) (n e : Nat),
    cstr m n e = s → s.length < n → strcmp0 s m e = true
  | [], m, n, e, h, hn => by
    simpa [strcmp0] using cstr_eq_nil hn h
  | c :: cs, m, n, e, h, hn => by
    obtain ⟨n1, rfl⟩ : ∃ n1, n = n1 + 1 := ⟨n - 1, by simp at hn; omega⟩
    unfold cstr at h
    by_cases hz : m e = 0
    · simp [hz] at h
    · rw [if_neg hz] at h
      simp only [List.cons.injEq] at h
      unfold strcmp0
      rw [h.1, strcmp0_of_cstr cs m n1 (e + 1) h.2 (by simp at hn; omega)]
      simp

theorem strcmp0_congr : ∀ (s : List Nat) (m m' : Mem) (e e' : Nat),
    (∀ k, k ≤ s.length → m' (e' + k) = m (e + k)) → strcmp0 s m' e' = strcmp0 s m e
  | [], m, m', e, e', h => by
    have := h 0 (by simp)
    simp only [Nat.add_zero] at this
    simp [strcmp0, this]
  | c :: cs, m, m', e, e', h => by
    have h0 := h 0 (by simp)
    simp only [Nat.add_zero] at h0
    unfold strcmp0
    rw [h0, strcmp0_congr cs m m' (e + 1) (e' + 1) (fun k hk => by
      have := h (k + 1) (by simpa using hk)
      simpa [Nat.add_assoc, Nat.add_comm 1 k] using this)]

/-! ### Names in the root directory -/

/-! ### What the operations do to the root directory -/

theorem write_root_at (L : Layout) (d : Disk) (buf : Mem) (a : Nat)
    (h1 : L.SFS_ROOTDIR_OFF ≤ a) (h2 : a < L.SFS_ROOTDIR_OFF + L.SFS_ROOTDIR_NENTRIES * 64) :
    disk_write d buf 0 L.SFS_ROOTDIR_SIZE L.SFS_ROOTDIR_OFF a = buf (a - L.SFS_ROOTDIR_OFF) := by
  unfold disk_write Layout.SFS_ROOTDIR_SIZE
  rw [blit_in h1 h2, Nat.zero_add]

theorem last_empty_slot_lt {dir : Mem} : ∀ {n : Nat} {i : Nat},
    last_empty_slot dir n none = some i → i < n
  | 0, i, h => by simp [last_empty_slot] at h
  | n + 1, i, h => by
    unfold last_empty_slot at h
    split at h
    · simp only [Option.some.injEq] at h; omega
    · have := last_empty_slot_lt h; omega

theorem newfile_name (L : Layout) (junk : Mem) (newdir : List Nat) (hz : 0 ∉ newdir)
    (hlen : newdir.length < 58) (m : Mem) (e : Nat)
    (hm : ∀ x, x < 58 → m (e + x) = set_first_block (set_size (strcpy junk 0 newdir) 0 0) 0
      L.SFS_BLOCKIDX_END x) : cstr m 58 e = newdir := by
  apply cstr_of newdir m 58 e _ _ hz hlen
  · intro k hk
    rw [hm k (by omega), fields_out _ _ _ _ _ (by omega)]
    have := strcpy_in junk 0 newdir k hk
    rwa [Nat.zero_add] at this
  · rw [hm _ hlen, fields_out _ _ _ _ _ (by omega)]
    have := strcpy_term junk 0 newdir
    rwa [Nat.zero_add] at this

theorem mkdir_blocks_low {L : Layout} (d : Disk) (junk : Mem) (b1 b2 a : Nat)
    (ha : a < L.SFS_BLOCKTBL_OFF) (hL : L.WF) : mkdir_blocks L d junk b1 b2 a = d a := by
  have := hL.tbl_data
  exact mkdir_blocks_tbl_byte d junk b1 b2 a (by omega) (by omega) (by omega)

theorem new_dir_entry_cstr (dir : Mem) (i : Nat) (name : List Nat) (b1 : Nat)
    (hz : 0 ∉ name) (hlen : name.length < 58) (m : Mem) (e : Nat)
    (hm : ∀ x, x < 58 → m (e + x) = new_dir_entry dir i name b1 (i * 64 + x)) :
    cstr m 58 e = name := by
  apply cstr_of name m 58 e _ _ hz hlen
  · intro k hk
    rw [hm k (by omega)]
    exact new_dir_entry_name dir i name b1 k hlen hk
  · rw [hm _ hlen]
    exact new_dir_entry_term dir i name b1 hlen

theorem unlink_loop_low {L : Layout} : ∀ (fuel curr : Nat) (d d1 : Disk),
    unlink_loop L fuel curr d = some d1 → ∀ a, a < L.SFS_BLOCKTBL_OFF → d1 a = d a
  | 0, _, _, _, h, _, _ => by simp [unlink_loop] at h
  | fuel + 1, curr, d, d1, h, a, ha => by
    unfold unlink_loop at h
    split at h
    · simp only [Option.some.injEq] at h
      rw [h]
    · rw [unlink_loop_low fuel _ _ d1 h a ha, write_idx_apply, if_neg (by omega),
        if_neg (by omega)]

/-! ### Counting blocks -/

theorem nodup_length_le {l : List Nat} {n : Nat} (hn : l.Nodup) (hlt : ∀ b ∈ l, b < n) :
    l.length ≤ n := by
  have h1 : l.toFinset ⊆ Finset.range n := by
    intro b hb
    rw [List.mem_toFinset] at hb
    exact Finset.mem_range.mpr (hlt b hb)
  have h2 := Finset.card_le_card h1
  rw [List.toFinset_card_of_nodup hn, Finset.card_range] at h2
  exact h2

theorem Chain.length_le {L : Layout} {d : Disk} {bs : List Nat} {first : Nat}
    (h : Chain L d first bs) : bs.length ≤ L.SFS_BLOCKTBL_NENTRIES :=
  nodup_length_le (Chain.nodup h) (Chain.lt h)

/-- A chain of allocated blocks and the free slots share the table. -/
theorem Chain.length_add_free_le {L : Layout} {d : Disk} {bs : List Nat} {first : Nat}
    (h : Chain L d first bs) (halloc : ∀ b ∈ bs, tbl L d b ≠ L.SFS_BLOCKIDX_EMPTY) :
    bs.length + (free_list L d).length ≤ L.SFS_BLOCKTBL_NENTRIES := by
  have hnd : (bs ++ free_list L d).Nodup := by
    rw [List.nodup_append]
    refine ⟨Chain.nodup h, free_list_nodup L d, ?_⟩
    intro b hb hf
    exact halloc b hb (mem_free_list.mp hf).2
  have := nodup_length_le hnd (fun b hb => by
    rcases List.mem_append.mp hb with hb | hb
    · exact Chain.lt h b hb
    · exact (mem_free_list.mp hb).1)
  rw [List.length_append] at this
  exact this

theorem size_le_of_ceil {s b n N : Nat} (hb : 0 < b) (hn : (s + b - 1) / b ≤ n) (hN : n ≤ N) :
    s ≤ N * b := by
  have h1 := ceil_mul_ge s b hb
  have h2 : (s + b - 1) / b * b ≤ N * b := Nat.mul_le_mul_right b (le_trans hn hN)
  omega

/-! ### Paths: parent and child -/

theorem get_child_append : ∀ (pre name : List Nat), 47 ∉ name →
    get_child (pre ++ 47 :: name) = some name
  | [], name, h => get_child_root name h
  | c :: cs, name, h => by
    show get_child (c :: (cs ++ 47 :: name)) = some name
    simp only [get_child, get_child_append cs name h]

theorem get_parent_noslash : ∀ (s : List Nat), 47 ∉ s → get_parent s = none
  | [], _ => rfl
  | c :: cs, h => by
    have hc : c ≠ 47 := fun e => h (e ▸ List.mem_cons_self _ _)
    have hcs : 47 ∉ cs := fun e => h (List.mem_cons_of_mem _ e)
    simp [get_parent, get_parent_noslash cs hcs, hc]

theorem get_parent_append : ∀ (pre name : List Nat), 47 ∉ name →
    get_parent (pre ++ 47 :: name) = some pre
  | [], name, h => by
    simp [get_parent, get_parent_noslash name h]
  | c :: cs, name, h => by
    show get_parent (c :: (cs ++ 47 :: name)) = some (c :: cs)
    simp only [get_parent, get_parent_append cs name h]

/-! ### Return values -/

theorem sfs_mkdir_ret {L : Layout} {d : Disk} {path : List Nat} {junk : Mem} {r : Int}
    {d' : Disk} (h : sfs_mkdir L d path junk = some (r, d')) :
    (r = -ENAMETOOLONG ∧ d' = d ∧ ∃ name, get_child path = some name ∧ 58 ≤ name.length) ∨
      r = -1 ∨ r = 0 ∨ r = -ENOENT := by
  unfold sfs_mkdir at h
  split at h
  · exact absurd h (by simp)
  · rename_i name hname
    split at h
    · rename_i hlen
      simp only [Option.some.injEq, Prod.mk.injEq] at h
      exact Or.inl ⟨h.1.symm, h.2.symm, name, hname, hlen⟩
    · simp only at h
      split at h
      · simp only [Option.some.injEq, Prod.mk.injEq] at h
        exact Or.inr (Or.inl h.1.symm)
      · split at h
        · split at h
          · exact absurd h (by simp)
          · simp only [Option.some.injEq, Prod.mk.injEq] at h
            exact Or.inr (Or.inr (Or.inl h.1.symm))
        · split at h
          · exact absurd h (by simp)
          · split at h
            · exact absurd h (by simp)
            · simp only [Option.some.injEq, Prod.mk.injEq] at h
              exact Or.inr (Or.inr (Or.inr h.1.symm))
            · split at h
              · exact absurd h (by simp)
              · simp only [Option.some.injEq, Prod.mk.injEq] at h
                exact Or.inr (Or.inr (Or.inl h.1.symm))

theorem sfs_create_ret {L : Layout} {d : Disk} {path : List Nat} {junk : Mem}
    {stale : Option Nat} {r : Int} {d' : Disk}
    (h : sfs_create L d path junk stale = some (r, d')) :
    (r = -ENAMETOOLONG ∧ d' = d ∧ ∃ name, get_child path = some name ∧ 58 ≤ name.length) ∨
      r = -1 ∨ r = 0 ∨ r = -ENOENT := by
  unfold sfs_create at h
  split at h
  · exact absurd h (by simp)
  · rename_i name hname
    split at h
    · rename_i hlen
      simp only [Option.some.injEq, Prod.mk.injEq] at h
      exact Or.inl ⟨h.1.symm, h.2.symm, name, hname, hlen⟩
    · simp only at h
      split at h
      · split at h
        · simp only [Option.some.injEq, Prod.mk.injEq] at h
          exact Or.inr (Or.inl h.1.symm)
        · split at h
          · simp only [Option.some.injEq, Prod.mk.injEq] at h
            exact Or.inr (Or.inr (Or.inl h.1.symm))
          · exact absurd h (by simp)
      · split at h
        · exact absurd h (by simp)
        · split at h
          · exact absurd h (by simp)
          · simp only [Option.some.injEq, Prod.mk.injEq] at h
            exact Or.inr (Or.inr (Or.inr h.1.symm))
          · split at h
            · simp only [Option.some.injEq, Prod.mk.injEq] at h
              exact Or.inr (Or.inl h.1.symm)
            · split at h
              · simp only [Option.some.injEq, Prod.mk.injEq] at h
                exact Or.inr (Or.inr (Or.inl h.1.symm))
              · exact absurd h (by simp)

theorem sfs_truncate_ret {L : Layout} {d : Disk} {path : List Nat} {size : Nat} {junk : Mem}
    {fuel : Nat} {r : Int} {d' : Disk}
    (h : sfs_truncate L d path size junk fuel = some (r, d')) :
    r = 0 ∨ (r = -ENOENT ∧ d' = d) := by
  unfold sfs_truncate at h
  split at h
  · exact absurd h (by simp)
  · simp only [Option.some.injEq, Prod.mk.injEq] at h
    exact Or.inr ⟨h.1.symm, h.2.symm⟩
  · simp only at h
    split at h
    · exact absurd h (by simp)
    · simp only [Option.some.injEq, Prod.mk.injEq] at h
      exact Or.inl h.1.symm

/-! ### The resolver in terms of the directory reached -/

theorem get_entry_rec_cons2 (L : Layout) (d : Disk) (junk : Mem) (t x : List Nat)
    (xs : List (List Nat)) (par : Mem) (n pb : Nat) :
    get_entry_rec L d junk (t :: x :: xs) par n pb =
      match findFrom (fun i => strcmp0 t par (i * 64)) n 0 with
      | none => some Lookup.enoent
      | some i =>
        get_entry_rec L d junk (x :: xs) (load_dir L d junk (ent_first_block par (i * 64)))
          L.SFS_DIR_NENTRIES (ent_first_block par (i * 64)) := by
  rw [get_entry_rec]

theorem get_entry_rec_reached {L : Layout} {d : Disk} {junk : Mem} :
    ∀ (pre : List (List Nat)) (c : List Nat) (par : Mem) (n pb : Nat),
    get_entry_rec L d junk (pre ++ [c]) par n pb =
      match reached L d junk pre par n pb with
      | none => some Lookup.enoent
      | some (par1, n1, pb1) =>
        match findFrom (fun i => strcmp0 c par1 (i * 64)) n1 0 with
        | none => some Lookup.enoent
        | some j => some (Lookup.found (blit junk 0 par1 (j * 64) 64) j pb1)
  | [], c, par, n, pb => by
    simp only [List.nil_append, get_entry_rec, reached]
  | t :: ts, c, par, n, pb => by
    obtain ⟨x, xs, hx⟩ : ∃ x xs, ts ++ [c] = x :: xs := by
      cases ts with
      | nil => exact ⟨c, [], rfl⟩
      | cons y ys => exact ⟨y, ys ++ [c], rfl⟩
    show get_entry_rec L d junk (t :: (ts ++ [c])) par n pb = _
    rw [hx, get_entry_rec_cons2]
    simp only [reached]
    cases findFrom (fun i => strcmp0 t par (i * 64)) n 0 with
    | none => rfl
    | some i =>
      simp only []
      rw [← hx]
      exact get_entry_rec_reached ts c _ _ _

theorem get_entry_rec_missing {L : Layout} {d : Disk} {junk : Mem} :
    ∀ (pre : List (List Nat)) (c : List Nat) (post : List (List Nat)) (par : Mem) (n pb : Nat)
      (par1 : Mem) (n1 pb1 : Nat),
    reached L d junk pre par n pb = some (par1, n1, pb1) →
    (∀ i, i < n1 → strcmp0 c par1 (i * 64) = false) →
    get_entry_rec L d junk (pre ++ c :: post) par n pb = some Lookup.enoent
  | [], c, post, par, n, pb, par1, n1, pb1, hr, hm => by
    simp only [reached, Option.some.injEq, Prod.mk.injEq] at hr
    obtain ⟨rfl, rfl, rfl⟩ := hr
    have hnone : findFrom (fun i => strcmp0 c par (i * 64)) n 0 = none :=
      findFrom_eq_none (fun k _ h2 => hm k (by omega))
    simp only [List.nil_append, get_entry_rec, hnone]
  | t :: ts, c, post, par, n, pb, par1, n1, pb1, hr, hm => by
    obtain ⟨x, xs, hx⟩ : ∃ x xs, ts ++ c :: post = x :: xs := by
      cases ts with
      | nil => exact ⟨c, post, rfl⟩
      | cons y ys => exact ⟨y, ys ++ c :: post, rfl⟩
    show get_entry_rec L d junk (t :: (ts ++ c :: post)) par n pb = _
    rw [hx, get_entry_rec_cons2]
    simp only [reached] at hr
    cases hf : findFrom (fun i => strcmp0 t par (i * 64)) n 0 with
    | none => rfl
    | some i =>
      rw [hf] at hr
      simp only [] at hr ⊢
      rw [← hx]
      exact get_entry_rec_missing ts c post _ _ _ par1 n1 pb1 hr hm

theorem dir_bit (s : Nat) : SFS_DIRECTORY &&& s ≠ 0 ↔ s.testBit 31 = true := by
  have h31 : SFS_DIRECTORY = 2 ^ 31 := by decide
  rw [h31]
  constructor
  · intro h
    by_contra hb
    apply h
    apply Nat.eq_of_testBit_eq
    intro i
    rw [Nat.testBit_and, Nat.testBit_two_pow, Nat.zero_testBit]
    by_cases hi : 31 = i
    · subst hi
      simp at hb
      simp [hb]
    · simp [hi]
  · intro h e
    have := Nat.testBit_and (2 ^ 31) s 31
    rw [e, Nat.zero_testBit, Nat.testBit_two_pow_self, h] at this
    simp at this

/-! ### Tokens of a path and of its parent -/

theorem tokens_aux_append_slash : ∀ (xs ys cur : List Nat),
    tokens_aux (xs ++ 47 :: ys) cur = tokens_aux xs cur ++ tokens_aux ys []
  | [], ys, cur => by
    simp only [List.nil_append, tokens_aux, if_true]
    by_cases hc : cur = []
    · simp [hc]
    · simp [hc]
  | c :: cs, ys, cur => by
    have eL : tokens_aux (c :: (cs ++ 47 :: ys)) cur =
        if c = 47 then (if cur = [] then tokens_aux (cs ++ 47 :: ys) []
          else cur :: tokens_aux (cs ++ 47 :: ys) [])
        else tokens_aux (cs ++ 47 :: ys) (cur ++ [c]) := rfl
    have eR : tokens_aux (c :: cs) cur =
        if c = 47 then (if cur = [] then tokens_aux cs [] else cur :: tokens_aux cs [])
        else tokens_aux cs (cur ++ [c]) := rfl
    show tokens_aux (c :: (cs ++ 47 :: ys)) cur = _
    rw [eL, eR]
    by_cases hc : c = 47
    · simp only [hc, if_true]
      by_cases hcur : cur = []
      · simp only [hcur, if_true]
        exact tokens_aux_append_slash cs ys []
      · simp only [hcur, if_false, List.cons_append]
        rw [tokens_aux_append_slash cs ys []]
    · simp only [hc, if_false]
      exact tokens_aux_append_slash cs ys _

theorem tokens_snoc (pp name : List Nat) (hns : 47 ∉ name) (hne : name ≠ []) :
    tokens (pp ++ 47 :: name) = tokens pp ++ [name] := by
  unfold tokens
  rw [tokens_aux_append_slash, tokens_aux_noslash name [] hns]
  simp [hne]

theorem tokens_append_slash (pp : List Nat) : tokens (pp ++ [47]) = tokens pp := by
  unfold tokens
  rw [tokens_aux_append_slash]
  simp [tokens_aux]

theorem in_root_append (pp name : List Nat) (hns : 47 ∉ name) :
    in_root (pp ++ 47 :: name) = true ↔ 47 ∉ pp := by
  unfold in_root
  rw [List.count_append, List.count_cons_self, List.count_eq_zero_of_not_mem hns]
  simp only [Nat.zero_add, beq_iff_eq, Nat.add_eq_right]
  exact List.count_eq_zero

/-! ### What the resolver reads -/

theorem load_dir_congr {L : Layout} {d d' : Disk} (junk : Mem) (b : Nat)
    (ht : tbl L d' b = tbl L d b)
    (h1 : ∀ x, x < L.SFS_BLOCK_SIZE →
      d' (L.SFS_DATA_OFF + b * L.SFS_BLOCK_SIZE + x) = d (L.SFS_DATA_OFF + b * L.SFS_BLOCK_SIZE + x))
    (h2 : ∀ x, x < L.SFS_BLOCK_SIZE →
      d' (L.SFS_DATA_OFF + tbl L d b * L.SFS_BLOCK_SIZE + x)
        = d (L.SFS_DATA_OFF + tbl L d b * L.SFS_BLOCK_SIZE + x)) :
    load_dir L d' junk b = load_dir L d junk b := by
  funext a
  have ht' : read_idx d' (L.SFS_BLOCKTBL_OFF + b * 2) = read_idx d (L.SFS_BLOCKTBL_OFF + b * 2) :=
    ht
  have hn : read_idx d (L.SFS_BLOCKTBL_OFF + b * 2) = tbl L d b := rfl
  simp only [load_dir, disk_read, ht', hn]
  by_cases ha : L.SFS_BLOCK_SIZE / 64 * 64 ≤ a ∧ a < L.SFS_BLOCK_SIZE / 64 * 64 + L.SFS_BLOCK_SIZE
  · rw [blit_in ha.1 ha.2, blit_in ha.1 ha.2]
    exact h2 _ (by omega)
  · rw [blit_out (o := L.SFS_BLOCK_SIZE / 64 * 64) (by omega),
      blit_out (o := L.SFS_BLOCK_SIZE / 64 * 64) (by omega)]
    by_cases hb : a < L.SFS_BLOCK_SIZE
    · rw [blit_in (Nat.zero_le _) (by omega), blit_in (Nat.zero_le _) (by omega)]
      simpa using h1 a hb
    · rw [blit_out (by omega), blit_out (by omega)]

theorem dirs_loaded_cons2 (L : Layout) (d : Disk) (junk : Mem) (t x : List Nat)
    (xs : List (List Nat)) (par : Mem) (n : Nat) :
    dirs_loaded L d junk (t :: x :: xs) par n =
      match findFrom (fun i => strcmp0 t par (i * 64)) n 0 with
      | none => []
      | some i =>
        ent_first_block par (i * 64) ::
          dirs_loaded L d junk (x :: xs) (load_dir L d junk (ent_first_block par (i * 64)))
            L.SFS_DIR_NENTRIES := by
  rw [dirs_loaded]

theorem get_entry_rec_frame {L : Layout} {d d' : Disk} {junk : Mem} :
    ∀ (ts : List (List Nat)) (par : Mem) (n pb : Nat),
    (∀ b ∈ dirs_loaded L d junk ts par n, load_dir L d' junk b = load_dir L d junk b) →
    get_entry_rec L d' junk ts par n pb = get_entry_rec L d junk ts par n pb ∧
      dirs_loaded L d' junk ts par n = dirs_loaded L d junk ts par n
  | [], _, _, _, _ => ⟨rfl, rfl⟩
  | [t], par, n, pb, _ => by
    simp only [get_entry_rec, dirs_loaded, and_self]
  | t :: x :: xs, par, n, pb, h => by
    rw [get_entry_rec_cons2, get_entry_rec_cons2, dirs_loaded_cons2, dirs_loaded_cons2]
    rw [dirs_loaded_cons2] at h
    cases hf : findFrom (fun i => strcmp0 t par (i * 64)) n 0 with
    | none => exact ⟨rfl, rfl⟩
    | some i =>
      rw [hf] at h
      simp only [] at h ⊢
      have hl := h _ (List.mem_cons_self _ _)
      rw [hl]
      have ih := get_entry_rec_frame (x :: xs) (load_dir L d junk (ent_first_block par (i * 64)))
        L.SFS_DIR_NENTRIES (ent_first_block par (i * 64))
        (fun b hb => h b (List.mem_cons_of_mem _ hb))
      exact ⟨ih.1, by rw [ih.2]⟩

theorem ent_first_block_copy (junk par : Mem) (o : Nat) :
    ent_first_block (blit junk 0 par o 64) 0 = ent_first_block par o := by
  unfold ent_first_block
  rw [peek16_blit_in (Nat.zero_le _) (by omega)]

theorem ent_size_copy (junk par : Mem) (o : Nat) :
    ent_size (blit junk 0 par o 64) 0 = ent_size par o := by
  unfold ent_size peek32
  rw [blit_in (Nat.zero_le _) (by omega), blit_in (Nat.zero_le _) (by omega),
    blit_in (Nat.zero_le _) (by omega), blit_in (Nat.zero_le _) (by omega)]

theorem get_entry_rec_found_reached {L : Layout} {d : Disk} {junk : Mem} :
    ∀ (ts : List (List Nat)) (par : Mem) (n pb : Nat) (pent : Mem) (poff ppb : Nat),
    get_entry_rec L d junk ts par n pb = some (Lookup.found pent poff ppb) →
    reached L d junk ts par n pb = some (load_dir L d junk (ent_first_block pent 0),
      L.SFS_DIR_NENTRIES, ent_first_block pent 0)
  | [], _, _, _, _, _, _, h => by simp [get_entry_rec] at h
  | [t], par, n, pb, pent, poff, ppb, h => by
    obtain ⟨hf, he, -⟩ := get_entry_rec_single h
    simp only [reached, hf]
    rw [he, ent_first_block_copy]
  | t :: x :: xs, par, n, pb, pent, poff, ppb, h => by
    rw [get_entry_rec_cons2] at h
    rw [reached]
    cases hf : findFrom (fun i => strcmp0 t par (i * 64)) n 0 with
    | none => rw [hf] at h; simp at h
    | some i =>
      rw [hf] at h
      simp only [] at h ⊢
      exact get_entry_rec_found_reached (x :: xs) _ _ _ pent poff ppb h

theorem get_entry_child {L : Layout} {d : Disk} {junk : Mem} {pp name : List Nat}
    {pent : Mem} {poff ppb : Nat}
    (hres : get_entry L d pp junk = some (Lookup.found pent poff ppb))
    (hns : 47 ∉ name) (hne : name ≠ []) :
    get_entry L d (pp ++ 47 :: name) junk =
      match findFrom (fun i => strcmp0 name (load_dir L d junk (ent_first_block pent 0)) (i * 64))
          L.SFS_DIR_NENTRIES 0 with
      | none => some Lookup.enoent
      | some j => some (Lookup.found
          (blit junk 0 (load_dir L d junk (ent_first_block pent 0)) (j * 64) 64) j
          (ent_first_block pent 0)) := by
  unfold get_entry at hres ⊢
  rw [tokens_snoc pp name hns hne, get_entry_rec_reached,
    get_entry_rec_found_reached _ _ _ _ pent poff ppb hres]

theorem root_buf_congr {L : Layout} {d d' : Disk} (junk : Mem)
    (h : ∀ a, L.SFS_ROOTDIR_OFF ≤ a → a < L.SFS_ROOTDIR_OFF + L.SFS_ROOTDIR_NENTRIES * 64 →
      d' a = d a) : root_buf L d' junk = root_buf L d junk := by
  funext x
  unfold root_buf disk_read Layout.SFS_ROOTDIR_SIZE
  by_cases hx : x < L.SFS_ROOTDIR_NENTRIES * 64
  · rw [blit_in (Nat.zero_le _) (by omega), blit_in (Nat.zero_le _) (by omega)]
    exact h _ (by omega) (by omega)
  · rw [blit_out (by omega), blit_out (by omega)]

theorem get_entry_frame {L : Layout} {d d' : Disk} {junk : Mem} {path : List Nat}
    (hroot : ∀ a, L.SFS_ROOTDIR_OFF ≤ a → a < L.SFS_ROOTDIR_OFF + L.SFS_ROOTDIR_NENTRIES * 64 →
      d' a = d a)
    (hdirs : ∀ b ∈ dirs_loaded L d junk (tokens path) (root_buf L d junk) L.SFS_ROOTDIR_NENTRIES,
      load_dir L d' junk b = load_dir L d junk b) :
    get_entry L d' path junk = get_entry L d path junk ∧
      dirs_loaded L d' junk (tokens path) (root_buf L d' junk) L.SFS_ROOTDIR_NENTRIES
        = dirs_loaded L d junk (tokens path) (root_buf L d junk) L.SFS_ROOTDIR_NENTRIES := by
  have hb := root_buf_congr junk hroot
  have h := get_entry_rec_frame (tokens path) (root_buf L d junk) L.SFS_ROOTDIR_NENTRIES
    (peek16 junk 0) hdirs
  constructor
  · show get_entry_rec L d' junk (tokens path) (root_buf L d' junk) _ _ = _
    rw [hb]
    exact h.1
  · rw [hb]
    exact h.2

theorem block_disjoint {BS b c x y : Nat} (hbc : b ≠ c) (hx : x < BS) (hy : y < BS) :
    b * BS + x ≠ c * BS + y := by
  rcases Nat.lt_or_gt_of_ne hbc with h | h
  · have := Nat.mul_le_mul_right BS (Nat.succ_le_of_lt h)
    rw [Nat.succ_mul] at this
    omega
  · have := Nat.mul_le_mul_right BS (Nat.succ_le_of_lt h)
    rw [Nat.succ_mul] at this
    omega

theorem write_back_apply (D : Disk) (buf buf1 : Mem) (B len k : Nat)
    (hbuf : ∀ x, x < len → buf x = D (B + x))
    (hupd : ∀ x, x < k * 64 ∨ k * 64 + 64 ≤ x → buf1 x = buf x)
    (hk : k * 64 + 64 ≤ len) (a : Nat) :
    disk_write D buf1 0 len B a =
      if B + k * 64 ≤ a ∧ a < B + k * 64 + 64 then buf1 (a - B) else D a := by
  unfold disk_write
  by_cases hin : B ≤ a ∧ a < B + len
  · rw [blit_in hin.1 hin.2, Nat.zero_add]
    by_cases hs : B + k * 64 ≤ a ∧ a < B + k * 64 + 64
    · rw [if_pos hs]
    · rw [if_neg hs, hupd _ (by omega), hbuf _ (by omega)]
      congr 1
      omega
  · rw [blit_out (by omega), if_neg (by omega)]

theorem lookup_new {name : List Nat} {par par1 : Mem} {n k : Nat} (hk : k < n)
    (hlen : name.length < 58)
    (hsame : ∀ x, x < k * 64 ∨ k * 64 + 64 ≤ x → par1 x = par x)
    (hnone : findFrom (fun i => strcmp0 name par (i * 64)) n 0 = none)
    (hnew : strcmp0 name par1 (k * 64) = true) :
    findFrom (fun i => strcmp0 name par1 (i * 64)) n 0 = some k := by
  apply findFrom_first (p := fun i => strcmp0 name par1 (i * 64)) (Nat.zero_le _) (by omega)
    hnew
  intro j _ hj
  have h0 := findFrom_none hnone j (Nat.zero_le _) (by omega)
  simp only at h0 ⊢
  rw [← h0]
  apply strcmp0_congr
  intro x hx
  exact hsame _ (by omega)

/-! ### Creating and removing a file -/

theorem last_empty_slot_some (dir : Mem) (init : Option Nat) : ∀ {n : Nat},
    (∃ j, j < n ∧ dir (j * 64) = 0) →
    ∃ k, last_empty_slot dir n init = some k ∧ k < n ∧ dir (k * 64) = 0
  | 0, ⟨_, hj, _⟩ => absurd hj (Nat.not_lt_zero _)
  | n + 1, ⟨j, hj, h0⟩ => by
    unfold last_empty_slot
    by_cases hn : dir (n * 64) = 0
    · exact ⟨n, by simp [hn], by omega, hn⟩
    · have hjn : j ≠ n := fun e => hn (e ▸ h0)
      obtain ⟨k, hk1, hk2, hk3⟩ := last_empty_slot_some dir init (n := n) ⟨j, by omega, h0⟩
      exact ⟨k, by simp [hn, hk1], by omega, hk3⟩

theorem unlink_loop_end (L : Layout) (d : Disk) {fuel : Nat} (h : 0 < fuel) :
    unlink_loop L fuel L.SFS_BLOCKIDX_END d = some d := by
  obtain ⟨f, rfl⟩ : ∃ f, fuel = f + 1 := ⟨fuel - 1, by omega⟩
  simp [unlink_loop]

theorem load_dir_adj {L : Layout} (hL : L.WF) (d : Disk) (junk : Mem) (b x : Nat)
    (hadj : tbl L d b = b + 1) (hx : x < 2 * L.SFS_BLOCK_SIZE) :
    load_dir L d junk b x = d (L.SFS_DATA_OFF + b * L.SFS_BLOCK_SIZE + x) := by
  rw [load_dir_apply hL d junk b x hx, hadj]
  split
  · rfl
  · congr 1
    rw [Nat.succ_mul]
    omega

theorem new_file_entry_strcmp (L : Layout) (junk : Mem) (name : List Nat)
    (hlen : name.length < 58) (m : Mem) (e : Nat)
    (hm : ∀ x, x < 58 → m (e + x) = new_file_entry L junk name x) :
    strcmp0 name m e = true := by
  apply strcmp0_of_eq
  · intro k hk
    rw [hm k (by omega)]
    unfold new_file_entry
    rw [fields_out _ _ _ _ _ (by omega)]
    have := strcpy_in junk 0 name k hk
    rwa [Nat.zero_add] at this
  · rw [hm _ hlen]
    unfold new_file_entry
    rw [fields_out _ _ _ _ _ (by omega)]
    have := strcpy_term junk 0 name
    rwa [Nat.zero_add] at this

theorem new_file_entry_first_block {L : Layout} (hL : L.WF) (junk : Mem) (name : List Nat) :
    ent_first_block (new_file_entry L junk name) 0 = L.SFS_BLOCKIDX_END := by
  unfold ent_first_block new_file_entry set_first_block
  rw [peek16_poke16]
  exact Nat.mod_eq_of_lt hL.end_lt

/-! ### Directory listings -/

theorem c_str_hole {m m1 : Mem} {h : Nat}
    (hagree : ∀ a, a ≤ h ∨ h + 64 ≤ a → m1 a = m a) (h0 : m h = 0) :
    ∀ (n e : Nat), e ≤ h ∨ h + 64 ≤ e → c_str m1 n e = c_str m n e
  | 0, _, _ => rfl
  | n + 1, e, he => by
    unfold c_str
    rw [hagree e he]
    by_cases hz : m e = 0
    · simp only [hz, if_true]
    · simp only [hz, if_false]
      have hne : e ≠ h := fun e1 => hz (e1 ▸ h0)
      rw [c_str_hole hagree h0 n (e + 1) (by omega)]

theorem readdir_loop_congr {dir dir1 : Mem} {size : Nat}
    (filler : List (List Nat) → List Nat → Int)
    (hs : ∀ i, c_str dir1 (size - i * 64) (i * 64) = c_str dir (size - i * 64) (i * 64)) :
    ∀ (cnt i : Nat) (names : List (List Nat)) (err : Int),
    readdir_loop dir1 size filler cnt i names err = readdir_loop dir size filler cnt i names err
  | 0, _, _, _ => rfl
  | cnt + 1, i, names, err => by
    unfold readdir_loop
    rw [hs i]
    cases c_str dir (size - i * 64) (i * 64) with
    | none => rfl
    | some s =>
      cases s with
      | nil => exact readdir_loop_congr filler hs cnt (i + 1) names err
      | cons c cs => exact readdir_loop_congr filler hs cnt (i + 1) _ _

theorem readdir_loop_hole {dir dir1 : Mem} {size k : Nat}
    (filler : List (List Nat) → List Nat → Int)
    (hagree : ∀ a, a ≤ k * 64 ∨ k * 64 + 64 ≤ a → dir1 a = dir a) (h0 : dir (k * 64) = 0)
    (cnt i : Nat) (names : List (List Nat)) (err : Int) :
    readdir_loop dir1 size filler cnt i names err = readdir_loop dir size filler cnt i names err :=
  readdir_loop_congr filler (fun i => c_str_hole hagree h0 _ _ (by
    rcases Nat.lt_or_ge k i with h | h
    · right; omega
    · left; omega)) cnt i names err

theorem slot_write (d : Disk) (buf e : Mem) (B len k : Nat)
    (hbuf : ∀ x, x < len → buf x = d (B + x)) (hk : k * 64 + 64 ≤ len) (a : Nat) :
    disk_write d (blit buf (k * 64) e 0 64) 0 len B a =
      if B + k * 64 ≤ a ∧ a < B + k * 64 + 64 then e (a - (B + k * 64)) else d a := by
  rw [write_back_apply d buf _ B len k hbuf (fun x hx => blit_out (by omega)) hk a]
  by_cases hs : B + k * 64 ≤ a ∧ a < B + k * 64 + 64
  · rw [if_pos hs, if_pos hs, blit_in (by omega) (by omega), Nat.zero_add]
    congr 1
    omega
  · rw [if_neg hs, if_neg hs]

theorem root_buf_apply (L : Layout) (d : Disk) (junk : Mem) (x : Nat) :
    root_buf L d junk x = if x < L.SFS_ROOTDIR_NENTRIES * 64 then d (L.SFS_ROOTDIR_OFF + x)
      else junk x := by
  unfold root_buf disk_read Layout.SFS_ROOTDIR_SIZE
  split
  · rw [blit_in (Nat.zero_le _) (by omega)]
    simp
  · rw [blit_out (by omega)]

theorem ent_first_block_congr {m m1 : Mem} {e e1 : Nat}
    (h : ∀ x, x < 64 → m1 (e1 + x) = m (e + x)) : ent_first_block m1 e1 = ent_first_block m e := by
  unfold ent_first_block peek16
  have h62 := h 62 (by omega)
  have h63 := h 63 (by omega)
  simp only [Nat.add_assoc] at h62 h63 ⊢
  rw [h62, h63]

theorem ent_size_congr {m m1 : Mem} {e e1 : Nat}
    (h : ∀ x, x < 64 → m1 (e1 + x) = m (e + x)) : ent_size m1 e1 = ent_size m e := by
  unfold ent_size peek32
  have h58 := h 58 (by omega)
  have h59 := h 59 (by omega)
  have h60 := h 60 (by omega)
  have h61 := h 61 (by omega)
  simp only [Nat.add_assoc] at h58 h59 h60 h61 ⊢
  rw [h58, h59, h60, h61]

theorem write_entry_apply (L : Layout) (d : Disk) (path : List Nat) (e : Mem) (off pb a : Nat) :
    write_entry L d path e off pb a =
      if entry_off L path off pb ≤ a ∧ a < entry_off L path off pb + 64
      then e (a - entry_off L path off pb) else d a := by
  unfold write_entry entry_off disk_write
  by_cases hr : in_root path = true
  · simp only [hr, if_true]
    split
    · rename_i h
      rw [blit_in h.1 h.2, Nat.zero_add]
    · rename_i h
      rw [blit_out (by omega)]
  · simp only [hr, if_false, Bool.false_eq_true]
    split
    · rename_i h
      rw [blit_in h.1 h.2, Nat.zero_add]
    · rename_i h
      rw [blit_out (by omega)]

theorem get_entry_root_none {L : Layout} {d : Disk} {junk : Mem} {name : List Nat}
    (hns : 47 ∉ name)
    (hmiss : get_entry L d (47 :: name) junk = some Lookup.enoent) :
    name ≠ [] ∧ findFrom (fun i => strcmp0 name (root_buf L d junk) (i * 64))
      L.SFS_ROOTDIR_NENTRIES 0 = none := by
  have hne : name ≠ [] := by
    rintro rfl
    have h0 : tokens [47] = [] := by decide
    simp [get_entry, h0, get_entry_rec] at hmiss
  refine ⟨hne, ?_⟩
  unfold get_entry at hmiss
  rw [tokens_root name hns hne] at hmiss
  unfold get_entry_rec at hmiss
  cases hf : findFrom (fun i => strcmp0 name (root_buf L d junk) (i * 64))
    L.SFS_ROOTDIR_NENTRIES 0 with
  | none => rfl
  | some i =>
    unfold root_buf at hf
    rw [hf] at hmiss
    simp at hmiss

theorem create_unlink_root {L : Layout} (hL : L.WF) (d : Disk) (junk : Mem)
    (stale : Option Nat) (fuel : Nat) (hfuel : 0 < fuel) (name : List Nat) (hns : 47 ∉ name)
    (hlen : name.length < 58)
    (hmiss : get_entry L d (47 :: name) junk = some Lookup.enoent)
    (hfree : ∃ j, j < L.SFS_ROOTDIR_NENTRIES ∧ d (L.SFS_ROOTDIR_OFF + j * 64) = 0) :
    ∃ d1 d2 k, k < L.SFS_ROOTDIR_NENTRIES ∧
      sfs_create L d (47 :: name) junk stale = some (0, d1) ∧
      sfs_unlink L d1 (47 :: name) junk fuel = some (0, d2) ∧
      d (L.SFS_ROOTDIR_OFF + k * 64) = 0 ∧ d2 (L.SFS_ROOTDIR_OFF + k * 64) = 0 ∧
      ∀ a, a < L.SFS_ROOTDIR_OFF + k * 64 ∨ L.SFS_ROOTDIR_OFF + k * 64 + 64 ≤ a → d2 a = d a := by
  obtain ⟨hne, hnone⟩ := get_entry_root_none hns hmiss
  obtain ⟨j, hj, hj0⟩ := hfree
  obtain ⟨k, hk1, hk2, hk3⟩ := last_empty_slot_some (root_buf L d junk) stale
    (n := L.SFS_ROOTDIR_NENTRIES) ⟨j, hj, by rw [root_buf_apply, if_pos (by omega)]; exact hj0⟩
  rw [root_buf_apply, if_pos (by omega)] at hk3
  have hroot : in_root (47 :: name) = true := (in_root_cons name).mpr hns
  -- the image after `create`
  have hd1 : ∀ a, disk_write d (blit (root_buf L d junk) (k * 64) (new_file_entry L junk name)
      0 64) 0 (L.SFS_ROOTDIR_NENTRIES * 64) L.SFS_ROOTDIR_OFF a =
      if L.SFS_ROOTDIR_OFF + k * 64 ≤ a ∧ a < L.SFS_ROOTDIR_OFF + k * 64 + 64
      then new_file_entry L junk name (a - (L.SFS_ROOTDIR_OFF + k * 64)) else d a :=
    slot_write d _ _ _ _ k
      (fun x hx => by rw [root_buf_apply, if_pos hx]) (by omega)
  generalize hD1 : disk_write d (blit (root_buf L d junk) (k * 64) (new_file_entry L junk name)
      0 64) 0 (L.SFS_ROOTDIR_NENTRIES * 64) L.SFS_ROOTDIR_OFF = d1 at hd1
  have hcreate : sfs_create L d (47 :: name) junk stale = some (0, d1) := by
    unfold root_buf at hk1
    simp only [sfs_create, get_child_root name hns, ge_iff_le,
      if_neg (show ¬ 58 ≤ name.length by omega), hroot, if_true, hk1, if_pos hk2]
    rw [← hD1]
    rfl
  -- the lookup of the new name
  have hslot : ∀ x, x < 64 → root_buf L d1 junk (k * 64 + x) = new_file_entry L junk name x := by
    intro x hx
    rw [root_buf_apply, if_pos (by omega), hd1, if_pos (by omega)]
    congr 1
    omega
  have hfind : findFrom (fun i => strcmp0 name (root_buf L d1 junk) (i * 64))
      L.SFS_ROOTDIR_NENTRIES 0 = some k := by
    apply lookup_new hk2 hlen _ hnone
    · exact new_file_entry_strcmp L junk name hlen _ _ (fun x hx => hslot x (by omega))
    · intro x hx
      rw [root_buf_apply, root_buf_apply]
      split
      · rw [hd1, if_neg (by omega)]
      · rfl
  have hget := get_entry_root_found L d1 name junk k hns hne hfind
  have hfb : ent_first_block (blit junk 0 (disk_read d1 junk 0 L.SFS_ROOTDIR_SIZE
      L.SFS_ROOTDIR_OFF) (k * 64) 64) 0 = L.SFS_BLOCKIDX_END := by
    rw [ent_first_block_copy, ← new_file_entry_first_block hL junk name]
    exact ent_first_block_congr (fun x hx => by
      rw [Nat.zero_add]
      exact hslot x hx)
  have hunlink : sfs_unlink L d1 (47 :: name) junk fuel = some (0,
      write_entry L d1 (47 :: name) (cleared_entry L (blit junk 0 (disk_read d1 junk 0
        L.SFS_ROOTDIR_SIZE L.SFS_ROOTDIR_OFF) (k * 64) 64)) k (peek16 junk 0)) := by
    simp only [sfs_unlink, hget, hfb, unlink_loop_end L d1 hfuel]
  have hoff : entry_off L (47 :: name) k (peek16 junk 0) = L.SFS_ROOTDIR_OFF + k * 64 := by
    simp only [entry_off, hroot, if_true]
  refine ⟨d1, _, k, hk2, hcreate, hunlink, hk3, ?_, ?_⟩
  · rw [write_entry_apply, hoff, if_pos (by omega), cleared_entry_apply]
    simp
  · intro a ha
    rw [write_entry_apply, hoff, if_neg (by omega), hd1, if_neg (by omega)]

/-! ### The blocks of the directories on a path -/

theorem mem_dir_blocks (L : Layout) (d : Disk) : ∀ (bs : List Nat) (c : Nat), c ∈ bs →
    c ∈ dir_blocks L d bs ∧ tbl L d c ∈ dir_blocks L d bs
  | [], _, h => by simp at h
  | b :: bs, c, h => by
    rcases List.mem_cons.mp h with rfl | h
    · simp [dir_blocks]
    · have := mem_dir_blocks L d bs c h
      simp [dir_blocks, this.1, this.2]

theorem dir_blocks_nodup_last (L : Layout) (d : Disk) (pe : Nat) : ∀ (anc : List Nat),
    (dir_blocks L d (anc ++ [pe])).Nodup →
    ∀ b ∈ anc, b ≠ pe ∧ b ≠ tbl L d pe ∧ tbl L d b ≠ pe ∧ tbl L d b ≠ tbl L d pe
  | [], _, b, hb => by simp at hb
  | c :: anc, hnd, b, hb => by
    have hpe := mem_dir_blocks L d (anc ++ [pe]) pe (by simp)
    simp only [List.cons_append, dir_blocks, List.nodup_cons, List.mem_cons, not_or] at hnd
    obtain ⟨⟨-, hc1⟩, hc2, hnd⟩ := hnd
    rcases List.mem_cons.mp hb with rfl | hb
    · refine ⟨?_, ?_, ?_, ?_⟩
      · rintro rfl; exact hc1 hpe.1
      · intro e; exact hc1 (e ▸ hpe.2)
      · intro e; exact hc2 (e ▸ hpe.1)
      · intro e; exact hc2 (e ▸ hpe.2)
    · exact dir_blocks_nodup_last L d pe anc hnd b hb

theorem path_blocks_found {L : Layout} {d : Disk} {junk : Mem} {pp : List Nat} {pent : Mem}
    {poff ppb : Nat} (hres : get_entry L d pp junk = some (Lookup.found pent poff ppb)) :
    path_blocks L d junk pp = dir_blocks L d (dirs_loaded L d junk (tokens pp)
      (root_buf L d junk) L.SFS_ROOTDIR_NENTRIES ++ [ent_first_block pent 0]) := by
  simp only [path_blocks, hres]

theorem load_dir_adj_apply {L : Layout} (hL : L.WF) (d : Disk) (junk : Mem) (b x : Nat)
    (hadj : tbl L d b = b + 1) :
    load_dir L d junk b x = if x < 2 * L.SFS_BLOCK_SIZE
      then d (L.SFS_DATA_OFF + b * L.SFS_BLOCK_SIZE + x) else junk x := by
  split
  · rename_i hx
    exact load_dir_adj hL d junk b x hadj hx
  · rename_i hx
    have h64 : L.SFS_BLOCK_SIZE / 64 * 64 = L.SFS_BLOCK_SIZE := by
      have := hL.bs_dvd
      omega
    unfold load_dir disk_read
    simp only [h64]
    rw [blit_out (by omega), blit_out (by omega)]

theorem frame_parent {L : Layout} (hL : L.WF) {d : Disk} (d1 : Disk) {junk : Mem} {pp : List Nat}
    {pent : Mem} {poff ppb : Nat}
    (hres : get_entry L d pp junk = some (Lookup.found pent poff ppb))
    (hadj : tbl L d (ent_first_block pent 0) = ent_first_block pent 0 + 1)
    (hnd : (path_blocks L d junk pp).Nodup)
    (hvalid : ∀ b ∈ path_blocks L d junk pp, b < L.SFS_BLOCKTBL_NENTRIES)
    (hagree : ∀ a, a < L.SFS_DATA_OFF + ent_first_block pent 0 * L.SFS_BLOCK_SIZE ∨
      L.SFS_DATA_OFF + ent_first_block pent 0 * L.SFS_BLOCK_SIZE + 2 * L.SFS_BLOCK_SIZE ≤ a →
      d1 a = d a) :
    get_entry L d1 pp junk = some (Lookup.found pent poff ppb) ∧
      tbl L d1 (ent_first_block pent 0) = ent_first_block pent 0 + 1 := by
  have hrt := hL.root_tbl
  have htd := hL.tbl_data
  rw [path_blocks_found hres] at hnd hvalid
  have hpe := mem_dir_blocks L d _ (ent_first_block pent 0)
    (List.mem_append_right (dirs_loaded L d junk (tokens pp) (root_buf L d junk)
      L.SFS_ROOTDIR_NENTRIES) (List.mem_singleton_self _))
  have hpelt := hvalid _ hpe.1
  have htbl : ∀ b, b < L.SFS_BLOCKTBL_NENTRIES → tbl L d1 b = tbl L d b := fun b hb =>
    tbl_congr (fun a h1 h2 => hagree a (by omega))
  have hblock : ∀ b, b ≠ ent_first_block pent 0 → b ≠ ent_first_block pent 0 + 1 →
      ∀ x, x < L.SFS_BLOCK_SIZE → d1 (L.SFS_DATA_OFF + b * L.SFS_BLOCK_SIZE + x)
        = d (L.SFS_DATA_OFF + b * L.SFS_BLOCK_SIZE + x) := by
    intro b hb1 hb2 x hx
    apply hagree
    rcases Nat.lt_or_gt_of_ne hb1 with h | h
    · have := Nat.mul_le_mul_right L.SFS_BLOCK_SIZE (Nat.succ_le_of_lt h)
      rw [Nat.succ_mul] at this
      omega
    · have : ent_first_block pent 0 + 2 ≤ b := by omega
      have := Nat.mul_le_mul_right L.SFS_BLOCK_SIZE this
      rw [Nat.add_mul] at this
      omega
  refine ⟨?_, by rw [htbl _ hpelt, hadj]⟩
  rw [← hres]
  refine (get_entry_frame (fun a h1 h2 => hagree a (by omega)) (fun b hb => ?_)).1
  obtain ⟨h1, h2, h3, h4⟩ := dir_blocks_nodup_last L d _ _ hnd b hb
  rw [hadj] at h2 h4
  have hb' := mem_dir_blocks L d _ b (List.mem_append_left [ent_first_block pent 0] hb)
  exact load_dir_congr junk b (htbl b (hvalid _ hb'.1)) (hblock b h1 h2) (hblock _ h3 h4)

theorem get_entry_child_none {L : Layout} {d : Disk} {junk : Mem} {pp name : List Nat}
    {pent : Mem} {poff ppb : Nat}
    (hres : get_entry L d pp junk = some (Lookup.found pent poff ppb))
    (hns : 47 ∉ name)
    (hmiss : get_entry L d (pp ++ 47 :: name) junk = some Lookup.enoent) :
    name ≠ [] ∧ findFrom (fun i => strcmp0 name (load_dir L d junk (ent_first_block pent 0))
      (i * 64)) L.SFS_DIR_NENTRIES 0 = none := by
  have hne : name ≠ [] := by
    rintro rfl
    unfold get_entry at hmiss hres
    rw [tokens_append_slash, hres] at hmiss
    simp at hmiss
  refine ⟨hne, ?_⟩
  rw [get_entry_child hres hns hne] at hmiss
  cases hf : findFrom (fun i => strcmp0 name (load_dir L d junk (ent_first_block pent 0))
    (i * 64)) L.SFS_DIR_NENTRIES 0 with
  | none => rfl
  | some i =>
    rw [hf] at hmiss
    simp at hmiss

theorem create_unlink_sub {L : Layout} (hL : L.WF) (d : Disk) (junk : Mem)
    (stale : Option Nat) (fuel : Nat) (hfuel : 0 < fuel) (pp name : List Nat) (pent : Mem)
    (poff ppb : Nat) (hin : 47 ∈ pp) (hns : 47 ∉ name) (hlen : name.length < 58)
    (hres : get_entry L d pp junk = some (Lookup.found pent poff ppb))
    (hadj : tbl L d (ent_first_block pent 0) = ent_first_block pent 0 + 1)
    (hnd : (path_blocks L d junk pp).Nodup)
    (hvalid : ∀ b ∈ path_blocks L d junk pp, b < L.SFS_BLOCKTBL_NENTRIES)
    (hmiss : get_entry L d (pp ++ 47 :: name) junk = some Lookup.enoent)
    (hfree : ∃ j, j < L.SFS_DIR_NENTRIES ∧
      d (L.SFS_DATA_OFF + ent_first_block pent 0 * L.SFS_BLOCK_SIZE + j * 64) = 0) :
    ∃ d1 d2 k, k < L.SFS_DIR_NENTRIES ∧
      sfs_create L d (pp ++ 47 :: name) junk stale = some (0, d1) ∧
      sfs_unlink L d1 (pp ++ 47 :: name) junk fuel = some (0, d2) ∧
      d (L.SFS_DATA_OFF + ent_first_block pent 0 * L.SFS_BLOCK_SIZE + k * 64) = 0 ∧
      d2 (L.SFS_DATA_OFF + ent_first_block pent 0 * L.SFS_BLOCK_SIZE + k * 64) = 0 ∧
      ∀ a, a < L.SFS_DATA_OFF + ent_first_block pent 0 * L.SFS_BLOCK_SIZE + k * 64 ∨
        L.SFS_DATA_OFF + ent_first_block pent 0 * L.SFS_BLOCK_SIZE + k * 64 + 64 ≤ a →
        d2 a = d a := by
  obtain ⟨hne, hnone⟩ := get_entry_child_none hres hns hmiss
  have hds := dir_size_eq hL
  have hdn : L.SFS_DIR_SIZE = L.SFS_DIR_NENTRIES * 64 := rfl
  generalize hpe : ent_first_block pent 0 = pe at *
  generalize hB : L.SFS_DATA_OFF + pe * L.SFS_BLOCK_SIZE = B at *
  obtain ⟨j, hj, hj0⟩ := hfree
  have hbuf : ∀ x, x < L.SFS_DIR_SIZE → load_dir L d junk pe x = d (B + x) := by
    intro x hx
    rw [load_dir_adj hL d junk pe x hadj (by omega), hB]
  obtain ⟨k, hk1, hk2, hk3⟩ := last_empty_slot_some (load_dir L d junk pe) stale
    (n := L.SFS_DIR_NENTRIES) ⟨j, hj, by rw [hbuf _ (by omega)]; exact hj0⟩
  rw [hbuf _ (by omega)] at hk3
  have hroot : in_root (pp ++ 47 :: name) = false := by
    have := (in_root_append pp name hns).not.mpr (by simpa using hin)
    simpa using this
  -- the image after `create`
  have hd1 : ∀ a, disk_write d (blit (load_dir L d junk pe) (k * 64) (new_file_entry L junk name)
      0 64) 0 L.SFS_DIR_SIZE B a =
      if B + k * 64 ≤ a ∧ a < B + k * 64 + 64
      then new_file_entry L junk name (a - (B + k * 64)) else d a :=
    slot_write d _ _ _ _ k hbuf (by omega)
  generalize hD1 : disk_write d (blit (load_dir L d junk pe) (k * 64) (new_file_entry L junk name)
      0 64) 0 L.SFS_DIR_SIZE B = d1 at hd1
  have hcreate : sfs_create L d (pp ++ 47 :: name) junk stale = some (0, d1) := by
    simp only [sfs_create, get_child_append pp name hns, ge_iff_le,
      if_neg (show ¬ 58 ≤ name.length by omega), hroot, get_parent_append pp name hns, hres,
      hpe, hk1, if_pos hk2, Bool.false_eq_true, if_false]
    rw [← hD1, ← hB]
    rfl
  -- the resolution in the new image
  obtain ⟨hres1, hadj1⟩ := frame_parent hL d1 hres (by rw [hpe]; exact hadj) hnd hvalid
    (fun a ha => by
      rw [hpe, hB] at ha
      rw [hd1, if_neg (by omega)])
  rw [hpe] at hadj1
  have hbuf1 : ∀ x, load_dir L d1 junk pe x = if x < 2 * L.SFS_BLOCK_SIZE then d1 (B + x)
      else junk x := by
    intro x
    rw [load_dir_adj_apply hL d1 junk pe x hadj1, hB]
  have hbuf0 : ∀ x, load_dir L d junk pe x = if x < 2 * L.SFS_BLOCK_SIZE then d (B + x)
      else junk x := by
    intro x
    rw [load_dir_adj_apply hL d junk pe x hadj, hB]
  have hslot : ∀ x, x < 64 → load_dir L d1 junk pe (k * 64 + x) = new_file_entry L junk name x := by
    intro x hx
    rw [hbuf1, if_pos (by omega), hd1, if_pos (by omega)]
    congr 1
    omega
  have hfind : findFrom (fun i => strcmp0 name (load_dir L d1 junk pe) (i * 64))
      L.SFS_DIR_NENTRIES 0 = some k := by
    apply lookup_new hk2 hlen _ hnone
    · exact new_file_entry_strcmp L junk name hlen _ _ (fun x hx => hslot x (by omega))
    · intro x hx
      rw [hbuf1, hbuf0]
      split
      · rw [hd1, if_neg (by omega)]
      · rfl
  have hget : get_entry L d1 (pp ++ 47 :: name) junk = some (Lookup.found
      (blit junk 0 (load_dir L d1 junk pe) (k * 64) 64) k pe) := by
    rw [get_entry_child hres1 hns hne, hpe, hfind]
  have hfb : ent_first_block (blit junk 0 (load_dir L d1 junk pe) (k * 64) 64) 0
      = L.SFS_BLOCKIDX_END := by
    rw [ent_first_block_copy, ← new_file_entry_first_block hL junk name]
    exact ent_first_block_congr (fun x hx => by
      rw [Nat.zero_add]
      exact hslot x hx)
  have hunlink : sfs_unlink L d1 (pp ++ 47 :: name) junk fuel = some (0,
      write_entry L d1 (pp ++ 47 :: name) (cleared_entry L (blit junk 0 (load_dir L d1 junk pe)
        (k * 64) 64)) k pe) := by
    simp only [sfs_unlink, hget, hfb, unlink_loop_end L d1 hfuel]
  have hoff : entry_off L (pp ++ 47 :: name) k pe = B + k * 64 := by
    simp only [entry_off, hroot, hB, Bool.false_eq_true, if_false]
  refine ⟨d1, _, k, hk2, hcreate, hunlink, hk3, ?_, ?_⟩
  · rw [write_entry_apply, hoff, if_pos (by omega), cleared_entry_apply]
    simp
  · intro a ha
    rw [write_entry_apply, hoff, if_neg (by omega), hd1, if_neg (by omega)]

theorem readdir_root_same {L : Layout} {d d2 : Disk} (junk : Mem) {k : Nat}
    (hk : k < L.SFS_ROOTDIR_NENTRIES)
    (h0 : d (L.SFS_ROOTDIR_OFF + k * 64) = 0) (h2 : d2 (L.SFS_ROOTDIR_OFF + k * 64) = 0)
    (hagree : ∀ a, a < L.SFS_ROOTDIR_OFF + k * 64 ∨ L.SFS_ROOTDIR_OFF + k * 64 + 64 ≤ a →
      d2 a = d a)
    (filler : List (List Nat) → List Nat → Int) (err : Int) :
    sfs_readdir L d2 [47] junk filler err = sfs_readdir L d [47] junk filler err := by
  simp only [sfs_readdir, if_true]
  apply readdir_loop_hole (k := k) filler
  · intro a ha
    show root_buf L d2 junk a = root_buf L d junk a
    rw [root_buf_apply, root_buf_apply]
    split
    · by_cases hk : a = k * 64
      · rw [hk, h0, h2]
      · exact hagree _ (by omega)
    · rfl
  · show root_buf L d junk (k * 64) = 0
    rw [root_buf_apply]
    split
    · exact h0
    · rename_i hx
      exact absurd (show k * 64 < L.SFS_ROOTDIR_NENTRIES * 64 by omega) hx

theorem readdir_sub_same {L : Layout} (hL : L.WF) {d d2 : Disk} (junk : Mem) {pp : List Nat}
    {pent : Mem} {poff ppb k : Nat}
    (hres : get_entry L d pp junk = some (Lookup.found pent poff ppb))
    (hadj : tbl L d (ent_first_block pent 0) = ent_first_block pent 0 + 1)
    (hnd : (path_blocks L d junk pp).Nodup)
    (hvalid : ∀ b ∈ path_blocks L d junk pp, b < L.SFS_BLOCKTBL_NENTRIES)
    (hk : k < L.SFS_DIR_NENTRIES)
    (h0 : d (L.SFS_DATA_OFF + ent_first_block pent 0 * L.SFS_BLOCK_SIZE + k * 64) = 0)
    (h2 : d2 (L.SFS_DATA_OFF + ent_first_block pent 0 * L.SFS_BLOCK_SIZE + k * 64) = 0)
    (hagree : ∀ a, a < L.SFS_DATA_OFF + ent_first_block pent 0 * L.SFS_BLOCK_SIZE + k * 64 ∨
        L.SFS_DATA_OFF + ent_first_block pent 0 * L.SFS_BLOCK_SIZE + k * 64 + 64 ≤ a →
        d2 a = d a)
    (filler : List (List Nat) → List Nat → Int) (err : Int) :
    sfs_readdir L d2 pp junk filler err = sfs_readdir L d pp junk filler err := by
  have hds := dir_size_eq hL
  have hdn : L.SFS_DIR_SIZE = L.SFS_DIR_NENTRIES * 64 := rfl
  have hroot : pp ≠ [47] := by
    rintro rfl
    have h0 : tokens [47] = [] := by decide
    simp [get_entry, h0, get_entry_rec] at hres
  obtain ⟨hres2, hadj2⟩ := frame_parent hL d2 hres hadj hnd hvalid
    (fun a ha => hagree a (by omega))
  simp only [sfs_readdir, if_neg hroot, hres, hres2]
  apply readdir_loop_hole (k := k) filler
  · intro a ha
    rw [load_dir_adj_apply hL d2 junk _ a hadj2, load_dir_adj_apply hL d junk _ a hadj]
    split
    · by_cases hka : a = k * 64
      · rw [hka, h0, h2]
      · exact hagree _ (by omega)
    · rfl
  · rw [load_dir_adj_apply hL d junk _ _ hadj, if_pos (by omega)]
    exact h0

/-! ### The frame of the resolver, by blocks -/

theorem block_outside_pair {BS D b c x : Nat} (h1 : b ≠ c) (h2 : b ≠ c + 1) (hx : x < BS) :
    D + b * BS + x < D + c * BS ∨ D + c * BS + 2 * BS ≤ D + b * BS + x := by
  rcases Nat.lt_or_gt_of_ne h1 with h | h
  · have := Nat.mul_le_mul_right BS (Nat.succ_le_of_lt h)
    rw [Nat.succ_mul] at this
    omega
  · have hc : c + 2 ≤ b := by omega
    have := Nat.mul_le_mul_right BS hc
    rw [Nat.add_mul] at this
    omega

theorem get_entry_frame_blocks {L : Layout} (hL : L.WF) {d d1 : Disk} {junk : Mem}
    {pp : List Nat} {pent : Mem} {poff ppb : Nat}
    (hres : get_entry L d pp junk = some (Lookup.found pent poff ppb))
    (hvalid : ∀ b ∈ path_blocks L d junk pp, b < L.SFS_BLOCKTBL_NENTRIES)
    (T : List Nat)
    (hT : ∀ b ∈ dir_blocks L d (dirs_loaded L d junk (tokens pp) (root_buf L d junk)
      L.SFS_ROOTDIR_NENTRIES), b ∉ T)
    (hroot : ∀ a, a < L.SFS_BLOCKTBL_OFF → d1 a = d a)
    (htbl : ∀ j, j < L.SFS_BLOCKTBL_NENTRIES → j ∉ T → tbl L d1 j = tbl L d j)
    (hdata : ∀ b, b ∉ T → ∀ x, x < L.SFS_BLOCK_SIZE →
      d1 (L.SFS_DATA_OFF + b * L.SFS_BLOCK_SIZE + x) = d (L.SFS_DATA_OFF + b * L.SFS_BLOCK_SIZE + x)) :
    get_entry L d1 pp junk = some (Lookup.found pent poff ppb) := by
  have hrt := hL.root_tbl
  rw [path_blocks_found hres] at hvalid
  rw [← hres]
  refine (get_entry_frame (fun a h1 h2 => hroot a (by omega)) (fun b hb => ?_)).1
  have hb1 := mem_dir_blocks L d _ b hb
  have hb2 := mem_dir_blocks L d _ b (List.mem_append_left [ent_first_block pent 0] hb)
  exact load_dir_congr junk b (htbl b (hvalid _ hb2.1) (hT _ hb1.1)) (hdata b (hT _ hb1.1))
    (hdata _ (hT _ hb1.2))

/-! ### The allocation of `sfs_mkdir` -/

theorem find_free_pair_least {L : Layout} (hL : L.WF) (d : Disk) (junk : Mem) (i : Nat)
    (hi : i + 1 < L.SFS_BLOCKTBL_NENTRIES)
    (hi0 : tbl L d i = L.SFS_BLOCKIDX_EMPTY) (hi1 : tbl L d (i + 1) = L.SFS_BLOCKIDX_EMPTY)
    (hmin : ∀ j, j < i → ¬ (tbl L d j = L.SFS_BLOCKIDX_EMPTY ∧
      tbl L d (j + 1) = L.SFS_BLOCKIDX_EMPTY)) :
    find_free_pair L (disk_read d junk 0 L.SFS_BLOCKTBL_SIZE L.SFS_BLOCKTBL_OFF) = (i, i + 1) := by
  have hle := hL.tbl_le
  have hf : findFrom (fun j =>
      idx_get (disk_read d junk 0 L.SFS_BLOCKTBL_SIZE L.SFS_BLOCKTBL_OFF) j
        == L.SFS_BLOCKIDX_EMPTY
      && idx_get (disk_read d junk 0 L.SFS_BLOCKTBL_SIZE L.SFS_BLOCKTBL_OFF) (j + 1)
        == L.SFS_BLOCKIDX_EMPTY) (L.SFS_BLOCKTBL_NENTRIES - 1) 0 = some i := by
    apply findFrom_first (Nat.zero_le _) (by omega)
    · simp only [idx_get_disk_read_tbl L d junk i (by omega),
        idx_get_disk_read_tbl L d junk (i + 1) hi, hi0, hi1, beq_self_eq_true, Bool.and_self]
    · intro j _ hj
      have := hmin j hj
      simp only [idx_get_disk_read_tbl L d junk j (by omega),
        idx_get_disk_read_tbl L d junk (j + 1) (by omega)]
      by_cases h1 : tbl L d j = L.SFS_BLOCKIDX_EMPTY
      · have h2 : tbl L d (j + 1) ≠ L.SFS_BLOCKIDX_EMPTY := fun e => this ⟨h1, e⟩
        simp [h2]
      · simp [h1]
  unfold find_free_pair
  rw [hf]
  simp only [Prod.mk.injEq]
  exact ⟨Nat.mod_eq_of_lt (by omega), Nat.mod_eq_of_lt (by omega)⟩

theorem first_empty_slot_first {dir : Mem} {n k : Nat} (hk : k < n) (h0 : dir (k * 64) = 0)
    (hmin : ∀ j, j < k → dir (j * 64) ≠ 0) : first_empty_slot dir n = some k := by
  have hf : findFrom (fun i => dir (i * 64) == 0) n 0 = some k :=
    findFrom_first (Nat.zero_le _) (by omega) (by simp [h0])
      (fun j _ hj => by simpa using hmin j hj)
  unfold first_empty_slot
  rw [hf]

theorem first_free_exists (dir : Mem) : ∀ {n : Nat}, (∃ j, j < n ∧ dir (j * 64) = 0) →
    ∃ k, k < n ∧ dir (k * 64) = 0 ∧ ∀ j, j < k → dir (j * 64) ≠ 0
  | 0, ⟨_, hj, _⟩ => absurd hj (Nat.not_lt_zero _)
  | n + 1, ⟨j, hj, h0⟩ => by
    by_cases hex : ∃ j, j < n ∧ dir (j * 64) = 0
    · obtain ⟨k, hk, hk0, hkm⟩ := first_free_exists dir (n := n) hex
      exact ⟨k, by omega, hk0, hkm⟩
    · have hjn : j = n := by
        by_contra hne
        exact hex ⟨j, by omega, h0⟩
      subst hjn
      exact ⟨j, hj, h0, fun i hi e => hex ⟨i, hi, e⟩⟩

theorem mkdir_blocks_other {L : Layout} (d : Disk) (junk : Mem) (b1 b2 a : Nat)
    (hblk : a < L.SFS_DATA_OFF + b1 * L.SFS_BLOCK_SIZE ∨
      L.SFS_DATA_OFF + b1 * L.SFS_BLOCK_SIZE + L.SFS_DIR_SIZE ≤ a)
    (hb1 : a ≠ L.SFS_BLOCKTBL_OFF + b1 * 2 ∧ a ≠ L.SFS_BLOCKTBL_OFF + b1 * 2 + 1)
    (hb2 : a ≠ L.SFS_BLOCKTBL_OFF + b2 * 2 ∧ a ≠ L.SFS_BLOCKTBL_OFF + b2 * 2 + 1) :
    mkdir_blocks L d junk b1 b2 a = d a := by
  unfold mkdir_blocks disk_write write_idx
  rw [blit_out (by omega), poke16_out (by omega), poke16_out (by omega)]

theorem new_dir_entry_size (dir : Mem) (i : Nat) (name : List Nat) (b1 : Nat) :
    ent_size (new_dir_entry dir i name b1) (i * 64) = SFS_DIRECTORY := by
  unfold ent_size new_dir_entry set_first_block set_size
  have h : peek32 (poke16 (poke32 (strcpy dir (i * 64) name) (i * 64 + 58) SFS_DIRECTORY)
      (i * 64 + 62) b1) (i * 64 + 58)
      = peek32 (poke32 (strcpy dir (i * 64) name) (i * 64 + 58) SFS_DIRECTORY) (i * 64 + 58) := by
    unfold peek32
    rw [poke16_out (by omega), poke16_out (by omega), poke16_out (by omega),
      poke16_out (by omega)]
  rw [h, peek32_poke32]
  decide

theorem dir_blocks_append (L : Layout) (d : Disk) : ∀ (xs ys : List Nat),
    dir_blocks L d (xs ++ ys) = dir_blocks L d xs ++ dir_blocks L d ys
  | [], _ => rfl
  | x :: xs, ys => by
    show x :: tbl L d x :: dir_blocks L d (xs ++ ys) = _
    rw [dir_blocks_append L d xs ys]
    rfl

theorem path_blocks_mem {L : Layout} {d : Disk} {junk : Mem} {pp : List Nat} {pent : Mem}
    {poff ppb : Nat} (hres : get_entry L d pp junk = some (Lookup.found pent poff ppb)) :
    ent_first_block pent 0 ∈ path_blocks L d junk pp ∧
    tbl L d (ent_first_block pent 0) ∈ path_blocks L d junk pp ∧
    ∀ b ∈ dir_blocks L d (dirs_loaded L d junk (tokens pp) (root_buf L d junk)
      L.SFS_ROOTDIR_NENTRIES), b ∈ path_blocks L d junk pp := by
  rw [path_blocks_found hres, dir_blocks_append]
  refine ⟨?_, ?_, fun b hb => List.mem_append_left _ hb⟩
  · exact List.mem_append_right _ (by simp [dir_blocks])
  · exact List.mem_append_right _ (by simp [dir_blocks])

theorem mkdir_blocks_frame {L : Layout} (hL : L.WF) {d : Disk} {junk : Mem} {i : Nat}
    {pp : List Nat} {pent : Mem} {poff ppb : Nat}
    (hi : i + 1 < L.SFS_BLOCKTBL_NENTRIES)
    (hres : get_entry L d pp junk = some (Lookup.found pent poff ppb))
    (hvalid : ∀ b ∈ path_blocks L d junk pp, b < L.SFS_BLOCKTBL_NENTRIES)
    (havoid1 : i ∉ path_blocks L d junk pp) (havoid2 : i + 1 ∉ path_blocks L d junk pp) :
    get_entry L (mkdir_blocks L d junk i (i + 1)) pp junk = some (Lookup.found pent poff ppb) ∧
    tbl L (mkdir_blocks L d junk i (i + 1)) (ent_first_block pent 0)
      = tbl L d (ent_first_block pent 0) ∧
    load_dir L (mkdir_blocks L d junk i (i + 1)) junk (ent_first_block pent 0)
      = load_dir L d junk (ent_first_block pent 0) ∧
    ∀ b, b ≠ i → b ≠ i + 1 → ∀ x, x < L.SFS_BLOCK_SIZE →
      mkdir_blocks L d junk i (i + 1) (L.SFS_DATA_OFF + b * L.SFS_BLOCK_SIZE + x)
        = d (L.SFS_DATA_OFF + b * L.SFS_BLOCK_SIZE + x) := by
  have htd := hL.tbl_data
  have hds := dir_size_eq hL
  obtain ⟨hm1, hm2, hm3⟩ := path_blocks_mem hres
  have htbl : ∀ j, j < L.SFS_BLOCKTBL_NENTRIES → j ∉ [i, i + 1] →
      tbl L (mkdir_blocks L d junk i (i + 1)) j = tbl L d j := by
    intro j hj hT
    simp only [List.mem_cons, List.mem_singleton, List.not_mem_nil, or_false, not_or] at hT
    rw [mkdir_blocks_tbl hL d junk i (i + 1) j hi hj, if_neg hT.2, if_neg hT.1]
  have hdata : ∀ b, b ≠ i → b ≠ i + 1 → ∀ x, x < L.SFS_BLOCK_SIZE →
      mkdir_blocks L d junk i (i + 1) (L.SFS_DATA_OFF + b * L.SFS_BLOCK_SIZE + x)
        = d (L.SFS_DATA_OFF + b * L.SFS_BLOCK_SIZE + x) := by
    intro b h1 h2 x hx
    have := block_outside_pair (D := L.SFS_DATA_OFF) h1 h2 hx
    exact mkdir_blocks_other d junk i (i + 1) _ (by omega) (by omega) (by omega)
  have hne : ∀ b ∈ path_blocks L d junk pp, b ∉ [i, i + 1] := by
    intro b hb hT
    simp only [List.mem_cons, List.mem_singleton, List.not_mem_nil, or_false] at hT
    rcases hT with rfl | rfl
    · exact havoid1 hb
    · exact havoid2 hb
  refine ⟨?_, ?_, ?_, hdata⟩
  · exact get_entry_frame_blocks hL hres hvalid [i, i + 1] (fun b hb => hne b (hm3 b hb))
      (fun a ha => mkdir_blocks_low d junk i (i + 1) a ha hL) htbl
      (fun b hb => by
        simp only [List.mem_cons, List.mem_singleton, List.not_mem_nil, or_false, not_or] at hb
        exact hdata b hb.1 hb.2)
  · exact htbl _ (hvalid _ hm1) (hne _ hm1)
  · have h1 := hne _ hm1
    have h2 := hne _ hm2
    simp only [List.mem_cons, List.mem_singleton, List.not_mem_nil, or_false, not_or] at h1 h2
    exact load_dir_congr junk _ (htbl _ (hvalid _ hm1) (hne _ hm1)) (hdata _ h1.1 h1.2)
      (hdata _ h2.1 h2.2)

theorem mkdir_root_core {L : Layout} (hL : L.WF) (d : Disk) (junk : Mem) (i : Nat)
    (hi : i + 1 < L.SFS_BLOCKTBL_NENTRIES)
    (hi0 : tbl L d i = L.SFS_BLOCKIDX_EMPTY) (hi1 : tbl L d (i + 1) = L.SFS_BLOCKIDX_EMPTY)
    (hmin : ∀ j, j < i → ¬ (tbl L d j = L.SFS_BLOCKIDX_EMPTY ∧
      tbl L d (j + 1) = L.SFS_BLOCKIDX_EMPTY))
    (hie : i ≠ L.SFS_BLOCKIDX_EMPTY) (name : List Nat) (hns : 47 ∉ name)
    (hlen : name.length < 58) (k : Nat) (hk : k < L.SFS_ROOTDIR_NENTRIES)
    (hk0 : d (L.SFS_ROOTDIR_OFF + k * 64) = 0)
    (hkmin : ∀ j, j < k → d (L.SFS_ROOTDIR_OFF + j * 64) ≠ 0) :
    sfs_mkdir L d (47 :: name) junk = some (0,
      disk_write (mkdir_blocks L d junk i (i + 1))
        (new_dir_entry (root_buf L d junk) k name i) 0 L.SFS_ROOTDIR_SIZE L.SFS_ROOTDIR_OFF) := by
  have hrt := hL.root_tbl
  have hbuf : root_buf L (mkdir_blocks L d junk i (i + 1)) junk = root_buf L d junk :=
    root_buf_congr junk (fun a h1 h2 => mkdir_blocks_low d junk i (i + 1) a (by omega) hL)
  have hslot : first_empty_slot (root_buf L (mkdir_blocks L d junk i (i + 1)) junk)
      L.SFS_ROOTDIR_NENTRIES = some k := by
    rw [hbuf]
    apply first_empty_slot_first hk
    · rw [root_buf_apply, if_pos (by omega)]
      exact hk0
    · intro j hj
      rw [root_buf_apply, if_pos (by omega)]
      exact hkmin j hj
  have h := sfs_mkdir_root_eq L d name junk i (i + 1) k hns hlen
    (find_free_pair_least hL d junk i hi hi0 hi1 hmin) hie hslot
  rw [h]
  show some ((0 : Int), disk_write (mkdir_blocks L d junk i (i + 1))
    (new_dir_entry (root_buf L (mkdir_blocks L d junk i (i + 1)) junk) k name i) 0
    L.SFS_ROOTDIR_SIZE L.SFS_ROOTDIR_OFF) = _
  rw [hbuf]

theorem mkdir_sub_core {L : Layout} (hL : L.WF) (d : Disk) (junk : Mem) (i : Nat)
    (hi : i + 1 < L.SFS_BLOCKTBL_NENTRIES)
    (hi0 : tbl L d i = L.SFS_BLOCKIDX_EMPTY) (hi1 : tbl L d (i + 1) = L.SFS_BLOCKIDX_EMPTY)
    (hmin : ∀ j, j < i → ¬ (tbl L d j = L.SFS_BLOCKIDX_EMPTY ∧
      tbl L d (j + 1) = L.SFS_BLOCKIDX_EMPTY))
    (hie : i ≠ L.SFS_BLOCKIDX_EMPTY) (pp name : List Nat) (pent : Mem) (poff ppb : Nat)
    (hin : 47 ∈ pp) (hns : 47 ∉ name) (hlen : name.length < 58)
    (hres : get_entry L d pp junk = some (Lookup.found pent poff ppb))
    (hvalid : ∀ b ∈ path_blocks L d junk pp, b < L.SFS_BLOCKTBL_NENTRIES)
    (havoid1 : i ∉ path_blocks L d junk pp) (havoid2 : i + 1 ∉ path_blocks L d junk pp)
    (k : Nat) (hk : k < L.SFS_DIR_NENTRIES)
    (hk0 : load_dir L d junk (ent_first_block pent 0) (k * 64) = 0)
    (hkmin : ∀ j, j < k → load_dir L d junk (ent_first_block pent 0) (j * 64) ≠ 0) :
    sfs_mkdir L d (pp ++ 47 :: name) junk = some (0,
      disk_write (mkdir_blocks L d junk i (i + 1))
        (new_dir_entry (load_dir L d junk (ent_first_block pent 0)) k name i) 0 L.SFS_DIR_SIZE
        (L.SFS_DATA_OFF + ent_first_block pent 0 * L.SFS_BLOCK_SIZE)) := by
  obtain ⟨hres3, -, hload, -⟩ := mkdir_blocks_frame hL hi hres hvalid havoid1 havoid2
  have hroot : in_root (pp ++ 47 :: name) = false := by
    have := (in_root_append pp name hns).not.mpr (by simpa using hin)
    simpa using this
  have hpair := find_free_pair_least hL d junk i hi hi0 hi1 hmin
  have hslot := first_empty_slot_first hk hk0 hkmin
  unfold mkdir_blocks at hres3 hload
  simp only [sfs_mkdir, get_child_append pp name hns, ge_iff_le,
    if_neg (show ¬ 58 ≤ name.length by omega), hpair, if_neg hie, hroot,
    get_parent_append pp name hns, hres3, hload, hslot, Bool.false_eq_true, if_false]
  rfl
/-! ### The names a listing hands over -/

theorem c_str_eq_cstr {m : Mem} : ∀ (b n e : Nat), (∃ t, t < b ∧ m (e + t) = 0) → b ≤ n →
    c_str m n e = some (cstr m b e)
  | 0, _, _, ⟨_, ht, _⟩, _ => absurd ht (Nat.not_lt_zero _)
  | b + 1, n, e, ⟨t, ht, h0⟩, hn => by
    obtain ⟨n1, rfl⟩ : ∃ n1, n = n1 + 1 := ⟨n - 1, by omega⟩
    unfold c_str cstr
    by_cases hz : m e = 0
    · simp only [hz, if_true]
    · simp only [hz, if_false]
      have ht0 : t ≠ 0 := by
        rintro rfl
        exact hz (by simpa using h0)
      rw [c_str_eq_cstr b n1 (e + 1) ⟨t - 1, by omega, by
        rw [← h0]
        congr 1
        omega⟩ (by omega)]
      rfl

theorem readdir_loop_names (dir : Mem) (size : Nat)
    (filler : List (List Nat) → List Nat → Int) :
    ∀ (cnt i : Nat) (names : List (List Nat)) (err : Int),
    (∀ j, i ≤ j → j < i + cnt → ∃ t, t < 58 ∧ dir (j * 64 + t) = 0) →
    (i + cnt) * 64 ≤ size →
    ∃ r, readdir_loop dir size filler cnt i names err = some (r, names ++ dir_names dir cnt i)
  | 0, _, names, err, _, _ => ⟨err, by simp [readdir_loop, dir_names]⟩
  | cnt + 1, i, names, err, hterm, hsize => by
    have hc := c_str_eq_cstr 58 (size - i * 64) (i * 64) (hterm i (le_refl _) (by omega))
      (by
        have : (i + (cnt + 1)) * 64 = i * 64 + (cnt + 1) * 64 := Nat.add_mul _ _ _
        omega)
    have hsz : (i + 1 + cnt) * 64 ≤ size := by
      have : i + 1 + cnt = i + (cnt + 1) := by omega
      rw [this]
      exact hsize
    unfold readdir_loop dir_names
    rw [hc]
    by_cases hz : dir (i * 64) = 0
    · rw [cstr_zero hz, if_pos hz]
      exact readdir_loop_names dir size filler cnt (i + 1) names err
        (fun j h1 h2 => hterm j (by omega) (by omega)) hsz
    · rw [if_neg hz]
      have hne : cstr dir 58 (i * 64) ≠ [] := fun e => hz (cstr_eq_nil (by omega) e)
      obtain ⟨c, cs, hcs⟩ : ∃ c cs, cstr dir 58 (i * 64) = c :: cs := by
        cases h : cstr dir 58 (i * 64) with
        | nil => exact absurd h hne
        | cons c cs => exact ⟨c, cs, rfl⟩
      rw [hcs]
      obtain ⟨r, hr⟩ := readdir_loop_names dir size filler cnt (i + 1) (names ++ [c :: cs])
        (filler names (c :: cs)) (fun j h1 h2 => hterm j (by omega) (by omega)) hsz
      refine ⟨r, ?_⟩
      simp only []
      rw [hr]
      unfold entry_name
      rw [hcs, List.append_assoc]
      rfl

theorem readdir_loop_empty {dir : Mem} {size : Nat}
    (filler : List (List Nat) → List Nat → Int) :
    ∀ (cnt i : Nat) (names : List (List Nat)) (err : Int),
    (∀ j, i ≤ j → j < i + cnt → dir (j * 64) = 0 ∧ j * 64 < size) →
    readdir_loop dir size filler cnt i names err = some (err, names)
  | 0, _, _, _, _ => rfl
  | cnt + 1, i, names, err, h => by
    obtain ⟨h0, hs⟩ := h i (le_refl _) (by omega)
    obtain ⟨n1, hn1⟩ : ∃ n1, size - i * 64 = n1 + 1 := ⟨size - i * 64 - 1, by omega⟩
    unfold readdir_loop
    rw [hn1]
    unfold c_str
    simp only [h0, if_true]
    exact readdir_loop_empty filler cnt (i + 1) names err
      (fun j h1 h2 => h j (by omega) (by omega))

theorem dir_names_congr {m m1 : Mem} : ∀ (cnt i : Nat),
    (∀ j, i ≤ j → j < i + cnt → ∀ x, x < 58 → m1 (j * 64 + x) = m (j * 64 + x)) →
    dir_names m1 cnt i = dir_names m cnt i
  | 0, _, _ => rfl
  | cnt + 1, i, h => by
    unfold dir_names entry_name
    have h0 := h i (le_refl _) (by omega) 0 (by omega)
    rw [Nat.add_zero] at h0
    rw [h0, cstr_congr 58 (i * 64) (i * 64) (fun k hk => h i (le_refl _) (by omega) k hk),
      dir_names_congr cnt (i + 1) (fun j h1 h2 => h j (by omega) (by omega))]

theorem dir_names_insert (m m1 : Mem) {k : Nat} {name : List Nat}
    (hsame : ∀ j, j ≠ k → ∀ x, x < 58 → m1 (j * 64 + x) = m (j * 64 + x))
    (h0 : m (k * 64) = 0) (h1 : m1 (k * 64) ≠ 0) (hname : entry_name m1 (k * 64) = name) :
    ∀ (cnt i : Nat), i ≤ k → k < i + cnt →
    ∃ pre post, dir_names m cnt i = pre ++ post ∧ dir_names m1 cnt i = pre ++ name :: post
  | 0, i, h1, h2 => by omega
  | cnt + 1, i, hik, hk => by
    by_cases hi : i = k
    · subst hi
      refine ⟨[], dir_names m cnt (i + 1), ?_, ?_⟩
      · rw [dir_names, if_pos h0]
        rfl
      · rw [dir_names, if_neg h1, hname,
          dir_names_congr cnt (i + 1) (fun j hj1 _ => hsame j (by omega))]
        rfl
    · obtain ⟨pre, post, e1, e2⟩ := dir_names_insert m m1 hsame h0 h1 hname cnt (i + 1) (by omega)
        (by omega)
      have hb := hsame i hi 0 (by omega)
      rw [Nat.add_zero] at hb
      have hn : entry_name m1 (i * 64) = entry_name m (i * 64) :=
        cstr_congr 58 (i * 64) (i * 64) (fun x hx => hsame i hi x hx)
      by_cases hz : m (i * 64) = 0
      · refine ⟨pre, post, ?_, ?_⟩
        · rw [dir_names, if_pos hz, e1]
        · rw [dir_names, hb, if_pos hz, e2]
      · refine ⟨entry_name m (i * 64) :: pre, post, ?_, ?_⟩
        · rw [dir_names, if_neg hz, e1]
          rfl
        · rw [dir_names, hb, if_neg hz, e2, hn]
          rfl

theorem new_dir_entry_first_byte (dir : Mem) (k : Nat) (name : List Nat) (b1 : Nat)
    (hz : 0 ∉ name) (hne : name ≠ []) (hlen : name.length < 58) :
    new_dir_entry dir k name b1 (k * 64) ≠ 0 := by
  have hpos : 0 < name.length := List.length_pos.mpr hne
  have h := new_dir_entry_name dir k name b1 0 hlen hpos
  rw [Nat.add_zero] at h
  rw [h]
  intro e
  exact hz (e ▸ getD_mem 0 hpos)

theorem lookup_new_dir {dir : Mem} {n k : Nat} {name : List Nat} (b1 : Nat) (hk : k < n)
    (hlen : name.length < 58)
    (hnone : findFrom (fun i => strcmp0 name dir (i * 64)) n 0 = none) :
    findFrom (fun i => strcmp0 name (new_dir_entry dir k name b1) (i * 64)) n 0 = some k := by
  apply lookup_new hk hlen _ hnone
  · apply strcmp0_of_eq
    · intro x hx
      exact new_dir_entry_name dir k name b1 x hlen hx
    · exact new_dir_entry_term dir k name b1 hlen
  · intro x hx
    exact new_dir_entry_other dir k name b1 x hlen (by omega)

theorem readdir_insert {dir : Mem} {size n k : Nat} {name : List Nat} (b1 : Nat)
    (filler : List (List Nat) → List Nat → Int)
    (hterm : ∀ j, j < n → ∃ t, t < 58 ∧ dir (j * 64 + t) = 0) (hsize : n * 64 ≤ size)
    (hk : k < n) (h0 : dir (k * 64) = 0) (hz : 0 ∉ name) (hne : name ≠ [])
    (hlen : name.length < 58) (err r : Int) (names : List (List Nat))
    (h : readdir_loop dir size filler n 0 [] err = some (r, names)) :
    ∃ r1 pre post, names = pre ++ post ∧
      readdir_loop (new_dir_entry dir k name b1) size filler n 0 [] err
        = some (r1, pre ++ name :: post) := by
  obtain ⟨r0, hr0⟩ := readdir_loop_names dir size filler n 0 [] err
    (fun j _ hj => hterm j (by omega)) (by omega)
  rw [h] at hr0
  simp only [Option.some.injEq, Prod.mk.injEq, List.nil_append] at hr0
  have hterm1 : ∀ j, 0 ≤ j → j < 0 + n →
      ∃ t, t < 58 ∧ new_dir_entry dir k name b1 (j * 64 + t) = 0 := by
    intro j _ hj
    by_cases hjk : j = k
    · subst hjk
      exact ⟨name.length, hlen, new_dir_entry_term dir j name b1 hlen⟩
    · obtain ⟨t, ht, ht0⟩ := hterm j (by omega)
      refine ⟨t, ht, ?_⟩
      rw [new_dir_entry_other dir k name b1 _ hlen (by omega)]
      exact ht0
  obtain ⟨r1, hr1⟩ := readdir_loop_names (new_dir_entry dir k name b1) size
    filler n 0 [] err hterm1 (by omega)
  obtain ⟨pre, post, e1, e2⟩ := dir_names_insert dir
    (new_dir_entry dir k name b1)
    (fun j hj x hx => new_dir_entry_other dir k name b1 _ hlen (by omega)) h0
    (new_dir_entry_first_byte dir k name b1 hz hne hlen)
    (new_dir_entry_cstr dir k name b1 hz hlen _ _ (fun x _ => rfl)) n 0 (Nat.zero_le _) (by omega)
  refine ⟨r1, pre, post, ?_, ?_⟩
  · rw [hr0.2, e1]
  · rw [hr1, List.nil_append, e2]

theorem mem_dir_blocks_inv (L : Layout) (d : Disk) : ∀ (bs : List Nat) (c : Nat),
    c ∈ dir_blocks L d bs → ∃ b, b ∈ bs ∧ (c = b ∨ c = tbl L d b)
  | [], c, h => by simp [dir_blocks] at h
  | b :: bs, c, h => by
    simp only [dir_blocks, List.mem_cons] at h
    rcases h with h | h | h
    · exact ⟨b, List.mem_cons_self _ _, Or.inl h⟩
    · exact ⟨b, List.mem_cons_self _ _, Or.inr h⟩
    · obtain ⟨b1, hb1, hc⟩ := mem_dir_blocks_inv L d bs c h
      exact ⟨b1, List.mem_cons_of_mem _ hb1, hc⟩

/-! ### The image after `sfs_mkdir` -/

theorem mkdir_root_post {L : Layout} (hL : L.WF) (d : Disk) (junk : Mem) (i : Nat)
    (hi : i + 1 < L.SFS_BLOCKTBL_NENTRIES) (name : List Nat) (hlen : name.length < 58)
    (k : Nat) (hk : k < L.SFS_ROOTDIR_NENTRIES) (d1 : Disk)
    (hd1 : d1 = disk_write (mkdir_blocks L d junk i (i + 1))
        (new_dir_entry (root_buf L d junk) k name i) 0 L.SFS_ROOTDIR_SIZE L.SFS_ROOTDIR_OFF) :
    root_buf L d1 junk = new_dir_entry (root_buf L d junk) k name i ∧
    tbl L d1 i = i + 1 ∧
    ∀ x, x < L.SFS_DIR_SIZE →
      d1 (L.SFS_DATA_OFF + i * L.SFS_BLOCK_SIZE + x) = empty_entries L junk x := by
  have hrt := hL.root_tbl
  have htd := hL.tbl_data
  subst hd1
  refine ⟨?_, ?_, ?_⟩
  · funext x
    rw [root_buf_apply]
    split
    · rename_i hx
      rw [write_root_at L _ _ _ (by omega) (by omega)]
      congr 1
      omega
    · rename_i hx
      rw [new_dir_entry_other _ _ _ _ _ hlen (by omega), root_buf_apply, if_neg hx]
  · have ht : tbl L (disk_write (mkdir_blocks L d junk i (i + 1))
        (new_dir_entry (root_buf L d junk) k name i) 0 L.SFS_ROOTDIR_SIZE L.SFS_ROOTDIR_OFF) i
        = tbl L (mkdir_blocks L d junk i (i + 1)) i :=
      tbl_congr (fun a h1 h2 => by
        unfold disk_write Layout.SFS_ROOTDIR_SIZE
        exact blit_out (by omega))
    rw [ht, mkdir_blocks_tbl hL d junk i (i + 1) i hi (by omega), if_neg (by omega), if_pos rfl]
  · intro x hx
    unfold disk_write Layout.SFS_ROOTDIR_SIZE
    rw [blit_out (by omega)]
    exact mkdir_blocks_data d junk i (i + 1) x hx

theorem new_dir_listing {L : Layout} (hL : L.WF) (d1 : Disk) (junk : Mem) (i : Nat)
    (ht : tbl L d1 i = i + 1)
    (hdata : ∀ x, x < L.SFS_DIR_SIZE →
      d1 (L.SFS_DATA_OFF + i * L.SFS_BLOCK_SIZE + x) = empty_entries L junk x)
    (filler : List (List Nat) → List Nat → Int) (err : Int) :
    readdir_loop (load_dir L d1 junk i) L.SFS_DIR_SIZE filler L.SFS_DIR_NENTRIES 0 [] err
      = some (err, []) := by
  have hds := dir_size_eq hL
  have hdn : L.SFS_DIR_SIZE = L.SFS_DIR_NENTRIES * 64 := rfl
  apply readdir_loop_empty
  intro j _ hj
  refine ⟨?_, by omega⟩
  rw [load_dir_adj hL d1 junk i _ ht (by omega), hdata _ (by omega)]
  exact empty_entries_name junk j (by omega)

theorem new_entry_fields (junk dir : Mem) (k : Nat) (name : List Nat) (i : Nat)
    (hi : i < 65536) :
    ent_size (blit junk 0 (new_dir_entry dir k name i) (k * 64) 64) 0 = SFS_DIRECTORY ∧
    ent_first_block (blit junk 0 (new_dir_entry dir k name i) (k * 64) 64) 0 = i := by
  rw [ent_size_copy, ent_first_block_copy, new_dir_entry_size, new_dir_entry_first_block]
  exact ⟨rfl, Nat.mod_eq_of_lt hi⟩

theorem mkdir_sub_post {L : Layout} (hL : L.WF) (d : Disk) (junk : Mem) (i : Nat)
    (hi : i + 1 < L.SFS_BLOCKTBL_NENTRIES) (pp name : List Nat) (pent : Mem) (poff ppb : Nat)
    (hlen : name.length < 58)
    (hres : get_entry L d pp junk = some (Lookup.found pent poff ppb))
    (hadj : tbl L d (ent_first_block pent 0) = ent_first_block pent 0 + 1)
    (hnd : (path_blocks L d junk pp).Nodup)
    (hvalid : ∀ b ∈ path_blocks L d junk pp, b < L.SFS_BLOCKTBL_NENTRIES)
    (havoid1 : i ∉ path_blocks L d junk pp) (havoid2 : i + 1 ∉ path_blocks L d junk pp)
    (k : Nat) (hk : k < L.SFS_DIR_NENTRIES) (d1 : Disk)
    (hd1 : d1 = disk_write (mkdir_blocks L d junk i (i + 1))
        (new_dir_entry (load_dir L d junk (ent_first_block pent 0)) k name i) 0 L.SFS_DIR_SIZE
        (L.SFS_DATA_OFF + ent_first_block pent 0 * L.SFS_BLOCK_SIZE)) :
    get_entry L d1 pp junk = some (Lookup.found pent poff ppb) ∧
    load_dir L d1 junk (ent_first_block pent 0)
      = new_dir_entry (load_dir L d junk (ent_first_block pent 0)) k name i ∧
    tbl L d1 i = i + 1 ∧
    ∀ x, x < L.SFS_DIR_SIZE →
      d1 (L.SFS_DATA_OFF + i * L.SFS_BLOCK_SIZE + x) = empty_entries L junk x := by
  have hrt := hL.root_tbl
  have htd := hL.tbl_data
  have hds := dir_size_eq hL
  have hdn : L.SFS_DIR_SIZE = L.SFS_DIR_NENTRIES * 64 := rfl
  obtain ⟨hm1, hm2, hm3⟩ := path_blocks_mem hres
  obtain ⟨-, ht3, -, hdata3⟩ := mkdir_blocks_frame hL hi hres hvalid havoid1 havoid2
  rw [hadj] at hm2
  have hnd0 := hnd
  rw [path_blocks_found hres] at hnd0
  have hanc := dir_blocks_nodup_last L d _ _ hnd0
  generalize hpe : ent_first_block pent 0 = pe at *
  have hpe1 : pe ≠ i := fun e => havoid1 (e ▸ hm1)
  have hpe2 : pe ≠ i + 1 := fun e => havoid2 (e ▸ hm1)
  have hpe3 : pe + 1 ≠ i := fun e => havoid1 (e ▸ hm2)
  have hpelt := hvalid _ hm1
  have hB : ∀ x, x < 2 * L.SFS_BLOCK_SIZE →
      (L.SFS_DATA_OFF + pe * L.SFS_BLOCK_SIZE + x < L.SFS_DATA_OFF + i * L.SFS_BLOCK_SIZE ∨
       L.SFS_DATA_OFF + i * L.SFS_BLOCK_SIZE + 2 * L.SFS_BLOCK_SIZE
        ≤ L.SFS_DATA_OFF + pe * L.SFS_BLOCK_SIZE + x) := by
    intro x hx
    rcases Nat.lt_or_ge pe i with h | h
    · have h2 : pe + 2 ≤ i := by omega
      have := Nat.mul_le_mul_right L.SFS_BLOCK_SIZE h2
      rw [Nat.add_mul] at this
      omega
    · have h2 : i + 2 ≤ pe := by omega
      have := Nat.mul_le_mul_right L.SFS_BLOCK_SIZE h2
      rw [Nat.add_mul] at this
      omega
  have hd3 : ∀ x, x < 2 * L.SFS_BLOCK_SIZE →
      mkdir_blocks L d junk i (i + 1) (L.SFS_DATA_OFF + pe * L.SFS_BLOCK_SIZE + x)
        = d (L.SFS_DATA_OFF + pe * L.SFS_BLOCK_SIZE + x) := fun x hx =>
    mkdir_blocks_other d junk i (i + 1) _ (by have := hB x hx; omega) (by omega) (by omega)
  have hbuf : ∀ x, x < L.SFS_DIR_SIZE → load_dir L d junk pe x
      = mkdir_blocks L d junk i (i + 1) (L.SFS_DATA_OFF + pe * L.SFS_BLOCK_SIZE + x) := by
    intro x hx
    rw [load_dir_adj hL d junk pe x hadj (by omega), hd3 x (by omega)]
  have hw : ∀ a, d1 a =
      if L.SFS_DATA_OFF + pe * L.SFS_BLOCK_SIZE + k * 64 ≤ a ∧
        a < L.SFS_DATA_OFF + pe * L.SFS_BLOCK_SIZE + k * 64 + 64
      then new_dir_entry (load_dir L d junk pe) k name i
        (a - (L.SFS_DATA_OFF + pe * L.SFS_BLOCK_SIZE))
      else mkdir_blocks L d junk i (i + 1) a := by
    intro a
    rw [hd1]
    exact write_back_apply _ _ _ _ _ k hbuf
      (fun x hx => new_dir_entry_other _ _ _ _ _ hlen (by omega)) (by omega) a
  have hlow : ∀ a, a < L.SFS_DATA_OFF → d1 a = mkdir_blocks L d junk i (i + 1) a := fun a ha => by
    rw [hw, if_neg (by omega)]
  have htbl1 : ∀ j, j < L.SFS_BLOCKTBL_NENTRIES →
      tbl L d1 j = tbl L (mkdir_blocks L d junk i (i + 1)) j := fun j hj =>
    tbl_congr (fun a h1 h2 => hlow a (by omega))
  have hadj1 : tbl L d1 pe = pe + 1 := by
    rw [htbl1 pe hpelt, ht3, hadj]
  refine ⟨?_, ?_, ?_, ?_⟩
  · refine get_entry_frame_blocks hL hres hvalid [i, i + 1, pe, pe + 1] ?_ ?_ ?_ ?_
    · intro c hc hT
      have hcp := hm3 c hc
      obtain ⟨b, hb, hcb⟩ := mem_dir_blocks_inv L d _ c hc
      obtain ⟨a1, a2, a3, a4⟩ := hanc b hb
      rw [hadj] at a2 a4
      simp only [List.mem_cons, List.mem_singleton, List.not_mem_nil, or_false] at hT
      rcases hT with rfl | rfl | rfl | rfl
      · exact havoid1 hcp
      · exact havoid2 hcp
      · rcases hcb with h | h
        · exact a1 h.symm
        · exact a3 h.symm
      · rcases hcb with h | h
        · exact a2 h.symm
        · exact a4 h.symm
    · intro a ha
      rw [hlow a (by omega)]
      exact mkdir_blocks_low d junk i (i + 1) a ha hL
    · intro j hj hT
      simp only [List.mem_cons, List.mem_singleton, List.not_mem_nil, or_false, not_or] at hT
      rw [htbl1 j hj, mkdir_blocks_tbl hL d junk i (i + 1) j hi hj, if_neg hT.2.1, if_neg hT.1]
    · intro b hT x hx
      simp only [List.mem_cons, List.mem_singleton, List.not_mem_nil, or_false, not_or] at hT
      have := block_outside_pair (D := L.SFS_DATA_OFF) hT.2.2.1 hT.2.2.2 hx
      rw [hw, if_neg (by omega)]
      exact hdata3 b hT.1 hT.2.1 x hx
  · funext x
    rw [load_dir_adj_apply hL d1 junk pe x hadj1]
    split
    · rename_i hx
      rw [hw]
      split
      · congr 1
        omega
      · rename_i hs
        rw [new_dir_entry_other _ _ _ _ _ hlen (by omega), hbuf x (by omega)]
    · rename_i hx
      rw [new_dir_entry_other _ _ _ _ _ hlen (by omega), load_dir_adj_apply hL d junk pe x hadj,
        if_neg hx]
  · rw [htbl1 i (by omega), mkdir_blocks_tbl hL d junk i (i + 1) i hi (by omega),
      if_neg (by omega), if_pos rfl]
  · intro x hx
    rw [hw, if_neg (by
      have h1 := hB (k * 64) (by omega)
      have h2 := hB (k * 64 + 63) (by omega)
      omega)]
    exact mkdir_blocks_data d junk i (i + 1) x hx
theorem count_blocks_short {L : Layout} {d : Disk} : ∀ (bs : List Nat) (first fuel count : Nat),
    Chain L d first bs → fuel ≤ bs.length → count_blocks L d fuel first count = none
  | _, _, 0, _, _, _ => rfl
  | [], _, fuel + 1, _, _, hf => by simp at hf
  | b :: bs, first, fuel + 1, count, h, hf => by
    obtain ⟨h1, h2, -, h4⟩ := h
    subst h1
    unfold count_blocks
    rw [if_neg h2]
    exact count_blocks_short bs _ fuel _ h4 (by simp at hf; omega)

theorem unlink_loop_short {L : Layout} : ∀ (bs : List Nat) (first : Nat) (d : Disk)
    (fuel : Nat), Chain L d first bs → fuel ≤ bs.length → unlink_loop L fuel first d = none
  | _, _, _, 0, _, _ => rfl
  | [], _, _, fuel + 1, _, hf => by simp at hf
  | b :: bs, first, d, fuel + 1, h, hf => by
    have hnm := Chain.head_not_mem h
    obtain ⟨h1, h2, h3, h4⟩ := h
    subst h1
    have hfr : ∀ c ∈ bs, tbl L (write_idx d (L.SFS_BLOCKTBL_OFF + first * 2)
        L.SFS_BLOCKIDX_EMPTY) c = tbl L d c := by
      intro c hc
      rw [tbl_write_idx, if_neg]
      rintro rfl; exact hnm hc
    unfold unlink_loop
    rw [if_neg h2]
    exact unlink_loop_short bs (tbl L d first) _ fuel (Chain.frame h4 hfr)
      (by simp at hf; omega)
theorem reached_snoc {L : Layout} {d : Disk} {junk : Mem} :
    ∀ (pre : List (List Nat)) (c : List Nat) (par : Mem) (n pb : Nat),
    reached L d junk (pre ++ [c]) par n pb =
      match reached L d junk pre par n pb with
      | none => none
      | some (par1, n1, _) =>
        match findFrom (fun i => strcmp0 c par1 (i * 64)) n1 0 with
        | none => none
        | some i => some (load_dir L d junk (ent_first_block par1 (i * 64)),
            L.SFS_DIR_NENTRIES, ent_first_block par1 (i * 64))
  | [], c, par, n, pb => by
    simp only [List.nil_append, reached]
  | t :: pre, c, par, n, pb => by
    simp only [List.cons_append, reached]
    cases findFrom (fun i => strcmp0 t par (i * 64)) n 0 with
    | none => rfl
    | some i => exact reached_snoc pre c _ _ _

theorem get_entry_found_iff {L : Layout} {d : Disk} {junk : Mem} {path : List Nat}
    {pre : List (List Nat)} {c : List Nat} (htok : tokens path = pre ++ [c])
    (ent : Mem) (off pbx : Nat) :
    get_entry L d path junk = some (Lookup.found ent off pbx) ↔
      ∃ par n, reached L d junk pre (root_buf L d junk) L.SFS_ROOTDIR_NENTRIES (peek16 junk 0)
          = some (par, n, pbx) ∧
        findFrom (fun i => strcmp0 c par (i * 64)) n 0 = some off ∧
        ent = blit junk 0 par (off * 64) 64 := by
  unfold get_entry
  rw [htok, get_entry_rec_reached]
  show (match reached L d junk pre (root_buf L d junk) L.SFS_ROOTDIR_NENTRIES (peek16 junk 0)
    with
    | none => some Lookup.enoent
    | some (par1, n1, pb1) =>
      match findFrom (fun i => strcmp0 c par1 (i * 64)) n1 0 with
      | none => some Lookup.enoent
      | some j => some (Lookup.found (blit junk 0 par1 (j * 64) 64) j pb1)) = _ ↔ _
  cases hr : reached L d junk pre (root_buf L d junk) L.SFS_ROOTDIR_NENTRIES (peek16 junk 0) with
  | none => simp
  | some x =>
    obtain ⟨par1, n1, pb1⟩ := x
    cases hf : findFrom (fun i => strcmp0 c par1 (i * 64)) n1 0 with
    | none =>
      simp only [hf, Option.some.injEq, Prod.mk.injEq]
      constructor
      · intro h
        exact absurd h (by simp)
      · rintro ⟨par, n, ⟨rfl, rfl, rfl⟩, h, -⟩
        rw [hf] at h
        exact absurd h (by simp)
    | some j =>
      simp only [hf, Option.some.injEq, Lookup.found.injEq, Prod.mk.injEq]
      constructor
      · rintro ⟨rfl, rfl, rfl⟩
        exact ⟨par1, n1, ⟨rfl, rfl, rfl⟩, hf, rfl⟩
      · rintro ⟨par, n, ⟨rfl, rfl, rfl⟩, h1, h2⟩
        rw [hf] at h1
        obtain rfl := Option.some.inj h1
        exact ⟨h2.symm, rfl, rfl⟩
theorem last_empty_slot_greatest (dir : Mem) (init : Option Nat) : ∀ {n k : Nat},
    (∃ j, j < n ∧ dir (j * 64) = 0) → last_empty_slot dir n init = some k →
    ∀ j, k < j → j < n → dir (j * 64) ≠ 0
  | 0, _, ⟨_, hj, _⟩, _ => absurd hj (Nat.not_lt_zero _)
  | n + 1, k, ⟨j0, hj0, h0⟩, h => by
    unfold last_empty_slot at h
    by_cases hn : dir (n * 64) = 0
    · simp only [hn, beq_self_eq_true, if_true, Option.some.injEq] at h
      subst h
      intro j h1 h2
      omega
    · have hb : (dir (n * 64) == 0) = false := by simpa using hn
      rw [hb] at h
      have hjn : j0 ≠ n := fun e => hn (e ▸ h0)
      intro j h1 h2
      by_cases hj : j = n
      · subst hj; exact hn
      · exact last_empty_slot_greatest dir init ⟨j0, by omega, h0⟩ h j h1 (by omega)

theorem new_file_entry_size (L : Layout) (junk : Mem) (name : List Nat) :
    ent_size (new_file_entry L junk name) 0 = 0 := by
  unfold ent_size new_file_entry set_first_block set_size peek32 poke16 poke32
  simp

theorem create_root_spec {L : Layout} (d : Disk) (junk : Mem)
    (stale : Option Nat) (name : List Nat) (hns : 47 ∉ name) (hlen : name.length < 58)
    (hfree : ∃ j, j < L.SFS_ROOTDIR_NENTRIES ∧ d (L.SFS_ROOTDIR_OFF + j * 64) = 0) :
    ∃ d1 k, k < L.SFS_ROOTDIR_NENTRIES ∧
      sfs_create L d (47 :: name) junk stale = some (0, d1) ∧
      d (L.SFS_ROOTDIR_OFF + k * 64) = 0 ∧
      (∀ j, k < j → j < L.SFS_ROOTDIR_NENTRIES → d (L.SFS_ROOTDIR_OFF + j * 64) ≠ 0) ∧
      ∀ a, d1 a = if L.SFS_ROOTDIR_OFF + k * 64 ≤ a ∧ a < L.SFS_ROOTDIR_OFF + k * 64 + 64
        then new_file_entry L junk name (a - (L.SFS_ROOTDIR_OFF + k * 64)) else d a := by
  obtain ⟨j, hj, hj0⟩ := hfree
  have hex : ∃ j, j < L.SFS_ROOTDIR_NENTRIES ∧ root_buf L d junk (j * 64) = 0 :=
    ⟨j, hj, by rw [root_buf_apply, if_pos (by omega)]; exact hj0⟩
  obtain ⟨k, hk1, hk2, hk3⟩ := last_empty_slot_some (root_buf L d junk) stale hex
  have hgr := last_empty_slot_greatest (root_buf L d junk) stale hex hk1
  rw [root_buf_apply, if_pos (by omega)] at hk3
  have hroot : in_root (47 :: name) = true := (in_root_cons name).mpr hns
  have hd1 : ∀ a, disk_write d (blit (root_buf L d junk) (k * 64) (new_file_entry L junk name)
      0 64) 0 (L.SFS_ROOTDIR_NENTRIES * 64) L.SFS_ROOTDIR_OFF a =
      if L.SFS_ROOTDIR_OFF + k * 64 ≤ a ∧ a < L.SFS_ROOTDIR_OFF + k * 64 + 64
      then new_file_entry L junk name (a - (L.SFS_ROOTDIR_OFF + k * 64)) else d a :=
    slot_write d _ _ _ _ k
      (fun x hx => by rw [root_buf_apply, if_pos hx]) (by omega)
  refine ⟨_, k, hk2, ?_, hk3, ?_, hd1⟩
  · unfold root_buf at hk1
    simp only [sfs_create, get_child_root name hns, ge_iff_le,
      if_neg (show ¬ 58 ≤ name.length by omega), hroot, if_true, hk1, if_pos hk2]
    rfl
  · intro j h1 h2
    have := hgr j h1 h2
    rwa [root_buf_apply, if_pos (by omega)] at this

theorem create_sub_spec {L : Layout} (hL : L.WF) (d : Disk) (junk : Mem)
    (stale : Option Nat) (pp name : List Nat) (pent : Mem)
    (poff ppb : Nat) (hin : 47 ∈ pp) (hns : 47 ∉ name) (hlen : name.length < 58)
    (hres : get_entry L d pp junk = some (Lookup.found pent poff ppb))
    (hadj : tbl L d (ent_first_block pent 0) = ent_first_block pent 0 + 1)
    (hfree : ∃ j, j < L.SFS_DIR_NENTRIES ∧
      d (L.SFS_DATA_OFF + ent_first_block pent 0 * L.SFS_BLOCK_SIZE + j * 64) = 0) :
    ∃ d1 k, k < L.SFS_DIR_NENTRIES ∧
      sfs_create L d (pp ++ 47 :: name) junk stale = some (0, d1) ∧
      d (L.SFS_DATA_OFF + ent_first_block pent 0 * L.SFS_BLOCK_SIZE + k * 64) = 0 ∧
      (∀ j, k < j → j < L.SFS_DIR_NENTRIES →
        d (L.SFS_DATA_OFF + ent_first_block pent 0 * L.SFS_BLOCK_SIZE + j * 64) ≠ 0) ∧
      ∀ a, d1 a =
        if L.SFS_DATA_OFF + ent_first_block pent 0 * L.SFS_BLOCK_SIZE + k * 64 ≤ a ∧
          a < L.SFS_DATA_OFF + ent_first_block pent 0 * L.SFS_BLOCK_SIZE + k * 64 + 64
        then new_file_entry L junk name
          (a - (L.SFS_DATA_OFF + ent_first_block pent 0 * L.SFS_BLOCK_SIZE + k * 64))
        else d a := by
  have hds := dir_size_eq hL
  have hdn : L.SFS_DIR_SIZE = L.SFS_DIR_NENTRIES * 64 := rfl
  generalize hpe : ent_first_block pent 0 = pe at *
  generalize hB : L.SFS_DATA_OFF + pe * L.SFS_BLOCK_SIZE = B at *
  obtain ⟨j, hj, hj0⟩ := hfree
  have hbuf : ∀ x, x < L.SFS_DIR_SIZE → load_dir L d junk pe x = d (B + x) := by
    intro x hx
    rw [load_dir_adj hL d junk pe x hadj (by omega), hB]
  have hex : ∃ j, j < L.SFS_DIR_NENTRIES ∧ load_dir L d junk pe (j * 64) = 0 :=
    ⟨j, hj, by rw [hbuf _ (by omega)]; exact hj0⟩
  obtain ⟨k, hk1, hk2, hk3⟩ := last_empty_slot_some (load_dir L d junk pe) stale hex
  have hgr := last_empty_slot_greatest (load_dir L d junk pe) stale hex hk1
  rw [hbuf _ (by omega)] at hk3
  have hroot : in_root (pp ++ 47 :: name) = false := by
    have := (in_root_append pp name hns).not.mpr (by simpa using hin)
    simpa using this
  have hd1 : ∀ a, disk_write d (blit (load_dir L d junk pe) (k * 64) (new_file_entry L junk name)
      0 64) 0 L.SFS_DIR_SIZE B a =
      if B + k * 64 ≤ a ∧ a < B + k * 64 + 64
      then new_file_entry L junk name (a - (B + k * 64)) else d a :=
    slot_write d _ _ _ _ k hbuf (by omega)
  refine ⟨_, k, hk2, ?_, hk3, ?_, hd1⟩
  · simp only [sfs_create, get_child_append pp name hns, ge_iff_le,
      if_neg (show ¬ 58 ≤ name.length by omega), hroot, get_parent_append pp name hns, hres,
      hpe, hk1, if_pos hk2, Bool.false_eq_true, if_false]
    rw [← hB]
    rfl
  · intro j h1 h2
    have := hgr j h1 h2
    rwa [hbuf _ (by omega)] at this
theorem new_file_slot {L : Layout} (hL : L.WF) (junk : Mem) (name : List Nat)
    (hlen : name.length < 58) (d1 : Disk) (e : Nat)
    (h : ∀ x, x < 64 → d1 (e + x) = new_file_entry L junk name x) :
    strcmp0 name d1 e = true ∧ ent_size d1 e = 0 ∧
      ent_first_block d1 e = L.SFS_BLOCKIDX_END := by
  refine ⟨new_file_entry_strcmp L junk name hlen d1 e (fun x hx => h x (by omega)), ?_, ?_⟩
  · rw [← new_file_entry_size L junk name]
    exact ent_size_congr (fun x hx => by rw [h x hx, Nat.zero_add])
  · rw [← new_file_entry_first_block hL junk name]
    exact ent_first_block_congr (fun x hx => by rw [h x hx, Nat.zero_add])
theorem free_list_sorted (L : Layout) (d : Disk) : (free_list L d).Pairwise (· < ·) :=
  List.Pairwise.filter _ (List.pairwise_lt_range _)

theorem free_take_sorted (L : Layout) (d : Disk) (n : Nat) :
    ((free_list L d).take n).Pairwise (· < ·) :=
  List.Pairwise.sublist (List.take_sublist n _) (free_list_sorted L d)

theorem free_take_mem {L : Layout} {d : Disk} {n j : Nat} (h : j ∈ (free_list L d).take n) :
    j < L.SFS_BLOCKTBL_NENTRIES ∧ tbl L d j = L.SFS_BLOCKIDX_EMPTY :=
  mem_free_list.mp (List.mem_of_mem_take h)

theorem free_take_lowest {L : Layout} {d : Disk} {n j : Nat}
    (hj : j < L.SFS_BLOCKTBL_NENTRIES) (he : tbl L d j = L.SFS_BLOCKIDX_EMPTY)
    (hn : j ∉ (free_list L d).take n) : ∀ x ∈ (free_list L d).take n, x < j := by
  have hmem : j ∈ (free_list L d).take n ++ (free_list L d).drop n := by
    rw [List.take_append_drop]
    exact mem_free_list.mpr ⟨hj, he⟩
  have hd : j ∈ (free_list L d).drop n := by
    rcases List.mem_append.mp hmem with h | h
    · exact absurd h hn
    · exact h
  have hs := free_list_sorted L d
  rw [← List.take_append_drop n (free_list L d), List.pairwise_append] at hs
  exact fun x hx => hs.2.2 x hx j hd
theorem Chain.alloc {L : Layout} (hL : L.WF)
    (hE : L.SFS_BLOCKTBL_NENTRIES ≤ L.SFS_BLOCKIDX_EMPTY) {d : Disk} :
    ∀ {bs : List Nat} {first : Nat}, Chain L d first bs →
      ∀ b ∈ bs, tbl L d b ≠ L.SFS_BLOCKIDX_EMPTY
  | [], _, _, _, hb => by simp at hb
  | c :: bs, _, h, b, hb => by
    obtain ⟨-, -, -, h4⟩ := h
    rcases List.mem_cons.mp hb with rfl | hb
    · cases bs with
      | nil =>
        have h0 : tbl L d b = L.SFS_BLOCKIDX_END := h4
        rw [h0]
        exact hL.end_ne
      | cons x xs =>
        have h1 : tbl L d b = x := h4.1
        have h2 : x < L.SFS_BLOCKTBL_NENTRIES := h4.2.2.1
        omega
    · exact Chain.alloc hL hE h4 b hb

theorem ent_first_block_set_size (m : Mem) (v : Nat) :
    ent_first_block (set_size m 0 v) 0 = ent_first_block m 0 := by
  unfold ent_first_block set_size
  exact peek16_congr (poke32_out (by omega)) (poke32_out (by omega))

theorem ent_size_set_size (m : Mem) (v : Nat) :
    ent_size (set_size m 0 v) 0 = v % 4294967296 := by
  unfold ent_size set_size
  exact peek32_poke32 _ _ _

theorem lookup_same {name : List Nat} {par par1 : Mem} {n off : Nat}
    (hf : findFrom (fun i => strcmp0 name par (i * 64)) n 0 = some off)
    (hlen : name.length < 58)
    (hsame : ∀ x, x < off * 64 ∨ off * 64 + 64 ≤ x → par1 x = par x)
    (hname : ∀ x, x < 58 → par1 (off * 64 + x) = par (off * 64 + x)) :
    findFrom (fun i => strcmp0 name par1 (i * 64)) n 0 = some off := by
  obtain ⟨-, a2, a3, a4⟩ := findFrom_some hf
  refine findFrom_first (p := fun i => strcmp0 name par1 (i * 64)) (Nat.zero_le _) a2 ?_ ?_
  · show strcmp0 name par1 (off * 64) = true
    rw [strcmp0_congr name par par1 (off * 64) (off * 64) (fun k hk => hname k (by omega))]
    exact a3
  · intro k _ hk
    show strcmp0 name par1 (k * 64) = false
    rw [strcmp0_congr name par par1 (k * 64) (k * 64) (fun j hj => hsame _ (by omega))]
    exact a4 k (Nat.zero_le _) hk

theorem copy_eq (junk buf e : Mem) (o : Nat) (h : ∀ x, x < 64 → buf (o + x) = e x) :
    blit junk 0 buf o 64 = blit junk 0 e 0 64 := by
  funext x
  unfold blit
  split
  · rename_i hx
    rw [Nat.zero_add, h _ (by omega)]
  · rfl

theorem found_after_write_root {L : Layout} {d d1 : Disk} {junk : Mem}
    {name : List Nat} {ent : Mem} {off pb : Nat} (hns : 47 ∉ name) (hlen : name.length < 58)
    (hres : get_entry L d (47 :: name) junk = some (Lookup.found ent off pb))
    (hd1 : ∀ a, a < L.SFS_BLOCKTBL_OFF → d1 a = d a) (hrt : L.SFS_ROOTDIR_OFF
      + L.SFS_ROOTDIR_NENTRIES * 64 ≤ L.SFS_BLOCKTBL_OFF) (e : Mem)
    (hname : ∀ x, x < 58 → e x = ent x) :
    off < L.SFS_ROOTDIR_NENTRIES ∧
    get_entry L (write_entry L d1 (47 :: name) e off pb) (47 :: name) junk
      = some (Lookup.found (blit junk 0 e 0 64) off pb) := by
  have hroot : in_root (47 :: name) = true := (in_root_cons name).mpr hns
  have hoff := get_entry_in_root_lt hres hroot
  have hne : name ≠ [] := by
    rintro rfl
    unfold get_entry at hres
    simp [tokens, tokens_aux, get_entry_rec] at hres
  have h0 := hres
  unfold get_entry at h0
  rw [tokens_root name hns hne] at h0
  obtain ⟨hf0, he, hpb⟩ := get_entry_rec_single h0
  have hf : findFrom (fun i => strcmp0 name (root_buf L d junk) (i * 64))
      L.SFS_ROOTDIR_NENTRIES 0 = some off := hf0
  have hw : ∀ a, write_entry L d1 (47 :: name) e off pb a =
      if L.SFS_ROOTDIR_OFF + off * 64 ≤ a ∧ a < L.SFS_ROOTDIR_OFF + off * 64 + 64
      then e (a - (L.SFS_ROOTDIR_OFF + off * 64)) else d1 a := by
    intro a
    rw [write_entry_apply]
    simp only [entry_off, hroot, if_true]
  have hrb : ∀ x, root_buf L (write_entry L d1 (47 :: name) e off pb) junk x =
      if off * 64 ≤ x ∧ x < off * 64 + 64 then e (x - off * 64)
      else root_buf L d junk x := by
    intro x
    rw [root_buf_apply, root_buf_apply]
    by_cases hx : x < L.SFS_ROOTDIR_NENTRIES * 64
    · rw [if_pos hx, if_pos hx, hw]
      by_cases hs : off * 64 ≤ x ∧ x < off * 64 + 64
      · rw [if_pos (by omega), if_pos hs]
        congr 1
        omega
      · rw [if_neg (by omega), if_neg hs, hd1 _ (by omega)]
    · rw [if_neg hx, if_neg hx, if_neg (by omega)]
  have hent : ∀ x, x < 64 → ent x = root_buf L d junk (off * 64 + x) := by
    intro x hx
    rw [he]
    exact blit_in (Nat.zero_le _) (by omega)
  have hfind : findFrom (fun i => strcmp0 name
      (root_buf L (write_entry L d1 (47 :: name) e off pb) junk) (i * 64))
      L.SFS_ROOTDIR_NENTRIES 0 = some off :=
    lookup_same hf hlen (fun x hx => by rw [hrb, if_neg (by omega)])
      (fun x hx => by
        rw [hrb, if_pos (by omega), ← hent x (by omega), ← hname x hx]
        congr 1
        omega)
  refine ⟨hoff, ?_⟩
  rw [get_entry_root_found L _ name junk off hns hne hfind, ← hpb]
  congr 2
  exact copy_eq junk _ e _ (fun x hx => by
    show root_buf L _ junk (off * 64 + x) = e x
    rw [hrb, if_pos (by omega)]
    congr 1
    omega)

theorem frame_parent_tbl {L : Layout} (hL : L.WF) {d : Disk} (d1 : Disk) {junk : Mem}
    {pp : List Nat} {pent : Mem} {poff ppb : Nat}
    (hres : get_entry L d pp junk = some (Lookup.found pent poff ppb))
    (hadj : tbl L d (ent_first_block pent 0) = ent_first_block pent 0 + 1)
    (hnd : (path_blocks L d junk pp).Nodup)
    (hlow : ∀ a, a < L.SFS_BLOCKTBL_OFF → d1 a = d a)
    (htbl : ∀ b ∈ path_blocks L d junk pp, tbl L d1 b = tbl L d b)
    (hdata : ∀ a, L.SFS_DATA_OFF ≤ a →
      a < L.SFS_DATA_OFF + ent_first_block pent 0 * L.SFS_BLOCK_SIZE ∨
      L.SFS_DATA_OFF + ent_first_block pent 0 * L.SFS_BLOCK_SIZE + 2 * L.SFS_BLOCK_SIZE ≤ a →
      d1 a = d a) :
    get_entry L d1 pp junk = some (Lookup.found pent poff ppb) ∧
      tbl L d1 (ent_first_block pent 0) = ent_first_block pent 0 + 1 := by
  have hrt := hL.root_tbl
  have htd := hL.tbl_data
  rw [path_blocks_found hres] at hnd htbl
  have hpe := mem_dir_blocks L d _ (ent_first_block pent 0)
    (List.mem_append_right (dirs_loaded L d junk (tokens pp) (root_buf L d junk)
      L.SFS_ROOTDIR_NENTRIES) (List.mem_singleton_self _))
  have hblock : ∀ b, b ≠ ent_first_block pent 0 → b ≠ ent_first_block pent 0 + 1 →
      ∀ x, x < L.SFS_BLOCK_SIZE → d1 (L.SFS_DATA_OFF + b * L.SFS_BLOCK_SIZE + x)
        = d (L.SFS_DATA_OFF + b * L.SFS_BLOCK_SIZE + x) := by
    intro b hb1 hb2 x hx
    apply hdata _ (by omega)
    rcases Nat.lt_or_gt_of_ne hb1 with h | h
    · have := Nat.mul_le_mul_right L.SFS_BLOCK_SIZE (Nat.succ_le_of_lt h)
      rw [Nat.succ_mul] at this
      omega
    · have : ent_first_block pent 0 + 2 ≤ b := by omega
      have := Nat.mul_le_mul_right L.SFS_BLOCK_SIZE this
      rw [Nat.add_mul] at this
      omega
  refine ⟨?_, by rw [htbl _ hpe.1, hadj]⟩
  rw [← hres]
  refine (get_entry_frame (fun a h1 h2 => hlow a (by omega)) (fun b hb => ?_)).1
  obtain ⟨h1, h2, h3, h4⟩ := dir_blocks_nodup_last L d _ _ hnd b hb
  rw [hadj] at h2 h4
  have hb' := mem_dir_blocks L d _ b (List.mem_append_left [ent_first_block pent 0] hb)
  exact load_dir_congr junk b (htbl b hb'.1) (hblock b h1 h2) (hblock _ h3 h4)

theorem found_after_write_sub {L : Layout} (hL : L.WF) {d d1 : Disk} {junk : Mem}
    {pp name : List Nat} {pent : Mem} {poff ppb : Nat} {ent : Mem} {off pb : Nat}
    (hin : 47 ∈ pp) (hns : 47 ∉ name) (hne : name ≠ []) (hlen : name.length < 58)
    (hresP : get_entry L d pp junk = some (Lookup.found pent poff ppb))
    (hadj : tbl L d (ent_first_block pent 0) = ent_first_block pent 0 + 1)
    (hnd : (path_blocks L d junk pp).Nodup)
    (hvalid : ∀ b ∈ path_blocks L d junk pp, b < L.SFS_BLOCKTBL_NENTRIES)
    (hres : get_entry L d (pp ++ 47 :: name) junk = some (Lookup.found ent off pb))
    (hlow : ∀ a, a < L.SFS_BLOCKTBL_OFF → d1 a = d a)
    (htbl : ∀ b ∈ path_blocks L d junk pp, tbl L d1 b = tbl L d b)
    (hdata : ∀ a, L.SFS_DATA_OFF ≤ a → d1 a = d a)
    (e : Mem) (hname : ∀ x, x < 58 → e x = ent x) :
    pb = ent_first_block pent 0 ∧ off < L.SFS_DIR_NENTRIES ∧
    get_entry L (write_entry L d1 (pp ++ 47 :: name) e off pb) pp junk
      = some (Lookup.found pent poff ppb) ∧
    get_entry L (write_entry L d1 (pp ++ 47 :: name) e off pb) (pp ++ 47 :: name) junk
      = some (Lookup.found (blit junk 0 e 0 64) off pb) := by
  have hrt := hL.root_tbl
  have htd := hL.tbl_data
  have hds := dir_size_eq hL
  have hdn : L.SFS_DIR_SIZE = L.SFS_DIR_NENTRIES * 64 := rfl
  generalize hpe : ent_first_block pent 0 = pe at *
  generalize hB : L.SFS_DATA_OFF + pe * L.SFS_BLOCK_SIZE = B at *
  have hroot : in_root (pp ++ 47 :: name) = false := by
    have := (in_root_append pp name hns).not.mpr (by simpa using hin)
    simpa using this
  -- the entry found is a slot of the parent
  have hchild := get_entry_child hresP hns hne
  rw [hres, hpe] at hchild
  have hfe : findFrom (fun i => strcmp0 name (load_dir L d junk pe) (i * 64))
      L.SFS_DIR_NENTRIES 0 = some off ∧ ent = blit junk 0 (load_dir L d junk pe) (off * 64) 64 ∧
      pb = pe := by
    cases hf : findFrom (fun i => strcmp0 name (load_dir L d junk pe) (i * 64))
        L.SFS_DIR_NENTRIES 0 with
    | none => rw [hf] at hchild; simp at hchild
    | some j =>
      rw [hf] at hchild
      simp only [Option.some.injEq, Lookup.found.injEq] at hchild
      obtain ⟨a1, a2, a3⟩ := hchild
      subst a2
      exact ⟨rfl, a1, a3⟩
  obtain ⟨hf, he, hpb⟩ := hfe
  subst hpb
  have hofflt := (findFrom_some hf).2.1
  have hw : ∀ a, write_entry L d1 (pp ++ 47 :: name) e off pb a =
      if B + off * 64 ≤ a ∧ a < B + off * 64 + 64 then e (a - (B + off * 64)) else d1 a := by
    intro a
    rw [write_entry_apply]
    simp only [entry_off, hroot, hB, Bool.false_eq_true, if_false]
  obtain ⟨hres1, hadj1⟩ := frame_parent_tbl hL (write_entry L d1 (pp ++ 47 :: name) e off pb)
    hresP (by rw [hpe]; exact hadj) hnd
    (fun a ha => by rw [hw, if_neg (by omega)]; exact hlow a ha)
    (fun b hb => by
      have hb1 := hvalid b hb
      refine Eq.trans (tbl_congr (fun a h1 h2 => ?_)) (htbl b hb)
      rw [hw, if_neg (by omega)])
    (fun a h1 h2 => by
      rw [hpe, hB] at h2
      rw [hw, if_neg (by omega)]
      exact hdata a h1)
  rw [hpe] at hadj1
  have hadj0 : tbl L d pb = pb + 1 := hadj
  have hbuf1 : ∀ x, load_dir L (write_entry L d1 (pp ++ 47 :: name) e off pb) junk pb x =
      if off * 64 ≤ x ∧ x < off * 64 + 64 then e (x - off * 64)
      else load_dir L d junk pb x := by
    intro x
    rw [load_dir_adj_apply hL _ junk pb x hadj1, load_dir_adj_apply hL d junk pb x hadj0, hB]
    by_cases hx : x < 2 * L.SFS_BLOCK_SIZE
    · rw [if_pos hx, if_pos hx, hw]
      by_cases hs : off * 64 ≤ x ∧ x < off * 64 + 64
      · rw [if_pos (by omega), if_pos hs]
        congr 1
        omega
      · rw [if_neg (by omega), if_neg hs, hdata _ (by omega)]
    · rw [if_neg hx, if_neg hx, if_neg (by omega)]
  have hent : ∀ x, x < 64 → ent x = load_dir L d junk pb (off * 64 + x) := by
    intro x hx
    rw [he]
    exact blit_in (Nat.zero_le _) (by omega)
  have hfind : findFrom (fun i => strcmp0 name
      (load_dir L (write_entry L d1 (pp ++ 47 :: name) e off pb) junk pb) (i * 64))
      L.SFS_DIR_NENTRIES 0 = some off :=
    lookup_same hf hlen (fun x hx => by rw [hbuf1, if_neg (by omega)])
      (fun x hx => by
        rw [hbuf1, if_pos (by omega), ← hent x (by omega), ← hname x hx]
        congr 1
        omega)
  refine ⟨rfl, by omega, hres1, ?_⟩
  rw [get_entry_child hres1 hns hne, hpe, hfind]
  show some (Lookup.found _ off pb) = _
  congr 2
  exact copy_eq junk _ e _ (fun x hx => by
    rw [hbuf1, if_pos (by omega)]
    congr 1
    omega)

theorem truncate_eq {L : Layout} (hL : L.WF)
    (hsmall : (L.SFS_BLOCKTBL_NENTRIES + 1) * L.SFS_BLOCK_SIZE ≤ SFS_DIRECTORY)
    (hE : L.SFS_BLOCKTBL_NENTRIES ≤ L.SFS_BLOCKIDX_EMPTY)
    {d : Disk} {path : List Nat} {junk ent : Mem} {off pb : Nat} {bs : List Nat}
    {size fuel : Nat}
    (hres : get_entry L d path junk = some (Lookup.found ent off pb))
    (hch : Chain L d (ent_first_block ent 0) bs)
    (hlen : bs.length = (ent_size ent 0 + L.SFS_BLOCK_SIZE - 1) / L.SFS_BLOCK_SIZE)
    (hfree : (size + L.SFS_BLOCK_SIZE - 1) / L.SFS_BLOCK_SIZE - bs.length
      ≤ (free_list L d).length)
    (hfuel : bs.length < fuel) :
    ∃ ent1 d1, sfs_truncate L d path size junk fuel
        = some (0, write_entry L d1 path (set_size ent1 0 size) off pb) ∧
      size < 4294967296 ∧
      Chain L d1 (ent_first_block ent1 0)
        (bs.take ((size + L.SFS_BLOCK_SIZE - 1) / L.SFS_BLOCK_SIZE) ++
          (free_list L d).take ((size + L.SFS_BLOCK_SIZE - 1) / L.SFS_BLOCK_SIZE - bs.length)) ∧
      (∀ k, k < 62 → ent1 k = ent k) ∧
      (∀ j, (size + L.SFS_BLOCK_SIZE - 1) / L.SFS_BLOCK_SIZE ≤ j → j < bs.length →
        tbl L d1 (bs.getD j 0) = L.SFS_BLOCKIDX_EMPTY) ∧
      (∀ j, j < L.SFS_BLOCKTBL_NENTRIES → j ∉ bs → tbl L d j ≠ L.SFS_BLOCKIDX_EMPTY →
        tbl L d1 j = tbl L d j) ∧
      (∀ a, a < L.SFS_BLOCKTBL_OFF ∨
        L.SFS_BLOCKTBL_OFF + L.SFS_BLOCKTBL_NENTRIES * 2 ≤ a → d1 a = d a) ∧
      ((size + L.SFS_BLOCK_SIZE - 1) / L.SFS_BLOCK_SIZE = bs.length → d1 = d) := by
  have hbp := hL.bs_pos
  have halloc := Chain.alloc hL hE hch
  rw [Nat.succ_mul] at hsmall
  unfold SFS_DIRECTORY at hsmall
  have hNm := Chain.length_le hch
  have hreg : ent_size ent 0 < 2147483648 := by
    have h1 := size_le_of_ceil hbp (le_of_eq hlen.symm) hNm
    omega
  generalize hK : (size + L.SFS_BLOCK_SIZE - 1) / L.SFS_BLOCK_SIZE = K at *
  have hKN : K ≤ L.SFS_BLOCKTBL_NENTRIES := by
    have h0 := Chain.length_add_free_le hch halloc
    omega
  have hnew : size < 2147483648 := by
    have h1 := size_le_of_ceil (n := K) (s := size) hbp (le_of_eq hK) hKN
    omega
  have hcurr : (ent_size ent 0 + L.SFS_BLOCK_SIZE - 1) % 4294967296 / L.SFS_BLOCK_SIZE
      = bs.length := by
    rw [Nat.mod_eq_of_lt (by omega), hlen]
  have hNle : L.SFS_BLOCKTBL_NENTRIES ≤ L.SFS_BLOCKTBL_NENTRIES * L.SFS_BLOCK_SIZE :=
    Nat.le_mul_of_pos_right _ hbp
  have hneed : K % 4294967296 = K := Nat.mod_eq_of_lt (by omega)
  have hsz : size = 0 ↔ K = 0 := by
    rw [← hK]
    exact (ceil_eq_zero size L.SFS_BLOCK_SIZE hbp).symm
  have hstep : ∃ ent1 d1,
      (if K < bs.length then truncate_shrink L d ent bs.length K size
        else if K > bs.length then truncate_grow L d ent (K - bs.length) junk fuel
        else some (ent, d)) = some (ent1, d1) ∧
      Chain L d1 (ent_first_block ent1 0) (bs.take K ++ (free_list L d).take (K - bs.length)) ∧
      (∀ k, k < 62 → ent1 k = ent k) ∧
      (∀ j, K ≤ j → j < bs.length → tbl L d1 (bs.getD j 0) = L.SFS_BLOCKIDX_EMPTY) ∧
      (∀ j, j < L.SFS_BLOCKTBL_NENTRIES → j ∉ bs → tbl L d j ≠ L.SFS_BLOCKIDX_EMPTY →
        tbl L d1 j = tbl L d j) ∧
      (∀ a, a < L.SFS_BLOCKTBL_OFF ∨
        L.SFS_BLOCKTBL_OFF + L.SFS_BLOCKTBL_NENTRIES * 2 ≤ a → d1 a = d a) ∧
      (K = bs.length → d1 = d) := by
    by_cases h1 : K < bs.length
    · obtain ⟨ent1, d1, e1, e2, e3, e4, e5⟩ :=
        truncate_shrink_spec hL d ent bs K size hch h1 hsz
      refine ⟨ent1, d1, by rw [if_pos h1]; exact e1, ?_, e3, e4, ?_, ?_, fun h => by omega⟩
      · have : K - bs.length = 0 := by omega
        rw [this, List.take_zero, List.append_nil]
        exact e2
      · intro j hj hnb _
        apply tbl_congr
        intro a ha1 ha2
        apply e5
        intro m hm1 hm2
        have hmem : bs.getD m 0 ∈ bs := by
          rw [List.getD_eq_getElem _ _ hm2]
          exact List.getElem_mem _
        have : bs.getD m 0 ≠ j := fun h => hnb (h ▸ hmem)
        omega
      · intro a ha
        apply e5
        intro m hm1 hm2
        have hmem : bs.getD m 0 ∈ bs := by
          rw [List.getD_eq_getElem _ _ hm2]
          exact List.getElem_mem _
        have := Chain.lt hch _ hmem
        omega
    · by_cases h2 : K > bs.length
      · obtain ⟨ent1, d1, e1, e2, e3, e4, e5⟩ := truncate_grow_spec hL d ent junk bs
          (K - bs.length) fuel hch halloc (by omega) hfree hfuel
        refine ⟨ent1, d1, by rw [if_neg h1, if_pos h2]; exact e1, ?_, e3,
          fun j a b => by omega, ?_, e5, fun h => by omega⟩
        · rw [List.take_of_length_le (by omega)]
          exact e2
        · intro j hj hnb hne
          refine e4 j hj (fun h => hne (free_take_mem h).2) (fun hbs e => hnb ?_)
          rw [e, List.getD_eq_getElem _ _ (by
            have := List.length_pos.mpr hbs
            omega)]
          exact List.getElem_mem _
      · refine ⟨ent, d, by rw [if_neg h1, if_neg h2], ?_, fun _ _ => rfl,
          fun j a b => by omega, fun _ _ _ _ => rfl, fun _ _ => rfl, fun _ => rfl⟩
        have : K - bs.length = 0 := by omega
        rw [this, List.take_zero, List.append_nil, List.take_of_length_le (by omega)]
        exact hch
  obtain ⟨ent1, d1, e1, e2, e3, e4, e5, e6, e7⟩ := hstep
  refine ⟨ent1, d1, ?_, by omega, e2, e3, e4, e5, e6, e7⟩
  simp only [sfs_truncate, hres, hcurr, hK, hneed, e1]

theorem truncate_found {L : Layout} (hL : L.WF)
    (hsmall : (L.SFS_BLOCKTBL_NENTRIES + 1) * L.SFS_BLOCK_SIZE ≤ SFS_DIRECTORY)
    (hE : L.SFS_BLOCKTBL_NENTRIES ≤ L.SFS_BLOCKIDX_EMPTY)
    {d : Disk} {path : List Nat} {junk ent : Mem} {off pb : Nat} {bs : List Nat}
    {size fuel : Nat}
    (hres : get_entry L d path junk = some (Lookup.found ent off pb))
    (hch : Chain L d (ent_first_block ent 0) bs)
    (hlen : bs.length = (ent_size ent 0 + L.SFS_BLOCK_SIZE - 1) / L.SFS_BLOCK_SIZE)
    (hfree : (size + L.SFS_BLOCK_SIZE - 1) / L.SFS_BLOCK_SIZE - bs.length
      ≤ (free_list L d).length)
    (hfuel : bs.length < fuel)
    (hoff : in_root path = true → off < L.SFS_ROOTDIR_NENTRIES)
    (hget : ∀ (d1 : Disk) (e : Mem),
      (∀ a, a < L.SFS_BLOCKTBL_OFF ∨
        L.SFS_BLOCKTBL_OFF + L.SFS_BLOCKTBL_NENTRIES * 2 ≤ a → d1 a = d a) →
      (∀ j, j < L.SFS_BLOCKTBL_NENTRIES → j ∉ bs → tbl L d j ≠ L.SFS_BLOCKIDX_EMPTY →
        tbl L d1 j = tbl L d j) →
      (∀ x, x < 58 → e x = ent x) →
      get_entry L (write_entry L d1 path e off pb) path junk
        = some (Lookup.found (blit junk 0 e 0 64) off pb)) :
    ∃ d' ent', sfs_truncate L d path size junk fuel = some (0, d') ∧
      get_entry L d' path junk = some (Lookup.found ent' off pb) ∧
      ent_size ent' 0 = size ∧
      Chain L d' (ent_first_block ent' 0)
        (bs.take ((size + L.SFS_BLOCK_SIZE - 1) / L.SFS_BLOCK_SIZE) ++
          (free_list L d).take ((size + L.SFS_BLOCK_SIZE - 1) / L.SFS_BLOCK_SIZE - bs.length)) ∧
      (∀ j, (size + L.SFS_BLOCK_SIZE - 1) / L.SFS_BLOCK_SIZE ≤ j → j < bs.length →
        tbl L d' (bs.getD j 0) = L.SFS_BLOCKIDX_EMPTY) ∧
      (∀ j, j < L.SFS_BLOCKTBL_NENTRIES → j ∉ bs → tbl L d j ≠ L.SFS_BLOCKIDX_EMPTY →
        tbl L d' j = tbl L d j) ∧
      ((size + L.SFS_BLOCK_SIZE - 1) / L.SFS_BLOCK_SIZE = bs.length →
        ∀ a, L.SFS_BLOCKTBL_OFF ≤ a → a < L.SFS_BLOCKTBL_OFF + L.SFS_BLOCKTBL_NENTRIES * 2 →
          d' a = d a) := by
  obtain ⟨ent1, d1, e1, hsz, e2, e3, e4, e5, e6, e7⟩ :=
    @truncate_eq L hL hsmall hE d path junk ent off pb bs size fuel hres hch hlen hfree hfuel
  have hg := hget d1 (set_size ent1 0 size) e6 e5 (fun x hx => by
    unfold set_size
    rw [poke32_out (by omega)]
    exact e3 x (by omega))
  have htw : ∀ j, j < L.SFS_BLOCKTBL_NENTRIES →
      tbl L (write_entry L d1 path (set_size ent1 0 size) off pb) j = tbl L d1 j :=
    fun j hj => tbl_write_entry hL _ _ _ _ _ _ hoff hj
  refine ⟨_, _, e1, hg, ?_, ?_, ?_, ?_, ?_⟩
  · rw [ent_size_copy, ent_size_set_size, Nat.mod_eq_of_lt hsz]
  · rw [ent_first_block_copy, ent_first_block_set_size]
    exact Chain.frame e2 (fun b hb => htw b (Chain.lt e2 b hb))
  · intro j hj1 hj2
    have hlt : bs.getD j 0 < L.SFS_BLOCKTBL_NENTRIES := by
      apply Chain.lt hch
      rw [List.getD_eq_getElem _ _ hj2]
      exact List.getElem_mem _
    rw [htw _ hlt]
    exact e4 j hj1 hj2
  · intro j hj hnb hne
    rw [htw j hj]
    exact e5 j hj hnb hne
  · intro hkm a ha1 ha2
    rw [write_entry_outside hL _ _ _ _ _ _ hoff ⟨ha1, ha2⟩, e7 hkm]

/-! ### The geometry of the directory regions -/

theorem dir_slot_le {L : Layout} (hL : L.WF) {k : Nat} (hk : k < L.SFS_DIR_NENTRIES) :
    k * 64 + 64 ≤ 2 * L.SFS_BLOCK_SIZE := by
  have h1 := hL.bs_dvd
  unfold Layout.SFS_DIR_NENTRIES at hk
  omega

theorem slot_outside_tbl {L : Layout} (hL : L.WF) {G : List Nat} {a : Nat}
    (h : Slot L G a) (t : Nat) (ht : t < 64) :
    a + t < L.SFS_BLOCKTBL_OFF ∨
      L.SFS_BLOCKTBL_OFF + L.SFS_BLOCKTBL_NENTRIES * 2 ≤ a + t := by
  have hrt := hL.root_tbl
  have htd := hL.tbl_data
  obtain ⟨A, n, k, hb, hk, rfl⟩ := h
  rcases hb with ⟨rfl, rfl⟩ | ⟨g, _, rfl, rfl⟩
  · left; omega
  · right; omega

theorem block_sep {L : Layout} {g g1 : Nat} (h1 : g1 ≠ g) (h2 : g1 ≠ g + 1) (h3 : g ≠ g1 + 1) :
    g * L.SFS_BLOCK_SIZE + 2 * L.SFS_BLOCK_SIZE ≤ g1 * L.SFS_BLOCK_SIZE ∨
      g1 * L.SFS_BLOCK_SIZE + 2 * L.SFS_BLOCK_SIZE ≤ g * L.SFS_BLOCK_SIZE := by
  rcases Nat.lt_or_ge g g1 with h | h
  · left
    have h4 : g + 2 ≤ g1 := by omega
    have := Nat.mul_le_mul_right L.SFS_BLOCK_SIZE h4
    rw [Nat.add_mul] at this
    omega
  · right
    have h4 : g1 + 2 ≤ g := by omega
    have := Nat.mul_le_mul_right L.SFS_BLOCK_SIZE h4
    rw [Nat.add_mul] at this
    omega

theorem buf_sep {L : Layout} (hL : L.WF) {G : List Nat}
    (hG2 : ∀ g ∈ G, ∀ g1 ∈ G, g1 ≠ g + 1) {A n A1 n1 : Nat}
    (hb : Buf L G A n) (hb1 : Buf L G A1 n1) :
    (A = A1 ∧ n = n1) ∨ A + n * 64 ≤ A1 ∨ A1 + n1 * 64 ≤ A := by
  have hrt := hL.root_tbl
  have htd := hL.tbl_data
  have hdn : L.SFS_DIR_NENTRIES * 64 = 2 * L.SFS_BLOCK_SIZE := dir_size_eq hL
  rcases hb with ⟨rfl, rfl⟩ | ⟨g, hg, rfl, rfl⟩ <;>
    rcases hb1 with ⟨rfl, rfl⟩ | ⟨g1, hg1, rfl, rfl⟩
  · left; exact ⟨rfl, rfl⟩
  · right; left; omega
  · right; right; omega
  · by_cases he : g1 = g
    · subst he; left; exact ⟨rfl, rfl⟩
    · right
      rcases block_sep (L := L) he (hG2 g hg g1 hg1) (hG2 g1 hg1 g hg) with h | h
      · left; omega
      · right; omega

theorem slot_sep {L : Layout} (hL : L.WF) {G : List Nat}
    (hG2 : ∀ g ∈ G, ∀ g1 ∈ G, g1 ≠ g + 1) {a a1 : Nat}
    (h : Slot L G a) (h1 : Slot L G a1) (hne : a ≠ a1) : a + 64 ≤ a1 ∨ a1 + 64 ≤ a := by
  obtain ⟨A, n, k, hb, hk, rfl⟩ := h
  obtain ⟨A1, n1, k1, hb1, hk1, rfl⟩ := h1
  rcases buf_sep hL hG2 hb hb1 with ⟨rfl, rfl⟩ | h | h
  · have : k ≠ k1 := fun e => hne (by rw [e])
    omega
  · left
    have : k * 64 + 64 ≤ n * 64 := by omega
    omega
  · right
    have : k1 * 64 + 64 ≤ n1 * 64 := by omega
    omega

theorem entry_name_ne_nil {m : Mem} {a : Nat} : entry_name m a ≠ [] ↔ m a ≠ 0 := by
  unfold entry_name
  constructor
  · intro h h0
    exact h (cstr_zero h0)
  · intro h h0
    exact h (cstr_eq_nil (by decide) h0)

/-! ### Entries under a change of the image -/

theorem Chain.frame_lt {L : Layout} {d d1 : Disk} {bs : List Nat} {first : Nat}
    (h : Chain L d first bs)
    (ht : ∀ j, j < L.SFS_BLOCKTBL_NENTRIES → tbl L d1 j = tbl L d j) : Chain L d1 first bs :=
  Chain.frame h (fun b hb => ht b (Chain.lt h b hb))

theorem EntOK.congr_ent {L : Layout} {d d1 : Disk} {G : List Nat} {m m1 : Mem} {a a1 : Nat}
    (h : EntOK L d G m a) (hb : ∀ t, t < 64 → m1 (a1 + t) = m (a + t))
    (ht : ∀ j, j < L.SFS_BLOCKTBL_NENTRIES → tbl L d1 j = tbl L d j) : EntOK L d1 G m1 a1 := by
  have hs : ent_size m1 a1 = ent_size m a := ent_size_congr hb
  have hf : ent_first_block m1 a1 = ent_first_block m a := ent_first_block_congr hb
  unfold EntOK
  rw [hs, hf]
  rcases h with h | ⟨h1, bs, h2, h3, h4⟩
  · exact Or.inl h
  · exact Or.inr ⟨h1, bs, Chain.frame_lt h2 ht, h3, h4⟩

theorem PairOK.congr_pair {L : Layout} {d d1 : Disk} {m m1 n n1 : Mem} {a a1 b b1 : Nat}
    (h : PairOK L d m a n b) (hm : ∀ t, t < 64 → m1 (a1 + t) = m (a + t))
    (hn : ∀ t, t < 64 → n1 (b1 + t) = n (b + t))
    (ht : ∀ j, j < L.SFS_BLOCKTBL_NENTRIES → tbl L d1 j = tbl L d j) :
    PairOK L d1 m1 a1 n1 b1 := by
  have hs : ent_size m1 a1 = ent_size m a := ent_size_congr hm
  have hf : ent_first_block m1 a1 = ent_first_block m a := ent_first_block_congr hm
  have hs1 : ent_size n1 b1 = ent_size n b := ent_size_congr hn
  have hf1 : ent_first_block n1 b1 = ent_first_block n b := ent_first_block_congr hn
  unfold PairOK
  rw [hs, hf, hs1, hf1]
  refine ⟨h.1, fun bs bs1 e1 e2 c1 c2 => ?_⟩
  exact h.2 bs bs1 e1 e2 (Chain.frame_lt c1 (fun j hj => (ht j hj).symm))
    (Chain.frame_lt c2 (fun j hj => (ht j hj).symm))

theorem PairOK.symm {L : Layout} {d : Disk} {m n : Mem} {a b : Nat}
    (h : PairOK L d m a n b) : PairOK L d n b m a := by
  refine ⟨fun e1 e2 e3 => h.1 e2 e1 e3.symm, fun bs bs1 e1 e2 c1 c2 x hx hx1 => ?_⟩
  exact h.2 bs1 bs e2 e1 c2 c1 x hx1 hx

theorem entry_name_congr {m m1 : Mem} {a a1 : Nat}
    (h : ∀ t, t < 64 → m1 (a1 + t) = m (a + t)) : entry_name m1 a1 = entry_name m a :=
  cstr_congr 58 a a1 (fun k hk => h k (by omega))

/-! ### The invariant under a change of the block table -/

theorem invx_frame {L : Layout} {d d0 : Disk} {G G0 : List Nat} {x : Option Nat}
    (h : InvX L d G none)
    (hG1 : ∀ g ∈ G0, g + 1 < L.SFS_BLOCKTBL_NENTRIES ∧ tbl L d0 g = g + 1 ∧
      tbl L d0 (g + 1) = L.SFS_BLOCKIDX_END)
    (hG2 : ∀ g ∈ G0, ∀ g1 ∈ G0, g1 ≠ g + 1)
    (hbuf : ∀ A n, Buf L G0 A n →
      (Buf L G A n ∧ ∀ y, A ≤ y → y < A + n * 64 → d0 y = d y) ∨
      (∀ k, k < n → d0 (A + k * 64) = 0))
    (hch : ∀ a, Slot L G a → some a ≠ x → d a ≠ 0 →
      (ent_size d a = SFS_DIRECTORY → ent_first_block d a ∈ G0) ∧
      (∀ bs, ent_size d a < SFS_DIRECTORY → Chain L d (ent_first_block d a) bs →
        (∀ b ∈ bs, tbl L d0 b = tbl L d b) ∧ ∀ b ∈ bs, ∀ g ∈ G0, b ≠ g ∧ b ≠ g + 1)) :
    InvX L d0 G0 x := by
  obtain ⟨-, -, i3, i4, i5⟩ := h
  -- an occupied slot of the new image is a slot of the old image with the same bytes
  have hold : ∀ a, Slot L G0 a → d0 a ≠ 0 →
      Slot L G a ∧ ∀ t, t < 64 → d0 (a + t) = d (a + t) := by
    intro a ha h0
    obtain ⟨A, n, k, hb, hk, rfl⟩ := ha
    rcases hbuf A n hb with ⟨hb1, hsame⟩ | hz
    · exact ⟨⟨A, n, k, hb1, hk, rfl⟩, fun t ht => hsame _ (by omega) (by omega)⟩
    · exact absurd (hz k hk) h0
  -- the entry of such a slot is sound in the new image
  have hent : ∀ a, Slot L G0 a → some a ≠ x → d0 a ≠ 0 →
      EntOK L d0 G0 d0 a ∧ (ent_size d a < SFS_DIRECTORY → ∃ bs,
        Chain L d (ent_first_block d a) bs ∧ Chain L d0 (ent_first_block d a) bs) := by
    intro a ha hx h0
    obtain ⟨hs, hby⟩ := hold a ha h0
    have hda : d a ≠ 0 := by
      have := hby 0 (by omega)
      simp only [Nat.add_zero] at this
      rwa [← this]
    have hsz : ent_size d0 a = ent_size d a := ent_size_congr hby
    have hfb : ent_first_block d0 a = ent_first_block d a := ent_first_block_congr hby
    obtain ⟨c1, c2⟩ := hch a hs hx hda
    rcases i3 a hs (by simp) hda with ⟨e1, _⟩ | ⟨e1, bs, e2, e3, _⟩
    · refine ⟨Or.inl ?_, fun hlt => by omega⟩
      rw [hsz, hfb]
      exact ⟨e1, c1 e1⟩
    · obtain ⟨f1, f2⟩ := c2 bs e1 e2
      have hc0 : Chain L d0 (ent_first_block d a) bs := Chain.frame e2 f1
      refine ⟨Or.inr ?_, fun _ => ⟨bs, e2, hc0⟩⟩
      rw [hsz, hfb]
      exact ⟨e1, bs, hc0, e3, f2⟩
  refine ⟨hG1, hG2, fun a ha hx h0 => (hent a ha hx h0).1, ?_, ?_⟩
  · intro a a1 ha ha1 hx hx1 hne h0 h01
    obtain ⟨hs, hby⟩ := hold a ha h0
    obtain ⟨hs1, hby1⟩ := hold a1 ha1 h01
    have hda : d a ≠ 0 := by
      have := hby 0 (by omega)
      simp only [Nat.add_zero] at this
      rwa [← this]
    have hda1 : d a1 ≠ 0 := by
      have := hby1 0 (by omega)
      simp only [Nat.add_zero] at this
      rwa [← this]
    have hp := i4 a a1 hs hs1 (by simp) (by simp) hne hda hda1
    have hsz : ent_size d0 a = ent_size d a := ent_size_congr hby
    have hfb : ent_first_block d0 a = ent_first_block d a := ent_first_block_congr hby
    have hsz1 : ent_size d0 a1 = ent_size d a1 := ent_size_congr hby1
    have hfb1 : ent_first_block d0 a1 = ent_first_block d a1 := ent_first_block_congr hby1
    unfold PairOK
    rw [hsz, hfb, hsz1, hfb1]
    refine ⟨hp.1, fun bs bs1 e1 e2 c1 c2 => ?_⟩
    obtain ⟨cs, k1, k2⟩ := (hent a ha hx h0).2 e1
    obtain ⟨cs1, k3, k4⟩ := (hent a1 ha1 hx1 h01).2 e2
    rw [Chain.unique c1 k2, Chain.unique c2 k4]
    exact hp.2 cs cs1 e1 e2 k1 k3
  · intro A n hb i j hi hj hxi hxj h0 hnm
    rcases hbuf A n hb with ⟨hb1, hsame⟩ | hz
    · have hbi : ∀ t, t < 64 → d0 (A + i * 64 + t) = d (A + i * 64 + t) :=
        fun t ht => hsame _ (by omega) (by omega)
      have hbj : ∀ t, t < 64 → d0 (A + j * 64 + t) = d (A + j * 64 + t) :=
        fun t ht => hsame _ (by omega) (by omega)
      have hda : d (A + i * 64) ≠ 0 := by
        have := hbi 0 (by omega)
        simp only [Nat.add_zero] at this
        rwa [← this]
      apply i5 A n hb1 i j hi hj (by simp) (by simp) hda
      rw [← entry_name_congr hbi, ← entry_name_congr hbj]
      exact hnm
    · exact absurd (hz i hi) h0

/-! ### The invariant under the write of one slot -/

theorem inv_slot_write {L : Layout} (hL : L.WF) {d0 d1 : Disk} {G : List Nat} {x : Nat}
    {e : Mem} (h : InvX L d0 G (some x)) (hx : Slot L G x)
    (hd1 : ∀ a, d1 a = if x ≤ a ∧ a < x + 64 then e (a - x) else d0 a)
    (hent : e 0 ≠ 0 → EntOK L d0 G e 0)
    (hpair : e 0 ≠ 0 → ∀ a, Slot L G a → a ≠ x → d0 a ≠ 0 → PairOK L d0 e 0 d0 a)
    (hname : e 0 ≠ 0 → ∀ A n k, Buf L G A n → k < n → x = A + k * 64 →
      ∀ j, j < n → j ≠ k → d0 (A + j * 64) ≠ 0 →
      entry_name d0 (A + j * 64) ≠ entry_name e 0) :
    InvX L d1 G none := by
  obtain ⟨i1, i2, i3, i4, i5⟩ := h
  have htbl : ∀ j, j < L.SFS_BLOCKTBL_NENTRIES → tbl L d1 j = tbl L d0 j := by
    intro j hj
    apply tbl_congr
    intro a h1 h2
    rw [hd1 a, if_neg]
    intro hc
    have := slot_outside_tbl hL hx (a - x) (by omega)
    have e1 : x + (a - x) = a := by omega
    rw [e1] at this
    omega
  have hother : ∀ a, Slot L G a → a ≠ x → ∀ t, t < 64 → d1 (a + t) = d0 (a + t) := by
    intro a ha hne t ht
    rw [hd1, if_neg]
    have := slot_sep hL i2 ha hx hne
    omega
  have hself : ∀ t, t < 64 → d1 (x + t) = e (0 + t) := by
    intro t ht
    rw [hd1, if_pos (by omega)]
    congr 1
    omega
  have hzero : ∀ a, Slot L G a → a ≠ x → d1 a = d0 a := fun a ha hne => by
    have := hother a ha hne 0 (by omega)
    simpa using this
  have hx0 : d1 x = e 0 := by
    have := hself 0 (by omega)
    simpa using this
  refine ⟨?_, i2, ?_, ?_, ?_⟩
  · intro g hg
    obtain ⟨g1, g2, g3⟩ := i1 g hg
    exact ⟨g1, by rw [htbl g (by omega)]; exact g2, by rw [htbl (g + 1) g1]; exact g3⟩
  · intro a ha _ h0
    by_cases hax : a = x
    · subst hax
      rw [hx0] at h0
      exact (hent h0).congr_ent hself htbl
    · rw [hzero a ha hax] at h0
      exact (i3 a ha (by simpa using hax) h0).congr_ent (hother a ha hax) htbl
  · intro a a1 ha ha1 _ _ hne h0 h01
    by_cases hax : a = x
    · subst hax
      have ha1x : a1 ≠ a := fun e1 => hne e1.symm
      rw [hx0] at h0
      rw [hzero a1 ha1 ha1x] at h01
      exact (hpair h0 a1 ha1 ha1x h01).congr_pair hself (hother a1 ha1 ha1x) htbl
    · by_cases ha1x : a1 = x
      · subst ha1x
        rw [hx0] at h01
        rw [hzero a ha hax] at h0
        exact ((hpair h01 a ha hax h0).congr_pair hself (hother a ha hax) htbl).symm
      · rw [hzero a ha hax] at h0
        rw [hzero a1 ha1 ha1x] at h01
        exact (i4 a a1 ha ha1 (by simpa using hax) (by simpa using ha1x) hne h0 h01).congr_pair
          (hother a ha hax) (hother a1 ha1 ha1x) htbl
  · intro A n hb i j hi hj _ _ h0 hnm
    have hsi : Slot L G (A + i * 64) := ⟨A, n, i, hb, hi, rfl⟩
    have hsj : Slot L G (A + j * 64) := ⟨A, n, j, hb, hj, rfl⟩
    by_cases hij : i = j
    · exact hij
    · exfalso
      by_cases hix : A + i * 64 = x
      · have hjx : A + j * 64 ≠ x := by omega
        rw [hix, hx0] at h0
        rw [hix, entry_name_congr hself, entry_name_congr (hother _ hsj hjx)] at hnm
        have hj0 : d0 (A + j * 64) ≠ 0 := by
          rw [← entry_name_ne_nil, ← hnm, entry_name_ne_nil]
          simpa using h0
        exact hname h0 A n i hb hi hix.symm j hj (fun e1 => hij e1.symm) hj0 hnm.symm
      · rw [hzero _ hsi hix] at h0
        by_cases hjx : A + j * 64 = x
        · rw [hjx, entry_name_congr hself, entry_name_congr (hother _ hsi hix)] at hnm
          have he0 : e 0 ≠ 0 := by
            rw [← entry_name_ne_nil, ← hnm, entry_name_ne_nil]
            exact h0
          exact hname he0 A n j hb hj hjx.symm i hi hij h0 hnm
        · rw [entry_name_congr (hother _ hsi hix), entry_name_congr (hother _ hsj hjx)] at hnm
          exact hij (i5 A n hb i j hi hj (by simpa using hix) (by simpa using hjx) h0 hnm)

/-! ### The lookup in a directory region -/

theorem findFrom_congr {p q : Nat → Bool} : ∀ {n i : Nat},
    (∀ k, i ≤ k → k < i + n → p k = q k) → findFrom p n i = findFrom q n i
  | 0, _, _ => rfl
  | n + 1, i, h => by
    unfold findFrom
    rw [h i (le_refl _) (by omega),
      findFrom_congr (n := n) (i := i + 1) (fun k h1 h2 => h k (by omega) (by omega))]

theorem strcmp0_occupied {name : List Nat} {m : Mem} {e : Nat} (hne : name ≠ [])
    (hz : 0 ∉ name) (h : strcmp0 name m e = true) : m e ≠ 0 := by
  cases name with
  | nil => exact absurd rfl hne
  | cons c cs =>
    unfold strcmp0 at h
    simp only [Bool.and_eq_true, beq_iff_eq] at h
    rw [h.1]
    intro hc
    exact hz (hc ▸ List.mem_cons_self _ _)

theorem not_dir_bit {s : Nat} (h : s < SFS_DIRECTORY) : SFS_DIRECTORY &&& s = 0 := by
  by_contra hc
  have h1 := (dir_bit s).mp hc
  have h2 : s.testBit 31 = false := Nat.testBit_lt_two_pow (by unfold SFS_DIRECTORY at h; omega)
  rw [h2] at h1
  exact absurd h1 (by simp)

theorem has_dir_bit : SFS_DIRECTORY &&& SFS_DIRECTORY ≠ 0 := by decide

theorem copy_slot (junk buf d : Mem) (o A : Nat) (h : ∀ t, t < 64 → buf (o + t) = d (A + t)) :
    blit junk 0 buf o 64 = blit junk 0 d A 64 := by
  funext a
  unfold blit
  by_cases ha : 0 ≤ a ∧ a < 0 + 64
  · rw [if_pos ha, if_pos ha]
    exact h (a - 0) (by omega)
  · rw [if_neg ha, if_neg ha]

theorem lookup_nf {L : Layout} (hL : L.WF) {d : Disk} {G : List Nat} {junk : Mem}
    {pp : List Nat} (hinv : InvX L d G none) (hp : DirPath L d junk pp) :
    ∃ A n pbv, Buf L G A n ∧
      ((pp = [] ∧ A = L.SFS_ROOTDIR_OFF ∧ n = L.SFS_ROOTDIR_NENTRIES ∧ pbv = peek16 junk 0) ∨
        (47 ∈ pp ∧ ∃ pent poff ppb, get_entry L d pp junk = some (Lookup.found pent poff ppb) ∧
          ent_first_block pent 0 ∈ G ∧
          A = L.SFS_DATA_OFF + ent_first_block pent 0 * L.SFS_BLOCK_SIZE ∧
          n = L.SFS_DIR_NENTRIES ∧ pbv = ent_first_block pent 0)) ∧
      (∀ name, GoodName name → get_entry L d (pp ++ 47 :: name) junk =
        match findFrom (fun i => strcmp0 name d (A + i * 64)) n 0 with
        | none => some Lookup.enoent
        | some j => some (Lookup.found (blit junk 0 d (A + j * 64) 64) j pbv)) ∧
      (∀ (name : List Nat) (d0 : Disk) (e : Mem) (j : Nat), 47 ∉ name → ∀ a,
        write_entry L d0 (pp ++ 47 :: name) e j pbv a =
          if A + j * 64 ≤ a ∧ a < A + j * 64 + 64 then e (a - (A + j * 64)) else d0 a) := by
  obtain ⟨i1, i2, i3, i4, i5⟩ := hinv
  induction hp with
  | root =>
    refine ⟨L.SFS_ROOTDIR_OFF, L.SFS_ROOTDIR_NENTRIES, peek16 junk 0, Or.inl ⟨rfl, rfl⟩,
      Or.inl ⟨rfl, rfl, rfl, rfl⟩, ?_, ?_⟩
    · intro name ⟨hne, hlen, hns, hz⟩
      have hbuf : ∀ i t, i < L.SFS_ROOTDIR_NENTRIES → t < 64 →
          root_buf L d junk (i * 64 + t) = d (L.SFS_ROOTDIR_OFF + i * 64 + t) := by
        intro i t hi ht
        rw [root_buf_apply, if_pos (by omega), Nat.add_assoc]
      have hfc : findFrom (fun i => strcmp0 name (root_buf L d junk) (i * 64))
          L.SFS_ROOTDIR_NENTRIES 0
          = findFrom (fun i => strcmp0 name d (L.SFS_ROOTDIR_OFF + i * 64))
            L.SFS_ROOTDIR_NENTRIES 0 :=
        findFrom_congr (fun k _ hk => strcmp0_congr name _ _ _ _
          (fun t ht => hbuf k t (by omega) (by omega)))
      show get_entry L d ([] ++ 47 :: name) junk = _
      rw [List.nil_append]
      unfold get_entry
      rw [tokens_root name hns hne]
      unfold get_entry_rec
      change (match findFrom (fun i => strcmp0 name (root_buf L d junk) (i * 64))
        L.SFS_ROOTDIR_NENTRIES 0 with
        | none => some Lookup.enoent
        | some i => some (Lookup.found (blit junk 0 (root_buf L d junk) (i * 64) 64) i
            (peek16 junk 0))) = _
      rw [hfc]
      cases hf : findFrom (fun i => strcmp0 name d (L.SFS_ROOTDIR_OFF + i * 64))
        L.SFS_ROOTDIR_NENTRIES 0 with
      | none => rfl
      | some j =>
        have hj := (findFrom_some hf).2.1
        show some (Lookup.found (blit junk 0 (root_buf L d junk) (j * 64) 64) j
          (peek16 junk 0)) = _
        rw [copy_slot junk (root_buf L d junk) d (j * 64) (L.SFS_ROOTDIR_OFF + j * 64)
          (fun t ht => hbuf j t (by omega) ht)]
    · intro name d0 e j hns a
      show write_entry L d0 ([] ++ 47 :: name) e j (peek16 junk 0) a = _
      rw [List.nil_append]
      unfold write_entry
      rw [if_pos ((in_root_cons name).mpr hns)]
      unfold disk_write blit
      simp only [Nat.zero_add]
  | sub pp name ent off pb hp1 hgood hres hdir ih =>
    obtain ⟨A1, n1, pbv1, hb1, -, hform, -⟩ := ih
    obtain ⟨hne, hlen, hns, hz⟩ := hgood
    have hf1 := hform name ⟨hne, hlen, hns, hz⟩
    rw [hres] at hf1
    cases hf : findFrom (fun i => strcmp0 name d (A1 + i * 64)) n1 0 with
    | none => rw [hf] at hf1; exact absurd hf1 (by simp)
    | some j =>
      rw [hf] at hf1
      simp only [Option.some.injEq, Lookup.found.injEq] at hf1
      obtain ⟨he, -, -⟩ := hf1
      obtain ⟨-, hj, hcmp, -⟩ := findFrom_some hf
      have hocc := strcmp0_occupied hne hz hcmp
      have hslot : Slot L G (A1 + j * 64) := ⟨A1, n1, j, hb1, by omega, rfl⟩
      have hsz : ent_size ent 0 = ent_size d (A1 + j * 64) := by
        rw [he, ent_size_copy]
      have hfb : ent_first_block ent 0 = ent_first_block d (A1 + j * 64) := by
        rw [he, ent_first_block_copy]
      have hg : ent_first_block ent 0 ∈ G := by
        rcases i3 _ hslot (by simp) hocc with ⟨-, e2⟩ | ⟨e1, -⟩
        · rw [hfb]; exact e2
        · rw [hsz] at hdir
          exact absurd (not_dir_bit e1) hdir
      obtain ⟨g1, g2, g3⟩ := i1 _ hg
      have hin : 47 ∈ pp ++ 47 :: name := by simp
      refine ⟨L.SFS_DATA_OFF + ent_first_block ent 0 * L.SFS_BLOCK_SIZE, L.SFS_DIR_NENTRIES,
        ent_first_block ent 0, Or.inr ⟨_, hg, rfl, rfl⟩,
        Or.inr ⟨hin, ent, off, pb, hres, hg, rfl, rfl, rfl⟩, ?_, ?_⟩
      · intro nm ⟨hne2, hlen2, hns2, hz2⟩
        have hbuf : ∀ i t, i < L.SFS_DIR_NENTRIES → t < 64 →
            load_dir L d junk (ent_first_block ent 0) (i * 64 + t)
              = d (L.SFS_DATA_OFF + ent_first_block ent 0 * L.SFS_BLOCK_SIZE + i * 64 + t) := by
          intro i t hi ht
          have := dir_slot_le hL hi
          rw [load_dir_adj hL d junk _ _ g2 (by omega)]
          congr 1
          omega
        have hfc : findFrom (fun i => strcmp0 nm (load_dir L d junk (ent_first_block ent 0))
            (i * 64)) L.SFS_DIR_NENTRIES 0
            = findFrom (fun i => strcmp0 nm d
              (L.SFS_DATA_OFF + ent_first_block ent 0 * L.SFS_BLOCK_SIZE + i * 64))
              L.SFS_DIR_NENTRIES 0 :=
          findFrom_congr (fun k _ hk => strcmp0_congr nm _ _ _ _
            (fun t ht => hbuf k t (by omega) (by omega)))
        rw [get_entry_child hres hns2 hne2, hfc]
        cases hf2 : findFrom (fun i => strcmp0 nm d
          (L.SFS_DATA_OFF + ent_first_block ent 0 * L.SFS_BLOCK_SIZE + i * 64))
          L.SFS_DIR_NENTRIES 0 with
        | none => rfl
        | some j2 =>
          have hj2 := (findFrom_some hf2).2.1
          show some (Lookup.found (blit junk 0 (load_dir L d junk (ent_first_block ent 0))
            (j2 * 64) 64) j2 (ent_first_block ent 0)) = _
          rw [copy_slot junk (load_dir L d junk (ent_first_block ent 0)) d (j2 * 64)
            (L.SFS_DATA_OFF + ent_first_block ent 0 * L.SFS_BLOCK_SIZE + j2 * 64)
            (fun t ht => hbuf j2 t (by omega) ht)]
      · intro nm d0 e j2 hns2 a
        have hroot : in_root ((pp ++ 47 :: name) ++ 47 :: nm) = false := by
          have := (in_root_append (pp ++ 47 :: name) nm hns2).not.mpr (by simp)
          simpa using this
        unfold write_entry
        rw [hroot]
        unfold disk_write blit
        simp only [Nat.zero_add, Bool.false_eq_true, if_false]

/-! ### What `create` and `mkdir` write, in terms of the directory region -/

theorem create_nf {L : Layout} (hL : L.WF) {d d1 : Disk} {junk : Mem} {pp name : List Nat}
    {stale : Option Nat} {r : Int} {A n : Nat} (hns : 47 ∉ name) (hlen : name.length < 58)
    (hpar : (pp = [] ∧ A = L.SFS_ROOTDIR_OFF ∧ n = L.SFS_ROOTDIR_NENTRIES) ∨
      (47 ∈ pp ∧ ∃ pent poff ppb, get_entry L d pp junk = some (Lookup.found pent poff ppb) ∧
        tbl L d (ent_first_block pent 0) = ent_first_block pent 0 + 1 ∧
        A = L.SFS_DATA_OFF + ent_first_block pent 0 * L.SFS_BLOCK_SIZE ∧
        n = L.SFS_DIR_NENTRIES))
    (h : sfs_create L d (pp ++ 47 :: name) junk stale = some (r, d1)) :
    d1 = d ∨ ∃ k, k < n ∧ ∀ a, d1 a =
      if A + k * 64 ≤ a ∧ a < A + k * 64 + 64
      then new_file_entry L junk name (a - (A + k * 64)) else d a := by
  rcases hpar with ⟨rfl, rfl, rfl⟩ | ⟨hin, pent, poff, ppb, hres, hadj, rfl, rfl⟩
  · rw [List.nil_append] at h
    have hroot : in_root (47 :: name) = true := (in_root_cons name).mpr hns
    simp only [sfs_create, get_child_root name hns, ge_iff_le,
      if_neg (show ¬ 58 ≤ name.length by omega), hroot, if_true] at h
    cases hs : last_empty_slot (disk_read d junk 0 L.SFS_ROOTDIR_SIZE L.SFS_ROOTDIR_OFF)
      L.SFS_ROOTDIR_NENTRIES stale with
    | none =>
      rw [hs] at h
      simp only [Option.some.injEq, Prod.mk.injEq] at h
      exact Or.inl h.2.symm
    | some k =>
      rw [hs] at h
      by_cases hk : k < L.SFS_ROOTDIR_NENTRIES
      · simp only [if_pos hk, Option.some.injEq, Prod.mk.injEq] at h
        right
        refine ⟨k, hk, fun a => ?_⟩
        rw [← h.2]
        exact slot_write d (root_buf L d junk) _ _ (L.SFS_ROOTDIR_NENTRIES * 64) k
          (fun x hx => by rw [root_buf_apply, if_pos hx]) (by omega) a
      · simp only [if_neg hk] at h
        exact absurd h (by simp)
  · have hds := dir_size_eq hL
    have hdn : L.SFS_DIR_SIZE = L.SFS_DIR_NENTRIES * 64 := rfl
    have hroot : in_root (pp ++ 47 :: name) = false := by
      have := (in_root_append pp name hns).not.mpr (by simpa using hin)
      simpa using this
    have hbuf : ∀ x, x < L.SFS_DIR_SIZE → load_dir L d junk (ent_first_block pent 0) x
        = d (L.SFS_DATA_OFF + ent_first_block pent 0 * L.SFS_BLOCK_SIZE + x) := by
      intro x hx
      rw [load_dir_adj hL d junk _ x hadj (by omega)]
    simp only [sfs_create, get_child_append pp name hns, ge_iff_le,
      if_neg (show ¬ 58 ≤ name.length by omega), hroot, get_parent_append pp name hns, hres,
      Bool.false_eq_true, if_false] at h
    cases hs : last_empty_slot (load_dir L d junk (ent_first_block pent 0))
      L.SFS_DIR_NENTRIES stale with
    | none =>
      rw [hs] at h
      simp only [Option.some.injEq, Prod.mk.injEq] at h
      exact Or.inl h.2.symm
    | some k =>
      rw [hs] at h
      by_cases hk : k < L.SFS_DIR_NENTRIES
      · simp only [if_pos hk, Option.some.injEq, Prod.mk.injEq] at h
        right
        refine ⟨k, hk, fun a => ?_⟩
        rw [← h.2]
        exact slot_write d (load_dir L d junk (ent_first_block pent 0)) _ _ L.SFS_DIR_SIZE k
          hbuf (by omega) a
      · simp only [if_neg hk] at h
        exact absurd h (by simp)

theorem sfs_mkdir_sub_eq (L : Layout) (d : Disk) (pp name : List Nat) (junk : Mem)
    (b1 b2 i : Nat) (pent : Mem) (poff ppb : Nat) (hin : 47 ∈ pp) (hns : 47 ∉ name)
    (hlen : name.length < 58)
    (hpair : find_free_pair L (disk_read d junk 0 L.SFS_BLOCKTBL_SIZE L.SFS_BLOCKTBL_OFF)
      = (b1, b2))
    (hb1 : b1 ≠ L.SFS_BLOCKIDX_EMPTY)
    (hres : get_entry L (mkdir_blocks L d junk b1 b2) pp junk
      = some (Lookup.found pent poff ppb))
    (hslot : first_empty_slot (load_dir L (mkdir_blocks L d junk b1 b2) junk
      (ent_first_block pent 0)) L.SFS_DIR_NENTRIES = some i) :
    sfs_mkdir L d (pp ++ 47 :: name) junk = some (0,
      disk_write (mkdir_blocks L d junk b1 b2)
        (new_dir_entry (load_dir L (mkdir_blocks L d junk b1 b2) junk (ent_first_block pent 0))
          i name b1)
        0 L.SFS_DIR_SIZE (L.SFS_DATA_OFF + ent_first_block pent 0 * L.SFS_BLOCK_SIZE)) := by
  have hroot : in_root (pp ++ 47 :: name) = false := by
    have := (in_root_append pp name hns).not.mpr (by simpa using hin)
    simpa using this
  unfold mkdir_blocks at hres hslot
  simp only [sfs_mkdir, get_child_append pp name hns, ge_iff_le,
    if_neg (show ¬ 58 ≤ name.length by omega), hpair, if_neg hb1, hroot,
    get_parent_append pp name hns, hres, hslot, Bool.false_eq_true, if_false]
  rfl

theorem first_empty_slot_total (dir : Mem) {n : Nat} (hn : 0 < n) :
    ∃ k, first_empty_slot dir n = some k ∧ k < n := by
  unfold first_empty_slot
  cases hf : findFrom (fun i => dir (i * 64) == 0) n 0 with
  | none => exact ⟨n - 1, by simp [Nat.pos_iff_ne_zero.mp hn], by omega⟩
  | some i => exact ⟨i, rfl, by have := (findFrom_some hf).2.1; omega⟩

theorem dir_nentries_pos {L : Layout} (hL : L.WF) : 0 < L.SFS_DIR_NENTRIES := by
  have h1 := hL.bs_dvd
  have h2 := hL.bs_pos
  unfold Layout.SFS_DIR_NENTRIES
  omega

theorem mkdir_nf {L : Layout} (hL : L.WF)
    (hE : L.SFS_BLOCKTBL_NENTRIES ≤ L.SFS_BLOCKIDX_EMPTY) {d d1 : Disk} {junk : Mem}
    {pp name : List Nat} {r : Int} (hns : 47 ∉ name) (hlen : name.length < 58)
    (hz : 0 ∉ name)
    (h : sfs_mkdir L d (pp ++ 47 :: name) junk = some (r, d1)) :
    d1 = d ∨ ∃ i, i + 1 < L.SFS_BLOCKTBL_NENTRIES ∧ tbl L d i = L.SFS_BLOCKIDX_EMPTY ∧
      tbl L d (i + 1) = L.SFS_BLOCKIDX_EMPTY ∧
      ∀ A n, ((pp = [] ∧ A = L.SFS_ROOTDIR_OFF ∧ n = L.SFS_ROOTDIR_NENTRIES) ∨
        (47 ∈ pp ∧ ∃ pent poff ppb,
          get_entry L (mkdir_blocks L d junk i (i + 1)) pp junk
            = some (Lookup.found pent poff ppb) ∧
          tbl L (mkdir_blocks L d junk i (i + 1)) (ent_first_block pent 0)
            = ent_first_block pent 0 + 1 ∧
          A = L.SFS_DATA_OFF + ent_first_block pent 0 * L.SFS_BLOCK_SIZE ∧
          n = L.SFS_DIR_NENTRIES)) →
        ∃ k e, k < n ∧ ent_size e 0 = SFS_DIRECTORY ∧ ent_first_block e 0 = i ∧
          entry_name e 0 = name ∧
          ∀ a, d1 a = if A + k * 64 ≤ a ∧ a < A + k * 64 + 64
            then e (a - (A + k * 64)) else mkdir_blocks L d junk i (i + 1) a := by
  have hle := hL.tbl_le
  cases hf : findFrom (fun i =>
      idx_get (disk_read d junk 0 L.SFS_BLOCKTBL_SIZE L.SFS_BLOCKTBL_OFF) i
        == L.SFS_BLOCKIDX_EMPTY
      && idx_get (disk_read d junk 0 L.SFS_BLOCKTBL_SIZE L.SFS_BLOCKTBL_OFF) (i + 1)
        == L.SFS_BLOCKIDX_EMPTY) (L.SFS_BLOCKTBL_NENTRIES - 1) 0 with
  | none =>
    left
    have hpair : find_free_pair L (disk_read d junk 0 L.SFS_BLOCKTBL_SIZE L.SFS_BLOCKTBL_OFF)
        = (L.SFS_BLOCKIDX_EMPTY, L.SFS_BLOCKIDX_EMPTY) := by
      unfold find_free_pair
      rw [hf]
    simp only [sfs_mkdir, get_child_append pp name hns, ge_iff_le,
      if_neg (show ¬ 58 ≤ name.length by omega), hpair, if_true, Option.some.injEq,
      Prod.mk.injEq] at h
    exact h.2.symm
  | some i =>
    right
    obtain ⟨-, hi, hp, -⟩ := findFrom_some hf
    simp only [Bool.and_eq_true, beq_iff_eq] at hp
    rw [idx_get_disk_read_tbl L d junk i (by omega),
      idx_get_disk_read_tbl L d junk (i + 1) (by omega)] at hp
    have hpair : find_free_pair L (disk_read d junk 0 L.SFS_BLOCKTBL_SIZE L.SFS_BLOCKTBL_OFF)
        = (i, i + 1) := by
      unfold find_free_pair
      rw [hf]
      show (i % 65536, (i + 1) % 65536) = (i, i + 1)
      rw [Nat.mod_eq_of_lt (by omega), Nat.mod_eq_of_lt (by omega)]
    have hie : i ≠ L.SFS_BLOCKIDX_EMPTY := by omega
    refine ⟨i, by omega, hp.1, hp.2, fun A n hpar => ?_⟩
    have hprops : ∀ (buf : Mem) (k : Nat),
        ent_size (fun t => new_dir_entry buf k name i (k * 64 + t)) 0 = SFS_DIRECTORY ∧
        ent_first_block (fun t => new_dir_entry buf k name i (k * 64 + t)) 0 = i ∧
        entry_name (fun t => new_dir_entry buf k name i (k * 64 + t)) 0 = name := by
      intro buf k
      refine ⟨?_, ?_, ?_⟩
      · refine Eq.trans ?_ (new_dir_entry_size buf k name i)
        exact ent_size_congr (fun x _ => by simp only [Nat.zero_add])
      · have := new_dir_entry_first_block buf k name i
        rw [Nat.mod_eq_of_lt (by omega)] at this
        refine Eq.trans ?_ this
        exact ent_first_block_congr (fun x _ => by simp only [Nat.zero_add])
      · exact new_dir_entry_cstr buf k name i hz hlen _ 0
          (fun x _ => by simp only [Nat.zero_add])
    rcases hpar with ⟨rfl, rfl, rfl⟩ | ⟨hin, pent, poff, ppb, hres, hadj, rfl, rfl⟩
    · obtain ⟨k, hk1, hk2⟩ := first_empty_slot_total
        (disk_read (mkdir_blocks L d junk i (i + 1)) junk 0 L.SFS_ROOTDIR_SIZE
          L.SFS_ROOTDIR_OFF) hL.root_pos
      have heq := sfs_mkdir_root_eq L d name junk i (i + 1) k hns hlen hpair hie hk1
      rw [List.nil_append, heq] at h
      simp only [Option.some.injEq, Prod.mk.injEq] at h
      obtain ⟨p1, p2, p3⟩ := hprops (root_buf L (mkdir_blocks L d junk i (i + 1)) junk) k
      refine ⟨k, _, hk2, p1, p2, p3, fun a => ?_⟩
      rw [← h.2]
      have hw := write_back_apply (mkdir_blocks L d junk i (i + 1))
        (root_buf L (mkdir_blocks L d junk i (i + 1)) junk)
        (new_dir_entry (root_buf L (mkdir_blocks L d junk i (i + 1)) junk) k name i)
        L.SFS_ROOTDIR_OFF (L.SFS_ROOTDIR_NENTRIES * 64) k
        (fun x hx => by rw [root_buf_apply, if_pos hx])
        (fun x hx => new_dir_entry_other _ _ _ _ _ hlen (by omega)) (by omega) a
      refine Eq.trans hw ?_
      by_cases hc : L.SFS_ROOTDIR_OFF + k * 64 ≤ a ∧ a < L.SFS_ROOTDIR_OFF + k * 64 + 64
      · rw [if_pos hc, if_pos hc]
        congr 1
        omega
      · rw [if_neg hc, if_neg hc]
    · have hds := dir_size_eq hL
      have hdn : L.SFS_DIR_SIZE = L.SFS_DIR_NENTRIES * 64 := rfl
      obtain ⟨k, hk1, hk2⟩ := first_empty_slot_total
        (load_dir L (mkdir_blocks L d junk i (i + 1)) junk (ent_first_block pent 0))
        (dir_nentries_pos hL)
      have heq := sfs_mkdir_sub_eq L d pp name junk i (i + 1) k pent poff ppb hin hns hlen
        hpair hie hres hk1
      rw [heq] at h
      simp only [Option.some.injEq, Prod.mk.injEq] at h
      obtain ⟨p1, p2, p3⟩ := hprops
        (load_dir L (mkdir_blocks L d junk i (i + 1)) junk (ent_first_block pent 0)) k
      refine ⟨k, _, hk2, p1, p2, p3, fun a => ?_⟩
      rw [← h.2]
      have hw := write_back_apply (mkdir_blocks L d junk i (i + 1))
        (load_dir L (mkdir_blocks L d junk i (i + 1)) junk (ent_first_block pent 0))
        (new_dir_entry
          (load_dir L (mkdir_blocks L d junk i (i + 1)) junk (ent_first_block pent 0)) k name i)
        (L.SFS_DATA_OFF + ent_first_block pent 0 * L.SFS_BLOCK_SIZE) L.SFS_DIR_SIZE k
        (fun x hx => by rw [load_dir_adj hL _ junk _ x hadj (by omega)])
        (fun x hx => new_dir_entry_other _ _ _ _ _ hlen (by omega)) (by omega) a
      refine Eq.trans hw ?_
      by_cases hc : L.SFS_DATA_OFF + ent_first_block pent 0 * L.SFS_BLOCK_SIZE + k * 64 ≤ a ∧
          a < L.SFS_DATA_OFF + ent_first_block pent 0 * L.SFS_BLOCK_SIZE + k * 64 + 64
      · rw [if_pos hc, if_pos hc]
        congr 1
        omega
      · rw [if_neg hc, if_neg hc]

/-! ### Paths through directories under a change of the image -/

theorem invx_weaken {L : Layout} {d : Disk} {G : List Nat} (h : InvX L d G none)
    (x : Option Nat) : InvX L d G x := by
  obtain ⟨i1, i2, i3, i4, i5⟩ := h
  exact ⟨i1, i2, fun a ha _ => i3 a ha (by simp),
    fun a a1 ha ha1 _ _ => i4 a a1 ha ha1 (by simp) (by simp),
    fun A n hb i j hi hj _ _ => i5 A n hb i j hi hj (by simp) (by simp)⟩

theorem dirpath_frame {L : Layout} (hL : L.WF) {d d0 : Disk} {G G0 : List Nat} {junk : Mem}
    (hinv : InvX L d G none) (hinv0 : InvX L d0 G0 none)
    (hroot : ∀ a, L.SFS_ROOTDIR_OFF ≤ a → a < L.SFS_ROOTDIR_OFF + L.SFS_ROOTDIR_NENTRIES * 64 →
      d0 a = d a)
    (hdata : ∀ g ∈ G, ∀ y, L.SFS_DATA_OFF + g * L.SFS_BLOCK_SIZE ≤ y →
      y < L.SFS_DATA_OFF + g * L.SFS_BLOCK_SIZE + 2 * L.SFS_BLOCK_SIZE → d0 y = d y)
    {pp : List Nat} (hp : DirPath L d junk pp) :
    DirPath L d0 junk pp ∧ ∀ name, GoodName name →
      get_entry L d0 (pp ++ 47 :: name) junk = get_entry L d (pp ++ 47 :: name) junk := by
  have hdn : L.SFS_DIR_NENTRIES * 64 = 2 * L.SFS_BLOCK_SIZE := dir_size_eq hL
  -- the two lookups in a region that holds the same bytes
  have hsame : ∀ (A n pbv : Nat) (name : List Nat), name.length < 58 →
      (∀ y, A ≤ y → y < A + n * 64 → d0 y = d y) →
      (match findFrom (fun i => strcmp0 name d0 (A + i * 64)) n 0 with
        | none => some Lookup.enoent
        | some j => some (Lookup.found (blit junk 0 d0 (A + j * 64) 64) j pbv)) =
      (match findFrom (fun i => strcmp0 name d (A + i * 64)) n 0 with
        | none => some Lookup.enoent
        | some j => some (Lookup.found (blit junk 0 d (A + j * 64) 64) j pbv)) := by
    intro A n pbv name hlen hy
    have hfc : findFrom (fun i => strcmp0 name d0 (A + i * 64)) n 0
        = findFrom (fun i => strcmp0 name d (A + i * 64)) n 0 :=
      findFrom_congr (fun k _ hk => strcmp0_congr name _ _ _ _
        (fun t ht => hy _ (by omega) (by omega)))
    rw [hfc]
    cases hf : findFrom (fun i => strcmp0 name d (A + i * 64)) n 0 with
    | none => rfl
    | some j =>
      have hj := (findFrom_some hf).2.1
      show some (Lookup.found (blit junk 0 d0 (A + j * 64) 64) j pbv) = _
      rw [copy_slot junk d0 d (A + j * 64) (A + j * 64)
        (fun t ht => hy _ (by omega) (by omega))]
  induction hp with
  | root =>
    refine ⟨DirPath.root, fun name hgood => ?_⟩
    obtain ⟨A, n, pbv, -, hd, hform, -⟩ := lookup_nf hL hinv (DirPath.root : DirPath L d junk [])
    obtain ⟨A0, n0, pbv0, -, hd0, hform0, -⟩ := lookup_nf hL hinv0 (DirPath.root : DirPath L d0 junk [])
    rcases hd with ⟨-, rfl, rfl, rfl⟩ | ⟨hc, -⟩
    · rcases hd0 with ⟨-, rfl, rfl, rfl⟩ | ⟨hc, -⟩
      · rw [hform name hgood, hform0 name hgood]
        exact hsame _ _ _ name hgood.2.1 hroot
      · simp at hc
    · simp at hc
  | sub pp name ent off pb hp1 hgood hres hdir ih =>
    obtain ⟨ih1, ih2⟩ := ih
    have hres0 : get_entry L d0 (pp ++ 47 :: name) junk = some (Lookup.found ent off pb) := by
      rw [ih2 name hgood, hres]
    have hp0 : DirPath L d0 junk (pp ++ 47 :: name) :=
      DirPath.sub pp name ent off pb ih1 hgood hres0 hdir
    refine ⟨hp0, fun nm hgood2 => ?_⟩
    obtain ⟨A, n, pbv, -, hd, hform, -⟩ :=
      lookup_nf hL hinv (DirPath.sub pp name ent off pb hp1 hgood hres hdir)
    obtain ⟨A0, n0, pbv0, -, hd0, hform0, -⟩ := lookup_nf hL hinv0 hp0
    rcases hd with ⟨hc, -⟩ | ⟨-, pent, poff, ppb, e1, e2, rfl, rfl, rfl⟩
    · simp at hc
    · rcases hd0 with ⟨hc, -⟩ | ⟨-, pent0, poff0, ppb0, f1, -, rfl, rfl, rfl⟩
      · simp at hc
      · rw [hres] at e1
        rw [hres0] at f1
        simp only [Option.some.injEq, Lookup.found.injEq] at e1 f1
        obtain ⟨rfl, -, -⟩ := e1
        obtain ⟨rfl, -, -⟩ := f1
        rw [hform nm hgood2, hform0 nm hgood2]
        exact hsame _ _ _ nm hgood2.2.1 (fun y h1 h2 => hdata _ e2 y h1 (by omega))

/-! ### The invariant is kept by `create` -/

theorem nf_missing {L : Layout} {d : Disk} {junk : Mem} {path name : List Nat} {A n pbv : Nat}
    (hlen : name.length < 58)
    (hform : get_entry L d path junk =
      match findFrom (fun i => strcmp0 name d (A + i * 64)) n 0 with
      | none => some Lookup.enoent
      | some j => some (Lookup.found (blit junk 0 d (A + j * 64) 64) j pbv))
    (hmiss : get_entry L d path junk = some Lookup.enoent) :
    ∀ j, j < n → entry_name d (A + j * 64) ≠ name := by
  rw [hmiss] at hform
  cases hf : findFrom (fun i => strcmp0 name d (A + i * 64)) n 0 with
  | some j => rw [hf] at hform; exact absurd hform (by simp)
  | none =>
    intro j hj hnm
    have h1 := findFrom_none hf j (Nat.zero_le _) (by omega)
    have h2 := strcmp0_of_cstr name d 58 (A + j * 64) hnm hlen
    simp only [h2] at h1
    exact absurd h1 (by simp)

theorem nf_found {L : Layout} {d : Disk} {junk : Mem} {path name : List Nat} {A n pbv : Nat}
    {ent : Mem} {off pb : Nat} (hne : name ≠ []) (hz : 0 ∉ name)
    (hform : get_entry L d path junk =
      match findFrom (fun i => strcmp0 name d (A + i * 64)) n 0 with
      | none => some Lookup.enoent
      | some j => some (Lookup.found (blit junk 0 d (A + j * 64) 64) j pbv))
    (hres : get_entry L d path junk = some (Lookup.found ent off pb)) :
    off < n ∧ pb = pbv ∧ d (A + off * 64) ≠ 0 ∧ ent = blit junk 0 d (A + off * 64) 64 := by
  rw [hres] at hform
  cases hf : findFrom (fun i => strcmp0 name d (A + i * 64)) n 0 with
  | none => rw [hf] at hform; exact absurd hform (by simp)
  | some j =>
    rw [hf] at hform
    simp only [Option.some.injEq, Lookup.found.injEq] at hform
    obtain ⟨e1, rfl, rfl⟩ := hform
    obtain ⟨-, hj, hcmp, -⟩ := findFrom_some hf
    exact ⟨by omega, rfl, strcmp0_occupied hne hz hcmp, e1⟩

theorem inv_create {L : Layout} (hL : L.WF) {d d1 : Disk} {G : List Nat} {junk : Mem}
    {pp name : List Nat} {stale : Option Nat} {r : Int}
    (hinv : InvX L d G none) (hp : DirPath L d junk pp) (hgood : GoodName name)
    (hmiss : get_entry L d (pp ++ 47 :: name) junk = some Lookup.enoent)
    (h : sfs_create L d (pp ++ 47 :: name) junk stale = some (r, d1)) :
    InvX L d1 G none := by
  obtain ⟨A, n, pbv, hb, hd, hform, -⟩ := lookup_nf hL hinv hp
  obtain ⟨hne, hlen, hns, hz⟩ := hgood
  have hfresh := nf_missing hlen (hform name ⟨hne, hlen, hns, hz⟩) hmiss
  have hpar : (pp = [] ∧ A = L.SFS_ROOTDIR_OFF ∧ n = L.SFS_ROOTDIR_NENTRIES) ∨
      (47 ∈ pp ∧ ∃ pent poff ppb, get_entry L d pp junk = some (Lookup.found pent poff ppb) ∧
        tbl L d (ent_first_block pent 0) = ent_first_block pent 0 + 1 ∧
        A = L.SFS_DATA_OFF + ent_first_block pent 0 * L.SFS_BLOCK_SIZE ∧
        n = L.SFS_DIR_NENTRIES) := by
    rcases hd with ⟨e1, e2, e3, -⟩ | ⟨e1, pent, poff, ppb, e2, e3, e4, e5, -⟩
    · exact Or.inl ⟨e1, e2, e3⟩
    · exact Or.inr ⟨e1, pent, poff, ppb, e2, (hinv.1 _ e3).2.1, e4, e5⟩
  rcases create_nf hL hns hlen hpar h with rfl | ⟨k, hk, hd1⟩
  · exact hinv
  · have hsz := new_file_entry_size L junk name
    have hfb := new_file_entry_first_block hL junk name
    have hnm : entry_name (new_file_entry L junk name) 0 = name :=
      newfile_name L junk name hz hlen _ 0 (fun x _ => by rw [Nat.zero_add]; rfl)
    have hbp := hL.bs_pos
    refine inv_slot_write hL (invx_weaken hinv _) ⟨A, n, k, hb, hk, rfl⟩ hd1 ?_ ?_ ?_
    · intro _
      right
      rw [hsz, hfb]
      refine ⟨by decide, [], rfl, ?_, by simp⟩
      rw [List.length_nil, Nat.zero_add]
      exact (Nat.div_eq_of_lt (by omega)).symm
    · intro _ a _ _ _
      refine ⟨fun e1 => ?_, fun bs bs1 _ _ c1 _ b hb1 => ?_⟩
      · rw [hsz] at e1
        exact absurd e1 (by decide)
      · rw [hfb] at c1
        have : bs = [] := Chain.unique c1 (rfl : Chain L d L.SFS_BLOCKIDX_END [])
        rw [this] at hb1
        simp at hb1
    · intro _ A1 n1 k1 hb1 hk1 hx j hj hjk _
      rw [hnm]
      rcases buf_sep hL hinv.2.1 hb hb1 with ⟨rfl, rfl⟩ | hsep | hsep
      · exact hfresh j hj
      · omega
      · omega

/-! ### The invariant is kept by `mkdir` -/

theorem inv_mkdir_blocks {L : Layout} (hL : L.WF)
    (hE : L.SFS_BLOCKTBL_NENTRIES ≤ L.SFS_BLOCKIDX_EMPTY) {d : Disk} {G : List Nat}
    (junk : Mem) {i : Nat} (hinv : InvX L d G none)
    (hi : i + 1 < L.SFS_BLOCKTBL_NENTRIES) (hi0 : tbl L d i = L.SFS_BLOCKIDX_EMPTY)
    (hi1 : tbl L d (i + 1) = L.SFS_BLOCKIDX_EMPTY) :
    InvX L (mkdir_blocks L d junk i (i + 1)) (i :: G) none ∧ i ∉ G ∧
    (∀ a, a < L.SFS_BLOCKTBL_OFF → mkdir_blocks L d junk i (i + 1) a = d a) ∧
    (∀ g ∈ G, ∀ y, L.SFS_DATA_OFF + g * L.SFS_BLOCK_SIZE ≤ y →
      y < L.SFS_DATA_OFF + g * L.SFS_BLOCK_SIZE + 2 * L.SFS_BLOCK_SIZE →
      mkdir_blocks L d junk i (i + 1) y = d y) := by
  have hrt := hL.root_tbl
  have htd := hL.tbl_data
  have hen := hL.end_ne
  have hdn : L.SFS_DIR_NENTRIES * 64 = 2 * L.SFS_BLOCK_SIZE := dir_size_eq hL
  have hds : L.SFS_DIR_SIZE = 2 * L.SFS_BLOCK_SIZE := dir_size_eq hL
  obtain ⟨i1, i2, i3, i4, i5⟩ := hinv
  have hG : ∀ g ∈ G, g ≠ i ∧ g ≠ i + 1 ∧ g + 1 ≠ i ∧ g + 1 ≠ i + 1 := by
    intro g hg
    obtain ⟨g1, g2, g3⟩ := i1 g hg
    refine ⟨fun e => ?_, fun e => ?_, fun e => ?_, fun e => ?_⟩
    · rw [e, hi0] at g2; omega
    · rw [e, hi1] at g2; omega
    · rw [e, hi0] at g3; exact hen g3.symm
    · rw [e, hi1] at g3; exact hen g3.symm
  have hiG : i ∉ G := fun h => (hG i h).1 rfl
  have htbl : ∀ j, j < L.SFS_BLOCKTBL_NENTRIES → j ≠ i → j ≠ i + 1 →
      tbl L (mkdir_blocks L d junk i (i + 1)) j = tbl L d j := by
    intro j hj h1 h2
    rw [mkdir_blocks_tbl hL d junk i (i + 1) j hi hj, if_neg h2, if_neg h1]
  have hdata : ∀ g ∈ G, ∀ y, L.SFS_DATA_OFF + g * L.SFS_BLOCK_SIZE ≤ y →
      y < L.SFS_DATA_OFF + g * L.SFS_BLOCK_SIZE + 2 * L.SFS_BLOCK_SIZE →
      mkdir_blocks L d junk i (i + 1) y = d y := by
    intro g hg y h1 h2
    obtain ⟨e1, e2, e3, e4⟩ := hG g hg
    have hi2 : i * 2 + 2 ≤ L.SFS_BLOCKTBL_NENTRIES * 2 := by omega
    apply mkdir_blocks_other
    · rw [hds]
      rcases block_sep (L := L) e1 (fun e => e2 e) (fun e => e3 e.symm) with h | h
      · right; omega
      · left; omega
    · omega
    · omega
  refine ⟨?_, hiG, fun a ha => mkdir_blocks_low d junk i (i + 1) a ha hL, hdata⟩
  refine invx_frame ⟨i1, i2, i3, i4, i5⟩ ?_ ?_ ?_ ?_
  · intro g hg
    rcases List.mem_cons.mp hg with rfl | hg
    · refine ⟨hi, ?_, ?_⟩
      · rw [mkdir_blocks_tbl hL d junk g (g + 1) g hi (by omega), if_neg (by omega), if_pos rfl]
      · rw [mkdir_blocks_tbl hL d junk g (g + 1) (g + 1) hi hi, if_pos rfl]
    · obtain ⟨g1, g2, g3⟩ := i1 g hg
      obtain ⟨e1, e2, e3, e4⟩ := hG g hg
      exact ⟨g1, by rw [htbl g (by omega) e1 e2]; exact g2,
        by rw [htbl (g + 1) g1 e3 e4]; exact g3⟩
  · intro g hg g1 hg1
    rcases List.mem_cons.mp hg with e1 | hg2
    · rcases List.mem_cons.mp hg1 with e2 | hg3
      · omega
      · rw [e1]
        exact (hG g1 hg3).2.1
    · rcases List.mem_cons.mp hg1 with e2 | hg3
      · rw [e2]
        exact fun e => (hG g hg2).2.2.1 e.symm
      · exact i2 g hg2 g1 hg3
  · intro A n hb
    rcases hb with ⟨rfl, rfl⟩ | ⟨g, hg, rfl, rfl⟩
    · exact Or.inl ⟨Or.inl ⟨rfl, rfl⟩,
        fun y h1 h2 => mkdir_blocks_low d junk i (i + 1) y (by omega) hL⟩
    · rcases List.mem_cons.mp hg with rfl | hg
      · right
        intro k hk
        have := dir_slot_le hL hk
        rw [mkdir_blocks_data d junk g (g + 1) (k * 64) (by omega)]
        exact empty_entries_name junk k hk
      · exact Or.inl ⟨Or.inr ⟨g, hg, rfl, rfl⟩,
          fun y h1 h2 => hdata g hg y h1 (by omega)⟩
  · intro a ha _ h0
    refine ⟨fun e1 => ?_, fun bs e1 c1 => ?_⟩
    · rcases i3 a ha (by simp) h0 with ⟨-, e2⟩ | ⟨e2, -⟩
      · exact List.mem_cons_of_mem _ e2
      · omega
    · have hne : ∀ b ∈ bs, b ≠ i ∧ b ≠ i + 1 := by
        intro b hb
        have := Chain.alloc hL hE c1 b hb
        exact ⟨fun e => this (e ▸ hi0), fun e => this (e ▸ hi1)⟩
      refine ⟨fun b hb => htbl b (Chain.lt c1 b hb) (hne b hb).1 (hne b hb).2, ?_⟩
      intro b hb g hg
      rcases List.mem_cons.mp hg with rfl | hg
      · exact hne b hb
      · rcases i3 a ha (by simp) h0 with ⟨e2, -⟩ | ⟨-, cs, c2, -, c4⟩
        · omega
        · rw [Chain.unique c1 c2] at hb
          exact c4 b hb g hg

theorem inv_mkdir {L : Layout} (hL : L.WF)
    (hE : L.SFS_BLOCKTBL_NENTRIES ≤ L.SFS_BLOCKIDX_EMPTY) {d d1 : Disk} {G : List Nat}
    {junk : Mem} {pp name : List Nat} {r : Int}
    (hinv : InvX L d G none) (hp : DirPath L d junk pp) (hgood : GoodName name)
    (hmiss : get_entry L d (pp ++ 47 :: name) junk = some Lookup.enoent)
    (h : sfs_mkdir L d (pp ++ 47 :: name) junk = some (r, d1)) :
    ∃ G1, InvX L d1 G1 none := by
  obtain ⟨hne, hlen, hns, hz⟩ := hgood
  rcases mkdir_nf hL hE hns hlen hz h with rfl | ⟨i, hi, hi0, hi1, hrest⟩
  · exact ⟨G, hinv⟩
  · obtain ⟨hinv3, hiG, hlow, hdata⟩ := inv_mkdir_blocks hL hE junk hinv hi hi0 hi1
    have hrt := hL.root_tbl
    obtain ⟨hp3, hget3⟩ := dirpath_frame hL hinv hinv3
      (fun a _ h2 => hlow a (by omega)) hdata hp
    obtain ⟨A, n, pbv, hb, hd, hform, -⟩ := lookup_nf hL hinv3 hp3
    have hmiss3 : get_entry L (mkdir_blocks L d junk i (i + 1)) (pp ++ 47 :: name) junk
        = some Lookup.enoent := by
      rw [hget3 name ⟨hne, hlen, hns, hz⟩, hmiss]
    have hfresh := nf_missing hlen (hform name ⟨hne, hlen, hns, hz⟩) hmiss3
    have hpar : (pp = [] ∧ A = L.SFS_ROOTDIR_OFF ∧ n = L.SFS_ROOTDIR_NENTRIES) ∨
        (47 ∈ pp ∧ ∃ pent poff ppb,
          get_entry L (mkdir_blocks L d junk i (i + 1)) pp junk
            = some (Lookup.found pent poff ppb) ∧
          tbl L (mkdir_blocks L d junk i (i + 1)) (ent_first_block pent 0)
            = ent_first_block pent 0 + 1 ∧
          A = L.SFS_DATA_OFF + ent_first_block pent 0 * L.SFS_BLOCK_SIZE ∧
          n = L.SFS_DIR_NENTRIES) := by
      rcases hd with ⟨e1, e2, e3, -⟩ | ⟨e1, pent, poff, ppb, e2, e3, e4, e5, -⟩
      · exact Or.inl ⟨e1, e2, e3⟩
      · exact Or.inr ⟨e1, pent, poff, ppb, e2, (hinv3.1 _ e3).2.1, e4, e5⟩
    obtain ⟨k, e, hk, hsz, hfb, hnm, hd1⟩ := hrest A n hpar
    refine ⟨i :: G, inv_slot_write hL (invx_weaken hinv3 _) ⟨A, n, k, hb, hk, rfl⟩ hd1 ?_ ?_ ?_⟩
    · intro _
      left
      rw [hsz, hfb]
      exact ⟨rfl, List.mem_cons_self _ _⟩
    · intro _ a ha hax h0
      refine ⟨fun _ e2 e3 => ?_, fun bs bs1 e1 _ _ _ _ _ => ?_⟩
      · -- an occupied slot of the image with the new blocks is a slot of the old image
        rw [hfb] at e3
        rcases hinv3.2.2.1 a ha (by simp) h0 with ⟨-, e4⟩ | ⟨e4, -⟩
        · rw [← e3] at e4
          rcases List.mem_cons.mp e4 with e5 | e5
          · -- the entry names the new directory: its slot held the same bytes before
            obtain ⟨A1, n1, k1, hb1, hk1, rfl⟩ := ha
            rcases hb1 with ⟨rfl, rfl⟩ | ⟨g, hg, rfl, rfl⟩
            · have hs : Slot L G (L.SFS_ROOTDIR_OFF + k1 * 64) :=
                ⟨_, _, k1, Or.inl ⟨rfl, rfl⟩, hk1, rfl⟩
              have hby : ∀ t, t < 64 →
                  mkdir_blocks L d junk i (i + 1) (L.SFS_ROOTDIR_OFF + k1 * 64 + t)
                    = d (L.SFS_ROOTDIR_OFF + k1 * 64 + t) :=
                fun t ht => hlow _ (by omega)
              have h00 : d (L.SFS_ROOTDIR_OFF + k1 * 64) ≠ 0 := by
                have := hby 0 (by omega)
                simp only [Nat.add_zero] at this
                rwa [← this]
              rcases hinv.2.2.1 _ hs (by simp) h00 with ⟨-, e6⟩ | ⟨e6, -⟩
              · rw [← ent_first_block_congr hby, ← e3] at e6
                exact hiG e6
              · rw [← ent_size_congr hby, e2] at e6
                omega
            · rcases List.mem_cons.mp hg with rfl | hg
              · have hdsl := dir_slot_le hL hk1
                have hds : L.SFS_DIR_SIZE = 2 * L.SFS_BLOCK_SIZE := dir_size_eq hL
                rw [mkdir_blocks_data d junk g (g + 1) (k1 * 64) (by omega)] at h0
                exact h0 (empty_entries_name junk k1 hk1)
              · have hdsl := dir_slot_le hL hk1
                have hs : Slot L G (L.SFS_DATA_OFF + g * L.SFS_BLOCK_SIZE + k1 * 64) :=
                  ⟨_, _, k1, Or.inr ⟨g, hg, rfl, rfl⟩, hk1, rfl⟩
                have hby : ∀ t, t < 64 →
                    mkdir_blocks L d junk i (i + 1)
                      (L.SFS_DATA_OFF + g * L.SFS_BLOCK_SIZE + k1 * 64 + t)
                      = d (L.SFS_DATA_OFF + g * L.SFS_BLOCK_SIZE + k1 * 64 + t) :=
                  fun t ht => hdata g hg _ (by omega) (by omega)
                have h00 : d (L.SFS_DATA_OFF + g * L.SFS_BLOCK_SIZE + k1 * 64) ≠ 0 := by
                  have := hby 0 (by omega)
                  simp only [Nat.add_zero] at this
                  rwa [← this]
                rcases hinv.2.2.1 _ hs (by simp) h00 with ⟨-, e6⟩ | ⟨e6, -⟩
                · rw [← ent_first_block_congr hby, ← e3] at e6
                  exact hiG e6
                · rw [← ent_size_congr hby, e2] at e6
                  omega
          · exact hiG e5
        · omega
      · rw [hsz] at e1
        omega
    · intro _ A1 n1 k1 hb1 hk1 hx j hj hjk _
      rw [hnm]
      rcases buf_sep hL hinv3.2.1 hb hb1 with ⟨rfl, rfl⟩ | hsep | hsep
      · exact hfresh j hj
      · omega
      · omega

/-! ### The invariant is kept by `unlink` -/

theorem invx_table {L : Layout} (hL : L.WF) {d d0 : Disk} {G : List Nat} {x : Option Nat}
    (hinv : InvX L d G none)
    (hout : ∀ a, a < L.SFS_BLOCKTBL_OFF ∨
      L.SFS_BLOCKTBL_OFF + L.SFS_BLOCKTBL_NENTRIES * 2 ≤ a → d0 a = d a)
    (hG : ∀ g ∈ G, tbl L d0 g = tbl L d g ∧ tbl L d0 (g + 1) = tbl L d (g + 1))
    (hch : ∀ a, Slot L G a → some a ≠ x → d a ≠ 0 → ∀ bs,
      ent_size d a < SFS_DIRECTORY → Chain L d (ent_first_block d a) bs →
      ∀ b ∈ bs, tbl L d0 b = tbl L d b) :
    InvX L d0 G x := by
  have hrt := hL.root_tbl
  have htd := hL.tbl_data
  have hdn : L.SFS_DIR_NENTRIES * 64 = 2 * L.SFS_BLOCK_SIZE := dir_size_eq hL
  refine invx_frame hinv ?_ hinv.2.1 ?_ ?_
  · intro g hg
    obtain ⟨g1, g2, g3⟩ := hinv.1 g hg
    exact ⟨g1, by rw [(hG g hg).1]; exact g2, by rw [(hG g hg).2]; exact g3⟩
  · intro A n hb
    refine Or.inl ⟨hb, fun y h1 h2 => hout y ?_⟩
    rcases hb with ⟨rfl, rfl⟩ | ⟨g, _, rfl, rfl⟩
    · left; omega
    · right; omega
  · intro a ha hx h0
    rcases hinv.2.2.1 a ha (by simp) h0 with ⟨e1, e2⟩ | ⟨e1, cs, c2, -, c4⟩
    · exact ⟨fun _ => e2, fun bs e3 _ => by omega⟩
    · refine ⟨fun e3 => by omega, fun bs e3 c1 => ⟨hch a ha hx h0 bs e3 c1, ?_⟩⟩
      rw [Chain.unique c1 c2]
      exact c4

theorem tbl_frame_chain {L : Layout} {d d0 : Disk} {bs : List Nat} {j : Nat}
    (hfr : ∀ a, (∀ b ∈ bs, a ≠ L.SFS_BLOCKTBL_OFF + b * 2 ∧ a ≠ L.SFS_BLOCKTBL_OFF + b * 2 + 1) →
      d0 a = d a) (hj : j ∉ bs) : tbl L d0 j = tbl L d j := by
  apply tbl_congr
  intro a h1 h2
  apply hfr
  intro b hb
  have : b ≠ j := fun e => hj (e ▸ hb)
  omega

theorem inv_unlink {L : Layout} (hL : L.WF) {d d1 : Disk} {G : List Nat} {junk : Mem}
    {pp name : List Nat} {fuel : Nat} {r : Int}
    (hinv : InvX L d G none) (hp : DirPath L d junk pp) (hgood : GoodName name)
    (hfile : ∀ ent off pb,
      get_entry L d (pp ++ 47 :: name) junk = some (Lookup.found ent off pb) →
      SFS_DIRECTORY &&& ent_size ent 0 = 0)
    (hfuel : L.SFS_BLOCKTBL_NENTRIES < fuel)
    (h : sfs_unlink L d (pp ++ 47 :: name) junk fuel = some (r, d1)) :
    InvX L d1 G none := by
  have htd := hL.tbl_data
  obtain ⟨A, n, pbv, hb, -, hform, hwrite⟩ := lookup_nf hL hinv hp
  obtain ⟨hne, hlen, hns, hz⟩ := hgood
  cases hres : get_entry L d (pp ++ 47 :: name) junk with
  | none => simp [sfs_unlink, hres] at h
  | some lk =>
    cases lk with
    | enoent =>
      simp only [sfs_unlink, hres, Option.some.injEq, Prod.mk.injEq] at h
      rw [← h.2]
      exact hinv
    | found ent off pb =>
      obtain ⟨hoff, rfl, hocc, hent⟩ := nf_found hne hz (hform name ⟨hne, hlen, hns, hz⟩) hres
      have hslot : Slot L G (A + off * 64) := ⟨A, n, off, hb, hoff, rfl⟩
      have hsz : ent_size ent 0 = ent_size d (A + off * 64) := by rw [hent, ent_size_copy]
      have hfb : ent_first_block ent 0 = ent_first_block d (A + off * 64) := by
        rw [hent, ent_first_block_copy]
      have hf0 := hfile ent off _ hres
      rcases hinv.2.2.1 _ hslot (by simp) hocc with ⟨e1, -⟩ | ⟨e1, bs, c1, c2, c3⟩
      · rw [hsz, e1] at hf0
        exact absurd hf0 has_dir_bit
      · rw [← hfb] at c1
        obtain ⟨d2, u1, u2, u3⟩ := unlink_loop_chain hL bs _ d fuel c1
          (lt_of_le_of_lt (Chain.length_le c1) hfuel)
        simp only [sfs_unlink, hres, u1, Option.some.injEq, Prod.mk.injEq] at h
        have hinv2 : InvX L d2 G (some (A + off * 64)) := by
          refine invx_table hL hinv (fun a ha => u3 a (fun b hb1 => ?_)) ?_ ?_
          · have := Chain.lt c1 b hb1
            omega
          · intro g hg
            have hg0 : g ∉ bs := fun e => (c3 g e g hg).1 rfl
            have hg1 : g + 1 ∉ bs := fun e => (c3 (g + 1) e g hg).2 rfl
            exact ⟨tbl_frame_chain u3 hg0, tbl_frame_chain u3 hg1⟩
          · intro a ha hax h0 cs e2 c4 b hb1
            have hp1 := hinv.2.2.2.1 a (A + off * 64) ha hslot (by simp) (by simp)
              (fun e => hax (by rw [e])) h0 hocc
            rw [hfb] at c1
            exact tbl_frame_chain u3 (hp1.2 cs bs e2 e1 c4 c1 b hb1)
        have he0 : cleared_entry L ent 0 = 0 := by
          rw [cleared_entry_apply]
          simp
        refine inv_slot_write hL hinv2 hslot (e := cleared_entry L ent) (fun a => ?_)
          (fun hc => absurd he0 hc) (fun hc => absurd he0 hc) (fun hc => absurd he0 hc)
        rw [← h.2]
        exact hwrite name d2 _ off hns a

/-! ### The invariant is kept by `rmdir` -/

theorem inv_rmdir {L : Layout} (hL : L.WF) {d d1 : Disk} {G : List Nat} {junk : Mem}
    {pp name : List Nat} {r : Int}
    (hinv : InvX L d G none) (hp : DirPath L d junk pp) (hgood : GoodName name)
    (hdir : ∀ ent off pb,
      get_entry L d (pp ++ 47 :: name) junk = some (Lookup.found ent off pb) →
      SFS_DIRECTORY &&& ent_size ent 0 ≠ 0)
    (h : sfs_rmdir L d (pp ++ 47 :: name) junk = some (r, d1)) :
    ∃ G1, InvX L d1 G1 none := by
  have htd := hL.tbl_data
  have hrt := hL.root_tbl
  have hle := hL.tbl_le
  have hel := hL.empty_lt
  have hdn : L.SFS_DIR_NENTRIES * 64 = 2 * L.SFS_BLOCK_SIZE := dir_size_eq hL
  obtain ⟨A, n, pbv, hb, -, hform, hwrite⟩ := lookup_nf hL hinv hp
  obtain ⟨hne, hlen, hns, hz⟩ := hgood
  cases hres : get_entry L d (pp ++ 47 :: name) junk with
  | none => simp [sfs_rmdir, hres] at h
  | some lk =>
    cases lk with
    | enoent =>
      simp only [sfs_rmdir, hres, Option.some.injEq, Prod.mk.injEq] at h
      rw [← h.2]
      exact ⟨G, hinv⟩
    | found ent off pb =>
      obtain ⟨hoff, rfl, hocc, hent⟩ := nf_found hne hz (hform name ⟨hne, hlen, hns, hz⟩) hres
      have hslot : Slot L G (A + off * 64) := ⟨A, n, off, hb, hoff, rfl⟩
      have hsz : ent_size ent 0 = ent_size d (A + off * 64) := by rw [hent, ent_size_copy]
      have hfb : ent_first_block ent 0 = ent_first_block d (A + off * 64) := by
        rw [hent, ent_first_block_copy]
      have hd0 := hdir ent off _ hres
      rcases hinv.2.2.1 _ hslot (by simp) hocc with ⟨e1, e2⟩ | ⟨e1, -⟩
      swap
      · rw [hsz] at hd0
        exact absurd (not_dir_bit e1) hd0
      rw [← hfb] at e2
      obtain ⟨g1, g2, g3⟩ := hinv.1 _ e2
      cases hf : findFrom (fun i => !(load_dir L d junk (ent_first_block ent 0) (i * 64) == 0))
        L.SFS_DIR_NENTRIES 0 with
      | some j =>
        simp only [sfs_rmdir, hres, hf, Option.some.injEq, Prod.mk.injEq] at h
        rw [← h.2]
        exact ⟨G, hinv⟩
      | none =>
        have hempty : ∀ i, i < L.SFS_DIR_NENTRIES →
            load_dir L d junk (ent_first_block ent 0) (i * 64) = 0 := by
          intro i hi
          have := findFrom_none hf i (Nat.zero_le _) (by omega)
          simpa using this
        have heq := sfs_rmdir_eq L d (pp ++ 47 :: name) junk ent off pb hres hempty
        rw [heq] at h
        simp only [Option.some.injEq, Prod.mk.injEq] at h
        rw [g2] at h
        generalize hg : ent_first_block ent 0 = g at *
        have hd2 : ∀ a, a < L.SFS_BLOCKTBL_OFF ∨
            L.SFS_BLOCKTBL_OFF + L.SFS_BLOCKTBL_NENTRIES * 2 ≤ a →
            write_idx (write_idx d (L.SFS_BLOCKTBL_OFF + g * 2) L.SFS_BLOCKIDX_EMPTY)
              (L.SFS_BLOCKTBL_OFF + (g + 1) * 2) L.SFS_BLOCKIDX_EMPTY a = d a := by
          intro a ha
          rw [write_idx_tbl_outside L _ (g + 1) _ a g1 ha,
            write_idx_tbl_outside L _ g _ a (by omega) ha]
        have ht2 : ∀ j, j ≠ g → j ≠ g + 1 →
            tbl L (write_idx (write_idx d (L.SFS_BLOCKTBL_OFF + g * 2) L.SFS_BLOCKIDX_EMPTY)
              (L.SFS_BLOCKTBL_OFF + (g + 1) * 2) L.SFS_BLOCKIDX_EMPTY) j = tbl L d j := by
          intro j h1 h2
          rw [tbl_write_idx, if_neg h2, tbl_write_idx, if_neg h1]
        have hmem : ∀ g0, g0 ∈ G.filter (fun y => decide (y ≠ g)) ↔ g0 ∈ G ∧ g0 ≠ g := by
          intro g0
          simp [List.mem_filter]
        -- the slot of the entry is not a slot of the directory it names
        have hbg : Buf L (G.filter (fun y => decide (y ≠ g))) A n := by
          rcases hb with hb0 | ⟨g0, hg0, rfl, rfl⟩
          · exact Or.inl hb0
          · refine Or.inr ⟨g0, (hmem g0).mpr ⟨hg0, fun e => hocc ?_⟩, rfl, rfl⟩
            subst e
            have hsl := dir_slot_le hL hoff
            have := hempty off hoff
            rwa [load_dir_adj hL d junk _ _ g2 (by omega)] at this
        have hslot2 : Slot L (G.filter (fun y => decide (y ≠ g))) (A + off * 64) :=
          ⟨A, n, off, hbg, hoff, rfl⟩
        have hinv2 : InvX L (write_idx (write_idx d (L.SFS_BLOCKTBL_OFF + g * 2)
            L.SFS_BLOCKIDX_EMPTY) (L.SFS_BLOCKTBL_OFF + (g + 1) * 2) L.SFS_BLOCKIDX_EMPTY)
            (G.filter (fun y => decide (y ≠ g))) (some (A + off * 64)) := by
          refine invx_frame hinv ?_ ?_ ?_ ?_
          · intro g0 hg0
            obtain ⟨m1, m2⟩ := (hmem g0).mp hg0
            obtain ⟨k1, k2, k3⟩ := hinv.1 g0 m1
            have n1 := hinv.2.1 g e2 g0 m1
            have n2 := hinv.2.1 g0 m1 g e2
            exact ⟨k1, by rw [ht2 g0 m2 n1]; exact k2,
              by rw [ht2 (g0 + 1) (fun e => n2 e.symm) (by omega)]; exact k3⟩
          · intro g0 hg0 g3 hg3
            exact hinv.2.1 g0 ((hmem g0).mp hg0).1 g3 ((hmem g3).mp hg3).1
          · intro A1 n1 hb1
            have hb2 : Buf L G A1 n1 := by
              rcases hb1 with hb0 | ⟨g0, hg0, hb0⟩
              · exact Or.inl hb0
              · exact Or.inr ⟨g0, ((hmem g0).mp hg0).1, hb0⟩
            refine Or.inl ⟨hb2, fun y h1 h2 => hd2 y ?_⟩
            rcases hb2 with ⟨rfl, rfl⟩ | ⟨g0, _, rfl, rfl⟩
            · left; omega
            · right; omega
          · intro a ha hax h0
            rcases hinv.2.2.1 a ha (by simp) h0 with ⟨f1, f2⟩ | ⟨f1, cs, c2, -, c4⟩
            · refine ⟨fun _ => (hmem _).mpr ⟨f2, ?_⟩, fun bs f3 _ => by omega⟩
              have hp1 := hinv.2.2.2.1 a (A + off * 64) ha hslot (by simp) (by simp)
                (fun e => hax (by rw [e])) h0 hocc
              rw [hfb]
              exact hp1.1 f1 e1
            · refine ⟨fun f3 => by omega, fun bs f3 c1 => ?_⟩
              rw [Chain.unique c1 c2]
              refine ⟨fun b hb1 => ht2 b (c4 b hb1 g e2).1 (c4 b hb1 g e2).2,
                fun b hb1 g0 hg0 => c4 b hb1 g0 ((hmem g0).mp hg0).1⟩
        have he0 : cleared_entry L ent 0 = 0 := by
          rw [cleared_entry_apply]
          simp
        refine ⟨_, inv_slot_write hL hinv2 hslot2 (e := cleared_entry L ent) (fun a => ?_)
          (fun hc => absurd he0 hc) (fun hc => absurd he0 hc) (fun hc => absurd he0 hc)⟩
        rw [← h.2]
        exact hwrite name _ _ off hns a

/-! ### The invariant is kept by `truncate` -/

theorem inv_truncate {L : Layout} (hL : L.WF)
    (hsmall : (L.SFS_BLOCKTBL_NENTRIES + 1) * L.SFS_BLOCK_SIZE ≤ SFS_DIRECTORY)
    (hE : L.SFS_BLOCKTBL_NENTRIES ≤ L.SFS_BLOCKIDX_EMPTY)
    {d d1 : Disk} {G : List Nat} {junk : Mem}
    {pp name : List Nat} {size fuel : Nat} {r : Int}
    (hinv : InvX L d G none) (hp : DirPath L d junk pp) (hgood : GoodName name)
    (hfile : ∀ ent off pb,
      get_entry L d (pp ++ 47 :: name) junk = some (Lookup.found ent off pb) →
      SFS_DIRECTORY &&& ent_size ent 0 = 0 ∧
      (size + L.SFS_BLOCK_SIZE - 1) / L.SFS_BLOCK_SIZE
        - (ent_size ent 0 + L.SFS_BLOCK_SIZE - 1) / L.SFS_BLOCK_SIZE
        ≤ (free_list L d).length)
    (hfuel : L.SFS_BLOCKTBL_NENTRIES < fuel)
    (h : sfs_truncate L d (pp ++ 47 :: name) size junk fuel = some (r, d1)) :
    InvX L d1 G none := by
  have htd := hL.tbl_data
  have hbp := hL.bs_pos
  have hen := hL.end_ne
  obtain ⟨A, n, pbv, hb, -, hform, hwrite⟩ := lookup_nf hL hinv hp
  obtain ⟨hne, hlen, hns, hz⟩ := hgood
  cases hres : get_entry L d (pp ++ 47 :: name) junk with
  | none => simp [sfs_truncate, hres] at h
  | some lk =>
    cases lk with
    | enoent =>
      simp only [sfs_truncate, hres, Option.some.injEq, Prod.mk.injEq] at h
      rw [← h.2]
      exact hinv
    | found ent off pb =>
      obtain ⟨hoff, rfl, hocc, hent⟩ := nf_found hne hz (hform name ⟨hne, hlen, hns, hz⟩) hres
      have hslot : Slot L G (A + off * 64) := ⟨A, n, off, hb, hoff, rfl⟩
      have hsz : ent_size ent 0 = ent_size d (A + off * 64) := by rw [hent, ent_size_copy]
      have hfb : ent_first_block ent 0 = ent_first_block d (A + off * 64) := by
        rw [hent, ent_first_block_copy]
      obtain ⟨hf0, hfree⟩ := hfile ent off _ hres
      rcases hinv.2.2.1 _ hslot (by simp) hocc with ⟨e1, -⟩ | ⟨e1, bs, c1, c2, c3⟩
      · rw [hsz, e1] at hf0
        exact absurd hf0 has_dir_bit
      · rw [← hfb] at c1
        rw [← hsz] at c2
        rw [← c2] at hfree
        have halloc := Chain.alloc hL hE c1
        obtain ⟨ent1, d2, t1, t2, t3, t4, -, t6, t7, -⟩ :=
          @truncate_eq L hL hsmall hE d (pp ++ 47 :: name) junk ent off pb bs size fuel hres c1 c2
            hfree (lt_of_le_of_lt (Chain.length_le c1) hfuel)
        rw [t1] at h
        simp only [Option.some.injEq, Prod.mk.injEq] at h
        generalize hK : (size + L.SFS_BLOCK_SIZE - 1) / L.SFS_BLOCK_SIZE = K at *
        have hKN : K ≤ L.SFS_BLOCKTBL_NENTRIES := by
          have := Chain.length_add_free_le c1 halloc
          omega
        have hsize : size < SFS_DIRECTORY := by
          have h1 := size_le_of_ceil (n := K) (s := size) hbp (le_of_eq hK) hKN
          rw [Nat.succ_mul] at hsmall
          omega
        -- the blocks of the directories keep their table slots
        have hGt : ∀ g ∈ G, tbl L d2 g = tbl L d g ∧ tbl L d2 (g + 1) = tbl L d (g + 1) := by
          intro g hg
          obtain ⟨g1, g2, g3⟩ := hinv.1 g hg
          have hg0 : g ∉ bs := fun e => (c3 g e g hg).1 rfl
          have hg1 : g + 1 ∉ bs := fun e => (c3 (g + 1) e g hg).2 rfl
          exact ⟨t6 g (by omega) hg0 (by rw [g2]; omega),
            t6 (g + 1) g1 hg1 (by rw [g3]; exact hen)⟩
        -- the chains of the other files keep their table slots
        have hother : ∀ a, Slot L G a → a ≠ A + off * 64 → d a ≠ 0 → ∀ cs,
            ent_size d a < SFS_DIRECTORY → Chain L d (ent_first_block d a) cs →
            (∀ b ∈ cs, b ∉ bs) ∧ ∀ b ∈ cs, tbl L d2 b = tbl L d b := by
          intro a ha hax h0 cs e2 c4
          have hp1 := hinv.2.2.2.1 a (A + off * 64) ha hslot (by simp) (by simp) hax h0 hocc
          rw [hfb] at c1
          have hdis := hp1.2 cs bs e2 e1 c4 c1
          exact ⟨hdis, fun b hb1 => t6 b (Chain.lt c4 b hb1) (hdis b hb1)
            (Chain.alloc hL hE c4 b hb1)⟩
        have hinv2 : InvX L d2 G (some (A + off * 64)) :=
          invx_table hL hinv t7 hGt (fun a ha hax h0 cs e2 c4 =>
            (hother a ha (fun e => hax (by rw [e])) h0 cs e2 c4).2)
        have hby : ∀ a, Slot L G a → ∀ t, t < 64 → d2 (a + t) = d (a + t) :=
          fun a ha t ht => t7 _ (slot_outside_tbl hL ha t ht)
        have hname : ∀ t, t < 58 → set_size ent1 0 size (0 + t) = d (A + off * 64 + t) := by
          intro t ht
          rw [Nat.zero_add]
          unfold set_size
          rw [poke32_out (by omega), t4 t (by omega), hent]
          unfold blit
          rw [if_pos (by omega)]
          exact congrArg d (by omega)
        have he0 : set_size ent1 0 size 0 ≠ 0 := by
          have := hname 0 (by omega)
          simp only [Nat.add_zero] at this
          rwa [this]
        have hesz : ent_size (set_size ent1 0 size) 0 = size := by
          rw [ent_size_set_size, Nat.mod_eq_of_lt t2]
        have hefb : ent_first_block (set_size ent1 0 size) 0 = ent_first_block ent1 0 :=
          ent_first_block_set_size ent1 size
        have hnew : ∀ b ∈ bs.take K ++ (free_list L d).take (K - bs.length),
            b ∈ bs ∨ tbl L d b = L.SFS_BLOCKIDX_EMPTY := by
          intro b hb1
          rcases List.mem_append.mp hb1 with h1 | h1
          · exact Or.inl (List.mem_of_mem_take h1)
          · exact Or.inr (free_take_mem h1).2
        refine inv_slot_write hL hinv2 hslot (e := set_size ent1 0 size) (fun a => ?_) ?_ ?_ ?_
        · rw [← h.2]
          exact hwrite name d2 _ off hns a
        · intro _
          right
          rw [hesz, hefb]
          refine ⟨hsize, _, t3, ?_, ?_⟩
          · rw [List.length_append, List.length_take, List.length_take]
            omega
          · intro b hb1 g hg
            obtain ⟨g1, g2, g3⟩ := hinv.1 g hg
            rcases hnew b hb1 with h1 | h1
            · exact c3 b h1 g hg
            · refine ⟨fun e => ?_, fun e => ?_⟩
              · rw [e, g2] at h1; omega
              · rw [e, g3] at h1; exact hen h1
        · intro _ a ha hax h0
          have h00 : d a ≠ 0 := by
            have := hby a ha 0 (by omega)
            simp only [Nat.add_zero] at this
            rwa [← this]
          have hsa : ent_size d2 a = ent_size d a := ent_size_congr (hby a ha)
          have hfa : ent_first_block d2 a = ent_first_block d a :=
            ent_first_block_congr (hby a ha)
          refine ⟨fun e2 => ?_, fun cs cs1 _ e3 k1 k2 b hb1 hb2 => ?_⟩
          · rw [hesz] at e2
            omega
          · rw [hesz, hefb] at *
            rw [hsa] at e3
            rw [hfa] at k2
            rcases hinv.2.2.1 a ha (by simp) h00 with ⟨f1, -⟩ | ⟨f1, cs2, k3, -, -⟩
            · omega
            · obtain ⟨q1, q2⟩ := hother a ha hax h00 cs2 f1 k3
              have k4 : Chain L d2 (ent_first_block d a) cs2 := Chain.frame k3 q2
              rw [Chain.unique k2 k4] at hb2
              rw [Chain.unique k1 t3] at hb1
              rcases hnew b hb1 with h1 | h1
              · exact q1 b hb2 h1
              · exact Chain.alloc hL hE k3 b hb2 h1
        · intro _ A1 n1 k1 hb1 hk1 hx j hj hjk h0 hnm
          rcases buf_sep hL hinv.2.1 hb hb1 with ⟨rfl, rfl⟩ | hsep | hsep
          · have hk : k1 = off := by omega
            subst hk
            have hsj : Slot L G (A + j * 64) := ⟨A, n, j, hb, hj, rfl⟩
            have h00 : d (A + j * 64) ≠ 0 := by
              have := hby _ hsj 0 (by omega)
              simp only [Nat.add_zero] at this
              rwa [← this]
            have hn1 : entry_name (set_size ent1 0 size) 0 = entry_name d (A + k1 * 64) :=
              cstr_congr 58 _ _ (fun t ht => hname t ht)
            rw [entry_name_congr (hby _ hsj), hn1] at hnm
            exact hjk (hinv.2.2.2.2 A n hb j k1 hj hk1 (by simp) (by simp) h00 hnm)
          · omega
          · omega

/-! ### The invariant holds in every reachable image -/

theorem inv_fresh {L : Layout} (hL : L.WF) : InvX L (freshImage L) [] none := by
  have hz : ∀ a, Slot L [] a → freshImage L a = 0 := by
    intro a ha
    obtain ⟨A, n, k, hb, hk, rfl⟩ := ha
    rcases hb with ⟨rfl, rfl⟩ | ⟨g, hg, -⟩
    · rw [freshImage_root_byte hL _ (by omega) (by omega)]
      have : (L.SFS_ROOTDIR_OFF + k * 64 - L.SFS_ROOTDIR_OFF) % 64 = 0 := by omega
      rw [this]
      simp
    · simp at hg
  refine ⟨fun g hg => by simp at hg, fun g hg => by simp at hg,
    fun a ha _ h0 => absurd (hz a ha) h0, fun a a1 ha _ _ _ _ h0 => absurd (hz a ha) h0,
    fun A n hb i j hi _ _ _ h0 => absurd (hz _ ⟨A, n, i, hb, hi, rfl⟩) h0⟩

theorem reach_inv {L : Layout} (hL : L.WF)
    (hsmall : (L.SFS_BLOCKTBL_NENTRIES + 1) * L.SFS_BLOCK_SIZE ≤ SFS_DIRECTORY)
    (hE : L.SFS_BLOCKTBL_NENTRIES ≤ L.SFS_BLOCKIDX_EMPTY) {d : Disk} (h : Reachable L d) :
    ∃ G, InvX L d G none := by
  induction h with
  | fresh => exact ⟨[], inv_fresh hL⟩
  | create d d1 pp name junk stale r _ hp hgood hmiss hop ih =>
    obtain ⟨G, hinv⟩ := ih
    exact ⟨G, inv_create hL hinv hp hgood hmiss hop⟩
  | mkdir d d1 pp name junk r _ hp hgood hmiss hop ih =>
    obtain ⟨G, hinv⟩ := ih
    exact inv_mkdir hL hE hinv hp hgood hmiss hop
  | unlink d d1 pp name junk fuel r _ hp hgood hfile hfuel hop ih =>
    obtain ⟨G, hinv⟩ := ih
    exact ⟨G, inv_unlink hL hinv hp hgood hfile hfuel hop⟩
  | rmdir d d1 pp name junk r _ hp hgood hdir hop ih =>
    obtain ⟨G, hinv⟩ := ih
    exact inv_rmdir hL hinv hp hgood hdir hop
  | truncate d d1 pp name size junk fuel r _ hp hgood hfile hfuel hop ih =>
    obtain ⟨G, hinv⟩ := ih
    exact ⟨G, inv_truncate hL hsmall hE hinv hp hgood hfile hfuel hop⟩

theorem isdir_mem {L : Layout} (hL : L.WF) {d : Disk} {G : List Nat} {junk : Mem}
    (hinv : InvX L d G none) {g : Nat} (h : IsDir L d junk g) : g ∈ G := by
  induction h with
  | root i hi h0 hbit =>
    rcases hinv.2.2.1 _ ⟨_, _, i, Or.inl ⟨rfl, rfl⟩, hi, rfl⟩ (by simp) h0 with
      ⟨-, e2⟩ | ⟨e1, -⟩
    · exact e2
    · exact absurd (not_dir_bit e1) hbit
  | sub g0 i _ hi h0 hbit ih =>
    obtain ⟨g1, g2, g3⟩ := hinv.1 g0 ih
    have hsl := dir_slot_le hL hi
    have hby : ∀ t, t < 64 → load_dir L d junk g0 (i * 64 + t)
        = d (L.SFS_DATA_OFF + g0 * L.SFS_BLOCK_SIZE + i * 64 + t) := by
      intro t ht
      rw [load_dir_adj hL d junk g0 _ g2 (by omega)]
      exact congrArg d (by omega)
    have h00 : d (L.SFS_DATA_OFF + g0 * L.SFS_BLOCK_SIZE + i * 64) ≠ 0 := by
      have := hby 0 (by omega)
      simp only [Nat.add_zero] at this
      rwa [← this]
    rw [ent_size_congr hby] at hbit
    rw [ent_first_block_congr hby]
    rcases hinv.2.2.1 _ ⟨_, _, i, Or.inr ⟨g0, ih, rfl, rfl⟩, hi, rfl⟩ (by simp) h00 with
      ⟨-, e2⟩ | ⟨e1, -⟩
    · exact e2
    · exact absurd (not_dir_bit e1) hbit

theorem inv_names {L : Layout} (hL : L.WF) {d : Disk} {G : List Nat}
    (hinv : InvX L d G none) : AllNamesDistinct L d := by
  refine ⟨?_, fun junk g hg => ?_⟩
  · intro i j hi hj h0 hnm
    exact hinv.2.2.2.2 _ _ (Or.inl ⟨rfl, rfl⟩) i j hi hj (by simp) (by simp)
      (entry_name_ne_nil.mp h0) hnm
  · have hmem := isdir_mem hL hinv hg
    obtain ⟨g1, g2, g3⟩ := hinv.1 g hmem
    have hby : ∀ i, i < L.SFS_DIR_NENTRIES → ∀ t, t < 64 →
        load_dir L d junk g (i * 64 + t)
          = d (L.SFS_DATA_OFF + g * L.SFS_BLOCK_SIZE + i * 64 + t) := by
      intro i hi t ht
      have hsl := dir_slot_le hL hi
      rw [load_dir_adj hL d junk g _ g2 (by omega)]
      exact congrArg d (by omega)
    intro i j hi hj h0 hnm
    rw [entry_name_congr (hby i hi)] at h0
    rw [entry_name_congr (hby i hi), entry_name_congr (hby j hj)] at hnm
    exact hinv.2.2.2.2 _ _ (Or.inr ⟨g, hmem, rfl, rfl⟩) i j hi hj (by simp) (by simp)
      (entry_name_ne_nil.mp h0) hnm
/-! ## The claims -/

/-! ### C1 -/

/-- C1 (amended): round trip of `mkdir` and `rmdir` on a freshly formatted
image. For every layout with at least two blocks in which
`SFS_BLOCKIDX_EMPTY` is not the number 0, and every path `/name` directly
under the root with a non-empty name without slash, shorter than 58 bytes:
`mkdir` and then `rmdir` both return 0, every byte of the block table is back
at its value in the fresh image, and the 64 bytes of root slot 0 (the slot
`mkdir` used) are back at their value in the fresh image except the name
bytes at positions `1 .. len - 1`, which still hold the bytes of the name:
`rmdir` only zeroes the first byte of the name. -/
theorem C1_mkdir_rmdir_roundtrip (L : Layout) (hL : L.WF)
    (hN : 2 ≤ L.SFS_BLOCKTBL_NENTRIES) (hE : L.SFS_BLOCKIDX_EMPTY ≠ 0)
    (name : List Nat) (junk junk2 : Mem)
    (hne : name ≠ []) (hns : 47 ∉ name) (hlen : name.length < 58) :
    ∃ d1 d2, sfs_mkdir L (freshImage L) (47 :: name) junk = some (0, d1) ∧
      sfs_rmdir L d1 (47 :: name) junk2 = some (0, d2) ∧
      (∀ a, L.SFS_BLOCKTBL_OFF ≤ a → a < L.SFS_BLOCKTBL_OFF + L.SFS_BLOCKTBL_NENTRIES * 2 →
        d2 a = freshImage L a) ∧
      (∀ k, k < 64 → d2 (L.SFS_ROOTDIR_OFF + k)
        = if 1 ≤ k ∧ k < name.length then name.getD k 0
          else freshImage L (L.SFS_ROOTDIR_OFF + k)) := by
  have hrt := hL.root_tbl
  have htd := hL.tbl_data
  have hrp := hL.root_pos
  have hel := hL.empty_lt
  have hds := dir_size_eq hL
  have hbp := hL.bs_pos
  -- the search for two free blocks finds blocks 0 and 1
  have hpair : find_free_pair L
      (disk_read (freshImage L) junk 0 L.SFS_BLOCKTBL_SIZE L.SFS_BLOCKTBL_OFF) = (0, 1) := by
    unfold find_free_pair
    rw [findFrom_first (j := 0) (le_refl 0) (by omega) _ (fun k h1 h2 => by omega)]
    simp [idx_get_disk_read_tbl L _ _ 0 (by omega), idx_get_disk_read_tbl L _ _ 1 (by omega),
      freshImage_tbl hL 0 (by omega), freshImage_tbl hL 1 (by omega)]
  set D3 := mkdir_blocks L (freshImage L) junk 0 1 with hD3
  have hD3low : ∀ a, a < L.SFS_BLOCKTBL_OFF → D3 a = freshImage L a := fun a ha =>
    mkdir_blocks_tbl_byte _ _ _ _ _ (by omega) (by omega) (by omega)
  -- slot 0 of the root is the first empty slot
  have hslot : first_empty_slot (disk_read D3 junk 0 L.SFS_ROOTDIR_SIZE L.SFS_ROOTDIR_OFF)
      L.SFS_ROOTDIR_NENTRIES = some 0 := by
    unfold first_empty_slot
    rw [findFrom_first (j := 0) (le_refl 0) (by omega) _ (fun k h1 h2 => by omega)]
    unfold disk_read Layout.SFS_ROOTDIR_SIZE
    rw [blit_in (by omega) (by omega), hD3low _ (by omega),
      freshImage_root_byte hL _ (by omega) (by omega)]
    simp
  have hmk := sfs_mkdir_root_eq L (freshImage L) name junk 0 1 0 hns hlen hpair
    (fun h => hE h.symm) hslot
  rw [← hD3] at hmk
  set rootdir := disk_read D3 junk 0 L.SFS_ROOTDIR_SIZE L.SFS_ROOTDIR_OFF with hrootdir
  set d1 := disk_write D3 (new_dir_entry rootdir 0 name 0) 0 L.SFS_ROOTDIR_SIZE
    L.SFS_ROOTDIR_OFF with hd1
  have hrootdir_at : ∀ k, k < L.SFS_ROOTDIR_NENTRIES * 64 →
      rootdir k = freshImage L (L.SFS_ROOTDIR_OFF + k) := by
    intro k hk
    rw [hrootdir]
    unfold disk_read Layout.SFS_ROOTDIR_SIZE
    rw [blit_in (by omega) (by omega), hD3low _ (by omega)]
    congr 1
  have hd1root : ∀ k, k < L.SFS_ROOTDIR_NENTRIES * 64 →
      d1 (L.SFS_ROOTDIR_OFF + k) = new_dir_entry rootdir 0 name 0 k := by
    intro k hk
    rw [hd1]
    unfold disk_write Layout.SFS_ROOTDIR_SIZE
    rw [blit_in (by omega) (by omega)]
    congr 1
    omega
  have hd1out : ∀ a, L.SFS_BLOCKTBL_OFF ≤ a → d1 a = D3 a := by
    intro a ha
    rw [hd1]
    unfold disk_write Layout.SFS_ROOTDIR_SIZE
    exact blit_out (by omega)
  have htbl1 : ∀ j, j < L.SFS_BLOCKTBL_NENTRIES → tbl L d1 j
      = if j = 1 then L.SFS_BLOCKIDX_END else if j = 0 then 1 else L.SFS_BLOCKIDX_EMPTY := by
    intro j hj
    rw [tbl_congr (d := D3) (fun a h1 _ => hd1out a (by omega)), hD3,
      mkdir_blocks_tbl hL _ _ _ _ _ (by omega) hj, freshImage_tbl hL j hj]
  -- the lookup of the new directory finds slot 0
  set root2 := disk_read d1 junk2 0 L.SFS_ROOTDIR_SIZE L.SFS_ROOTDIR_OFF with hroot2
  have hroot2_at : ∀ k, k < L.SFS_ROOTDIR_NENTRIES * 64 →
      root2 k = new_dir_entry rootdir 0 name 0 k := by
    intro k hk
    rw [hroot2, ← hd1root k hk]
    unfold disk_read Layout.SFS_ROOTDIR_SIZE
    rw [blit_in (by omega) (by omega)]
    congr 1
  have hf : findFrom (fun i => strcmp0 name root2 (i * 64)) L.SFS_ROOTDIR_NENTRIES 0
      = some 0 := by
    rw [findFrom_first (j := 0) (le_refl 0) (by omega) _ (fun k h1 h2 => by omega)]
    apply strcmp0_of_eq
    · intro k hk
      rw [hroot2_at _ (by omega)]
      exact new_dir_entry_name _ _ _ _ _ hlen hk
    · rw [hroot2_at _ (by omega)]
      exact new_dir_entry_term _ _ _ _ hlen
  have hres := get_entry_root_found L d1 name junk2 0 hns hne hf
  rw [← hroot2] at hres
  set ent := blit junk2 0 root2 (0 * 64) 64 with hent
  have hent_at : ∀ k, k < 64 → ent k = new_dir_entry rootdir 0 name 0 k := by
    intro k hk
    rw [hent, blit_in (by omega) (by omega), ← hroot2_at k (by omega)]
    congr 1
    omega
  have hfb : ent_first_block ent 0 = 0 := by
    have h0 : ent_first_block (new_dir_entry rootdir 0 name 0) (0 * 64) = 0 :=
      new_dir_entry_first_block rootdir 0 name 0
    have h62 := hent_at 62 (by omega)
    have h63 := hent_at 63 (by omega)
    refine Eq.trans ?_ h0
    unfold ent_first_block peek16
    simp only [Nat.zero_add, Nat.zero_mul]
    rw [h62, h63]
  -- the new directory is empty
  have hempty : ∀ i, i < L.SFS_DIR_NENTRIES →
      load_dir L d1 junk2 (ent_first_block ent 0) (i * 64) = 0 := by
    intro i hi
    have hi2 : i * 64 < 2 * L.SFS_BLOCK_SIZE := by
      unfold Layout.SFS_DIR_NENTRIES at hi
      omega
    rw [hfb, load_dir_apply hL _ _ _ _ hi2, htbl1 0 (by omega)]
    simp only [if_neg (show (0 : Nat) ≠ 1 by omega), if_true]
    split
    · rw [hd1out _ (by omega), hD3, mkdir_blocks_data _ _ _ _ _ (by omega)]
      exact empty_entries_name junk i hi
    · have e : L.SFS_DATA_OFF + 1 * L.SFS_BLOCK_SIZE + (i * 64 - L.SFS_BLOCK_SIZE)
          = L.SFS_DATA_OFF + 0 * L.SFS_BLOCK_SIZE + i * 64 := by omega
      rw [e, hd1out _ (by omega), hD3, mkdir_blocks_data _ _ _ _ _ (by omega)]
      exact empty_entries_name junk i hi
  have hrm := sfs_rmdir_eq L d1 (47 :: name) junk2 ent 0 (peek16 junk2 0) hres hempty
  rw [hfb, htbl1 0 (by omega)] at hrm
  simp only [if_neg (show (0 : Nat) ≠ 1 by omega), if_true] at hrm
  refine ⟨d1, _, hmk, hrm, ?_, ?_⟩
  · intro a ha1 ha2
    rw [write_entry_outside hL _ _ _ _ _ _ (fun _ => by omega) ⟨ha1, ha2⟩]
    rw [write_idx_apply, write_idx_apply, freshImage_tbl_byte L a ha1 ha2]
    by_cases h2 : a = L.SFS_BLOCKTBL_OFF + 1 * 2
    · rw [if_pos h2, if_pos (by omega)]
    by_cases h3 : a = L.SFS_BLOCKTBL_OFF + 1 * 2 + 1
    · rw [if_neg h2, if_pos h3, if_neg (by omega)]
    by_cases h0 : a = L.SFS_BLOCKTBL_OFF + 0 * 2
    · rw [if_neg h2, if_neg h3, if_pos h0, if_pos (by omega)]
    by_cases h1 : a = L.SFS_BLOCKTBL_OFF + 0 * 2 + 1
    · rw [if_neg h2, if_neg h3, if_neg h0, if_pos h1, if_neg (by omega)]
    rw [if_neg h2, if_neg h3, if_neg h0, if_neg h1, hd1out a ha1, hD3,
      mkdir_blocks_tbl_byte _ _ _ _ _ (by omega) (by omega) (by omega),
      freshImage_tbl_byte L a ha1 ha2]
  · intro k hk
    have hroot : in_root (47 :: name) = true := (in_root_cons name).mpr hns
    unfold write_entry disk_write
    rw [if_pos hroot, blit_in (by omega) (by omega)]
    have e : 0 + (L.SFS_ROOTDIR_OFF + k - (L.SFS_ROOTDIR_OFF + 0 * 64)) = k := by omega
    rw [e, cleared_entry_apply, freshImage_root_byte hL _ (by omega) (by omega)]
    have e2 : (L.SFS_ROOTDIR_OFF + k - L.SFS_ROOTDIR_OFF) % 64 = k := by omega
    rw [e2]
    by_cases h62 : k = 62
    · rw [if_pos h62, if_neg (by omega), if_pos h62]
    by_cases h63 : k = 63
    · rw [if_neg h62, if_pos h63, if_neg (by omega), if_neg h62, if_pos h63]
    by_cases h58 : 58 ≤ k ∧ k < 62
    · rw [if_neg h62, if_neg h63, if_pos h58, if_neg (by omega), if_neg h62, if_neg h63]
    by_cases h0 : k = 0
    · rw [if_neg h62, if_neg h63, if_neg h58, if_pos h0, if_neg (by omega), if_neg h62,
        if_neg h63]
    rw [if_neg h62, if_neg h63, if_neg h58, if_neg h0, hent_at k hk, if_neg h62, if_neg h63]
    by_cases hkl : k < name.length
    · rw [if_pos ⟨by omega, hkl⟩]
      have := new_dir_entry_name rootdir 0 name 0 k hlen hkl
      simpa using this
    · rw [if_neg (by omega)]
      by_cases hke : k = name.length
      · have := new_dir_entry_term rootdir 0 name 0 hlen
        rw [hke]
        simpa using this
      · rw [new_dir_entry_other _ _ _ _ _ hlen (by omega), hrootdir_at k (by omega),
          freshImage_root_byte hL _ (by omega) (by omega), e2, if_neg h62, if_neg h63]

/-- Witness for C1 on the small layout with `SFS_BLOCKIDX_EMPTY = 0xffff`
and the path `/ab`. -/
theorem C1_mkdir_rmdir_roundtrip_witness :
    ∃ d1 d2, sfs_mkdir (tiny 65535) (freshImage (tiny 65535)) (47 :: [97, 98]) zeros
        = some (0, d1) ∧
      sfs_rmdir (tiny 65535) d1 (47 :: [97, 98]) zeros = some (0, d2) ∧
      (∀ a, (tiny 65535).SFS_BLOCKTBL_OFF ≤ a →
        a < (tiny 65535).SFS_BLOCKTBL_OFF + (tiny 65535).SFS_BLOCKTBL_NENTRIES * 2 →
        d2 a = freshImage (tiny 65535) a) ∧
      (∀ k, k < 64 → d2 ((tiny 65535).SFS_ROOTDIR_OFF + k)
        = if 1 ≤ k ∧ k < [97, 98].length then [97, 98].getD k 0
          else freshImage (tiny 65535) ((tiny 65535).SFS_ROOTDIR_OFF + k)) :=
  C1_mkdir_rmdir_roundtrip (tiny 65535) (tiny_wf 65535 (by decide) (by decide))
    (by decide) (by decide) [97, 98] zeros zeros (by decide) (by decide) (by decide)

/-- Counterexample to C1 as stated, with the path `/ab`. On the small layout
with `SFS_BLOCKIDX_EMPTY = 0xffff`, `mkdir /ab` and `rmdir /ab` both return 0
on the fresh image, but byte 1 of root slot 0 then holds 98 (`b`) where the
fresh image holds 0. On the small layout with `SFS_BLOCKIDX_EMPTY = 0` the
call `mkdir /ab` on the fresh image returns -1: the first free pair starts at
block 0, which the code cannot tell from its not-found marker. -/
theorem C1_counterexample :
    ret (sfs_mkdir (tiny 65535) (freshImage (tiny 65535)) [47, 97, 98] zeros) = some 0 ∧
    ret (sfs_rmdir (tiny 65535)
      (after (sfs_mkdir (tiny 65535) (freshImage (tiny 65535)) [47, 97, 98] zeros))
      [47, 97, 98] zeros) = some 0 ∧
    after (sfs_rmdir (tiny 65535)
      (after (sfs_mkdir (tiny 65535) (freshImage (tiny 65535)) [47, 97, 98] zeros))
      [47, 97, 98] zeros) ((tiny 65535).SFS_ROOTDIR_OFF + 1) = 98 ∧
    freshImage (tiny 65535) ((tiny 65535).SFS_ROOTDIR_OFF + 1) = 0 ∧
    ret (sfs_mkdir (tiny 0) (freshImage (tiny 0)) [47, 97, 98] zeros) = some (-1) := by
  decide

/-! ### C2 -/

/-- C2 (code defect): read after truncate-grow returns stale bytes. On the
small layout, with `SFS_BLOCKIDX_EMPTY` either 0 or `0xffff`, the calls
`create /e`, `truncate /e 1`, `mkdir /ab`, `mkdir /ab/cd`, `rmdir /ab/cd`,
`rmdir /ab`, `create /f`, `truncate /f 10` all return 0 from a freshly
formatted image; the block that `truncate` gives to `/f` is the freed first
block of `/ab`, which still holds the byte `d` of the removed name `cd`. The
following `read(/f, 10, 0)` returns 10 with byte 1 equal to 100, not zero. -/
theorem C2_read_after_grow_stale :
    (run_ops (tiny 0) scriptStale (freshImage (tiny 0))).isSome = true ∧
    found_size (get_entry (tiny 0) (image (tiny 0) scriptStale) [47, 102] zeros) = some 10 ∧
    sfs_read (tiny 0) (image (tiny 0) scriptStale) [47, 102] 10 0 zeros 8
      = some (10, [0, 100, 0, 0, 0, 0, 0, 0, 0, 0]) ∧
    (run_ops (tiny 65535) scriptStale (freshImage (tiny 65535))).isSome = true ∧
    found_size (get_entry (tiny 65535) (image (tiny 65535) scriptStale) [47, 102] zeros)
      = some 10 ∧
    sfs_read (tiny 65535) (image (tiny 65535) scriptStale) [47, 102] 10 0 zeros 8
      = some (10, [0, 100, 0, 0, 0, 0, 0, 0, 0, 0]) := by
  decide

/-! ### C3 -/

/-- C3: `read` copies the requested byte range. In a layout whose data region
is smaller than 2^31 bytes, for every path that resolves to an entry whose
chain `bs` from `first_block` has `ceil(size / SFS_BLOCK_SIZE)` blocks, and
every offset smaller than the file size, `read(path, buf, size, offset)` with
enough fuel returns `n = min(size, entry.size - offset)` and `buf[0..n)` holds
bytes `[offset, offset + n)` of the concatenation of the data blocks in chain
order. -/
theorem C3_read_copies_range (L : Layout) (hL : L.WF)
    (hsmall : (L.SFS_BLOCKTBL_NENTRIES + 1) * L.SFS_BLOCK_SIZE ≤ SFS_DIRECTORY)
    (d : Disk) (path : List Nat)
    (junk ent : Mem) (off pb : Nat) (bs : List Nat) (size offset fuel : Nat)
    (hres : get_entry L d path junk = some (Lookup.found ent off pb))
    (hch : Chain L d (ent_first_block ent 0) bs)
    (hlen : bs.length = (ent_size ent 0 + L.SFS_BLOCK_SIZE - 1) / L.SFS_BLOCK_SIZE)
    (hoff : offset < ent_size ent 0)
    (hfuel : bs.length < fuel) :
    sfs_read L d path size offset junk fuel
      = some (((min size (ent_size ent 0 - offset) : Nat) : Int),
          ((file_bytes L d bs).drop offset).take (min size (ent_size ent 0 - offset))) := by
  have hbs := hL.bs_pos
  have hreg : ent_size ent 0 < SFS_DIRECTORY := by
    have h1 := size_le_of_ceil hbs (le_of_eq hlen.symm) (Chain.length_le hch)
    rw [Nat.succ_mul] at hsmall
    omega
  have hge := ceil_mul_ge (ent_size ent 0) L.SFS_BLOCK_SIZE hbs
  rw [← hlen] at hge
  have hne : ent_first_block ent 0 ≠ L.SFS_BLOCKIDX_END := by
    cases bs with
    | nil => simp at hge; omega
    | cons b bs => exact hch.1 ▸ hch.2.1
  obtain ⟨buf', e1, e2, -⟩ := read_file_chain bs _ fuel 0 junk hch hfuel
  have hcount := count_blocks_chain bs _ fuel 0 hch hfuel
  unfold SFS_DIRECTORY at hreg
  have hrest : (ent_size ent 0 + 18446744073709551616 - offset) % 18446744073709551616
      = ent_size ent 0 - offset := by omega
  have hmin : (if ent_size ent 0 - offset < size then ent_size ent 0 - offset else size)
      = min size (ent_size ent 0 - offset) := by
    split <;> omega
  simp only [sfs_read, hres, if_neg hne, hcount, e1, hrest, hmin, Nat.zero_add]
  have hle : offset + min size (ent_size ent 0 - offset) ≤ bs.length * L.SFS_BLOCK_SIZE := by
    omega
  rw [if_pos hle, toInt32_small _ (by omega)]
  congr 2
  apply List.ext_getElem
  · simp only [List.length_map, List.length_range, List.length_take, List.length_drop,
      file_bytes_length]
    omega
  · intro i h1 h2
    simp only [List.length_map, List.length_range] at h1
    have := e2 (offset + i) (by omega)
    simp only [Nat.zero_mul, Nat.zero_add] at this
    simp only [List.getElem_map, List.getElem_range, List.getElem_take, List.getElem_drop, this]
    rw [List.getD_eq_getElem _ _ (by rw [file_bytes_length]; omega)]

/-- Witness for C3 on the small layout: a file of 129 bytes with the chain
`[0, 1]`, read of 200 bytes at offset 100. -/
theorem C3_read_copies_range_witness :
    sfs_read (tiny 65535) (image (tiny 65535) scriptTwoBlocks) [47, 102] 200 100 zeros 3
      = some (((min 200 (129 - 100) : Nat) : Int),
          ((file_bytes (tiny 65535) (image (tiny 65535) scriptTwoBlocks) [0, 1]).drop 100).take
            (min 200 (129 - 100))) :=
  C3_read_copies_range (tiny 65535) (tiny_wf 65535 (by decide) (by decide)) (by decide)
    (image (tiny 65535) scriptTwoBlocks) [47, 102] zeros _ _ _ [0, 1] 200 100 3 rfl
    (by decide) (by decide) (by decide) (by decide)

/-! ### C4 -/

/-- C4 (code defect): a read that starts behind the end of a non-empty file
does not return 0. On the small layout, after `create /f`, `truncate /f 10`
the file has size 10 and one block; `read(/f, size = 5, offset = 11)` returns
5 (the subtraction `ent->size - offset` wraps around, so the size is not
clamped), while `read(/f, 5, 10)` returns 0. -/
theorem C4_read_past_end :
    (run_ops (tiny 65535) scriptTenBytes (freshImage (tiny 65535))).isSome = true ∧
    found_size (get_entry (tiny 65535) (image (tiny 65535) scriptTenBytes) [47, 102] zeros)
      = some 10 ∧
    (sfs_read (tiny 65535) (image (tiny 65535) scriptTenBytes) [47, 102] 5 11 zeros 8).map
      Prod.fst = some 5 ∧
    (sfs_read (tiny 65535) (image (tiny 65535) scriptTenBytes) [47, 102] 5 10 zeros 8).map
      Prod.fst = some 0 := by
  decide

/-! ### C5 -/

/-- C5 (amended): `truncate` preserves the consistency of size and chain. In
a layout whose data region is smaller than 2^31 bytes and whose
`SFS_BLOCKIDX_EMPTY` is not a block index, let `name` be a basename without a
slash and shorter than 58 bytes, and let the path resolve to an entry whose
chain `bs` has `ceil(size / SFS_BLOCK_SIZE)` blocks, with enough
`SFS_BLOCKIDX_EMPTY` slots in the block table for the new size.

* For the path `/name`: `truncate` with enough fuel returns 0, and afterwards
  the path resolves to the same slot, whose entry has `size = new_size`, a
  chain of `ceil(new_size / SFS_BLOCK_SIZE)` blocks, and
  `first_block = SFS_BLOCKIDX_END` exactly when the new size is 0.
* For the path `pp/name`: the same holds when `pp` resolves to an entry whose
  second block directly follows its first
  (`table[first_block] = first_block + 1`) and the directories on the path
  `pp` occupy pairwise distinct blocks that are block-table indices, are not
  marked `SFS_BLOCKIDX_EMPTY` and are not blocks of the chain `bs`. -/
theorem C5_truncate_consistency (L : Layout) (hL : L.WF)
    (hsmall : (L.SFS_BLOCKTBL_NENTRIES + 1) * L.SFS_BLOCK_SIZE ≤ SFS_DIRECTORY)
    (hE : L.SFS_BLOCKTBL_NENTRIES ≤ L.SFS_BLOCKIDX_EMPTY)
    (d : Disk) (junk : Mem) (name : List Nat) (hns : 47 ∉ name) (hlen : name.length < 58)
    (size fuel : Nat) :
    (∀ (ent : Mem) (off pb : Nat) (bs : List Nat),
      get_entry L d (47 :: name) junk = some (Lookup.found ent off pb) →
      Chain L d (ent_first_block ent 0) bs →
      bs.length = (ent_size ent 0 + L.SFS_BLOCK_SIZE - 1) / L.SFS_BLOCK_SIZE →
      (size + L.SFS_BLOCK_SIZE - 1) / L.SFS_BLOCK_SIZE - bs.length ≤ (free_list L d).length →
      bs.length < fuel →
      ∃ d' ent' bs', sfs_truncate L d (47 :: name) size junk fuel = some (0, d') ∧
        get_entry L d' (47 :: name) junk = some (Lookup.found ent' off pb) ∧
        ent_size ent' 0 = size ∧
        Chain L d' (ent_first_block ent' 0) bs' ∧
        bs'.length = (size + L.SFS_BLOCK_SIZE - 1) / L.SFS_BLOCK_SIZE ∧
        (ent_first_block ent' 0 = L.SFS_BLOCKIDX_END ↔ size = 0)) ∧
    (∀ (pp : List Nat) (pent : Mem) (poff ppb : Nat) (ent : Mem) (off pb : Nat)
      (bs : List Nat), 47 ∈ pp → name ≠ [] →
      get_entry L d pp junk = some (Lookup.found pent poff ppb) →
      tbl L d (ent_first_block pent 0) = ent_first_block pent 0 + 1 →
      (path_blocks L d junk pp).Nodup →
      (∀ b ∈ path_blocks L d junk pp, b < L.SFS_BLOCKTBL_NENTRIES ∧
        tbl L d b ≠ L.SFS_BLOCKIDX_EMPTY ∧ b ∉ bs) →
      get_entry L d (pp ++ 47 :: name) junk = some (Lookup.found ent off pb) →
      Chain L d (ent_first_block ent 0) bs →
      bs.length = (ent_size ent 0 + L.SFS_BLOCK_SIZE - 1) / L.SFS_BLOCK_SIZE →
      (size + L.SFS_BLOCK_SIZE - 1) / L.SFS_BLOCK_SIZE - bs.length ≤ (free_list L d).length →
      bs.length < fuel →
      ∃ d' ent' bs', sfs_truncate L d (pp ++ 47 :: name) size junk fuel = some (0, d') ∧
        get_entry L d' (pp ++ 47 :: name) junk = some (Lookup.found ent' off pb) ∧
        ent_size ent' 0 = size ∧
        Chain L d' (ent_first_block ent' 0) bs' ∧
        bs'.length = (size + L.SFS_BLOCK_SIZE - 1) / L.SFS_BLOCK_SIZE ∧
        (ent_first_block ent' 0 = L.SFS_BLOCKIDX_END ↔ size = 0)) := by
  have hbp := hL.bs_pos
  have hsz : size = 0 ↔ (size + L.SFS_BLOCK_SIZE - 1) / L.SFS_BLOCK_SIZE = 0 :=
    (ceil_eq_zero size L.SFS_BLOCK_SIZE hbp).symm
  -- from the chain of the new entry to the three facts of the claim
  have hfin : ∀ (d' : Disk) (ent' : Mem) (bs : List Nat),
      (size + L.SFS_BLOCK_SIZE - 1) / L.SFS_BLOCK_SIZE - bs.length ≤ (free_list L d).length →
      Chain L d' (ent_first_block ent' 0)
        (bs.take ((size + L.SFS_BLOCK_SIZE - 1) / L.SFS_BLOCK_SIZE) ++
          (free_list L d).take ((size + L.SFS_BLOCK_SIZE - 1) / L.SFS_BLOCK_SIZE - bs.length)) →
      ∃ bs', Chain L d' (ent_first_block ent' 0) bs' ∧
        bs'.length = (size + L.SFS_BLOCK_SIZE - 1) / L.SFS_BLOCK_SIZE ∧
        (ent_first_block ent' 0 = L.SFS_BLOCKIDX_END ↔ size = 0) := by
    intro d' ent' bs hfree hchain
    have hlen2 : (bs.take ((size + L.SFS_BLOCK_SIZE - 1) / L.SFS_BLOCK_SIZE) ++
        (free_list L d).take ((size + L.SFS_BLOCK_SIZE - 1) / L.SFS_BLOCK_SIZE
          - bs.length)).length
        = (size + L.SFS_BLOCK_SIZE - 1) / L.SFS_BLOCK_SIZE := by
      rw [List.length_append, List.length_take, List.length_take]
      omega
    refine ⟨_, hchain, hlen2, ?_⟩
    constructor
    · intro h
      rw [hsz, ← hlen2]
      cases hb : (bs.take ((size + L.SFS_BLOCK_SIZE - 1) / L.SFS_BLOCK_SIZE) ++
        (free_list L d).take ((size + L.SFS_BLOCK_SIZE - 1) / L.SFS_BLOCK_SIZE - bs.length))
        with
      | nil => rfl
      | cons b bs1 =>
        rw [hb] at hchain
        exact absurd (hchain.1.symm ▸ h) hchain.2.1
    · intro h
      have h0 := hsz.mp h
      rw [h0] at hchain
      simpa using hchain
  constructor
  · intro ent off pb bs hres hch hlenc hfree hfuel
    obtain ⟨d', ent', h1, h2, h3, h4, -⟩ := @truncate_found L hL hsmall hE d _ junk ent off
      pb bs size fuel hres hch hlenc hfree hfuel
      (fun hr => get_entry_in_root_lt hres hr)
      (fun d1 e hd1 _ hname =>
        (found_after_write_root hns hlen hres (fun a ha => hd1 a (Or.inl ha)) hL.root_tbl e
          hname).2)
    obtain ⟨bs', c1, c2, c3⟩ := hfin d' ent' bs hfree h4
    exact ⟨d', ent', bs', h1, h2, h3, c1, c2, c3⟩
  · intro pp pent poff ppb ent off pb bs hin hne hresP hadj hnd hpath hres hch hlenc hfree
      hfuel
    have htd := hL.tbl_data
    have hroot : in_root (pp ++ 47 :: name) = false := by
      have := (in_root_append pp name hns).not.mpr (by simpa using hin)
      simpa using this
    obtain ⟨d', ent', h1, h2, h3, h4, -⟩ := @truncate_found L hL hsmall hE d _ junk ent off
      pb bs size fuel hres hch hlenc hfree hfuel
      (fun hr => by rw [hroot] at hr; exact absurd hr (by simp))
      (fun d1 e hd1 ht1 hname =>
        (found_after_write_sub hL hin hns hne hlen hresP hadj hnd (fun b hb => (hpath b hb).1)
          hres (fun a ha => hd1 a (Or.inl ha))
          (fun b hb => ht1 b (hpath b hb).1 (hpath b hb).2.2 (hpath b hb).2.1)
          (fun a ha => hd1 a (Or.inr (by omega))) e hname).2.2.2)
    obtain ⟨bs', c1, c2, c3⟩ := hfin d' ent' bs hfree h4
    exact ⟨d', ent', bs', h1, h2, h3, c1, c2, c3⟩

/-- Witness for C5 on the small layout: the file `/f` of 129 bytes with the
chain `[0, 1]`, in root slot 3, grown to 300 bytes; and the empty file `/d/f`
in slot 3 of the directory `/d` (blocks 0 and 1), grown to 10 bytes. -/
theorem C5_truncate_consistency_witness :
    (∃ d' ent' bs', sfs_truncate (tiny 65535) (image (tiny 65535) scriptTwoBlocks)
        (47 :: [102]) 300 zeros 3 = some (0, d') ∧
      get_entry (tiny 65535) d' (47 :: [102]) zeros = some (Lookup.found ent' 3 0) ∧
      ent_size ent' 0 = 300 ∧
      Chain (tiny 65535) d' (ent_first_block ent' 0) bs' ∧
      bs'.length = (300 + (tiny 65535).SFS_BLOCK_SIZE - 1) / (tiny 65535).SFS_BLOCK_SIZE ∧
      (ent_first_block ent' 0 = (tiny 65535).SFS_BLOCKIDX_END ↔ 300 = 0)) ∧
    (∃ d' ent' bs', sfs_truncate (tiny 65535) (image (tiny 65535) scriptDirWithFile)
        ([47, 100] ++ 47 :: [102]) 10 zeros 1 = some (0, d') ∧
      get_entry (tiny 65535) d' ([47, 100] ++ 47 :: [102]) zeros
        = some (Lookup.found ent' 3 0) ∧
      ent_size ent' 0 = 10 ∧
      Chain (tiny 65535) d' (ent_first_block ent' 0) bs' ∧
      bs'.length = (10 + (tiny 65535).SFS_BLOCK_SIZE - 1) / (tiny 65535).SFS_BLOCK_SIZE ∧
      (ent_first_block ent' 0 = (tiny 65535).SFS_BLOCKIDX_END ↔ 10 = 0)) :=
  ⟨(C5_truncate_consistency (tiny 65535) (tiny_wf 65535 (by decide) (by decide)) (by decide)
      (by decide) (image (tiny 65535) scriptTwoBlocks) zeros [102] (by decide) (by decide)
      300 3).1 _ 3 0 [0, 1] rfl (by decide) (by decide) (by decide) (by decide),
   (C5_truncate_consistency (tiny 65535) (tiny_wf 65535 (by decide) (by decide)) (by decide)
      (by decide) (image (tiny 65535) scriptDirWithFile) zeros [102] (by decide) (by decide)
      10 1).2 [47, 100] _ 0 0 _ 3 0 [] (by decide) (by decide) rfl (by decide) (by decide)
      (by decide) rfl (by decide) (by decide) (by decide) (by decide)⟩

/-- Counterexample to C5 as stated, on an image of the small layout whose
directory `/d` occupies the blocks 0 and 2 (`table[0] = 2`,
`table[2] = END`): the empty file `/d/q` is slot 2 of `/d`, the first slot of
block 2, and six table slots are free. `truncate(/d/q, 10)` returns 0, and
afterwards the entry of `/d/q` still has size 0 and first block
`SFS_BLOCKIDX_END`: `sfs_truncate` writes the entry at
`parent_blockidx * SFS_BLOCK_SIZE + slot * 64`, which is in block 1. -/
theorem C5_counterexample :
    found_first_block (get_entry (tiny 65535) imageSplitFiles [47, 100] zeros) = some 0 ∧
    tbl (tiny 65535) imageSplitFiles 0 = 2 ∧
    tbl (tiny 65535) imageSplitFiles 2 = (tiny 65535).SFS_BLOCKIDX_END ∧
    (∃ ent, get_entry (tiny 65535) imageSplitFiles [47, 100, 47, 113] zeros
      = some (Lookup.found ent 2 0)) ∧
    found_size (get_entry (tiny 65535) imageSplitFiles [47, 100, 47, 113] zeros) = some 0 ∧
    found_first_block (get_entry (tiny 65535) imageSplitFiles [47, 100, 47, 113] zeros)
      = some (tiny 65535).SFS_BLOCKIDX_END ∧
    (free_list (tiny 65535) imageSplitFiles).length = 6 ∧
    ret (sfs_truncate (tiny 65535) imageSplitFiles [47, 100, 47, 113] 10 zeros 16) = some 0 ∧
    found_size (get_entry (tiny 65535)
      (after (sfs_truncate (tiny 65535) imageSplitFiles [47, 100, 47, 113] 10 zeros 16))
      [47, 100, 47, 113] zeros) = some 0 ∧
    found_first_block (get_entry (tiny 65535)
      (after (sfs_truncate (tiny 65535) imageSplitFiles [47, 100, 47, 113] 10 zeros 16))
      [47, 100, 47, 113] zeros) = some (tiny 65535).SFS_BLOCKIDX_END :=
  ⟨by decide, by decide, by decide, ⟨_, rfl⟩, by decide, by decide, by decide, by decide,
   by decide, by decide⟩
/-! ### C6 -/

/-- C6 (amended): name uniqueness is an invariant of the operations. In a
layout whose data region is smaller than 2^31 bytes and whose
`SFS_BLOCKIDX_EMPTY` is not a block index, in every image reachable from a
freshly formatted image by `create`, `mkdir`, `unlink`, `rmdir` and
`truncate`, whatever the calls return, where `create` and `mkdir` are only
called on paths that do not resolve and every call is made as the host makes
it (on a path whose parent is the root or a directory reached through
directories, `unlink` and `truncate` on regular files, `rmdir` on
directories, `truncate` with enough free block-table slots), the names of the
occupied slots of every directory of the tree, the root and every
subdirectory, are pairwise distinct. -/
theorem C6_names_distinct (L : Layout) (hL : L.WF)
    (hsmall : (L.SFS_BLOCKTBL_NENTRIES + 1) * L.SFS_BLOCK_SIZE ≤ SFS_DIRECTORY)
    (hE : L.SFS_BLOCKTBL_NENTRIES ≤ L.SFS_BLOCKIDX_EMPTY)
    (d : Disk) (h : Reachable L d) : AllNamesDistinct L d := by
  obtain ⟨G, hinv⟩ := reach_inv hL hsmall hE h
  exact inv_names hL hinv

/-- Witness for C6 on the small layout: the image after `mkdir /d`,
`create /d/f`. -/
theorem C6_names_distinct_witness :
    AllNamesDistinct (tiny 65535)
      (after (sfs_create (tiny 65535)
        (after (sfs_mkdir (tiny 65535) (freshImage (tiny 65535)) ([] ++ 47 :: [100]) zeros))
        ([47, 100] ++ 47 :: [102]) zeros none)) :=
  C6_names_distinct (tiny 65535) (tiny_wf 65535 (by decide) (by decide)) (by decide)
    (by decide) _
    (Reachable.create _ _ [47, 100] [102] zeros none 0
      (Reachable.mkdir _ _ [] [100] zeros 0 Reachable.fresh DirPath.root
        ⟨by decide, by decide, by decide, by decide⟩ rfl rfl)
      (DirPath.sub [] [100] _ 0 (peek16 zeros 0) DirPath.root
        ⟨by decide, by decide, by decide, by decide⟩ rfl (by decide))
      ⟨by decide, by decide, by decide, by decide⟩ rfl rfl)

/-- Counterexample to C6 as stated, on the small layout: `create /a` twice.
Both calls return 0 (the second one for a path that already exists), and
afterwards root slots 2 and 3 are both occupied with the name `a`: the
directory holds a second occupied slot with the same name, and the names of
the occupied slots of this reachable image are not pairwise distinct. -/
theorem C6_counterexample :
    (run_ops (tiny 65535) scriptTwice (freshImage (tiny 65535))).isSome = true ∧
    root_name (tiny 65535) (image (tiny 65535) scriptTwice) 2 = [97] ∧
    root_name (tiny 65535) (image (tiny 65535) scriptTwice) 3 = [97] ∧
    ¬ AllNamesDistinct (tiny 65535) (image (tiny 65535) scriptTwice) := by
  refine ⟨by decide, by decide, by decide, fun h => ?_⟩
  have := h.1 2 3 (by decide) (by decide) (by decide) (by decide)
  omega
/-! ### C7 -/

/-- C7 (code defect): a `truncate` that returns 0 puts a block into two
chains. On the small layout after `mkdir /d`, `create /f`, the directory
`/d` has the chain `[0, 1]`, the file `/f` is empty and the free slots are
2, ..., 7, so no block is in two chains. `truncate(/f, 769)` needs seven
blocks where six are free; it returns 0, and afterwards the chain of `/f` is
`[2, 3, 4, 5, 6, 7, 0]` while `/d` still has first block 0: block 0, which
held 1 and not `SFS_BLOCKIDX_EMPTY` before the call, is in both chains.
`sfs_truncate` never compares the number of free blocks it found with the
number it needs and links the unset tail of `newblocks`. -/
theorem C7_truncate_shares_block :
    found_first_block (get_entry (tiny 65535) (image (tiny 65535) scriptDirAndFile)
      [47, 100] zeros) = some 0 ∧
    Chain (tiny 65535) (image (tiny 65535) scriptDirAndFile) 0 [0, 1] ∧
    found_first_block (get_entry (tiny 65535) (image (tiny 65535) scriptDirAndFile)
      [47, 102] zeros) = some (tiny 65535).SFS_BLOCKIDX_END ∧
    found_size (get_entry (tiny 65535) (image (tiny 65535) scriptDirAndFile)
      [47, 102] zeros) = some 0 ∧
    free_list (tiny 65535) (image (tiny 65535) scriptDirAndFile) = [2, 3, 4, 5, 6, 7] ∧
    tbl (tiny 65535) (image (tiny 65535) scriptDirAndFile) 0 = 1 ∧
    ret (sfs_truncate (tiny 65535) (image (tiny 65535) scriptDirAndFile) [47, 102] 769 zeros 16)
      = some 0 ∧
    found_first_block (get_entry (tiny 65535)
      (after (sfs_truncate (tiny 65535) (image (tiny 65535) scriptDirAndFile) [47, 102] 769
        zeros 16)) [47, 102] zeros) = some 2 ∧
    Chain (tiny 65535)
      (after (sfs_truncate (tiny 65535) (image (tiny 65535) scriptDirAndFile) [47, 102] 769
        zeros 16)) 2 [2, 3, 4, 5, 6, 7, 0] ∧
    found_first_block (get_entry (tiny 65535)
      (after (sfs_truncate (tiny 65535) (image (tiny 65535) scriptDirAndFile) [47, 102] 769
        zeros 16)) [47, 100] zeros) = some 0 ∧
    Chain (tiny 65535)
      (after (sfs_truncate (tiny 65535) (image (tiny 65535) scriptDirAndFile) [47, 102] 769
        zeros 16)) 0 [0] := by
  decide
/-! ### C8 -/

/-- C8: `unlink` frees exactly the chain of the file. In a layout whose
`SFS_BLOCKIDX_EMPTY` is not a block index, for every absolute path that
resolves to an entry whose chain from `first_block` is `bs` (it ends in
`SFS_BLOCKIDX_END`), `unlink` with enough fuel returns 0; the blocks of the
chain are pairwise distinct, each held a non-EMPTY value before and holds
`SFS_BLOCKIDX_EMPTY` afterwards, and every byte of every other block-table
slot is unchanged. -/
theorem C8_unlink_frees_chain (L : Layout) (hL : L.WF)
    (hE : L.SFS_BLOCKTBL_NENTRIES ≤ L.SFS_BLOCKIDX_EMPTY)
    (d : Disk) (rest : List Nat)
    (junk ent : Mem) (off pb : Nat) (bs : List Nat) (fuel : Nat)
    (hres : get_entry L d (47 :: rest) junk = some (Lookup.found ent off pb))
    (hch : Chain L d (ent_first_block ent 0) bs)
    (hfuel : bs.length < fuel) :
    ∃ d', sfs_unlink L d (47 :: rest) junk fuel = some (0, d') ∧
      bs.Nodup ∧
      (∀ b ∈ bs, b < L.SFS_BLOCKTBL_NENTRIES ∧ tbl L d b ≠ L.SFS_BLOCKIDX_EMPTY ∧
        tbl L d' b = L.SFS_BLOCKIDX_EMPTY) ∧
      (∀ a, L.SFS_BLOCKTBL_OFF ≤ a → a < L.SFS_BLOCKTBL_OFF + L.SFS_BLOCKTBL_NENTRIES * 2 →
        (a - L.SFS_BLOCKTBL_OFF) / 2 ∉ bs → d' a = d a) := by
  obtain ⟨d1, e1, e2, e3⟩ := unlink_loop_chain hL bs _ d fuel hch hfuel
  have hoff : in_root (47 :: rest) = true → off < L.SFS_ROOTDIR_NENTRIES :=
    fun hr => get_entry_in_root_lt hres hr
  refine ⟨write_entry L d1 (47 :: rest) (cleared_entry L ent) off pb,
    by simp only [sfs_unlink, hres, e1], Chain.nodup hch, ?_, ?_⟩
  · intro b hb
    have hlt := Chain.lt hch b hb
    refine ⟨hlt, Chain.alloc hL hE hch b hb, ?_⟩
    rw [tbl_write_entry hL _ _ _ _ _ _ hoff hlt]
    exact e2 b hb
  · intro a h1 h2 hnm
    rw [write_entry_outside hL _ _ _ _ _ _ hoff ⟨h1, h2⟩]
    apply e3
    intro b hb
    have : (a - L.SFS_BLOCKTBL_OFF) / 2 ≠ b := by rintro rfl; exact hnm hb
    omega

/-- Witness for C8 on the small layout: unlinking a file with the chain
`[0, 1]`. -/
theorem C8_unlink_frees_chain_witness :
    ∃ d', sfs_unlink (tiny 65535) (image (tiny 65535) scriptTwoBlocks) [47, 102] zeros 3
        = some (0, d') ∧
      [0, 1].Nodup ∧
      (∀ b ∈ [0, 1], b < (tiny 65535).SFS_BLOCKTBL_NENTRIES ∧
        tbl (tiny 65535) (image (tiny 65535) scriptTwoBlocks) b
          ≠ (tiny 65535).SFS_BLOCKIDX_EMPTY ∧
        tbl (tiny 65535) d' b = (tiny 65535).SFS_BLOCKIDX_EMPTY) ∧
      (∀ a, (tiny 65535).SFS_BLOCKTBL_OFF ≤ a →
        a < (tiny 65535).SFS_BLOCKTBL_OFF + (tiny 65535).SFS_BLOCKTBL_NENTRIES * 2 →
        (a - (tiny 65535).SFS_BLOCKTBL_OFF) / 2 ∉ [0, 1] →
        d' a = (image (tiny 65535) scriptTwoBlocks) a) :=
  C8_unlink_frees_chain (tiny 65535) (tiny_wf 65535 (by decide) (by decide)) (by decide)
    (image (tiny 65535) scriptTwoBlocks)
    [102] zeros _ _ _ [0, 1] 3 rfl (by decide) (by decide)
/-! ### C9 -/

/-- C9: `rmdir` of a non-empty directory is rejected without any write. For
every path that resolves and whose directory, as `load_dir` reads it (the
first block and the block the table chains it to), has a slot with a
non-empty name, `rmdir` returns `-ENOTEMPTY` and the image it leaves is the
image it was given. -/
theorem C9_rmdir_nonempty (L : Layout) (d : Disk) (path : List Nat) (junk : Mem)
    (ent : Mem) (off pb : Nat)
    (hres : get_entry L d path junk = some (Lookup.found ent off pb))
    (hne : ∃ i, i < L.SFS_DIR_NENTRIES ∧
      load_dir L d junk (ent_first_block ent 0) (i * 64) ≠ 0) :
    sfs_rmdir L d path junk = some (-ENOTEMPTY, d) := by
  obtain ⟨i, hi, hne⟩ := hne
  obtain ⟨j, hj⟩ := findFrom_some_of
    (fun i => !(load_dir L d junk (ent_first_block ent 0) (i * 64) == 0))
    L.SFS_DIR_NENTRIES 0 i (Nat.zero_le _) (by omega) (by simpa using hne)
  simp only [sfs_rmdir, hres, hj]

/-- Witness for C9 on the small layout: `mkdir /d`, `create /d/f`, then
`rmdir /d`. -/
theorem C9_rmdir_nonempty_witness :
    sfs_rmdir (tiny 65535) (image (tiny 65535) scriptDirWithFile) [47, 100] zeros = some (-ENOTEMPTY, (image (tiny 65535) scriptDirWithFile)) :=
  C9_rmdir_nonempty (tiny 65535) (image (tiny 65535) scriptDirWithFile) [47, 100] zeros _ _ _ rfl
    ⟨3, by decide, by decide⟩

/-! ### C10 -/

/-- C10 (code defect): `create` into a full root directory does not fail
reliably. On the small layout, after four `create` calls all four root slots
have a non-empty name. `sfs_create` never initialises `empty_ent`, so the
test `!empty_ent` reads whatever the pointer holds: when that is the address
of slot 0, `create /extra` returns 0 and overwrites the entry `d` in slot 0
with `extra`; only when it happens to be null does the call return -1 and
leave the image as it was. -/
theorem C10_create_full_root :
    (run_ops (tiny 65535) scriptFullRoot (freshImage (tiny 65535))).isSome = true ∧
    (∀ i, i < (tiny 65535).SFS_ROOTDIR_NENTRIES →
      image (tiny 65535) scriptFullRoot ((tiny 65535).SFS_ROOTDIR_OFF + i * 64) ≠ 0) ∧
    entry_name (image (tiny 65535) scriptFullRoot) (tiny 65535).SFS_ROOTDIR_OFF = [100] ∧
    ret (sfs_create (tiny 65535) (image (tiny 65535) scriptFullRoot)
      [47, 101, 120, 116, 114, 97] zeros (some 0)) = some 0 ∧
    entry_name (after (sfs_create (tiny 65535) (image (tiny 65535) scriptFullRoot)
      [47, 101, 120, 116, 114, 97] zeros (some 0))) (tiny 65535).SFS_ROOTDIR_OFF
      = [101, 120, 116, 114, 97] ∧
    ret (sfs_create (tiny 65535) (image (tiny 65535) scriptFullRoot)
      [47, 101, 120, 116, 114, 97] zeros none) = some (-1) := by
  decide


/-! ### C11 -/

/-- C11 (code defect): `mkdir` into a full parent does not fail. On the small
layout, with the four root slots taken by `/d`, `/c`, `/b`, `/a`, the call
`mkdir /e` returns 0 and the last slot, which held `a`, now holds `e`; with
the four slots of `/d` taken by `e`, `c`, `b`, `a`, the call `mkdir /d/x`
returns 0 and the last slot of `/d` now holds `x`. The loop that looks for an
empty slot leaves `empty_ent` at the last slot when no slot is empty, and the
entry is stored there without a test. -/
theorem C11_mkdir_full_parent :
    readdir_names (tiny 65535) (image (tiny 65535) scriptFullRoot) [47] zeros
      = some [[100], [99], [98], [97]] ∧
    ret (sfs_mkdir (tiny 65535) (image (tiny 65535) scriptFullRoot) [47, 101] zeros) = some 0 ∧
    readdir_names (tiny 65535)
      (after (sfs_mkdir (tiny 65535) (image (tiny 65535) scriptFullRoot) [47, 101] zeros))
      [47] zeros = some [[100], [99], [98], [101]] ∧
    readdir_names (tiny 65535) (image (tiny 65535) scriptFullDir) [47, 100] zeros
      = some [[101], [99], [98], [97]] ∧
    ret (sfs_mkdir (tiny 65535) (image (tiny 65535) scriptFullDir) [47, 100, 47, 120] zeros)
      = some 0 ∧
    readdir_names (tiny 65535)
      (after (sfs_mkdir (tiny 65535) (image (tiny 65535) scriptFullDir) [47, 100, 47, 120] zeros))
      [47, 100] zeros = some [[101], [99], [98], [120]] := by
  decide

/-! ### C12 -/

/-- C12 (code defect): `truncate` does not fail when the block table has too few
free slots. On the small layout (eight blocks, all free) the empty file `/f`
is grown to 1025 bytes, which needs nine blocks. With fresh storage that
holds zeros the call returns 0, stores the size 1025 and rewrites the block
table to `0 → END`, `1 → 2`, ..., `6 → 7`, `7 → 0`: the loop that collects
free blocks ends with eight blocks found, and `newblocks[8]` is read without
having been written. No value of the fresh storage makes the call return
`-ENOSPC` (with `0xff` bytes the index read from `newblocks[8]` is outside
the table and the model gives `none`). -/
theorem C12_truncate_no_space :
    (free_list (tiny 65535) (image (tiny 65535) scriptOneFile)).length = 8 ∧
    found_size (get_entry (tiny 65535) (image (tiny 65535) scriptOneFile) [47, 102] zeros)
      = some 0 ∧
    ret (sfs_truncate (tiny 65535) (image (tiny 65535) scriptOneFile) [47, 102] 1025 zeros 16)
      = some 0 ∧
    found_size (get_entry (tiny 65535)
      (after (sfs_truncate (tiny 65535) (image (tiny 65535) scriptOneFile) [47, 102] 1025
        zeros 16)) [47, 102] zeros) = some 1025 ∧
    (List.range 8).map (tbl (tiny 65535)
      (after (sfs_truncate (tiny 65535) (image (tiny 65535) scriptOneFile) [47, 102] 1025
        zeros 16))) = [65534, 2, 3, 4, 5, 6, 7, 0] ∧
    ret (sfs_truncate (tiny 65535) (image (tiny 65535) scriptOneFile) [47, 102] 1025
      (fun _ => 255) 16) = none := by
  decide

/-! ### C13 -/

/-- C13 (amended): `mkdir` allocates the first adjacent free pair. Let `i` be
the least index with `i + 1 < SFS_BLOCKTBL_NENTRIES` whose slots `i` and
`i + 1` in the block table are both `SFS_BLOCKIDX_EMPTY`, let `i` differ from
the number `SFS_BLOCKIDX_EMPTY`, and let `name` be a basename shorter than 58
bytes.

* When the root has a slot with an empty name, `mkdir("/name")` returns 0;
  afterwards slot `i` of the block table holds `i + 1`, slot `i + 1` holds
  `SFS_BLOCKIDX_END`, every other slot is unchanged, and the first root slot
  that was empty holds an entry whose `first_block` is `i`.
* When `pp` resolves to an entry whose second block directly follows its
  first (`table[first_block] = first_block + 1`), the directories on the path
  `pp` occupy pairwise distinct blocks that are block-table indices other
  than `i` and `i + 1`, and the directory has a slot with an empty name,
  `mkdir("pp/name")` returns 0 with the same block table as above; afterwards
  `pp` resolves to the same entry, and the first slot of the directory that
  was empty holds, in the directory as it is loaded after the call, an entry
  whose `first_block` is `i`. -/
theorem C13_mkdir_first_pair (L : Layout) (hL : L.WF) (d : Disk) (junk : Mem) (i : Nat)
    (hi : i + 1 < L.SFS_BLOCKTBL_NENTRIES)
    (hi0 : tbl L d i = L.SFS_BLOCKIDX_EMPTY) (hi1 : tbl L d (i + 1) = L.SFS_BLOCKIDX_EMPTY)
    (hmin : ∀ j, j < i → ¬ (tbl L d j = L.SFS_BLOCKIDX_EMPTY ∧
      tbl L d (j + 1) = L.SFS_BLOCKIDX_EMPTY))
    (hie : i ≠ L.SFS_BLOCKIDX_EMPTY) (name : List Nat) (hns : 47 ∉ name)
    (hlen : name.length < 58) :
    ((∃ j, j < L.SFS_ROOTDIR_NENTRIES ∧ d (L.SFS_ROOTDIR_OFF + j * 64) = 0) →
      ∃ d' k, sfs_mkdir L d (47 :: name) junk = some (0, d') ∧
        tbl L d' i = i + 1 ∧ tbl L d' (i + 1) = L.SFS_BLOCKIDX_END ∧
        (∀ j, j < L.SFS_BLOCKTBL_NENTRIES → j ≠ i → j ≠ i + 1 → tbl L d' j = tbl L d j) ∧
        k < L.SFS_ROOTDIR_NENTRIES ∧ d (L.SFS_ROOTDIR_OFF + k * 64) = 0 ∧
        (∀ j, j < k → d (L.SFS_ROOTDIR_OFF + j * 64) ≠ 0) ∧
        ent_first_block d' (L.SFS_ROOTDIR_OFF + k * 64) = i) ∧
    (∀ (pp : List Nat) (pent : Mem) (poff ppb : Nat), 47 ∈ pp →
      get_entry L d pp junk = some (Lookup.found pent poff ppb) →
      tbl L d (ent_first_block pent 0) = ent_first_block pent 0 + 1 →
      (path_blocks L d junk pp).Nodup →
      (∀ b ∈ path_blocks L d junk pp, b < L.SFS_BLOCKTBL_NENTRIES) →
      i ∉ path_blocks L d junk pp → i + 1 ∉ path_blocks L d junk pp →
      (∃ j, j < L.SFS_DIR_NENTRIES ∧ load_dir L d junk (ent_first_block pent 0) (j * 64) = 0) →
      ∃ d' k, sfs_mkdir L d (pp ++ 47 :: name) junk = some (0, d') ∧
        tbl L d' i = i + 1 ∧ tbl L d' (i + 1) = L.SFS_BLOCKIDX_END ∧
        (∀ j, j < L.SFS_BLOCKTBL_NENTRIES → j ≠ i → j ≠ i + 1 → tbl L d' j = tbl L d j) ∧
        k < L.SFS_DIR_NENTRIES ∧ load_dir L d junk (ent_first_block pent 0) (k * 64) = 0 ∧
        (∀ j, j < k → load_dir L d junk (ent_first_block pent 0) (j * 64) ≠ 0) ∧
        get_entry L d' pp junk = some (Lookup.found pent poff ppb) ∧
        ent_first_block (load_dir L d' junk (ent_first_block pent 0)) (k * 64) = i) := by
  have hrt := hL.root_tbl
  have htd := hL.tbl_data
  have hle := hL.tbl_le
  have hend := hL.end_ge
  have htbl3 := mkdir_blocks_tbl hL d junk i (i + 1)
  have hfb : ∀ (buf : Mem) (k : Nat), ent_first_block (new_dir_entry buf k name i) (k * 64) = i :=
    fun buf k => by
      rw [new_dir_entry_first_block]
      exact Nat.mod_eq_of_lt (by omega)
  constructor
  · intro hfree
    obtain ⟨k, hk, hk0, hkmin⟩ := first_free_exists (fun a => d (L.SFS_ROOTDIR_OFF + a))
      (n := L.SFS_ROOTDIR_NENTRIES) hfree
    have hm := mkdir_root_core hL d junk i hi hi0 hi1 hmin hie name hns hlen k hk hk0 hkmin
    have ht : ∀ j, j < L.SFS_BLOCKTBL_NENTRIES →
        tbl L (disk_write (mkdir_blocks L d junk i (i + 1))
          (new_dir_entry (root_buf L d junk) k name i) 0 L.SFS_ROOTDIR_SIZE L.SFS_ROOTDIR_OFF) j
        = tbl L (mkdir_blocks L d junk i (i + 1)) j := fun j hj =>
      tbl_congr (fun a h1 h2 => by
        unfold disk_write Layout.SFS_ROOTDIR_SIZE
        exact blit_out (by omega))
    refine ⟨_, k, hm, ?_, ?_, ?_, hk, hk0, hkmin, ?_⟩
    · rw [ht i (by omega), htbl3 i hi (by omega), if_neg (by omega), if_pos rfl]
    · rw [ht (i + 1) hi, htbl3 (i + 1) hi hi, if_pos rfl]
    · intro j hj h1 h2
      rw [ht j hj, htbl3 j hi hj, if_neg h2, if_neg h1]
    · refine Eq.trans ?_ (hfb (root_buf L d junk) k)
      apply ent_first_block_congr
      intro x hx
      rw [write_root_at L _ _ _ (by omega) (by omega)]
      congr 1
      omega
  · intro pp pent poff ppb hin hres hadj hnd hvalid ha1 ha2 hfree
    obtain ⟨k, hk, hk0, hkmin⟩ := first_free_exists _ hfree
    have hm := mkdir_sub_core hL d junk i hi hi0 hi1 hmin hie pp name pent poff ppb hin hns hlen
      hres hvalid ha1 ha2 k hk hk0 hkmin
    have hdn : L.SFS_DIR_SIZE = L.SFS_DIR_NENTRIES * 64 := rfl
    have ht : ∀ j, j < L.SFS_BLOCKTBL_NENTRIES →
        tbl L (disk_write (mkdir_blocks L d junk i (i + 1))
          (new_dir_entry (load_dir L d junk (ent_first_block pent 0)) k name i) 0 L.SFS_DIR_SIZE
          (L.SFS_DATA_OFF + ent_first_block pent 0 * L.SFS_BLOCK_SIZE)) j
        = tbl L (mkdir_blocks L d junk i (i + 1)) j := fun j hj =>
      tbl_congr (fun a h1 h2 => by
        unfold disk_write
        exact blit_out (by omega))
    obtain ⟨hp1, hp2, -, -⟩ := mkdir_sub_post hL d junk i hi pp name pent poff ppb hlen hres
      hadj hnd hvalid ha1 ha2 k hk _ rfl
    refine ⟨_, k, hm, ?_, ?_, ?_, hk, hk0, hkmin, hp1, ?_⟩
    · rw [ht i (by omega), htbl3 i hi (by omega), if_neg (by omega), if_pos rfl]
    · rw [ht (i + 1) hi, htbl3 (i + 1) hi hi, if_pos rfl]
    · intro j hj h1 h2
      rw [ht j hj, htbl3 j hi hj, if_neg h2, if_neg h1]
    · rw [hp2]
      exact hfb (load_dir L d junk (ent_first_block pent 0)) k

/-- Witness for C13 on the small layout after `mkdir /d` (blocks 0 and 1):
the first free pair is at `i = 2`, for the paths `/x` and `/d/x`. -/
theorem C13_mkdir_first_pair_witness :
    (∃ d' k, sfs_mkdir (tiny 65535) (image (tiny 65535) scriptOneDir) (47 :: [120]) zeros
        = some (0, d') ∧
      tbl (tiny 65535) d' 2 = 2 + 1 ∧ tbl (tiny 65535) d' (2 + 1) = (tiny 65535).SFS_BLOCKIDX_END ∧
      (∀ j, j < (tiny 65535).SFS_BLOCKTBL_NENTRIES → j ≠ 2 → j ≠ 2 + 1 →
        tbl (tiny 65535) d' j = tbl (tiny 65535) (image (tiny 65535) scriptOneDir) j) ∧
      k < (tiny 65535).SFS_ROOTDIR_NENTRIES ∧
      image (tiny 65535) scriptOneDir ((tiny 65535).SFS_ROOTDIR_OFF + k * 64) = 0 ∧
      (∀ j, j < k →
        image (tiny 65535) scriptOneDir ((tiny 65535).SFS_ROOTDIR_OFF + j * 64) ≠ 0) ∧
      ent_first_block d' ((tiny 65535).SFS_ROOTDIR_OFF + k * 64) = 2) ∧
    (∃ d' k, sfs_mkdir (tiny 65535) (image (tiny 65535) scriptOneDir) ([47, 100] ++ 47 :: [120])
        zeros = some (0, d') ∧
      tbl (tiny 65535) d' 2 = 2 + 1 ∧ tbl (tiny 65535) d' (2 + 1) = (tiny 65535).SFS_BLOCKIDX_END ∧
      (∀ j, j < (tiny 65535).SFS_BLOCKTBL_NENTRIES → j ≠ 2 → j ≠ 2 + 1 →
        tbl (tiny 65535) d' j = tbl (tiny 65535) (image (tiny 65535) scriptOneDir) j) ∧
      k < (tiny 65535).SFS_DIR_NENTRIES ∧
      load_dir (tiny 65535) (image (tiny 65535) scriptOneDir) zeros
        (ent_first_block entryOfD 0) (k * 64) = 0 ∧
      (∀ j, j < k → load_dir (tiny 65535) (image (tiny 65535) scriptOneDir) zeros
        (ent_first_block entryOfD 0) (j * 64) ≠ 0) ∧
      get_entry (tiny 65535) d' [47, 100] zeros
        = some (Lookup.found entryOfD 0 (peek16 zeros 0)) ∧
      ent_first_block (load_dir (tiny 65535) d' zeros (ent_first_block entryOfD 0)) (k * 64)
        = 2) :=
  ⟨(C13_mkdir_first_pair (tiny 65535) (tiny_wf 65535 (by decide) (by decide))
      (image (tiny 65535) scriptOneDir) zeros 2 (by decide) (by decide) (by decide) (by decide)
      (by decide) [120] (by decide) (by decide)).1 ⟨1, by decide, by decide⟩,
   (C13_mkdir_first_pair (tiny 65535) (tiny_wf 65535 (by decide) (by decide))
      (image (tiny 65535) scriptOneDir) zeros 2 (by decide) (by decide) (by decide) (by decide)
      (by decide) [120] (by decide) (by decide)).2 [47, 100] entryOfD 0 (peek16 zeros 0)
      (by decide) rfl (by decide) (by decide) (by decide) (by decide) (by decide)
      ⟨0, by decide, by decide⟩⟩

/-- Counterexample to C13 as stated, on an image of the small layout whose
directory `/d` occupies the blocks 0 and 2 (`table[0] = 2`,
`table[2] = END`) and has the entries `s`, `r`, `q` in its slots 0, 1, 2 and
an empty slot 3. The least index of a free pair is `i = 3`. `mkdir("/d/x")`
returns 0 and the block table has `table[3] = 4`, `table[4] = END`; yet
afterwards slot 3 of `/d` is still empty, `/d` lists `s`, `r`, `q` as before,
and `/d/x` does not resolve: `sfs_mkdir` writes the directory back over
`SFS_DIR_SIZE` contiguous bytes from its first block, which are the blocks 0
and 1. -/
theorem C13_counterexample :
    found_first_block (get_entry (tiny 65535) imageSplitFiles [47, 100] zeros) = some 0 ∧
    tbl (tiny 65535) imageSplitFiles 0 = 2 ∧
    tbl (tiny 65535) imageSplitFiles 2 = (tiny 65535).SFS_BLOCKIDX_END ∧
    load_dir (tiny 65535) imageSplitFiles zeros 0 (3 * 64) = 0 ∧
    free_list (tiny 65535) imageSplitFiles = [1, 3, 4, 5, 6, 7] ∧
    ret (sfs_mkdir (tiny 65535) imageSplitFiles [47, 100, 47, 120] zeros) = some 0 ∧
    tbl (tiny 65535) (after (sfs_mkdir (tiny 65535) imageSplitFiles [47, 100, 47, 120] zeros)) 3
      = 4 ∧
    tbl (tiny 65535) (after (sfs_mkdir (tiny 65535) imageSplitFiles [47, 100, 47, 120] zeros)) 4
      = (tiny 65535).SFS_BLOCKIDX_END ∧
    load_dir (tiny 65535)
      (after (sfs_mkdir (tiny 65535) imageSplitFiles [47, 100, 47, 120] zeros)) zeros 0 (3 * 64)
      = 0 ∧
    readdir_names (tiny 65535) imageSplitFiles [47, 100] zeros
      = some [[115], [114], [113]] ∧
    readdir_names (tiny 65535)
      (after (sfs_mkdir (tiny 65535) imageSplitFiles [47, 100, 47, 120] zeros)) [47, 100] zeros
      = some [[115], [114], [113]] ∧
    lookup_ret (get_entry (tiny 65535)
      (after (sfs_mkdir (tiny 65535) imageSplitFiles [47, 100, 47, 120] zeros))
      [47, 100, 47, 120] zeros) = some (-ENOENT) :=
  ⟨by decide, by decide, by decide, by decide, by decide, by decide, by decide, by decide,
   by decide, by decide, by decide, by decide⟩

/-! ### C14 -/

/-- C14: over-long names are rejected before anything is written. For every
path `pre/name` whose basename `name` (the text after the last slash) has 58
bytes or more, `mkdir` and `create` both return `-ENAMETOOLONG` and the image
they leave is the image they were given; for a basename of at most 57 bytes
neither call returns `-ENAMETOOLONG`. -/
theorem C14_name_too_long (L : Layout) (d : Disk) (junk : Mem) (stale : Option Nat)
    (pre name : List Nat) (hns : 47 ∉ name) :
    (58 ≤ name.length →
      sfs_mkdir L d (pre ++ 47 :: name) junk = some (-ENAMETOOLONG, d) ∧
      sfs_create L d (pre ++ 47 :: name) junk stale = some (-ENAMETOOLONG, d)) ∧
    (name.length ≤ 57 → ∀ (r : Int) (d' : Disk),
      (sfs_mkdir L d (pre ++ 47 :: name) junk = some (r, d') → r ≠ -ENAMETOOLONG) ∧
      (sfs_create L d (pre ++ 47 :: name) junk stale = some (r, d') → r ≠ -ENAMETOOLONG)) := by
  have hc := get_child_append pre name hns
  refine ⟨fun hlen => ⟨?_, ?_⟩, fun hlen r d' => ⟨fun h => ?_, fun h => ?_⟩⟩
  · simp only [sfs_mkdir, hc, ge_iff_le, if_pos hlen]
  · simp only [sfs_create, hc, ge_iff_le, if_pos hlen]
  · rcases sfs_mkdir_ret h with ⟨-, -, n, hn, hl⟩ | h1 | h1 | h1
    · rw [hc] at hn
      have hnn : name = n := Option.some.inj hn
      subst hnn
      omega
    · rw [h1]; decide
    · rw [h1]; decide
    · rw [h1]; decide
  · rcases sfs_create_ret h with ⟨-, -, n, hn, hl⟩ | h1 | h1 | h1
    · rw [hc] at hn
      have hnn : name = n := Option.some.inj hn
      subst hnn
      omega
    · rw [h1]; decide
    · rw [h1]; decide
    · rw [h1]; decide

/-- Witness for C14 on the small layout, in the directory `/d`: a basename of
58 letters `a` is rejected, and with 57 letters neither call returns
`-ENAMETOOLONG`. -/
theorem C14_name_too_long_witness :
    (sfs_mkdir (tiny 65535) (image (tiny 65535) scriptDirWithFile)
        ([47, 100] ++ 47 :: List.replicate 58 97) zeros
      = some (-ENAMETOOLONG, image (tiny 65535) scriptDirWithFile) ∧
     sfs_create (tiny 65535) (image (tiny 65535) scriptDirWithFile)
        ([47, 100] ++ 47 :: List.replicate 58 97) zeros none
      = some (-ENAMETOOLONG, image (tiny 65535) scriptDirWithFile)) ∧
    (∀ (r : Int) (d' : Disk),
      (sfs_mkdir (tiny 65535) (image (tiny 65535) scriptDirWithFile)
        ([47, 100] ++ 47 :: List.replicate 57 97) zeros = some (r, d') → r ≠ -ENAMETOOLONG) ∧
      (sfs_create (tiny 65535) (image (tiny 65535) scriptDirWithFile)
        ([47, 100] ++ 47 :: List.replicate 57 97) zeros none = some (r, d') →
          r ≠ -ENAMETOOLONG)) :=
  ⟨(C14_name_too_long (tiny 65535) (image (tiny 65535) scriptDirWithFile) zeros none
      [47, 100] (List.replicate 58 97) (by decide)).1 (by decide),
   (C14_name_too_long (tiny 65535) (image (tiny 65535) scriptDirWithFile) zeros none
      [47, 100] (List.replicate 57 97) (by decide)).2 (by decide)⟩

/-! ### C15 -/

/-- C15 (amended): `create` followed by `unlink` undoes itself. Let `name` be
a basename shorter than 58 bytes and `fuel` be positive.

* For the path `/name`: when it does not resolve and the root has a slot with
  an empty name, `create` and then `unlink` both return 0, every byte of the
  block table is as before, and `readdir("/")` returns what it returned
  before and hands the same names to the filler.
* For the path `pp/name` in a subdirectory: when `pp` resolves to an entry
  whose second block directly follows its first in the block table
  (`table[first_block] = first_block + 1`), the directories on the path `pp`
  occupy pairwise distinct blocks that are block-table indices, `pp/name` does
  not resolve and the directory has a slot with an empty name, `create` and
  then `unlink` both return 0, every byte of the block table is as before,
  and `readdir(pp)` returns what it returned before and hands the same names
  to the filler. -/
theorem C15_create_unlink (L : Layout) (hL : L.WF) (d : Disk) (junk : Mem)
    (stale : Option Nat) (fuel : Nat) (hfuel : 0 < fuel) (name : List Nat) (hns : 47 ∉ name)
    (hlen : name.length < 58) :
    (get_entry L d (47 :: name) junk = some Lookup.enoent →
      (∃ j, j < L.SFS_ROOTDIR_NENTRIES ∧ d (L.SFS_ROOTDIR_OFF + j * 64) = 0) →
      ∃ d1 d2, sfs_create L d (47 :: name) junk stale = some (0, d1) ∧
        sfs_unlink L d1 (47 :: name) junk fuel = some (0, d2) ∧
        (∀ a, L.SFS_BLOCKTBL_OFF ≤ a → a < L.SFS_BLOCKTBL_OFF + L.SFS_BLOCKTBL_NENTRIES * 2 →
          d2 a = d a) ∧
        ∀ (filler : List (List Nat) → List Nat → Int) (err : Int),
          sfs_readdir L d2 [47] junk filler err = sfs_readdir L d [47] junk filler err) ∧
    (∀ (pp : List Nat) (pent : Mem) (poff ppb : Nat), 47 ∈ pp →
      get_entry L d pp junk = some (Lookup.found pent poff ppb) →
      tbl L d (ent_first_block pent 0) = ent_first_block pent 0 + 1 →
      (path_blocks L d junk pp).Nodup →
      (∀ b ∈ path_blocks L d junk pp, b < L.SFS_BLOCKTBL_NENTRIES) →
      get_entry L d (pp ++ 47 :: name) junk = some Lookup.enoent →
      (∃ j, j < L.SFS_DIR_NENTRIES ∧
        d (L.SFS_DATA_OFF + ent_first_block pent 0 * L.SFS_BLOCK_SIZE + j * 64) = 0) →
      ∃ d1 d2, sfs_create L d (pp ++ 47 :: name) junk stale = some (0, d1) ∧
        sfs_unlink L d1 (pp ++ 47 :: name) junk fuel = some (0, d2) ∧
        (∀ a, L.SFS_BLOCKTBL_OFF ≤ a → a < L.SFS_BLOCKTBL_OFF + L.SFS_BLOCKTBL_NENTRIES * 2 →
          d2 a = d a) ∧
        ∀ (filler : List (List Nat) → List Nat → Int) (err : Int),
          sfs_readdir L d2 pp junk filler err = sfs_readdir L d pp junk filler err) := by
  have hrt := hL.root_tbl
  have htd := hL.tbl_data
  constructor
  · intro hmiss hfree
    obtain ⟨d1, d2, k, hk, h1, h2, h3, h4, h5⟩ :=
      create_unlink_root hL d junk stale fuel hfuel name hns hlen hmiss hfree
    exact ⟨d1, d2, h1, h2, fun a ha1 ha2 => h5 a (by omega),
      fun filler err => readdir_root_same junk hk h3 h4 h5 filler err⟩
  · intro pp pent poff ppb hin hres hadj hnd hvalid hmiss hfree
    obtain ⟨d1, d2, k, hk, h1, h2, h3, h4, h5⟩ :=
      create_unlink_sub hL d junk stale fuel hfuel pp name pent poff ppb hin hns hlen hres hadj
        hnd hvalid hmiss hfree
    exact ⟨d1, d2, h1, h2, fun a ha1 ha2 => h5 a (by omega),
      fun filler err => readdir_sub_same hL junk hres hadj hnd hvalid hk h3 h4 h5 filler err⟩

/-- Witness for C15 on the small layout after `mkdir /d`: the paths `/x` and
`/d/x`. -/
theorem C15_create_unlink_witness :
    (∃ d1 d2, sfs_create (tiny 65535) (image (tiny 65535) scriptOneDir) (47 :: [120]) zeros none
        = some (0, d1) ∧
      sfs_unlink (tiny 65535) d1 (47 :: [120]) zeros 1 = some (0, d2) ∧
      (∀ a, (tiny 65535).SFS_BLOCKTBL_OFF ≤ a →
        a < (tiny 65535).SFS_BLOCKTBL_OFF + (tiny 65535).SFS_BLOCKTBL_NENTRIES * 2 →
        d2 a = image (tiny 65535) scriptOneDir a) ∧
      ∀ (filler : List (List Nat) → List Nat → Int) (err : Int),
        sfs_readdir (tiny 65535) d2 [47] zeros filler err
          = sfs_readdir (tiny 65535) (image (tiny 65535) scriptOneDir) [47] zeros filler err) ∧
    (∃ d1 d2, sfs_create (tiny 65535) (image (tiny 65535) scriptOneDir) ([47, 100] ++ 47 :: [120])
        zeros none = some (0, d1) ∧
      sfs_unlink (tiny 65535) d1 ([47, 100] ++ 47 :: [120]) zeros 1 = some (0, d2) ∧
      (∀ a, (tiny 65535).SFS_BLOCKTBL_OFF ≤ a →
        a < (tiny 65535).SFS_BLOCKTBL_OFF + (tiny 65535).SFS_BLOCKTBL_NENTRIES * 2 →
        d2 a = image (tiny 65535) scriptOneDir a) ∧
      ∀ (filler : List (List Nat) → List Nat → Int) (err : Int),
        sfs_readdir (tiny 65535) d2 [47, 100] zeros filler err
          = sfs_readdir (tiny 65535) (image (tiny 65535) scriptOneDir) [47, 100] zeros
              filler err) :=
  ⟨(C15_create_unlink (tiny 65535) (tiny_wf 65535 (by decide) (by decide))
      (image (tiny 65535) scriptOneDir) zeros none 1 (by decide) [120] (by decide)
      (by decide)).1 rfl ⟨3, by decide, by decide⟩,
   (C15_create_unlink (tiny 65535) (tiny_wf 65535 (by decide) (by decide))
      (image (tiny 65535) scriptOneDir) zeros none 1 (by decide) [120] (by decide)
      (by decide)).2 [47, 100] _ _ _ (by decide) rfl (by decide) (by decide) (by decide) rfl
      ⟨3, by decide, by decide⟩⟩

/-- Counterexample to C15 as stated, on an image of the small layout whose
directory `/d` occupies the blocks 0 and 2 (`table[0] = 2`,
`table[2] = END`): `/d/x` does not exist, `/d` resolves and all its slots are
empty, `create /d/x` returns 0, and the `unlink /d/x` that follows returns
`-ENOENT`. `create` loads the blocks 0 and 2, stores the entry in the last
slot and writes the directory back to the blocks 0 and 1. -/
theorem C15_counterexample :
    found_first_block (get_entry (tiny 65535) imageSplitDir [47, 100] zeros) = some 0 ∧
    tbl (tiny 65535) imageSplitDir 0 = 2 ∧ tbl (tiny 65535) imageSplitDir 2 = 65534 ∧
    lookup_ret (get_entry (tiny 65535) imageSplitDir [47, 100, 47, 120] zeros)
      = some (-ENOENT) ∧
    readdir_names (tiny 65535) imageSplitDir [47, 100] zeros = some [] ∧
    ret (sfs_create (tiny 65535) imageSplitDir [47, 100, 47, 120] zeros none) = some 0 ∧
    ret (sfs_unlink (tiny 65535)
      (after (sfs_create (tiny 65535) imageSplitDir [47, 100, 47, 120] zeros none))
      [47, 100, 47, 120] zeros 16) = some (-ENOENT) := by
  decide

/-! ### C16 -/

/-- C16 (amended): a created directory is visible and empty. Let `i` be the
least index of an adjacent free pair of the block table, different from the
number `SFS_BLOCKIDX_EMPTY`, and let `name` be a basename shorter than 58
bytes. In each of the two cases below `mkdir` returns 0, and afterwards the
resolver finds the path with size word `SFS_DIRECTORY`, `getattr` reports a
directory (mode `S_IFDIR`, link count 2, size `SFS_DIRECTORY`), `readdir` of
the new directory hands no name to the filler, and `readdir` of the parent
hands over the names it handed over before with `name` inserted among them.

* The path `/name`, when it does not resolve, the root has a slot with an
  empty name, and every root slot has a zero byte in its name field.
* The path `pp/name`, when `pp` resolves to an entry whose second block
  directly follows its first (`table[first_block] = first_block + 1`), the
  directories on the path `pp` occupy pairwise distinct blocks that are
  block-table indices other than `i` and `i + 1`, `pp/name` does not resolve,
  the directory has a slot with an empty name, and each of its slots has a
  zero byte in its name field. -/
theorem C16_mkdir_visible (L : Layout) (hL : L.WF) (d : Disk) (junk : Mem) (i : Nat)
    (hi : i + 1 < L.SFS_BLOCKTBL_NENTRIES)
    (hi0 : tbl L d i = L.SFS_BLOCKIDX_EMPTY) (hi1 : tbl L d (i + 1) = L.SFS_BLOCKIDX_EMPTY)
    (hmin : ∀ j, j < i → ¬ (tbl L d j = L.SFS_BLOCKIDX_EMPTY ∧
      tbl L d (j + 1) = L.SFS_BLOCKIDX_EMPTY))
    (hie : i ≠ L.SFS_BLOCKIDX_EMPTY) (name : List Nat) (hns : 47 ∉ name) (hz : 0 ∉ name)
    (hlen : name.length < 58) :
    (get_entry L d (47 :: name) junk = some Lookup.enoent →
      (∃ j, j < L.SFS_ROOTDIR_NENTRIES ∧ d (L.SFS_ROOTDIR_OFF + j * 64) = 0) →
      (∀ j, j < L.SFS_ROOTDIR_NENTRIES → ∃ t, t < 58 ∧ d (L.SFS_ROOTDIR_OFF + j * 64 + t) = 0) →
      ∃ d', sfs_mkdir L d (47 :: name) junk = some (0, d') ∧
        (∃ ent off pb, get_entry L d' (47 :: name) junk = some (Lookup.found ent off pb) ∧
          ent_size ent 0 = SFS_DIRECTORY) ∧
        (∀ uid gid atime mtime : Nat, sfs_getattr L d' (47 :: name) junk uid gid atime mtime
          = some (0, ⟨S_IFDIR, 2, SFS_DIRECTORY, uid, gid, atime, mtime⟩)) ∧
        (∀ (filler : List (List Nat) → List Nat → Int) (err : Int),
          sfs_readdir L d' (47 :: name) junk filler err = some (err, [])) ∧
        (∀ (filler : List (List Nat) → List Nat → Int) (err r : Int) (names : List (List Nat)),
          sfs_readdir L d [47] junk filler err = some (r, names) →
          ∃ r1 pre post, names = pre ++ post ∧
            sfs_readdir L d' [47] junk filler err = some (r1, pre ++ name :: post))) ∧
    (∀ (pp : List Nat) (pent : Mem) (poff ppb : Nat), 47 ∈ pp →
      get_entry L d pp junk = some (Lookup.found pent poff ppb) →
      tbl L d (ent_first_block pent 0) = ent_first_block pent 0 + 1 →
      (path_blocks L d junk pp).Nodup →
      (∀ b ∈ path_blocks L d junk pp, b < L.SFS_BLOCKTBL_NENTRIES) →
      i ∉ path_blocks L d junk pp → i + 1 ∉ path_blocks L d junk pp →
      get_entry L d (pp ++ 47 :: name) junk = some Lookup.enoent →
      (∃ j, j < L.SFS_DIR_NENTRIES ∧
        d (L.SFS_DATA_OFF + ent_first_block pent 0 * L.SFS_BLOCK_SIZE + j * 64) = 0) →
      (∀ j, j < L.SFS_DIR_NENTRIES → ∃ t, t < 58 ∧
        d (L.SFS_DATA_OFF + ent_first_block pent 0 * L.SFS_BLOCK_SIZE + j * 64 + t) = 0) →
      ∃ d', sfs_mkdir L d (pp ++ 47 :: name) junk = some (0, d') ∧
        (∃ ent off pb, get_entry L d' (pp ++ 47 :: name) junk = some (Lookup.found ent off pb) ∧
          ent_size ent 0 = SFS_DIRECTORY) ∧
        (∀ uid gid atime mtime : Nat,
          sfs_getattr L d' (pp ++ 47 :: name) junk uid gid atime mtime
            = some (0, ⟨S_IFDIR, 2, SFS_DIRECTORY, uid, gid, atime, mtime⟩)) ∧
        (∀ (filler : List (List Nat) → List Nat → Int) (err : Int),
          sfs_readdir L d' (pp ++ 47 :: name) junk filler err = some (err, [])) ∧
        (∀ (filler : List (List Nat) → List Nat → Int) (err r : Int) (names : List (List Nat)),
          sfs_readdir L d pp junk filler err = some (r, names) →
          ∃ r1 pre post, names = pre ++ post ∧
            sfs_readdir L d' pp junk filler err = some (r1, pre ++ name :: post))) := by
  have hle := hL.tbl_le
  have hds := dir_size_eq hL
  have hdn : L.SFS_DIR_SIZE = L.SFS_DIR_NENTRIES * 64 := rfl
  have hbit : SFS_DIRECTORY &&& SFS_DIRECTORY ≠ 0 := by decide
  constructor
  · intro hmiss hfree hterm
    obtain ⟨hne, hnone⟩ := get_entry_root_none hns hmiss
    obtain ⟨k, hk, hk0, hkmin⟩ := first_free_exists (fun a => d (L.SFS_ROOTDIR_OFF + a))
      (n := L.SFS_ROOTDIR_NENTRIES) hfree
    have hm := mkdir_root_core hL d junk i hi hi0 hi1 hmin hie name hns hlen k hk hk0 hkmin
    obtain ⟨P1, P2, P3⟩ := mkdir_root_post hL d junk i hi name hlen k hk _ rfl
    generalize disk_write (mkdir_blocks L d junk i (i + 1))
      (new_dir_entry (root_buf L d junk) k name i) 0 L.SFS_ROOTDIR_SIZE L.SFS_ROOTDIR_OFF = d1
      at hm P1 P2 P3
    have hfind := lookup_new_dir i hk hlen hnone
    rw [← P1] at hfind
    have hget := get_entry_root_found L d1 name junk k hns hne hfind
    obtain ⟨hsz, hfb⟩ := new_entry_fields junk (root_buf L d junk) k name i (by omega)
    rw [← P1] at hsz hfb
    have hp : 47 :: name ≠ [47] := by simpa using hne
    refine ⟨d1, hm, ⟨_, _, _, hget, hsz⟩, ?_, ?_, ?_⟩
    · intro uid gid atime mtime
      have hsz1 : ent_size (blit junk 0 (disk_read d1 junk 0 L.SFS_ROOTDIR_SIZE L.SFS_ROOTDIR_OFF)
          (k * 64) 64) 0 = SFS_DIRECTORY := hsz
      simp only [sfs_getattr, if_neg hp, hget, hsz1, if_pos hbit]
    · intro filler err
      have hfb1 : ent_first_block (blit junk 0 (disk_read d1 junk 0 L.SFS_ROOTDIR_SIZE
          L.SFS_ROOTDIR_OFF) (k * 64) 64) 0 = i := hfb
      simp only [sfs_readdir, if_neg hp, hget, hfb1]
      exact new_dir_listing hL d1 junk i P2 P3 filler err
    · intro filler err r names h
      simp only [sfs_readdir, if_true] at h ⊢
      show ∃ r1 pre post, names = pre ++ post ∧
        readdir_loop (root_buf L d1 junk) L.SFS_ROOTDIR_SIZE filler L.SFS_ROOTDIR_NENTRIES 0 [] err
          = some (r1, pre ++ name :: post)
      rw [P1]
      refine readdir_insert i filler (fun j hj => ?_) (le_refl _) hk ?_ hz hne hlen err r names h
      · obtain ⟨t, ht, ht0⟩ := hterm j hj
        refine ⟨t, ht, ?_⟩
        rw [root_buf_apply, if_pos (by omega)]
        refine Eq.trans ?_ ht0
        congr 1
        omega
      · rw [root_buf_apply, if_pos (by omega)]
        exact hk0
  · intro pp pent poff ppb hin hres hadj hnd hvalid ha1 ha2 hmiss hfree hterm
    obtain ⟨hne, hnone⟩ := get_entry_child_none hres hns hmiss
    have hbuf : ∀ x, x < L.SFS_DIR_SIZE → load_dir L d junk (ent_first_block pent 0) x
        = d (L.SFS_DATA_OFF + ent_first_block pent 0 * L.SFS_BLOCK_SIZE + x) := fun x hx =>
      load_dir_adj hL d junk _ x hadj (by omega)
    obtain ⟨k, hk, hk0, hkmin⟩ := first_free_exists
      (load_dir L d junk (ent_first_block pent 0)) (n := L.SFS_DIR_NENTRIES) (by
        obtain ⟨j, hj, hj0⟩ := hfree
        exact ⟨j, hj, by rw [hbuf _ (by omega)]; exact hj0⟩)
    have hm := mkdir_sub_core hL d junk i hi hi0 hi1 hmin hie pp name pent poff ppb hin hns hlen
      hres hvalid ha1 ha2 k hk hk0 hkmin
    obtain ⟨Q0, Q1, Q2, Q3⟩ := mkdir_sub_post hL d junk i hi pp name pent poff ppb hlen hres hadj
      hnd hvalid ha1 ha2 k hk _ rfl
    generalize disk_write (mkdir_blocks L d junk i (i + 1))
      (new_dir_entry (load_dir L d junk (ent_first_block pent 0)) k name i) 0 L.SFS_DIR_SIZE
      (L.SFS_DATA_OFF + ent_first_block pent 0 * L.SFS_BLOCK_SIZE) = d1 at hm Q0 Q1 Q2 Q3
    have hfind := lookup_new_dir i hk hlen hnone
    rw [← Q1] at hfind
    have hget : get_entry L d1 (pp ++ 47 :: name) junk = some (Lookup.found
        (blit junk 0 (load_dir L d1 junk (ent_first_block pent 0)) (k * 64) 64) k
        (ent_first_block pent 0)) := by
      rw [get_entry_child Q0 hns hne, hfind]
    obtain ⟨hsz, hfb⟩ := new_entry_fields junk (load_dir L d junk (ent_first_block pent 0)) k
      name i (by omega)
    rw [← Q1] at hsz hfb
    have hp : pp ++ 47 :: name ≠ [47] := by
      intro e
      have hl := congrArg List.length e
      have hpos : 0 < pp.length := List.length_pos_of_mem hin
      simp at hl
      omega
    have hpp : pp ≠ [47] := by
      rintro rfl
      have h0 : tokens [47] = [] := by decide
      simp [get_entry, h0, get_entry_rec] at hres
    refine ⟨d1, hm, ⟨_, _, _, hget, hsz⟩, ?_, ?_, ?_⟩
    · intro uid gid atime mtime
      simp only [sfs_getattr, if_neg hp, hget, hsz, if_pos hbit]
    · intro filler err
      simp only [sfs_readdir, if_neg hp, hget, hfb]
      exact new_dir_listing hL d1 junk i Q2 Q3 filler err
    · intro filler err r names h
      simp only [sfs_readdir, if_neg hpp, hres, Q0] at h ⊢
      rw [Q1]
      refine readdir_insert i filler (fun j hj => ?_) (le_refl _) hk hk0 hz hne hlen err r names h
      obtain ⟨t, ht, ht0⟩ := hterm j hj
      refine ⟨t, ht, ?_⟩
      rw [hbuf _ (by omega)]
      refine Eq.trans ?_ ht0
      congr 1
      omega

/-- Witness for C16 on the small layout: `mkdir /x` after `mkdir /d` (first
free pair at 2), and `mkdir /a/b/c` after `mkdir /a`, `mkdir /a/b` (first
free pair at 4; `/a` occupies the blocks 0 and 1, `/a/b` the blocks 2 and
3). -/
theorem C16_mkdir_visible_witness :
    (∃ d', sfs_mkdir (tiny 65535) (image (tiny 65535) scriptOneDir) (47 :: [120]) zeros
        = some (0, d') ∧
      (∃ ent off pb, get_entry (tiny 65535) d' (47 :: [120]) zeros
          = some (Lookup.found ent off pb) ∧ ent_size ent 0 = SFS_DIRECTORY) ∧
      (∀ uid gid atime mtime : Nat,
        sfs_getattr (tiny 65535) d' (47 :: [120]) zeros uid gid atime mtime
          = some (0, ⟨S_IFDIR, 2, SFS_DIRECTORY, uid, gid, atime, mtime⟩)) ∧
      (∀ (filler : List (List Nat) → List Nat → Int) (err : Int),
        sfs_readdir (tiny 65535) d' (47 :: [120]) zeros filler err = some (err, [])) ∧
      (∀ (filler : List (List Nat) → List Nat → Int) (err r : Int) (names : List (List Nat)),
        sfs_readdir (tiny 65535) (image (tiny 65535) scriptOneDir) [47] zeros filler err
          = some (r, names) →
        ∃ r1 pre post, names = pre ++ post ∧
          sfs_readdir (tiny 65535) d' [47] zeros filler err
            = some (r1, pre ++ [120] :: post))) ∧
    (∃ d', sfs_mkdir (tiny 65535) (image (tiny 65535) scriptTwoDirs)
        ([47, 97, 47, 98] ++ 47 :: [99]) zeros = some (0, d') ∧
      (∃ ent off pb, get_entry (tiny 65535) d' ([47, 97, 47, 98] ++ 47 :: [99]) zeros
          = some (Lookup.found ent off pb) ∧ ent_size ent 0 = SFS_DIRECTORY) ∧
      (∀ uid gid atime mtime : Nat,
        sfs_getattr (tiny 65535) d' ([47, 97, 47, 98] ++ 47 :: [99]) zeros uid gid atime mtime
          = some (0, ⟨S_IFDIR, 2, SFS_DIRECTORY, uid, gid, atime, mtime⟩)) ∧
      (∀ (filler : List (List Nat) → List Nat → Int) (err : Int),
        sfs_readdir (tiny 65535) d' ([47, 97, 47, 98] ++ 47 :: [99]) zeros filler err
          = some (err, [])) ∧
      (∀ (filler : List (List Nat) → List Nat → Int) (err r : Int) (names : List (List Nat)),
        sfs_readdir (tiny 65535) (image (tiny 65535) scriptTwoDirs) [47, 97, 47, 98] zeros
          filler err = some (r, names) →
        ∃ r1 pre post, names = pre ++ post ∧
          sfs_readdir (tiny 65535) d' [47, 97, 47, 98] zeros filler err
            = some (r1, pre ++ [99] :: post))) :=
  ⟨(C16_mkdir_visible (tiny 65535) (tiny_wf 65535 (by decide) (by decide))
      (image (tiny 65535) scriptOneDir) zeros 2 (by decide) (by decide) (by decide) (by decide)
      (by decide) [120] (by decide) (by decide) (by decide)).1 rfl ⟨1, by decide, by decide⟩
      (by decide),
   (C16_mkdir_visible (tiny 65535) (tiny_wf 65535 (by decide) (by decide))
      (image (tiny 65535) scriptTwoDirs) zeros 4 (by decide) (by decide) (by decide) (by decide)
      (by decide) [99] (by decide) (by decide) (by decide)).2 [47, 97, 47, 98] entryOfAB 0 0
      (by decide) rfl (by decide) (by decide) (by decide) (by decide) (by decide) rfl
      ⟨0, by decide, by decide⟩ (by decide)⟩

/-- Counterexample to C16 as stated, on the small layout: after `mkdir /a`,
`mkdir /a/b` the path `/a` exists; `mkdir /a` returns 0 all the same (no
operation looks the name up), and afterwards `readdir("/a")` hands over the
name `b`: the resolver finds the older entry `a`, not the directory just
created, and the root holds the name `a` twice. -/
theorem C16_counterexample :
    ret (sfs_mkdir (tiny 65535) (image (tiny 65535) scriptTwoDirs) [47, 97] zeros) = some 0 ∧
    readdir_names (tiny 65535)
      (after (sfs_mkdir (tiny 65535) (image (tiny 65535) scriptTwoDirs) [47, 97] zeros))
      [47, 97] zeros = some [[98]] ∧
    readdir_names (tiny 65535)
      (after (sfs_mkdir (tiny 65535) (image (tiny 65535) scriptTwoDirs) [47, 97] zeros))
      [47] zeros = some [[97], [97]] := by
  decide
/-! ### C17 -/

/-- C17 (code defect): path resolution descends into a regular file. On the
image with the one-byte file `/f` of content `x`, the entry `/f` is a regular
file (size word 1, directory bit clear, first block 0), and the resolution
of `/f/x` does not return `-ENOENT`: `get_entry_rec` loads the data block of
the file as a directory, finds the name `x` in slot 0 and returns 0 with
`ret_entry_off = 0` and `parent_blockidx = 0`, and `getattr("/f/x")` returns
0. `get_entry_rec` never looks at the `SFS_DIRECTORY` bit of the slot it
descends into. -/
theorem C17_resolves_through_file :
    found_size (get_entry (tiny 65535) imageFileX [47, 102] zeros) = some 1 ∧
    found_first_block (get_entry (tiny 65535) imageFileX [47, 102] zeros) = some 0 ∧
    lookup_ret (get_entry (tiny 65535) imageFileX [47, 102, 47, 120] zeros) = some 0 ∧
    (∃ ent, get_entry (tiny 65535) imageFileX [47, 102, 47, 120] zeros
      = some (Lookup.found ent 0 0)) ∧
    (sfs_getattr (tiny 65535) imageFileX [47, 102, 47, 120] zeros 0 0 0 0).map Prod.fst
      = some 0 :=
  ⟨by decide, by decide, by decide, ⟨_, rfl⟩, by decide⟩

/-! ### C18 -/

/-- C18: missing paths fail without effect. For every image and every path
with a component `c` that matches no slot of the directory reached by
matching the components before it, `getattr`, `readdir`, `read`, `unlink`,
`rmdir` and `truncate` each return `-ENOENT`; `unlink`, `rmdir` and
`truncate` leave the image they were given, `readdir` hands no name to the
filler and `read` copies no byte (`getattr`, `readdir` and `read` contain no
write to the image at all). -/
theorem C18_missing_path (L : Layout) (d : Disk) (path : List Nat) (junk : Mem)
    (pre : List (List Nat)) (c : List Nat) (post : List (List Nat)) (par : Mem) (n pb : Nat)
    (uid gid atime mtime size offset fuel : Nat) (filler : List (List Nat) → List Nat → Int)
    (err : Int)
    (htok : tokens path = pre ++ c :: post)
    (hreach : reached L d junk pre (root_buf L d junk) L.SFS_ROOTDIR_NENTRIES (peek16 junk 0)
      = some (par, n, pb))
    (hmiss : ∀ i, i < n → strcmp0 c par (i * 64) = false) :
    sfs_getattr L d path junk uid gid atime mtime
      = some (-ENOENT, ⟨0, 0, 0, uid, gid, atime, mtime⟩) ∧
    sfs_readdir L d path junk filler err = some (-ENOENT, []) ∧
    sfs_read L d path size offset junk fuel = some (-ENOENT, []) ∧
    sfs_unlink L d path junk fuel = some (-ENOENT, d) ∧
    sfs_rmdir L d path junk = some (-ENOENT, d) ∧
    sfs_truncate L d path size junk fuel = some (-ENOENT, d) := by
  have hres : get_entry L d path junk = some Lookup.enoent := by
    unfold get_entry
    rw [htok]
    exact get_entry_rec_missing pre c post _ _ _ par n pb hreach hmiss
  have hroot : path ≠ [47] := by
    intro e
    rw [e] at htok
    have h0 : tokens [47] = [] := by decide
    rw [h0] at htok
    cases pre <;> simp at htok
  refine ⟨?_, ?_, ?_, ?_, ?_, ?_⟩
  · simp only [sfs_getattr, if_neg hroot, hres]
  · simp only [sfs_readdir, if_neg hroot, hres]
  · simp only [sfs_read, hres]
  · simp only [sfs_unlink, hres]
  · simp only [sfs_rmdir, hres]
  · simp only [sfs_truncate, hres]

/-- Witness for C18 on the small layout: after `mkdir /d`, `create /d/f` the
path `/d/x` has the component `x`, which matches no slot of `/d`. -/
theorem C18_missing_path_witness :
    sfs_getattr (tiny 65535) (image (tiny 65535) scriptDirWithFile) [47, 100, 47, 120] zeros
      1 2 3 4 = some (-ENOENT, ⟨0, 0, 0, 1, 2, 3, 4⟩) ∧
    sfs_readdir (tiny 65535) (image (tiny 65535) scriptDirWithFile) [47, 100, 47, 120] zeros
      filler_ok 0 = some (-ENOENT, []) ∧
    sfs_read (tiny 65535) (image (tiny 65535) scriptDirWithFile) [47, 100, 47, 120] 5 0 zeros 3
      = some (-ENOENT, []) ∧
    sfs_unlink (tiny 65535) (image (tiny 65535) scriptDirWithFile) [47, 100, 47, 120] zeros 3
      = some (-ENOENT, image (tiny 65535) scriptDirWithFile) ∧
    sfs_rmdir (tiny 65535) (image (tiny 65535) scriptDirWithFile) [47, 100, 47, 120] zeros
      = some (-ENOENT, image (tiny 65535) scriptDirWithFile) ∧
    sfs_truncate (tiny 65535) (image (tiny 65535) scriptDirWithFile) [47, 100, 47, 120] 5
      zeros 3 = some (-ENOENT, image (tiny 65535) scriptDirWithFile) :=
  C18_missing_path (tiny 65535) (image (tiny 65535) scriptDirWithFile) [47, 100, 47, 120] zeros
    [[100]] [120] [] _ _ _ 1 2 3 4 5 0 3 filler_ok 0 rfl rfl (by decide)

/-! ### C19 -/

/-- C19: `getattr` classifies by the directory bit. `getattr("/")` returns 0
with mode `S_IFDIR | 0755` and link count 2. For every other path that
resolves it returns 0 with `st_size` equal to the size word of the entry,
and with mode `S_IFDIR` and link count 2 when bit 31 (`SFS_DIRECTORY`) of
the size word is set, with mode `S_IFREG` and link count 1 when it is
clear. -/
theorem C19_getattr (L : Layout) (d : Disk) (junk : Mem) (uid gid atime mtime : Nat) :
    sfs_getattr L d [47] junk uid gid atime mtime
      = some (0, ⟨S_IFDIR ||| 493, 2, 0, uid, gid, atime, mtime⟩) ∧
    ∀ (path : List Nat) (ent : Mem) (off pb : Nat), path ≠ [47] →
      get_entry L d path junk = some (Lookup.found ent off pb) →
      ((ent_size ent 0).testBit 31 = true →
        sfs_getattr L d path junk uid gid atime mtime
          = some (0, ⟨S_IFDIR, 2, ent_size ent 0, uid, gid, atime, mtime⟩)) ∧
      ((ent_size ent 0).testBit 31 = false →
        sfs_getattr L d path junk uid gid atime mtime
          = some (0, ⟨S_IFREG, 1, ent_size ent 0, uid, gid, atime, mtime⟩)) := by
  refine ⟨by simp only [sfs_getattr, if_true], fun path ent off pb hroot hres => ⟨?_, ?_⟩⟩
  · intro hb
    have hd := (dir_bit (ent_size ent 0)).mpr hb
    simp only [sfs_getattr, if_neg hroot, hres, if_pos hd]
  · intro hb
    have hd : ¬ (SFS_DIRECTORY &&& ent_size ent 0 ≠ 0) := fun h => by
      rw [(dir_bit (ent_size ent 0)).mp h] at hb
      exact absurd hb (by decide)
    simp only [sfs_getattr, if_neg hroot, hres, if_neg hd]

/-- Witness for C19 on the small layout after `mkdir /d`, `create /d/f`:
`/d` is reported as a directory whose size is the raw size word `2^31`, and
`/d/f` as a regular file of size 0. -/
theorem C19_getattr_witness :
    sfs_getattr (tiny 65535) (image (tiny 65535) scriptDirWithFile) [47, 100] zeros 1 2 3 4
      = some (0, ⟨S_IFDIR, 2, 2147483648, 1, 2, 3, 4⟩) ∧
    sfs_getattr (tiny 65535) (image (tiny 65535) scriptDirWithFile) [47, 100, 47, 102] zeros
      1 2 3 4 = some (0, ⟨S_IFREG, 1, 0, 1, 2, 3, 4⟩) :=
  ⟨((C19_getattr (tiny 65535) (image (tiny 65535) scriptDirWithFile) zeros 1 2 3 4).2
      [47, 100] _ _ _ (by decide) rfl).1 (by decide),
   ((C19_getattr (tiny 65535) (image (tiny 65535) scriptDirWithFile) zeros 1 2 3 4).2
      [47, 100, 47, 102] _ _ _ (by decide) rfl).2 (by decide)⟩

/-! ### C20 -/

/-- C20 (code defect): `readdir` of a directory without an occupied slot returns
the value its variable `err` happens to hold. The variable is declared
without an initial value and is only assigned from the result of the filler;
with `err` holding 7 before the loop, `readdir("/")` on a freshly formatted
image and `readdir("/d")` after `mkdir /d` hand no name to the filler and
return 7. With an occupied slot the value returned is the result of the last
filler call: on the full root of the small layout the four names are handed
over and the call returns 0. -/
theorem C20_readdir_empty :
    sfs_readdir (tiny 65535) (freshImage (tiny 65535)) [47] zeros filler_ok 7 = some (7, []) ∧
    sfs_readdir (tiny 65535) (image (tiny 65535) scriptOneDir) [47, 100] zeros filler_ok 7
      = some (7, []) ∧
    sfs_readdir (tiny 65535) (image (tiny 65535) scriptFullRoot) [47] zeros filler_ok 7
      = some (0, [[100], [99], [98], [97]]) := by
  decide
/-! ### C21 -/

/-- C21 (amended): `create` writes one entry and nothing else. Let `name` be
a basename without a slash and shorter than 58 bytes.

* For the path `/name`: when the root has a slot with an empty name,
  `create` returns 0; the slot `k` it fills had an empty name and is the last
  such slot; afterwards its filename equals `name`, its size is 0 and its
  `first_block` is `SFS_BLOCKIDX_END`; every byte of the image outside the 64
  bytes of that slot is as before.
* For the path `pp/name`: when `pp` resolves to an entry whose second block
  directly follows its first (`table[first_block] = first_block + 1`) and
  the directory has a slot with an empty name, the same holds for the slots
  of that directory. -/
theorem C21_create_frame (L : Layout) (hL : L.WF) (d : Disk) (junk : Mem)
    (stale : Option Nat) (name : List Nat) (hns : 47 ∉ name) (hlen : name.length < 58) :
    ((∃ j, j < L.SFS_ROOTDIR_NENTRIES ∧ d (L.SFS_ROOTDIR_OFF + j * 64) = 0) →
      ∃ d1 k, k < L.SFS_ROOTDIR_NENTRIES ∧
        sfs_create L d (47 :: name) junk stale = some (0, d1) ∧
        d (L.SFS_ROOTDIR_OFF + k * 64) = 0 ∧
        (∀ j, k < j → j < L.SFS_ROOTDIR_NENTRIES → d (L.SFS_ROOTDIR_OFF + j * 64) ≠ 0) ∧
        strcmp0 name d1 (L.SFS_ROOTDIR_OFF + k * 64) = true ∧
        ent_size d1 (L.SFS_ROOTDIR_OFF + k * 64) = 0 ∧
        ent_first_block d1 (L.SFS_ROOTDIR_OFF + k * 64) = L.SFS_BLOCKIDX_END ∧
        ∀ a, a < L.SFS_ROOTDIR_OFF + k * 64 ∨ L.SFS_ROOTDIR_OFF + k * 64 + 64 ≤ a →
          d1 a = d a) ∧
    (∀ (pp : List Nat) (pent : Mem) (poff ppb : Nat), 47 ∈ pp →
      get_entry L d pp junk = some (Lookup.found pent poff ppb) →
      tbl L d (ent_first_block pent 0) = ent_first_block pent 0 + 1 →
      (∃ j, j < L.SFS_DIR_NENTRIES ∧
        d (L.SFS_DATA_OFF + ent_first_block pent 0 * L.SFS_BLOCK_SIZE + j * 64) = 0) →
      ∃ d1 k, k < L.SFS_DIR_NENTRIES ∧
        sfs_create L d (pp ++ 47 :: name) junk stale = some (0, d1) ∧
        d (L.SFS_DATA_OFF + ent_first_block pent 0 * L.SFS_BLOCK_SIZE + k * 64) = 0 ∧
        (∀ j, k < j → j < L.SFS_DIR_NENTRIES →
          d (L.SFS_DATA_OFF + ent_first_block pent 0 * L.SFS_BLOCK_SIZE + j * 64) ≠ 0) ∧
        strcmp0 name d1
          (L.SFS_DATA_OFF + ent_first_block pent 0 * L.SFS_BLOCK_SIZE + k * 64) = true ∧
        ent_size d1 (L.SFS_DATA_OFF + ent_first_block pent 0 * L.SFS_BLOCK_SIZE + k * 64) = 0 ∧
        ent_first_block d1
          (L.SFS_DATA_OFF + ent_first_block pent 0 * L.SFS_BLOCK_SIZE + k * 64)
          = L.SFS_BLOCKIDX_END ∧
        ∀ a, a < L.SFS_DATA_OFF + ent_first_block pent 0 * L.SFS_BLOCK_SIZE + k * 64 ∨
          L.SFS_DATA_OFF + ent_first_block pent 0 * L.SFS_BLOCK_SIZE + k * 64 + 64 ≤ a →
          d1 a = d a) := by
  constructor
  · intro hfree
    obtain ⟨d1, k, hk, h1, h2, h3, h4⟩ := create_root_spec d junk stale name hns hlen hfree
    obtain ⟨f1, f2, f3⟩ := new_file_slot hL junk name hlen d1 (L.SFS_ROOTDIR_OFF + k * 64)
      (fun x hx => by
        rw [h4, if_pos (by omega)]
        congr 1
        omega)
    exact ⟨d1, k, hk, h1, h2, h3, f1, f2, f3, fun a ha => by rw [h4, if_neg (by omega)]⟩
  · intro pp pent poff ppb hin hres hadj hfree
    obtain ⟨d1, k, hk, h1, h2, h3, h4⟩ :=
      create_sub_spec hL d junk stale pp name pent poff ppb hin hns hlen hres hadj hfree
    obtain ⟨f1, f2, f3⟩ := new_file_slot hL junk name hlen d1
      (L.SFS_DATA_OFF + ent_first_block pent 0 * L.SFS_BLOCK_SIZE + k * 64)
      (fun x hx => by
        rw [h4, if_pos (by omega)]
        congr 1
        omega)
    exact ⟨d1, k, hk, h1, h2, h3, f1, f2, f3, fun a ha => by rw [h4, if_neg (by omega)]⟩

/-- Witness for C21 on the small layout after `mkdir /d`: the paths `/x` and
`/d/x`. -/
theorem C21_create_frame_witness :
    (∃ d1 k, k < (tiny 65535).SFS_ROOTDIR_NENTRIES ∧
      sfs_create (tiny 65535) (image (tiny 65535) scriptOneDir) (47 :: [120]) zeros none
        = some (0, d1) ∧
      image (tiny 65535) scriptOneDir ((tiny 65535).SFS_ROOTDIR_OFF + k * 64) = 0 ∧
      (∀ j, k < j → j < (tiny 65535).SFS_ROOTDIR_NENTRIES →
        image (tiny 65535) scriptOneDir ((tiny 65535).SFS_ROOTDIR_OFF + j * 64) ≠ 0) ∧
      strcmp0 [120] d1 ((tiny 65535).SFS_ROOTDIR_OFF + k * 64) = true ∧
      ent_size d1 ((tiny 65535).SFS_ROOTDIR_OFF + k * 64) = 0 ∧
      ent_first_block d1 ((tiny 65535).SFS_ROOTDIR_OFF + k * 64)
        = (tiny 65535).SFS_BLOCKIDX_END ∧
      ∀ a, a < (tiny 65535).SFS_ROOTDIR_OFF + k * 64 ∨
        (tiny 65535).SFS_ROOTDIR_OFF + k * 64 + 64 ≤ a →
        d1 a = image (tiny 65535) scriptOneDir a) ∧
    (∃ d1 k, k < (tiny 65535).SFS_DIR_NENTRIES ∧
      sfs_create (tiny 65535) (image (tiny 65535) scriptOneDir) ([47, 100] ++ 47 :: [120])
        zeros none = some (0, d1) ∧
      image (tiny 65535) scriptOneDir ((tiny 65535).SFS_DATA_OFF
        + ent_first_block entryOfD 0 * (tiny 65535).SFS_BLOCK_SIZE + k * 64) = 0 ∧
      (∀ j, k < j → j < (tiny 65535).SFS_DIR_NENTRIES →
        image (tiny 65535) scriptOneDir ((tiny 65535).SFS_DATA_OFF
          + ent_first_block entryOfD 0 * (tiny 65535).SFS_BLOCK_SIZE + j * 64) ≠ 0) ∧
      strcmp0 [120] d1 ((tiny 65535).SFS_DATA_OFF
        + ent_first_block entryOfD 0 * (tiny 65535).SFS_BLOCK_SIZE + k * 64) = true ∧
      ent_size d1 ((tiny 65535).SFS_DATA_OFF
        + ent_first_block entryOfD 0 * (tiny 65535).SFS_BLOCK_SIZE + k * 64) = 0 ∧
      ent_first_block d1 ((tiny 65535).SFS_DATA_OFF
        + ent_first_block entryOfD 0 * (tiny 65535).SFS_BLOCK_SIZE + k * 64)
        = (tiny 65535).SFS_BLOCKIDX_END ∧
      ∀ a, a < (tiny 65535).SFS_DATA_OFF
          + ent_first_block entryOfD 0 * (tiny 65535).SFS_BLOCK_SIZE + k * 64 ∨
        (tiny 65535).SFS_DATA_OFF
          + ent_first_block entryOfD 0 * (tiny 65535).SFS_BLOCK_SIZE + k * 64 + 64 ≤ a →
        d1 a = image (tiny 65535) scriptOneDir a) :=
  ⟨(C21_create_frame (tiny 65535) (tiny_wf 65535 (by decide) (by decide))
      (image (tiny 65535) scriptOneDir) zeros none [120] (by decide) (by decide)).1
      ⟨3, by decide, by decide⟩,
   (C21_create_frame (tiny 65535) (tiny_wf 65535 (by decide) (by decide))
      (image (tiny 65535) scriptOneDir) zeros none [120] (by decide) (by decide)).2
      [47, 100] entryOfD 0 0 (by decide) rfl (by decide) ⟨3, by decide, by decide⟩⟩

/-- Counterexample to C21 as stated, on an image of the small layout whose
directory `/d` occupies the two-block chain 0, 2 (`table[0] = 2`,
`table[2] = END`), with block 1 free and all slots of `/d` empty:
`create /d/x` returns 0, the byte at offset 64 of block 1 (image address
480), which belongs to no block of `/d`, changes from 0 to the letter `x`,
and no slot of `/d` holds the new entry: `readdir /d` still lists nothing. -/
theorem C21_counterexample :
    found_first_block (get_entry (tiny 65535) imageSplitDir [47, 100] zeros) = some 0 ∧
    tbl (tiny 65535) imageSplitDir 0 = 2 ∧
    tbl (tiny 65535) imageSplitDir 2 = (tiny 65535).SFS_BLOCKIDX_END ∧
    tbl (tiny 65535) imageSplitDir 1 = (tiny 65535).SFS_BLOCKIDX_EMPTY ∧
    readdir_names (tiny 65535) imageSplitDir [47, 100] zeros = some [] ∧
    ret (sfs_create (tiny 65535) imageSplitDir [47, 100, 47, 120] zeros none) = some 0 ∧
    imageSplitDir ((tiny 65535).SFS_DATA_OFF + 1 * (tiny 65535).SFS_BLOCK_SIZE + 64) = 0 ∧
    after (sfs_create (tiny 65535) imageSplitDir [47, 100, 47, 120] zeros none)
      ((tiny 65535).SFS_DATA_OFF + 1 * (tiny 65535).SFS_BLOCK_SIZE + 64) = 120 ∧
    readdir_names (tiny 65535)
      (after (sfs_create (tiny 65535) imageSplitDir [47, 100, 47, 120] zeros none))
      [47, 100] zeros = some [] := by
  decide
/-! ### C22 -/

/-- C22 (amended): the chain `truncate` produces. In a layout whose data
region is smaller than 2^31 bytes and whose `SFS_BLOCKIDX_EMPTY` is not a
block index, let `name` be a basename without a slash and shorter than 58
bytes, let the path resolve to an entry whose chain `bs` has
`m = ceil(size / SFS_BLOCK_SIZE)` blocks, let
`k = ceil(new_size / SFS_BLOCK_SIZE)` and let the block table have at least
`k - m` slots that hold `SFS_BLOCKIDX_EMPTY`.

* For the path `/name`: `truncate` with enough fuel returns 0, and afterwards
  the path resolves to the same slot, and the chain of its entry is the first
  `k` blocks of `bs` followed by the first `k - m` indices of the ascending
  list of the slots that held `SFS_BLOCKIDX_EMPTY` (its end is marked
  `SFS_BLOCKIDX_END`); the blocks of `bs` from position `k` on are marked
  `SFS_BLOCKIDX_EMPTY`; `first_block` is `SFS_BLOCKIDX_END` when `k = 0`; and
  when `k = m` no byte of the block table changes.
* For the path `pp/name`: the same holds when `pp` resolves to an entry whose
  second block directly follows its first
  (`table[first_block] = first_block + 1`) and the directories on the path
  `pp` occupy pairwise distinct blocks that are block-table indices, are not
  marked `SFS_BLOCKIDX_EMPTY` and are not blocks of the chain `bs`.

The indices added are increasing, held `SFS_BLOCKIDX_EMPTY`, and every other
index that held `SFS_BLOCKIDX_EMPTY` is larger than each of them. -/
theorem C22_truncate_chain (L : Layout) (hL : L.WF)
    (hsmall : (L.SFS_BLOCKTBL_NENTRIES + 1) * L.SFS_BLOCK_SIZE ≤ SFS_DIRECTORY)
    (hE : L.SFS_BLOCKTBL_NENTRIES ≤ L.SFS_BLOCKIDX_EMPTY)
    (d : Disk) (junk : Mem) (name : List Nat) (hns : 47 ∉ name) (hlen : name.length < 58)
    (size fuel : Nat) :
    (∀ (ent : Mem) (off pb : Nat) (bs : List Nat),
      get_entry L d (47 :: name) junk = some (Lookup.found ent off pb) →
      Chain L d (ent_first_block ent 0) bs →
      bs.length = (ent_size ent 0 + L.SFS_BLOCK_SIZE - 1) / L.SFS_BLOCK_SIZE →
      (size + L.SFS_BLOCK_SIZE - 1) / L.SFS_BLOCK_SIZE - bs.length ≤ (free_list L d).length →
      bs.length < fuel →
      ∃ d' ent', sfs_truncate L d (47 :: name) size junk fuel = some (0, d') ∧
        get_entry L d' (47 :: name) junk = some (Lookup.found ent' off pb) ∧
        Chain L d' (ent_first_block ent' 0)
          (bs.take ((size + L.SFS_BLOCK_SIZE - 1) / L.SFS_BLOCK_SIZE) ++
            (free_list L d).take
              ((size + L.SFS_BLOCK_SIZE - 1) / L.SFS_BLOCK_SIZE - bs.length)) ∧
        (∀ j, (size + L.SFS_BLOCK_SIZE - 1) / L.SFS_BLOCK_SIZE ≤ j → j < bs.length →
          tbl L d' (bs.getD j 0) = L.SFS_BLOCKIDX_EMPTY) ∧
        ((size + L.SFS_BLOCK_SIZE - 1) / L.SFS_BLOCK_SIZE = 0 →
          ent_first_block ent' 0 = L.SFS_BLOCKIDX_END) ∧
        ((size + L.SFS_BLOCK_SIZE - 1) / L.SFS_BLOCK_SIZE = bs.length →
          ∀ a, L.SFS_BLOCKTBL_OFF ≤ a →
            a < L.SFS_BLOCKTBL_OFF + L.SFS_BLOCKTBL_NENTRIES * 2 → d' a = d a)) ∧
    (∀ (pp : List Nat) (pent : Mem) (poff ppb : Nat) (ent : Mem) (off pb : Nat)
      (bs : List Nat), 47 ∈ pp → name ≠ [] →
      get_entry L d pp junk = some (Lookup.found pent poff ppb) →
      tbl L d (ent_first_block pent 0) = ent_first_block pent 0 + 1 →
      (path_blocks L d junk pp).Nodup →
      (∀ b ∈ path_blocks L d junk pp, b < L.SFS_BLOCKTBL_NENTRIES ∧
        tbl L d b ≠ L.SFS_BLOCKIDX_EMPTY ∧ b ∉ bs) →
      get_entry L d (pp ++ 47 :: name) junk = some (Lookup.found ent off pb) →
      Chain L d (ent_first_block ent 0) bs →
      bs.length = (ent_size ent 0 + L.SFS_BLOCK_SIZE - 1) / L.SFS_BLOCK_SIZE →
      (size + L.SFS_BLOCK_SIZE - 1) / L.SFS_BLOCK_SIZE - bs.length ≤ (free_list L d).length →
      bs.length < fuel →
      ∃ d' ent', sfs_truncate L d (pp ++ 47 :: name) size junk fuel = some (0, d') ∧
        get_entry L d' (pp ++ 47 :: name) junk = some (Lookup.found ent' off pb) ∧
        Chain L d' (ent_first_block ent' 0)
          (bs.take ((size + L.SFS_BLOCK_SIZE - 1) / L.SFS_BLOCK_SIZE) ++
            (free_list L d).take
              ((size + L.SFS_BLOCK_SIZE - 1) / L.SFS_BLOCK_SIZE - bs.length)) ∧
        (∀ j, (size + L.SFS_BLOCK_SIZE - 1) / L.SFS_BLOCK_SIZE ≤ j → j < bs.length →
          tbl L d' (bs.getD j 0) = L.SFS_BLOCKIDX_EMPTY) ∧
        ((size + L.SFS_BLOCK_SIZE - 1) / L.SFS_BLOCK_SIZE = 0 →
          ent_first_block ent' 0 = L.SFS_BLOCKIDX_END) ∧
        ((size + L.SFS_BLOCK_SIZE - 1) / L.SFS_BLOCK_SIZE = bs.length →
          ∀ a, L.SFS_BLOCKTBL_OFF ≤ a →
            a < L.SFS_BLOCKTBL_OFF + L.SFS_BLOCKTBL_NENTRIES * 2 → d' a = d a)) ∧
    (∀ n, ((free_list L d).take n).Pairwise (· < ·) ∧
      (∀ x ∈ (free_list L d).take n,
        x < L.SFS_BLOCKTBL_NENTRIES ∧ tbl L d x = L.SFS_BLOCKIDX_EMPTY) ∧
      (∀ j, j < L.SFS_BLOCKTBL_NENTRIES → tbl L d j = L.SFS_BLOCKIDX_EMPTY →
        j ∉ (free_list L d).take n → ∀ x ∈ (free_list L d).take n, x < j)) := by
  have hzero : ∀ (d' : Disk) (ent' : Mem) (bs : List Nat),
      Chain L d' (ent_first_block ent' 0)
        (bs.take ((size + L.SFS_BLOCK_SIZE - 1) / L.SFS_BLOCK_SIZE) ++
          (free_list L d).take ((size + L.SFS_BLOCK_SIZE - 1) / L.SFS_BLOCK_SIZE - bs.length)) →
      (size + L.SFS_BLOCK_SIZE - 1) / L.SFS_BLOCK_SIZE = 0 →
      ent_first_block ent' 0 = L.SFS_BLOCKIDX_END := by
    intro d' ent' bs hchain h0
    rw [h0] at hchain
    simpa using hchain
  refine ⟨?_, ?_, fun n => ⟨free_take_sorted L d n, fun x hx => free_take_mem hx,
    fun j hj he hn => free_take_lowest hj he hn⟩⟩
  · intro ent off pb bs hres hch hlenc hfree hfuel
    obtain ⟨d', ent', h1, h2, -, h4, h5, -, h7⟩ := @truncate_found L hL hsmall hE d _ junk ent
      off pb bs size fuel hres hch hlenc hfree hfuel
      (fun hr => get_entry_in_root_lt hres hr)
      (fun d1 e hd1 _ hname =>
        (found_after_write_root hns hlen hres (fun a ha => hd1 a (Or.inl ha)) hL.root_tbl e
          hname).2)
    exact ⟨d', ent', h1, h2, h4, h5, hzero d' ent' bs h4, h7⟩
  · intro pp pent poff ppb ent off pb bs hin hne hresP hadj hnd hpath hres hch hlenc hfree
      hfuel
    have htd := hL.tbl_data
    have hroot : in_root (pp ++ 47 :: name) = false := by
      have := (in_root_append pp name hns).not.mpr (by simpa using hin)
      simpa using this
    obtain ⟨d', ent', h1, h2, -, h4, h5, -, h7⟩ := @truncate_found L hL hsmall hE d _ junk ent
      off pb bs size fuel hres hch hlenc hfree hfuel
      (fun hr => by rw [hroot] at hr; exact absurd hr (by simp))
      (fun d1 e hd1 ht1 hname =>
        (found_after_write_sub hL hin hns hne hlen hresP hadj hnd (fun b hb => (hpath b hb).1)
          hres (fun a ha => hd1 a (Or.inl ha))
          (fun b hb => ht1 b (hpath b hb).1 (hpath b hb).2.2 (hpath b hb).2.1)
          (fun a ha => hd1 a (Or.inr (by omega))) e hname).2.2.2)
    exact ⟨d', ent', h1, h2, h4, h5, hzero d' ent' bs h4, h7⟩

/-- Witness for C22 on the small layout: the file `/f` of 129 bytes with the
chain `[0, 1]`, in root slot 3, grown to 300 bytes, whose chain becomes
`[0, 1, 2]`; and the empty file `/d/f` in slot 3 of the directory `/d`
(blocks 0 and 1), grown to 10 bytes. -/
theorem C22_truncate_chain_witness :
    (∃ d' ent', sfs_truncate (tiny 65535) (image (tiny 65535) scriptTwoBlocks) (47 :: [102])
        300 zeros 3 = some (0, d') ∧
      get_entry (tiny 65535) d' (47 :: [102]) zeros = some (Lookup.found ent' 3 0) ∧
      Chain (tiny 65535) d' (ent_first_block ent' 0)
        (([0, 1] : List Nat).take ((300 + (tiny 65535).SFS_BLOCK_SIZE - 1) / (tiny 65535).SFS_BLOCK_SIZE) ++
          (free_list (tiny 65535) (image (tiny 65535) scriptTwoBlocks)).take
            (((300 + (tiny 65535).SFS_BLOCK_SIZE - 1) / (tiny 65535).SFS_BLOCK_SIZE) - ([0, 1] : List Nat).length)) ∧
      (∀ j, ((300 + (tiny 65535).SFS_BLOCK_SIZE - 1) / (tiny 65535).SFS_BLOCK_SIZE) ≤ j → j < ([0, 1] : List Nat).length →
        tbl (tiny 65535) d' (([0, 1] : List Nat).getD j 0) = (tiny 65535).SFS_BLOCKIDX_EMPTY) ∧
      (((300 + (tiny 65535).SFS_BLOCK_SIZE - 1) / (tiny 65535).SFS_BLOCK_SIZE) = 0 → ent_first_block ent' 0 = (tiny 65535).SFS_BLOCKIDX_END) ∧
      (((300 + (tiny 65535).SFS_BLOCK_SIZE - 1) / (tiny 65535).SFS_BLOCK_SIZE) = ([0, 1] : List Nat).length →
        ∀ a, (tiny 65535).SFS_BLOCKTBL_OFF ≤ a →
          a < (tiny 65535).SFS_BLOCKTBL_OFF + (tiny 65535).SFS_BLOCKTBL_NENTRIES * 2 →
          d' a = image (tiny 65535) scriptTwoBlocks a)) ∧
    (∃ d' ent', sfs_truncate (tiny 65535) (image (tiny 65535) scriptDirWithFile) ([47, 100] ++ 47 :: [102])
        10 zeros 1 = some (0, d') ∧
      get_entry (tiny 65535) d' ([47, 100] ++ 47 :: [102]) zeros = some (Lookup.found ent' 3 0) ∧
      Chain (tiny 65535) d' (ent_first_block ent' 0)
        (([] : List Nat).take ((10 + (tiny 65535).SFS_BLOCK_SIZE - 1) / (tiny 65535).SFS_BLOCK_SIZE) ++
          (free_list (tiny 65535) (image (tiny 65535) scriptDirWithFile)).take
            (((10 + (tiny 65535).SFS_BLOCK_SIZE - 1) / (tiny 65535).SFS_BLOCK_SIZE) - ([] : List Nat).length)) ∧
      (∀ j, ((10 + (tiny 65535).SFS_BLOCK_SIZE - 1) / (tiny 65535).SFS_BLOCK_SIZE) ≤ j → j < ([] : List Nat).length →
        tbl (tiny 65535) d' (([] : List Nat).getD j 0) = (tiny 65535).SFS_BLOCKIDX_EMPTY) ∧
      (((10 + (tiny 65535).SFS_BLOCK_SIZE - 1) / (tiny 65535).SFS_BLOCK_SIZE) = 0 → ent_first_block ent' 0 = (tiny 65535).SFS_BLOCKIDX_END) ∧
      (((10 + (tiny 65535).SFS_BLOCK_SIZE - 1) / (tiny 65535).SFS_BLOCK_SIZE) = ([] : List Nat).length →
        ∀ a, (tiny 65535).SFS_BLOCKTBL_OFF ≤ a →
          a < (tiny 65535).SFS_BLOCKTBL_OFF + (tiny 65535).SFS_BLOCKTBL_NENTRIES * 2 →
          d' a = image (tiny 65535) scriptDirWithFile a)) :=
  ⟨(C22_truncate_chain (tiny 65535) (tiny_wf 65535 (by decide) (by decide)) (by decide)
      (by decide) (image (tiny 65535) scriptTwoBlocks) zeros [102] (by decide) (by decide)
      300 3).1 _ 3 0 [0, 1] rfl (by decide) (by decide) (by decide) (by decide),
   (C22_truncate_chain (tiny 65535) (tiny_wf 65535 (by decide) (by decide)) (by decide)
      (by decide) (image (tiny 65535) scriptDirWithFile) zeros [102] (by decide) (by decide)
      10 1).2.1 [47, 100] _ 0 0 _ 3 0 [] (by decide) (by decide) rfl (by decide) (by decide)
      (by decide) rfl (by decide) (by decide) (by decide) (by decide)⟩

/-- Counterexample to C22 as stated, on an image of the small layout whose
directory `/d` occupies the blocks 0 and 2 (`table[0] = 2`,
`table[2] = END`): the empty file `/d/q` is slot 2 of `/d`, the first slot of
block 2, its chain is empty, and the lowest slot that holds
`SFS_BLOCKIDX_EMPTY` is 1. `truncate(/d/q, 10)` needs one block and returns 0;
block 1 is marked `SFS_BLOCKIDX_END`, yet afterwards the entry of `/d/q` has
first block `SFS_BLOCKIDX_END`, so its chain is still empty and not `[1]`. -/
theorem C22_counterexample :
    found_first_block (get_entry (tiny 65535) imageSplitFiles [47, 100] zeros) = some 0 ∧
    tbl (tiny 65535) imageSplitFiles 0 = 2 ∧
    tbl (tiny 65535) imageSplitFiles 2 = (tiny 65535).SFS_BLOCKIDX_END ∧
    found_size (get_entry (tiny 65535) imageSplitFiles [47, 100, 47, 113] zeros) = some 0 ∧
    Chain (tiny 65535) imageSplitFiles (tiny 65535).SFS_BLOCKIDX_END [] ∧
    found_first_block (get_entry (tiny 65535) imageSplitFiles [47, 100, 47, 113] zeros)
      = some (tiny 65535).SFS_BLOCKIDX_END ∧
    (free_list (tiny 65535) imageSplitFiles).take 1 = [1] ∧
    ret (sfs_truncate (tiny 65535) imageSplitFiles [47, 100, 47, 113] 10 zeros 16) = some 0 ∧
    tbl (tiny 65535)
      (after (sfs_truncate (tiny 65535) imageSplitFiles [47, 100, 47, 113] 10 zeros 16)) 1
      = (tiny 65535).SFS_BLOCKIDX_END ∧
    found_first_block (get_entry (tiny 65535)
      (after (sfs_truncate (tiny 65535) imageSplitFiles [47, 100, 47, 113] 10 zeros 16))
      [47, 100, 47, 113] zeros) = some (tiny 65535).SFS_BLOCKIDX_END ∧
    ¬ Chain (tiny 65535)
      (after (sfs_truncate (tiny 65535) imageSplitFiles [47, 100, 47, 113] 10 zeros 16))
      (tiny 65535).SFS_BLOCKIDX_END [1] := by
  decide
/-! ### C23 -/

/-- C23: the output of the resolver. For every path whose tokens are
`c1, ..., c(k-1), c` (so `k ≥ 1`), `get_entry` returns 0 or `-ENOENT`, and it
returns 0 exactly when `c1, ..., c(k-1)` are matched level by level (`reached`
gives the directory loaded after them) and that directory has a slot whose
filename equals `c`. When it returns 0, `ret_entry_off` is the lowest index
of a matching slot of that directory, `ret_entry` is a copy of the 64 bytes
of that slot, and for `k ≥ 2` the directory was loaded from
`parent_blockidx`, which is the `first_block` of the slot matched for
`c(k-1)`. `get_entry` only reads the image: it returns no image. -/
theorem C23_resolver_output (L : Layout) (d : Disk) (path : List Nat) (junk : Mem)
    (pre : List (List Nat)) (c : List Nat) (htok : tokens path = pre ++ [c]) :
    (lookup_ret (get_entry L d path junk) = some 0 ∨
      lookup_ret (get_entry L d path junk) = some (-ENOENT)) ∧
    (lookup_ret (get_entry L d path junk) = some 0 ↔
      ∃ par n pb j,
        reached L d junk pre (root_buf L d junk) L.SFS_ROOTDIR_NENTRIES (peek16 junk 0)
          = some (par, n, pb) ∧
        j < n ∧ strcmp0 c par (j * 64) = true) ∧
    (∀ ent off pbx, get_entry L d path junk = some (Lookup.found ent off pbx) →
      ∃ par n,
        reached L d junk pre (root_buf L d junk) L.SFS_ROOTDIR_NENTRIES (peek16 junk 0)
          = some (par, n, pbx) ∧
        off < n ∧ strcmp0 c par (off * 64) = true ∧
        (∀ j, j < off → strcmp0 c par (j * 64) = false) ∧
        (∀ x, x < 64 → ent x = par (off * 64 + x)) ∧
        ∀ pre1 c1, pre = pre1 ++ [c1] →
          ∃ par1 n1 pb1 i,
            reached L d junk pre1 (root_buf L d junk) L.SFS_ROOTDIR_NENTRIES (peek16 junk 0)
              = some (par1, n1, pb1) ∧
            findFrom (fun i => strcmp0 c1 par1 (i * 64)) n1 0 = some i ∧
            pbx = ent_first_block par1 (i * 64) ∧
            par = load_dir L d junk pbx ∧ n = L.SFS_DIR_NENTRIES) := by
  have key := fun ent off pbx => @get_entry_found_iff L d junk path pre c htok ent off pbx
  have hcases : get_entry L d path junk = some Lookup.enoent ∨
      ∃ ent off pbx, get_entry L d path junk = some (Lookup.found ent off pbx) := by
    unfold get_entry
    rw [htok, get_entry_rec_reached]
    cases reached L d junk pre (disk_read d junk 0 L.SFS_ROOTDIR_SIZE L.SFS_ROOTDIR_OFF)
        L.SFS_ROOTDIR_NENTRIES (peek16 junk 0) with
    | none => exact Or.inl rfl
    | some x =>
      obtain ⟨par1, n1, pb1⟩ := x
      cases hf : findFrom (fun i => strcmp0 c par1 (i * 64)) n1 0 with
      | none => simp only [hf]; exact Or.inl trivial
      | some j => simp only [hf]; exact Or.inr ⟨_, _, _, rfl⟩
  refine ⟨?_, ?_, ?_⟩
  · rcases hcases with h | ⟨ent, off, pbx, h⟩
    · exact Or.inr (by rw [h]; rfl)
    · exact Or.inl (by rw [h]; rfl)
  · constructor
    · intro h0
      rcases hcases with h | ⟨ent, off, pbx, h⟩
      · rw [h] at h0
        exact absurd h0 (by simp [lookup_ret, ENOENT])
      · obtain ⟨par, n, hr, hf, -⟩ := (key ent off pbx).mp h
        obtain ⟨-, a2, a3, -⟩ := findFrom_some hf
        exact ⟨par, n, pbx, off, hr, by omega, a3⟩
    · rintro ⟨par, n, pb, j, hr, hj, hm⟩
      obtain ⟨j1, hj1⟩ := findFrom_some_of (fun i => strcmp0 c par (i * 64)) n 0 j
        (Nat.zero_le _) (by omega) hm
      rw [(key (blit junk 0 par (j1 * 64) 64) j1 pb).mpr ⟨par, n, hr, hj1, rfl⟩]
      rfl
  · intro ent off pbx h
    obtain ⟨par, n, hr, hf, he⟩ := (key ent off pbx).mp h
    obtain ⟨-, a2, a3, a4⟩ := findFrom_some hf
    refine ⟨par, n, hr, by omega, a3, fun j hj => a4 j (Nat.zero_le _) hj, ?_, ?_⟩
    · intro x hx
      rw [he, blit_in (Nat.zero_le _) (by omega)]
      rfl
    · intro pre1 c1 hp
      subst hp
      rw [reached_snoc] at hr
      cases hr1 : reached L d junk pre1 (root_buf L d junk) L.SFS_ROOTDIR_NENTRIES
          (peek16 junk 0) with
      | none => simp [hr1] at hr
      | some y =>
        obtain ⟨par1, n1, pb1⟩ := y
        cases hf1 : findFrom (fun i => strcmp0 c1 par1 (i * 64)) n1 0 with
        | none => simp [hr1, hf1] at hr
        | some i =>
          simp only [hr1, hf1, Option.some.injEq, Prod.mk.injEq] at hr
          obtain ⟨e1, e2, e3⟩ := hr
          exact ⟨par1, n1, pb1, i, rfl, hf1, e3.symm, by rw [← e3]; exact e1.symm, e2.symm⟩

/-- Witness for C23 on the image with the directories `/a` and `/a/b`: the
path `/a/b` has the tokens `a`, `b`. -/
theorem C23_resolver_output_witness :
    tokens [47, 97, 47, 98] = [[97]] ++ [[98]] ∧
    (lookup_ret (get_entry (tiny 65535) (image (tiny 65535) scriptTwoDirs) [47, 97, 47, 98]
        zeros) = some 0 ∨
      lookup_ret (get_entry (tiny 65535) (image (tiny 65535) scriptTwoDirs) [47, 97, 47, 98]
        zeros) = some (-ENOENT)) ∧
    (lookup_ret (get_entry (tiny 65535) (image (tiny 65535) scriptTwoDirs) [47, 97, 47, 98]
        zeros) = some 0 ↔
      ∃ par n pb j,
        reached (tiny 65535) (image (tiny 65535) scriptTwoDirs) zeros [[97]]
          (root_buf (tiny 65535) (image (tiny 65535) scriptTwoDirs) zeros)
          (tiny 65535).SFS_ROOTDIR_NENTRIES (peek16 zeros 0) = some (par, n, pb) ∧
        j < n ∧ strcmp0 [98] par (j * 64) = true) ∧
    (∀ ent off pbx, get_entry (tiny 65535) (image (tiny 65535) scriptTwoDirs)
        [47, 97, 47, 98] zeros = some (Lookup.found ent off pbx) →
      ∃ par n,
        reached (tiny 65535) (image (tiny 65535) scriptTwoDirs) zeros [[97]]
          (root_buf (tiny 65535) (image (tiny 65535) scriptTwoDirs) zeros)
          (tiny 65535).SFS_ROOTDIR_NENTRIES (peek16 zeros 0) = some (par, n, pbx) ∧
        off < n ∧ strcmp0 [98] par (off * 64) = true ∧
        (∀ j, j < off → strcmp0 [98] par (j * 64) = false) ∧
        (∀ x, x < 64 → ent x = par (off * 64 + x)) ∧
        ∀ pre1 c1, [[97]] = pre1 ++ [c1] →
          ∃ par1 n1 pb1 i,
            reached (tiny 65535) (image (tiny 65535) scriptTwoDirs) zeros pre1
              (root_buf (tiny 65535) (image (tiny 65535) scriptTwoDirs) zeros)
              (tiny 65535).SFS_ROOTDIR_NENTRIES (peek16 zeros 0) = some (par1, n1, pb1) ∧
            findFrom (fun i => strcmp0 c1 par1 (i * 64)) n1 0 = some i ∧
            pbx = ent_first_block par1 (i * 64) ∧
            par = load_dir (tiny 65535) (image (tiny 65535) scriptTwoDirs) zeros pbx ∧
            n = (tiny 65535).SFS_DIR_NENTRIES) :=
  ⟨by decide, C23_resolver_output (tiny 65535) (image (tiny 65535) scriptTwoDirs)
    [47, 97, 47, 98] zeros [[97]] [98] (by decide)⟩
/-! ### C24 -/

/-- C24 (code defect): a failed `mkdir` leaves two blocks allocated. On the
freshly formatted small layout every block-table slot is
`SFS_BLOCKIDX_EMPTY` and the root directory is empty. The call
`mkdir /n/x`, whose parent `/n` does not exist, returns `-ENOENT`, and
afterwards slot 0 holds 1 and slot 1 holds `SFS_BLOCKIDX_END` while the root
directory is still empty: the two blocks belong to no directory entry. A
following `mkdir /d` returns 0 and gets the blocks 2 and 3. `sfs_mkdir`
writes the block table and the two blocks before it resolves the parent. -/
theorem C24_failed_mkdir_leaks :
    tbl (tiny 65535) (image (tiny 65535) []) 0 = (tiny 65535).SFS_BLOCKIDX_EMPTY ∧
    tbl (tiny 65535) (image (tiny 65535) []) 1 = (tiny 65535).SFS_BLOCKIDX_EMPTY ∧
    readdir_names (tiny 65535) (image (tiny 65535) []) [47] zeros = some [] ∧
    ret (sfs_mkdir (tiny 65535) (image (tiny 65535) []) [47, 110, 47, 120] zeros)
      = some (-ENOENT) ∧
    tbl (tiny 65535)
      (after (sfs_mkdir (tiny 65535) (image (tiny 65535) []) [47, 110, 47, 120] zeros)) 0 = 1 ∧
    tbl (tiny 65535)
      (after (sfs_mkdir (tiny 65535) (image (tiny 65535) []) [47, 110, 47, 120] zeros)) 1
      = (tiny 65535).SFS_BLOCKIDX_END ∧
    readdir_names (tiny 65535)
      (after (sfs_mkdir (tiny 65535) (image (tiny 65535) []) [47, 110, 47, 120] zeros))
      [47] zeros = some [] ∧
    ret (sfs_mkdir (tiny 65535)
      (after (sfs_mkdir (tiny 65535) (image (tiny 65535) []) [47, 110, 47, 120] zeros))
      [47, 100] zeros) = some 0 ∧
    found_first_block (get_entry (tiny 65535)
      (after (sfs_mkdir (tiny 65535)
        (after (sfs_mkdir (tiny 65535) (image (tiny 65535) []) [47, 110, 47, 120] zeros))
        [47, 100] zeros)) [47, 100] zeros) = some 2 := by
  decide
/-! ### C25 -/

/-- C25: chain walks terminate on well-formed chains. For every block table
and every index `first` from which the table links run through the blocks
`bs` (each in range, none repeated) to `SFS_BLOCKIDX_END`, `bs` has at most
`SFS_BLOCKTBL_NENTRIES` blocks; `count_blocks(first)` returns `bs.length` and
the chain walk of `sfs_unlink` comes to its end as soon as the fuel exceeds
`bs.length`; and with fuel `bs.length` or less neither walk has finished, so
both loops run their body exactly `bs.length` times. -/
theorem C25_chain_walks_terminate (L : Layout) (hL : L.WF) (d : Disk) (first : Nat)
    (bs : List Nat) (fuel : Nat) (hch : Chain L d first bs) :
    bs.length ≤ L.SFS_BLOCKTBL_NENTRIES ∧
    (bs.length < fuel →
      count_blocks L d fuel first 0 = some bs.length ∧
      ∃ d', unlink_loop L fuel first d = some d') ∧
    (fuel ≤ bs.length →
      count_blocks L d fuel first 0 = none ∧ unlink_loop L fuel first d = none) := by
  refine ⟨Chain.length_le hch, fun hf => ⟨?_, ?_⟩, fun hf => ⟨?_, ?_⟩⟩
  · simpa using count_blocks_chain bs first fuel 0 hch hf
  · obtain ⟨d', e, -⟩ := unlink_loop_chain hL bs first d fuel hch hf
    exact ⟨d', e⟩
  · exact count_blocks_short bs first fuel 0 hch hf
  · exact unlink_loop_short bs first d fuel hch hf

/-- Witness for C25 on the small layout: the file written by
`scriptTwoBlocks` has the chain `[0, 1]`; both walks finish with fuel 3 and
not with fuel 2. -/
theorem C25_chain_walks_terminate_witness :
    Chain (tiny 65535) (image (tiny 65535) scriptTwoBlocks) 0 [0, 1] ∧
    ([0, 1] : List Nat).length ≤ (tiny 65535).SFS_BLOCKTBL_NENTRIES ∧
    (([0, 1] : List Nat).length < 3 →
      count_blocks (tiny 65535) (image (tiny 65535) scriptTwoBlocks) 3 0 0
        = some ([0, 1] : List Nat).length ∧
      ∃ d', unlink_loop (tiny 65535) 3 0 (image (tiny 65535) scriptTwoBlocks) = some d') ∧
    (3 ≤ ([0, 1] : List Nat).length →
      count_blocks (tiny 65535) (image (tiny 65535) scriptTwoBlocks) 3 0 0 = none ∧
      unlink_loop (tiny 65535) 3 0 (image (tiny 65535) scriptTwoBlocks) = none) :=
  ⟨by decide, C25_chain_walks_terminate (tiny 65535) (tiny_wf 65535 (by decide) (by decide))
    (image (tiny 65535) scriptTwoBlocks) 0 [0, 1] 3 (by decide)⟩
/-! ### C26 -/

/-- C26 (code defect): a `truncate` of a regular file breaks the adjacency
of a directory. On the small layout after `mkdir /d`, `create /f`, the only
directory entry is `/d` (size word `SFS_DIRECTORY`, first block 0) and
`table[0] = 0 + 1`; `/f` is a regular file of size 0 and six blocks are free.
`truncate(/f, 769)` needs seven blocks; it returns 0, and afterwards `/d`
still has the size word `SFS_DIRECTORY` and first block 0 but `table[0]` is
`SFS_BLOCKIDX_END`: `load_dir` no longer reads block 1 as the second block of
`/d`, while `create` and `mkdir` still write it. `sfs_truncate` links the
unset tail of `newblocks` when fewer free blocks exist than it needs. -/
theorem C26_truncate_breaks_adjacency :
    readdir_names (tiny 65535) (image (tiny 65535) scriptDirAndFile) [47] zeros
      = some [[100], [102]] ∧
    found_size (get_entry (tiny 65535) (image (tiny 65535) scriptDirAndFile) [47, 100] zeros)
      = some SFS_DIRECTORY ∧
    found_first_block (get_entry (tiny 65535) (image (tiny 65535) scriptDirAndFile)
      [47, 100] zeros) = some 0 ∧
    tbl (tiny 65535) (image (tiny 65535) scriptDirAndFile) 0 = 0 + 1 ∧
    found_size (get_entry (tiny 65535) (image (tiny 65535) scriptDirAndFile) [47, 102] zeros)
      = some 0 ∧
    (free_list (tiny 65535) (image (tiny 65535) scriptDirAndFile)).length = 6 ∧
    ret (sfs_truncate (tiny 65535) (image (tiny 65535) scriptDirAndFile) [47, 102] 769 zeros 16)
      = some 0 ∧
    found_size (get_entry (tiny 65535)
      (after (sfs_truncate (tiny 65535) (image (tiny 65535) scriptDirAndFile) [47, 102] 769
        zeros 16)) [47, 100] zeros) = some SFS_DIRECTORY ∧
    found_first_block (get_entry (tiny 65535)
      (after (sfs_truncate (tiny 65535) (image (tiny 65535) scriptDirAndFile) [47, 102] 769
        zeros 16)) [47, 100] zeros) = some 0 ∧
    tbl (tiny 65535)
      (after (sfs_truncate (tiny 65535) (image (tiny 65535) scriptDirAndFile) [47, 102] 769
        zeros 16)) 0 = (tiny 65535).SFS_BLOCKIDX_END := by
  decide
end SFS
